import Mathlib

/-!
# AdaScript: a shallow embedding of `src/main.cpp`

The development follows the source file top to bottom: the lexer, the AST, the
recursive-descent parser, the value model, environments, the tree-walking
interpreter, the builtins and the C embedding API.

Modelling conventions, fixed once and used throughout:

* `std::string` is a Lean `String`; one `Char` stands for one byte.
* A `double` is modelled by `Double`, the rational it stands for, in lowest terms.
  Arithmetic, `std::stod` and the conversion of an integer round to the nearest
  double, ties to the even significand, as IEEE 754 arithmetic does.  Infinities,
  NaN and the sign of zero are outside the model: a result beyond the largest double
  is rounded with the exponent left unbounded.
* `shared_ptr<Environment>` and `shared_ptr<Instance>` are indices into heaps kept
  in the interpreter state.  `shared_ptr<Function>`, `shared_ptr<Class>` and
  `shared_ptr<NativeFunction>` point to objects that are never mutated after
  construction and whose address is never observed, so they are stored by value.
* `List` and `Dict` are held by value inside `Value`, exactly as in the source
  (`std::vector<Value>` and `std::unordered_map<std::string, Value>` are members
  of the variant), so copying a `Value` copies the container.
* `std::unordered_map` is an association list with unique keys, kept in the order
  of insertion.  The order in which the library enumerates a map is unspecified in
  C++; it is the member `keyRank` of the state, about which nothing is assumed.
* C++ exceptions are explicit results.  Recursion and loops are bounded by a
  fuel argument; exhausting it is the distinct outcome `timeout`.
-/

namespace AdaScript

/-! ## Characters that are written by code point -/

/-- The double-quote character. -/
def DQUOTE : Char := Char.ofNat 34

/-- The NUL character, `'\0'`. -/
def NUL : Char := Char.ofNat 0

/-- The newline character. -/
def NEWLINE : Char := Char.ofNat 10

/-- The opening brace. -/
def LBRACE : Char := Char.ofNat 123

/-- The closing brace. -/
def RBRACE : Char := Char.ofNat 125

/-- The backslash. -/
def BACKSLASH : Char := Char.ofNat 92

/-! ## Lexer -/

inductive TokenType where
  | LEFT_PAREN | RIGHT_PAREN | LEFT_BRACE | RIGHT_BRACE
  | LEFT_BRACKET | RIGHT_BRACKET
  | COMMA | DOT | SEMICOLON | COLON
  | PLUS | MINUS | STAR | SLASH | PERCENT
  | BANG | EQUAL | LESS | GREATER
  | BANG_EQUAL | EQUAL_EQUAL | LESS_EQUAL | GREATER_EQUAL
  | AND_AND | OR_OR
  | IDENTIFIER | STRING | NUMBER
  | LET | FUNC | CLASS | RETURN | IF | ELSE | WHILE | FOR | TRUE | FALSE | NULL_T
  | THIS | STRUCT | UNION | NEW | IMPORT | IN
  | NOT_KW | AND_KW | OR_KW | EQUALS_KW
  | END_OF_FILE
deriving DecidableEq, Repr

structure Token where
  type : TokenType
  lexeme : String
  line : Nat
  col : Nat
deriving DecidableEq, Repr

/-- The state of `struct Lexer`: the whole input and the two cursors into it. -/
structure Lexer where
  src : List Char
  start : Nat
  current : Nat
  line : Nat
  col : Nat
  tokens : List Token
deriving DecidableEq, Repr

/-- The constructor `Lexer(std::string s)`. -/
def Lexer.new (s : String) : Lexer :=
  { src := s.data, start := 0, current := 0, line := 1, col := 1, tokens := [] }

/-- The function `std::isdigit` in the C locale. -/
def isDigit (c : Char) : Bool := 48 ≤ c.toNat && c.toNat ≤ 57

/-- The function `Lexer::isAlpha`: `std::isalpha` in the C locale, or an underscore. -/
def isAlpha (c : Char) : Bool :=
  (65 ≤ c.toNat && c.toNat ≤ 90) || (97 ≤ c.toNat && c.toNat ≤ 122) || c == '_'

def isAlnum (c : Char) : Bool := isAlpha c || isDigit c

/-- The call `src.substr(pos, len)` for `pos` within the string. -/
def substr (src : List Char) (pos len : Nat) : String := String.mk ((src.drop pos).take len)

def Lexer.isAtEnd (lx : Lexer) : Bool := decide (lx.src.length ≤ lx.current)

/-- Consume one character, tracking line and column; returns the character read. -/
def Lexer.advance (lx : Lexer) : Char × Lexer :=
  let c := lx.src.getD lx.current NUL
  if c = NEWLINE then (c, { lx with current := lx.current + 1, line := lx.line + 1, col := 1 })
  else (c, { lx with current := lx.current + 1, col := lx.col + 1 })

/-- The method `Lexer::match`; named `matchChar` because `match` is reserved. -/
def Lexer.matchChar (lx : Lexer) (expected : Char) : Bool × Lexer :=
  if lx.isAtEnd || lx.src.getD lx.current NUL != expected then (false, lx)
  else (true, { lx with current := lx.current + 1, col := lx.col + 1 })

def Lexer.peek (lx : Lexer) : Char := if lx.isAtEnd then NUL else lx.src.getD lx.current NUL

def Lexer.peekNext (lx : Lexer) : Char :=
  if lx.src.length ≤ lx.current + 1 then NUL else lx.src.getD (lx.current + 1) NUL

def Lexer.push (lx : Lexer) (t : Token) : Lexer := { lx with tokens := lx.tokens ++ [t] }

def Lexer.add (lx : Lexer) (t : TokenType) : Lexer :=
  lx.push ⟨t, substr lx.src lx.start (lx.current - lx.start), lx.line, lx.col⟩

/-- The loop `while (!isAtEnd() && p(peek())) advance();`, run for at most `n` rounds.
Every caller passes the number of characters left, which the loop cannot exceed. -/
def Lexer.advanceWhile (p : Char → Bool) : Nat → Lexer → Lexer
  | 0, lx => lx
  | n + 1, lx => if !lx.isAtEnd && p lx.peek then Lexer.advanceWhile p n lx.advance.2 else lx

def Lexer.remaining (lx : Lexer) : Nat := lx.src.length - lx.current

/-- The method `Lexer::string`; the opening quote has been consumed. -/
def Lexer.string (lx : Lexer) : Except String Lexer :=
  let lx1 := Lexer.advanceWhile (fun c => c != DQUOTE) lx.remaining lx
  if lx1.isAtEnd then .error "Unterminated string"
  else
    let lx2 := lx1.advance.2
    let value := substr lx2.src (lx2.start + 1) ((lx2.current - 1) - (lx2.start + 1))
    .ok (lx2.push ⟨.STRING, value, lx2.line, lx2.col⟩)

/-- The method `Lexer::number`; the first digit has been consumed. -/
def Lexer.number (lx : Lexer) : Lexer :=
  let lx1 := Lexer.advanceWhile isDigit lx.remaining lx
  let lx2 :=
    if lx1.peek = '.' && isDigit lx1.peekNext then
      let lx3 := lx1.advance.2
      Lexer.advanceWhile isDigit lx3.remaining lx3
    else lx1
  lx2.push ⟨.NUMBER, substr lx2.src lx2.start (lx2.current - lx2.start), lx2.line, lx2.col⟩

/-- The keyword table `kw` of `Lexer::identifier`. -/
def keyword (text : String) : Option TokenType :=
  if text = "let" then some .LET
  else if text = "func" then some .FUNC
  else if text = "class" then some .CLASS
  else if text = "return" then some .RETURN
  else if text = "if" then some .IF
  else if text = "else" then some .ELSE
  else if text = "while" then some .WHILE
  else if text = "for" then some .FOR
  else if text = "true" then some .TRUE
  else if text = "false" then some .FALSE
  else if text = "null" then some .NULL_T
  else if text = "this" then some .THIS
  else if text = "struct" then some .STRUCT
  else if text = "union" then some .UNION
  else if text = "new" then some .NEW
  else if text = "import" then some .IMPORT
  else if text = "in" then some .IN
  else if text = "not" then some .NOT_KW
  else if text = "and" then some .AND_KW
  else if text = "or" then some .OR_KW
  else if text = "equals" then some .EQUALS_KW
  else none

/-- The method `Lexer::identifier`; the first character has been consumed. -/
def Lexer.identifier (lx : Lexer) : Lexer :=
  let lx1 := Lexer.advanceWhile isAlnum lx.remaining lx
  let text := substr lx1.src lx1.start (lx1.current - lx1.start)
  match keyword text with
  | some t => lx1.push ⟨t, text, lx1.line, lx1.col⟩
  | none => lx1.push ⟨.IDENTIFIER, text, lx1.line, lx1.col⟩

/-- One token with an optional second character: `add(match(second) ? two : one)`. -/
def Lexer.addTwo (lx : Lexer) (second : Char) (two one : TokenType) : Lexer :=
  let r := lx.matchChar second
  if r.1 then r.2.add two else r.2.add one

/-- One round of the loop of `Lexer::scan`: the body of `while (!isAtEnd())`. -/
def Lexer.scanStep (lx0 : Lexer) : Except String Lexer :=
  let lx1 : Lexer := { lx0 with start := lx0.current }
  let c := lx1.advance.1
  let lx := lx1.advance.2
  if c = '(' then .ok (lx.add .LEFT_PAREN)
  else if c = ')' then .ok (lx.add .RIGHT_PAREN)
  else if c = LBRACE then .ok (lx.add .LEFT_BRACE)
  else if c = RBRACE then .ok (lx.add .RIGHT_BRACE)
  else if c = '[' then .ok (lx.add .LEFT_BRACKET)
  else if c = ']' then .ok (lx.add .RIGHT_BRACKET)
  else if c = ',' then .ok (lx.add .COMMA)
  else if c = '.' then .ok (lx.add .DOT)
  else if c = ';' then .ok (lx.add .SEMICOLON)
  else if c = ':' then .ok (lx.add .COLON)
  else if c = '+' then .ok (lx.add .PLUS)
  else if c = '-' then .ok (lx.add .MINUS)
  else if c = '*' then .ok (lx.add .STAR)
  else if c = '%' then .ok (lx.add .PERCENT)
  else if c = '!' then .ok (lx.addTwo '=' .BANG_EQUAL .BANG)
  else if c = '=' then .ok (lx.addTwo '=' .EQUAL_EQUAL .EQUAL)
  else if c = '<' then .ok (lx.addTwo '=' .LESS_EQUAL .LESS)
  else if c = '>' then .ok (lx.addTwo '=' .GREATER_EQUAL .GREATER)
  else if c = '/' then
    let r := lx.matchChar '/'
    if r.1 then .ok (Lexer.advanceWhile (fun d => d != NEWLINE) r.2.remaining r.2)
    else .ok (r.2.add .SLASH)
  else if c = '&' then
    let r := lx.matchChar '&'
    if r.1 then .ok (r.2.add .AND_AND) else .error "Unexpected '&'"
  else if c = '|' then
    let r := lx.matchChar '|'
    if r.1 then .ok (r.2.add .OR_OR) else .error "Unexpected '|'"
  else if c = ' ' || c = Char.ofNat 13 || c = Char.ofNat 9 then .ok lx
  else if c = NEWLINE then .ok lx
  else if c = DQUOTE then lx.string
  else if isDigit c then .ok lx.number
  else if isAlpha c then .ok lx.identifier
  else .error "Unexpected character"

/-- What `Lexer::scan` hands to its caller: the tokens, the message of the
`RuntimeError` it threw, or an exhausted loop budget. -/
inductive LexResult where
  | ok (tokens : List Token)
  | error (msg : String)
  | timeout
deriving DecidableEq, Repr

/-- The loop of `Lexer::scan`, run for at most the given number of rounds; `none` when
the rounds run out before the input does.  Each round consumes at least one character,
so `src.length` rounds always suffice. -/
def Lexer.scanLoop : Nat → Lexer → Option (Except String Lexer)
  | 0, lx => if lx.isAtEnd then some (.ok lx) else none
  | n + 1, lx =>
    if lx.isAtEnd then some (.ok lx)
    else
      match lx.scanStep with
      | .error e => some (.error e)
      | .ok lx1 => Lexer.scanLoop n lx1

/-- The method `Lexer::scan`. -/
def Lexer.scan (lx : Lexer) : LexResult :=
  match Lexer.scanLoop lx.src.length lx with
  | none => .timeout
  | some (.error e) => .error e
  | some (.ok lx1) => .ok (lx1.tokens ++ [⟨.END_OF_FILE, "", lx1.line, lx1.col⟩])

/-- Lex a source text: `Lexer lx(source); lx.scan()`. -/
def lex (source : String) : LexResult := (Lexer.new source).scan

/-! ## Numbers

A `double` is modelled by the rational it stands for, in lowest terms with a positive
denominator, so structural equality is numeric equality.  The operations of the
source round their exact result to the nearest double. -/

structure Double where
  num : Int
  den : Nat
deriving DecidableEq, Repr

/-- The fraction `n / d` in lowest terms; `d = 0` does not occur. -/
def Double.norm (n : Int) (d : Nat) : Double :=
  let g := Nat.gcd n.natAbs d
  if g = 0 then ⟨0, 1⟩ else ⟨n / (g : Int), d / g⟩

def Double.ofInt (n : Int) : Double := ⟨n, 1⟩

def Double.ofNat (n : Nat) : Double := ⟨(n : Int), 1⟩

def Double.zero : Double := ⟨0, 1⟩

/-- Division of naturals rounded to nearest, ties to even. -/
def roundHalfEven (n d : Nat) : Nat :=
  let q := n / d
  let r := n % d
  if 2 * r < d then q else if d < 2 * r then q + 1 else if q % 2 = 0 then q else q + 1

/-- Largest `k` with `d * 2 ^ k ≤ n`, counting up from `k`. -/
def Double.binUp (n d : Nat) : Nat → Nat → Nat
  | 0, k => k
  | fuel + 1, k => if d * 2 ^ (k + 1) ≤ n then Double.binUp n d fuel (k + 1) else k

/-- Smallest `k` with `d ≤ n * 2 ^ k`, counting up from `k`. -/
def Double.binDown (n d : Nat) : Nat → Nat → Nat
  | 0, k => k
  | fuel + 1, k => if d ≤ n * 2 ^ k then k else Double.binDown n d fuel (k + 1)

/-- The binary exponent of the positive fraction `n / d`: the `e` with
`2 ^ e ≤ n / d < 2 ^ (e + 1)`. -/
def Double.exponent (n d : Nat) : Int :=
  if d ≤ n then (Double.binUp n d n 0 : Int) else -(Double.binDown n d d 1 : Int)

/-- The fraction `n / d` rounded to the nearest multiple of `2 ^ q`, ties to the even
multiple. -/
def Double.rndAt (q : Int) (n d : Nat) : Double :=
  let m := roundHalfEven (n * 2 ^ (-q).toNat) (d * 2 ^ q.toNat)
  Double.norm ((m * 2 ^ q.toNat : Nat) : Int) (2 ^ (-q).toNat)

/-- The double nearest to a number, ties to the even significand: 53 significant bits,
and multiples of `2 ^ -1074` below `2 ^ -1022`. -/
def Double.rnd (a : Double) : Double :=
  if a.num = 0 then Double.zero
  else
    let r := Double.rndAt (max (Double.exponent a.num.natAbs a.den) (-1022) - 52) a.num.natAbs a.den
    if 0 < a.num then r else ⟨-r.num, r.den⟩

/-- The exact sum of two numbers. -/
def Double.exactAdd (a b : Double) : Double :=
  Double.norm (a.num * (b.den : Int) + b.num * (a.den : Int)) (a.den * b.den)

/-- The exact product of two numbers. -/
def Double.exactMul (a b : Double) : Double := Double.norm (a.num * b.num) (a.den * b.den)

/-- The exact quotient of a number by a non-zero number. -/
def Double.exactDiv (a b : Double) : Double :=
  if 0 ≤ b.num then Double.norm (a.num * (b.den : Int)) (a.den * b.num.natAbs)
  else Double.norm (-(a.num * (b.den : Int))) (a.den * b.num.natAbs)

/-- The operator `+` of `double`. -/
def Double.add (a b : Double) : Double := (a.exactAdd b).rnd

def Double.neg (a : Double) : Double := ⟨-a.num, a.den⟩

/-- The operator `-` of `double`. -/
def Double.sub (a b : Double) : Double := a.add b.neg

/-- The operator `*` of `double`. -/
def Double.mul (a b : Double) : Double := (a.exactMul b).rnd

/-- The operator `/` of `double` for a non-zero divisor; the interpreter never divides
by zero. -/
def Double.div (a b : Double) : Double := (a.exactDiv b).rnd

def Double.isZero (a : Double) : Bool := decide (a.num = 0)

def Double.lt (a b : Double) : Bool := decide (a.num * (b.den : Int) < b.num * (a.den : Int))

def Double.le (a b : Double) : Bool := decide (a.num * (b.den : Int) ≤ b.num * (a.den : Int))

/-- The integer part of a number: truncation toward zero, which is what the casts
`(int)d` and `(long long)d` yield for a value in the range of the type. -/
def Double.trunc (a : Double) : Int :=
  if 0 ≤ a.num then ((a.num.natAbs / a.den : Nat) : Int) else -((a.num.natAbs / a.den : Nat) : Int)

/-- The cast `(long long)d`, defined by C++ when the integer part fits the type. -/
def Double.toLongLong (a : Double) : Option Int :=
  if -(2 : Int) ^ 63 ≤ a.trunc ∧ a.trunc < (2 : Int) ^ 63 then some a.trunc else none

/-- The cast `(double)i` of a `long long`. -/
def Double.ofLongLong (i : Int) : Double := (Double.ofInt i).rnd

/-- The function `fmod(a, b)` for `b` non-zero: `a - trunc(a / b) * b`, which is a
double whenever `a` and `b` are. -/
def Double.fmod (a b : Double) : Double :=
  a.exactAdd ((Double.ofInt (a.exactDiv b).trunc).exactMul b).neg

def Double.abs (a : Double) : Double := ⟨(a.num.natAbs : Int), a.den⟩

/-- Largest `k ≤ fuel` with `d * 10 ^ k ≤ n`, counting up from `k`. -/
def Double.expUp (n d : Nat) : Nat → Nat → Nat
  | 0, k => k
  | fuel + 1, k => if d * 10 ^ (k + 1) ≤ n then Double.expUp n d fuel (k + 1) else k

/-- Smallest `k` with `d ≤ n * 10 ^ k`, counting up from `k`. -/
def Double.expDown (n d : Nat) : Nat → Nat → Nat
  | 0, k => k
  | fuel + 1, k => if d ≤ n * 10 ^ k then k else Double.expDown n d fuel (k + 1)

/-- Drop the trailing zeros of a digit string. -/
def stripZeros (ds : List Char) : List Char := (ds.reverse.dropWhile (fun c => c == '0')).reverse

/-- Decimal digits of a natural number. -/
def natDigits (n : Nat) : List Char := Nat.toDigits 10 n

/-- The mantissa digits and decimal exponent of `n / d` (both positive) rounded to
six significant digits. -/
def Double.sig6 (n d : Nat) : Nat × Int :=
  let fuel := (natDigits n).length + (natDigits d).length + 1
  let x : Int := if d ≤ n then (Double.expUp n d fuel 0 : Int) else -(Double.expDown n d fuel 1 : Int)
  let m := if x ≤ 5 then roundHalfEven (n * 10 ^ (5 - x).toNat) d
           else roundHalfEven n (d * 10 ^ (x - 5).toNat)
  if m = 1000000 then (100000, x + 1) else (m, x)

/-- The text `oss << d` writes for a double: `printf("%g")` with precision 6. -/
def fmtNum (a : Double) : String :=
  if a.num = 0 then "0"
  else
    let sign := if a.num < 0 then "-" else ""
    let mx := Double.sig6 a.num.natAbs a.den
    let ds := natDigits mx.1
    let x := mx.2
    if x < -4 || 6 ≤ x then
      let frac := stripZeros (ds.drop 1)
      let mant := String.mk (ds.take 1) ++ (if frac.isEmpty then "" else "." ++ String.mk frac)
      let e := x.natAbs
      sign ++ mant ++ "e" ++ (if x < 0 then "-" else "+")
        ++ (if e < 10 then "0" else "") ++ String.mk (natDigits e)
    else if 0 ≤ x then
      let frac := stripZeros (ds.drop (x.toNat + 1))
      sign ++ String.mk (ds.take (x.toNat + 1)) ++ (if frac.isEmpty then "" else "." ++ String.mk frac)
    else
      sign ++ "0." ++ String.mk (List.replicate ((-x).toNat - 1) '0') ++ String.mk (stripZeros ds)

/-- Value of a run of decimal digits. -/
def digitsValue (ds : List Char) : Nat := ds.foldl (fun acc c => acc * 10 + (c.toNat - 48)) 0

/-- The number a NUMBER lexeme (digits, optionally a dot and more digits) denotes,
read exactly. -/
def stodLexeme (lexeme : String) : Double :=
  let ip := lexeme.data.takeWhile isDigit
  let rest := lexeme.data.dropWhile isDigit
  let fp := (rest.drop 1).takeWhile isDigit
  Double.norm ((digitsValue ip * 10 ^ fp.length + digitsValue fp : Nat) : Int) (10 ^ fp.length)

/-- The smallest positive normal double, `2 ^ -1022`. -/
def Double.minNormal : Double := ⟨1, 2 ^ 1022⟩

/-- Whether `strtod` reports `ERANGE` for a positive decimal: the nearest double would
be `2 ^ 1024` or more, or the decimal is no double and, rounded to 53 bits, lies below
the normal range. -/
def Double.outOfRange (x : Double) : Bool :=
  (Double.ofNat (2 ^ 1024)).le x.rnd
    || ((Double.rndAt (Double.exponent x.num.natAbs x.den - 52) x.num.natAbs x.den).lt
          Double.minNormal
        && x.rnd != x)

/-- The call `std::stod(lexeme)` on a NUMBER lexeme: the double nearest to the decimal,
or `none` for the exception `std::out_of_range`, which `std::stod` throws when `strtod`
reports `ERANGE`. -/
def stod (lexeme : String) : Option Double :=
  let x := stodLexeme lexeme
  if x.isZero then some Double.zero
  else if x.outOfRange then none
  else some x.rnd

/-! ## AST -/

/-- The values a `LiteralExpr` can carry: the parser only ever builds these four. -/
inductive Literal where
  | null
  | bool (b : Bool)
  | number (d : Double)
  | string (s : String)
deriving DecidableEq, Repr

inductive Expr where
  | LiteralExpr (value : Literal)
  | VarExpr (name : String)
  | AssignExpr (name : String) (value : Expr)
  | BinaryExpr (left : Expr) (op : Token) (right : Expr)
  | UnaryExpr (op : Token) (right : Expr)
  | GroupingExpr (expr : Expr)
  | CallExpr (callee : Expr) (args : List Expr)
  | GetExpr (object : Expr) (name : String)
  | SetExpr (object : Expr) (name : String) (value : Expr)
  | IndexExpr (object : Expr) (index : Expr)
  | SetIndexExpr (object : Expr) (index : Expr) (value : Expr)
deriving Repr

/-- Statements.  A `FunctionStmt` carries the statements of its `BlockStmt` body; the
methods of a `ClassStmt` are `(name, params, body)` triples keyed by name. -/
inductive Stmt where
  | ExprStmt (expr : Expr)
  | LetStmt (name : String) (initializer : Expr)
  | BlockStmt (stmts : List Stmt)
  | IfStmt (cond : Expr) (thenB : Stmt) (elseB : Option Stmt)
  | WhileStmt (cond : Expr) (body : Stmt)
  | ReturnStmt (value : Option Expr)
  | FunctionStmt (name : String) (params : List String) (body : List Stmt)
  | ClassStmt (name : String) (methods : List (String × List String × List Stmt))
  | StructStmt (name : String) (fields : List String)
  | UnionStmt (name : String) (tags : List String)
  | ForStmt (var : String) (iterable : Expr) (body : Stmt)
  | ImportStmt (path : String)
  | MultiAssignStmt (names : List String) (value : Expr)
  | MultiLetStmt (names : List String)
deriving Repr

mutual

/-- Structural equality of expressions, as a boolean test. -/
def Expr.beq : Expr → Expr → Bool
  | .LiteralExpr a, x => match x with
    | .LiteralExpr b => a == b
    | _ => false
  | .VarExpr a, x => match x with
    | .VarExpr b => a == b
    | _ => false
  | .AssignExpr n v, x => match x with
    | .AssignExpr n1 v1 => n == n1 && Expr.beq v v1
    | _ => false
  | .BinaryExpr l o r, x => match x with
    | .BinaryExpr l1 o1 r1 => Expr.beq l l1 && o == o1 && Expr.beq r r1
    | _ => false
  | .UnaryExpr o r, x => match x with
    | .UnaryExpr o1 r1 => o == o1 && Expr.beq r r1
    | _ => false
  | .GroupingExpr e, x => match x with
    | .GroupingExpr e1 => Expr.beq e e1
    | _ => false
  | .CallExpr c as, x => match x with
    | .CallExpr c1 as1 => Expr.beq c c1 && Expr.beqList as as1
    | _ => false
  | .GetExpr o n, x => match x with
    | .GetExpr o1 n1 => Expr.beq o o1 && n == n1
    | _ => false
  | .SetExpr o n v, x => match x with
    | .SetExpr o1 n1 v1 => Expr.beq o o1 && n == n1 && Expr.beq v v1
    | _ => false
  | .IndexExpr o i, x => match x with
    | .IndexExpr o1 i1 => Expr.beq o o1 && Expr.beq i i1
    | _ => false
  | .SetIndexExpr o i v, x => match x with
    | .SetIndexExpr o1 i1 v1 => Expr.beq o o1 && Expr.beq i i1 && Expr.beq v v1
    | _ => false

/-- Structural equality of lists of expressions. -/
def Expr.beqList : List Expr → List Expr → Bool
  | [], x => match x with
    | [] => true
    | _ :: _ => false
  | a :: as, x => match x with
    | [] => false
    | b :: bs => Expr.beq a b && Expr.beqList as bs

end

/-- Structural equality of optional expressions. -/
def Expr.beqOpt : Option Expr → Option Expr → Bool
  | none, none => true
  | some a, some b => Expr.beq a b
  | _, _ => false

mutual

/-- Structural equality of statements, as a boolean test. -/
def Stmt.beq : Stmt → Stmt → Bool
  | .ExprStmt e, x => match x with
    | .ExprStmt e1 => Expr.beq e e1
    | _ => false
  | .LetStmt n i, x => match x with
    | .LetStmt n1 i1 => n == n1 && Expr.beq i i1
    | _ => false
  | .BlockStmt ss, x => match x with
    | .BlockStmt ss1 => Stmt.beqList ss ss1
    | _ => false
  | .IfStmt c t none, x => match x with
    | .IfStmt c1 t1 none => Expr.beq c c1 && Stmt.beq t t1
    | _ => false
  | .IfStmt c t (some e), x => match x with
    | .IfStmt c1 t1 (some e1) => Expr.beq c c1 && Stmt.beq t t1 && Stmt.beq e e1
    | _ => false
  | .WhileStmt c b, x => match x with
    | .WhileStmt c1 b1 => Expr.beq c c1 && Stmt.beq b b1
    | _ => false
  | .ReturnStmt v, x => match x with
    | .ReturnStmt v1 => Expr.beqOpt v v1
    | _ => false
  | .FunctionStmt n ps b, x => match x with
    | .FunctionStmt n1 ps1 b1 => n == n1 && ps == ps1 && Stmt.beqList b b1
    | _ => false
  | .ClassStmt n ms, x => match x with
    | .ClassStmt n1 ms1 => n == n1 && Stmt.beqMethods ms ms1
    | _ => false
  | .StructStmt n fs, x => match x with
    | .StructStmt n1 fs1 => n == n1 && fs == fs1
    | _ => false
  | .UnionStmt n ts, x => match x with
    | .UnionStmt n1 ts1 => n == n1 && ts == ts1
    | _ => false
  | .ForStmt v i b, x => match x with
    | .ForStmt v1 i1 b1 => v == v1 && Expr.beq i i1 && Stmt.beq b b1
    | _ => false
  | .ImportStmt p, x => match x with
    | .ImportStmt p1 => p == p1
    | _ => false
  | .MultiAssignStmt ns v, x => match x with
    | .MultiAssignStmt ns1 v1 => ns == ns1 && Expr.beq v v1
    | _ => false
  | .MultiLetStmt ns, x => match x with
    | .MultiLetStmt ns1 => ns == ns1
    | _ => false

/-- Structural equality of lists of statements. -/
def Stmt.beqList : List Stmt → List Stmt → Bool
  | [], x => match x with
    | [] => true
    | _ :: _ => false
  | a :: as, x => match x with
    | [] => false
    | b :: bs => Stmt.beq a b && Stmt.beqList as bs

/-- Structural equality of the method tables of class declarations. -/
def Stmt.beqMethods :
    List (String × List String × List Stmt) → List (String × List String × List Stmt) → Bool
  | [], x => match x with
    | [] => true
    | _ :: _ => false
  | (n, ps, b) :: ms, x => match x with
    | [] => false
    | (n1, ps1, b1) :: ms1 => n == n1 && ps == ps1 && Stmt.beqList b b1 && Stmt.beqMethods ms ms1

end

/-- The assignment `m[k] = v` on an `unordered_map`: replace the entry of `k` or add one. -/
def mapSet {α : Type} (m : List (String × α)) (k : String) (v : α) : List (String × α) :=
  match m with
  | [] => [(k, v)]
  | (k1, v1) :: rest => if k1 = k then (k, v) :: rest else (k1, v1) :: mapSet rest k v

/-- The lookup `m.find(k)`. -/
def mapFind {α : Type} (m : List (String × α)) (k : String) : Option α :=
  match m with
  | [] => none
  | (k1, v1) :: rest => if k1 = k then some v1 else mapFind rest k

/-- The test `m.count(k)` as a boolean. -/
def mapHas {α : Type} (m : List (String × α)) (k : String) : Bool := (mapFind m k).isSome

/-! ## Parser -/

/-- Outcome of a parser method: a result with the new `current`, a `RuntimeError`
with its message, an exception of the standard library with its `what()` (the parser
calls `std::stod`), or exhaustion of the recursion budget. -/
inductive PResult (α : Type) where
  | ok (a : α) (current : Nat)
  | error (msg : String)
  | stdException (what : String)
  | timeout
deriving Repr

def PResult.bind {α β : Type} (r : PResult α) (f : α → Nat → PResult β) : PResult β :=
  match r with
  | .ok a cur => f a cur
  | .error e => .error e
  | .stdException w => .stdException w
  | .timeout => .timeout

/-- What `Parser::parse` hands to its caller: the statements, or the message of the
`RuntimeError` thrown by the lexer or the parser, or the `what()` of the exception of
the standard library thrown inside the parser, or an exhausted recursion budget. -/
inductive ParseResult where
  | ok (stmts : List Stmt)
  | error (msg : String)
  | stdException (what : String)
  | timeout
deriving Repr

namespace Parser

def peek (ts : List Token) (cur : Nat) : Token := ts.getD cur ⟨.END_OF_FILE, "", 0, 0⟩

def previous (ts : List Token) (cur : Nat) : Token := ts.getD (cur - 1) ⟨.END_OF_FILE, "", 0, 0⟩

def isAtEnd (ts : List Token) (cur : Nat) : Bool := (peek ts cur).type == .END_OF_FILE

def check (ts : List Token) (cur : Nat) (t : TokenType) : Bool :=
  !isAtEnd ts cur && (peek ts cur).type == t

/-- The method `Parser::advance`, returning the new `current`. -/
def advance (ts : List Token) (cur : Nat) : Nat := if !isAtEnd ts cur then cur + 1 else cur

/-- The method `Parser::match`: the new `current` when one of the types matches. -/
def matchAny (ts : List Token) (cur : Nat) (types : List TokenType) : Option Nat :=
  match types with
  | [] => none
  | t :: rest => if check ts cur t then some (advance ts cur) else matchAny ts cur rest

def consume (ts : List Token) (cur : Nat) (t : TokenType) (msg : String) : PResult Token :=
  if check ts cur t then .ok (previous ts (advance ts cur)) (advance ts cur)
  else .error (msg ++ " at line " ++ toString (peek ts cur).line ++ ", col "
    ++ toString (peek ts cur).col)

/-- The loop `while (match({COMMA})) names.push_back(consume(IDENTIFIER, msg).lexeme);`. -/
def commaNames (ts : List Token) (msg : String) : Nat → Nat → List String → PResult (List String)
  | 0, _, _ => .timeout
  | fuel + 1, cur, names =>
    match matchAny ts cur [.COMMA] with
    | none => .ok names cur
    | some cur1 =>
      (consume ts cur1 .IDENTIFIER msg).bind fun t cur2 =>
        commaNames ts msg fuel cur2 (names ++ [t.lexeme])

/-- The loop of `structDecl` and `unionDecl`:
`while (!check(RIGHT_BRACE)) (items.push_back(consume(IDENTIFIER, m1).lexeme); consume(SEMICOLON, m2);)`. -/
def memberNames (ts : List Token) (m1 m2 : String) : Nat → Nat → List String → PResult (List String)
  | 0, _, _ => .timeout
  | fuel + 1, cur, items =>
    if check ts cur .RIGHT_BRACE then .ok items cur
    else
      (consume ts cur .IDENTIFIER m1).bind fun t cur1 =>
      (consume ts cur1 .SEMICOLON m2).bind fun _ cur2 =>
        memberNames ts m1 m2 fuel cur2 (items ++ [t.lexeme])

def structDecl (ts : List Token) (cur : Nat) : PResult Stmt :=
  (consume ts cur .IDENTIFIER "Expected struct name").bind fun name cur1 =>
  (consume ts cur1 .LEFT_BRACE "Expected '\x7b'").bind fun _ cur2 =>
  (memberNames ts "Expected field name" "Expected ';' after field" ts.length cur2 []).bind
    fun fields cur3 =>
  (consume ts cur3 .RIGHT_BRACE "Expected '\x7d'").bind fun _ cur4 =>
    .ok (.StructStmt name.lexeme fields) cur4

def unionDecl (ts : List Token) (cur : Nat) : PResult Stmt :=
  (consume ts cur .IDENTIFIER "Expected union name").bind fun name cur1 =>
  (consume ts cur1 .LEFT_BRACE "Expected '\x7b'").bind fun _ cur2 =>
  (memberNames ts "Expected tag name" "Expected ';' after tag" ts.length cur2 []).bind
    fun tags cur3 =>
  (consume ts cur3 .RIGHT_BRACE "Expected '\x7d'").bind fun _ cur4 =>
    .ok (.UnionStmt name.lexeme tags) cur4

def importStmt (ts : List Token) (cur : Nat) : PResult Stmt :=
  (consume ts cur .STRING "Expected string path after import").bind fun pathTok cur1 =>
  (consume ts cur1 .SEMICOLON "Expected ';'").bind fun _ cur2 =>
    .ok (.ImportStmt pathTok.lexeme) cur2

/-- The parameter list of `functionBody`:
`do params.push_back(consume(IDENTIFIER, ...).lexeme); while (match({COMMA}));`. -/
def paramList (ts : List Token) (cur : Nat) : PResult (List String) :=
  if !check ts cur .RIGHT_PAREN then
    (consume ts cur .IDENTIFIER "Expected parameter name").bind fun t cur1 =>
      commaNames ts "Expected parameter name" ts.length cur1 [t.lexeme]
  else .ok [] cur

/-- The token `op` with its type replaced: `Token norm = op; norm.type = t; op = norm;`. -/
def normalize (op : Token) (t : TokenType) : Token := { op with type := t }

set_option maxHeartbeats 8000000 in
mutual

def declaration (ts : List Token) : Nat → Nat → PResult Stmt
  | 0, _ => .timeout
  | fuel + 1, cur =>
    match matchAny ts cur [.LET] with
    | some c => letDecl ts fuel c
    | none =>
    match matchAny ts cur [.FUNC] with
    | some c => funcDecl ts fuel c
    | none =>
    match matchAny ts cur [.CLASS] with
    | some c => classDecl ts fuel c
    | none =>
    match matchAny ts cur [.STRUCT] with
    | some c => structDecl ts c
    | none =>
    match matchAny ts cur [.UNION] with
    | some c => unionDecl ts c
    | none =>
    match matchAny ts cur [.IMPORT] with
    | some c => importStmt ts c
    | none => statement ts fuel cur
termination_by structural fuel => fuel

def letDecl (ts : List Token) : Nat → Nat → PResult Stmt
  | 0, _ => .timeout
  | fuel + 1, cur =>
    (consume ts cur .IDENTIFIER "Expected variable name").bind fun t cur1 =>
    (commaNames ts "Expected variable name" ts.length cur1 [t.lexeme]).bind fun names cur2 =>
    match matchAny ts cur2 [.EQUAL] with
    | some cur3 =>
      (expression ts fuel cur3).bind fun init cur4 =>
      (consume ts cur4 .SEMICOLON "Expected ';'").bind fun _ cur5 =>
        if names.length = 1 then .ok (.LetStmt (names.getD 0 "") init) cur5
        else .ok (.MultiAssignStmt names init) cur5
    | none =>
      (consume ts cur2 .SEMICOLON "Expected ';'").bind fun _ cur3 =>
        if names.length = 1 then .ok (.LetStmt (names.getD 0 "") (.LiteralExpr .null)) cur3
        else .ok (.MultiLetStmt names) cur3

/-- The method `functionBody`, returning the parameters and the statements of the body. -/
def functionBody (ts : List Token) : Nat → Nat → PResult (List String × List Stmt)
  | 0, _ => .timeout
  | fuel + 1, cur =>
    (consume ts cur .LEFT_PAREN "Expected '('").bind fun _ cur1 =>
    (paramList ts cur1).bind fun params cur2 =>
    (consume ts cur2 .RIGHT_PAREN "Expected ')'").bind fun _ cur3 =>
    (block ts fuel cur3).bind fun body cur4 => .ok (params, body) cur4
termination_by structural fuel => fuel

def funcDecl (ts : List Token) : Nat → Nat → PResult Stmt
  | 0, _ => .timeout
  | fuel + 1, cur =>
    (consume ts cur .IDENTIFIER "Expected function name").bind fun name cur1 =>
    (functionBody ts fuel cur1).bind fun f cur2 => .ok (.FunctionStmt name.lexeme f.1 f.2) cur2
termination_by structural fuel => fuel

/-- The loop of `classDecl`: `while (!check(RIGHT_BRACE)) ... methods[mname] = m;`. -/
def classMethods (ts : List Token) :
    Nat → Nat → List (String × List String × List Stmt) →
      PResult (List (String × List String × List Stmt))
  | 0, _, _ => .timeout
  | fuel + 1, cur, methods =>
    if check ts cur .RIGHT_BRACE then .ok methods cur
    else
      (consume ts cur .FUNC "Expected method").bind fun _ cur1 =>
      (consume ts cur1 .IDENTIFIER "Expected method name").bind fun mname cur2 =>
      (functionBody ts fuel cur2).bind fun m cur3 =>
        classMethods ts fuel cur3 (mapSet methods mname.lexeme m)
termination_by structural fuel => fuel

def classDecl (ts : List Token) : Nat → Nat → PResult Stmt
  | 0, _ => .timeout
  | fuel + 1, cur =>
    (consume ts cur .IDENTIFIER "Expected class name").bind fun name cur1 =>
    (consume ts cur1 .LEFT_BRACE "Expected '\x7b'").bind fun _ cur2 =>
    (classMethods ts fuel cur2 []).bind fun methods cur3 =>
    (consume ts cur3 .RIGHT_BRACE "Expected '\x7d'").bind fun _ cur4 =>
      .ok (.ClassStmt name.lexeme methods) cur4
termination_by structural fuel => fuel

def statement (ts : List Token) : Nat → Nat → PResult Stmt
  | 0, _ => .timeout
  | fuel + 1, cur =>
    match matchAny ts cur [.IF] with
    | some c => ifStmt ts fuel c
    | none =>
    match matchAny ts cur [.WHILE] with
    | some c => whileStmt ts fuel c
    | none =>
    match matchAny ts cur [.FOR] with
    | some c => forStmt ts fuel c
    | none =>
    match matchAny ts cur [.LEFT_BRACE] with
    | some c => (block ts fuel c).bind fun stmts c1 => .ok (.BlockStmt stmts) c1
    | none =>
    match matchAny ts cur [.RETURN] with
    | some c =>
      if !check ts c .SEMICOLON then
        (expression ts fuel c).bind fun e c1 =>
        (consume ts c1 .SEMICOLON "Expected ';'").bind fun _ c2 => .ok (.ReturnStmt (some e)) c2
      else
        (consume ts c .SEMICOLON "Expected ';'").bind fun _ c2 => .ok (.ReturnStmt none) c2
    | none =>
      if check ts cur .IDENTIFIER && check ts (advance ts cur) .COMMA then
        -- multi-assign: `a, b, c = expr;`
        let cur1 := advance ts cur
        (commaNames ts "Expected identifier in multi-assign" ts.length cur1
            [(previous ts cur1).lexeme]).bind fun names cur2 =>
        (consume ts cur2 .EQUAL "Expected '=' in multi-assign").bind fun _ cur3 =>
        (expression ts fuel cur3).bind fun rhs cur4 =>
        (consume ts cur4 .SEMICOLON "Expected ';'").bind fun _ cur5 =>
          .ok (.MultiAssignStmt names rhs) cur5
      else
        -- `current = save`: the identifier, if one was read, is read again
        (expression ts fuel cur).bind fun e cur1 =>
        (consume ts cur1 .SEMICOLON "Expected ';'").bind fun _ cur2 => .ok (.ExprStmt e) cur2
termination_by structural fuel => fuel

/-- The loop of `block`: `while (!check(RIGHT_BRACE)) stmts.push_back(declaration());`. -/
def blockStmts (ts : List Token) : Nat → Nat → List Stmt → PResult (List Stmt)
  | 0, _, _ => .timeout
  | fuel + 1, cur, stmts =>
    if check ts cur .RIGHT_BRACE then .ok stmts cur
    else (declaration ts fuel cur).bind fun s cur1 => blockStmts ts fuel cur1 (stmts ++ [s])
termination_by structural fuel => fuel

/-- The method `block`, returning the statements of the `BlockStmt`. -/
def block (ts : List Token) : Nat → Nat → PResult (List Stmt)
  | 0, _ => .timeout
  | fuel + 1, cur =>
    (if (previous ts cur).type != .LEFT_BRACE then consume ts cur .LEFT_BRACE "Expected '\x7b'"
     else .ok (previous ts cur) cur).bind fun _ cur1 =>
    (blockStmts ts fuel cur1 []).bind fun stmts cur2 =>
    (consume ts cur2 .RIGHT_BRACE "Expected '\x7d'").bind fun _ cur3 => .ok stmts cur3
termination_by structural fuel => fuel

def ifStmt (ts : List Token) : Nat → Nat → PResult Stmt
  | 0, _ => .timeout
  | fuel + 1, cur =>
    (consume ts cur .LEFT_PAREN "Expected '('").bind fun _ cur1 =>
    (expression ts fuel cur1).bind fun cond cur2 =>
    (consume ts cur2 .RIGHT_PAREN "Expected ')'").bind fun _ cur3 =>
    (statement ts fuel cur3).bind fun thenB cur4 =>
    match matchAny ts cur4 [.ELSE] with
    | some cur5 => (statement ts fuel cur5).bind fun elseB cur6 =>
        .ok (.IfStmt cond thenB (some elseB)) cur6
    | none => .ok (.IfStmt cond thenB none) cur4
termination_by structural fuel => fuel

def whileStmt (ts : List Token) : Nat → Nat → PResult Stmt
  | 0, _ => .timeout
  | fuel + 1, cur =>
    (consume ts cur .LEFT_PAREN "Expected '('").bind fun _ cur1 =>
    (expression ts fuel cur1).bind fun cond cur2 =>
    (consume ts cur2 .RIGHT_PAREN "Expected ')'").bind fun _ cur3 =>
    (statement ts fuel cur3).bind fun body cur4 => .ok (.WhileStmt cond body) cur4
termination_by structural fuel => fuel

def forStmt (ts : List Token) : Nat → Nat → PResult Stmt
  | 0, _ => .timeout
  | fuel + 1, cur =>
    (consume ts cur .LEFT_PAREN "Expected '('").bind fun _ cur1 =>
    (consume ts cur1 .IDENTIFIER "Expected loop variable").bind fun nameTok cur2 =>
    (consume ts cur2 .IN "Expected 'in'").bind fun _ cur3 =>
    (expression ts fuel cur3).bind fun iter cur4 =>
    (consume ts cur4 .RIGHT_PAREN "Expected ')'").bind fun _ cur5 =>
    (statement ts fuel cur5).bind fun body cur6 => .ok (.ForStmt nameTok.lexeme iter body) cur6
termination_by structural fuel => fuel

def expression (ts : List Token) : Nat → Nat → PResult Expr
  | 0, _ => .timeout
  | fuel + 1, cur => assignment ts fuel cur
termination_by structural fuel => fuel

def assignment (ts : List Token) : Nat → Nat → PResult Expr
  | 0, _ => .timeout
  | fuel + 1, cur =>
    (orExpr ts fuel cur).bind fun expr cur1 =>
    match matchAny ts cur1 [.EQUAL] with
    | some cur2 =>
      (assignment ts fuel cur2).bind fun value cur3 =>
        match expr with
        | .VarExpr name => .ok (.AssignExpr name value) cur3
        | .GetExpr object name => .ok (.SetExpr object name value) cur3
        | .IndexExpr object index => .ok (.SetIndexExpr object index value) cur3
        | _ => .error "Invalid assignment target"
    | none => .ok expr cur1
termination_by structural fuel => fuel

/-- The loop of `orExpr`. -/
def orLoop (ts : List Token) : Nat → Nat → Expr → PResult Expr
  | 0, _, _ => .timeout
  | fuel + 1, cur, expr =>
    match matchAny ts cur [.OR_OR, .OR_KW] with
    | some cur1 =>
      let op := if (previous ts cur1).type = .OR_KW then normalize (previous ts cur1) .OR_OR
                else previous ts cur1
      (andExpr ts fuel cur1).bind fun right cur2 => orLoop ts fuel cur2 (.BinaryExpr expr op right)
    | none => .ok expr cur
termination_by structural fuel => fuel

def orExpr (ts : List Token) : Nat → Nat → PResult Expr
  | 0, _ => .timeout
  | fuel + 1, cur => (andExpr ts fuel cur).bind fun expr cur1 => orLoop ts fuel cur1 expr
termination_by structural fuel => fuel

/-- The loop of `andExpr`. -/
def andLoop (ts : List Token) : Nat → Nat → Expr → PResult Expr
  | 0, _, _ => .timeout
  | fuel + 1, cur, expr =>
    match matchAny ts cur [.AND_AND, .AND_KW] with
    | some cur1 =>
      let op := if (previous ts cur1).type = .AND_KW then normalize (previous ts cur1) .AND_AND
                else previous ts cur1
      (equality ts fuel cur1).bind fun right cur2 =>
        andLoop ts fuel cur2 (.BinaryExpr expr op right)
    | none => .ok expr cur
termination_by structural fuel => fuel

def andExpr (ts : List Token) : Nat → Nat → PResult Expr
  | 0, _ => .timeout
  | fuel + 1, cur => (equality ts fuel cur).bind fun expr cur1 => andLoop ts fuel cur1 expr
termination_by structural fuel => fuel

/-- The loop of `equality`. -/
def equalityLoop (ts : List Token) : Nat → Nat → Expr → PResult Expr
  | 0, _, _ => .timeout
  | fuel + 1, cur, expr =>
    match matchAny ts cur [.BANG_EQUAL, .EQUAL_EQUAL, .EQUALS_KW] with
    | some cur1 =>
      let op := if (previous ts cur1).type = .EQUALS_KW
                then normalize (previous ts cur1) .EQUAL_EQUAL else previous ts cur1
      (comparison ts fuel cur1).bind fun right cur2 =>
        equalityLoop ts fuel cur2 (.BinaryExpr expr op right)
    | none => .ok expr cur
termination_by structural fuel => fuel

def equality (ts : List Token) : Nat → Nat → PResult Expr
  | 0, _ => .timeout
  | fuel + 1, cur => (comparison ts fuel cur).bind fun expr cur1 => equalityLoop ts fuel cur1 expr
termination_by structural fuel => fuel

/-- The loop of `comparison`. -/
def comparisonLoop (ts : List Token) : Nat → Nat → Expr → PResult Expr
  | 0, _, _ => .timeout
  | fuel + 1, cur, expr =>
    match matchAny ts cur [.LESS, .LESS_EQUAL, .GREATER, .GREATER_EQUAL] with
    | some cur1 =>
      (term ts fuel cur1).bind fun right cur2 =>
        comparisonLoop ts fuel cur2 (.BinaryExpr expr (previous ts cur1) right)
    | none => .ok expr cur
termination_by structural fuel => fuel

def comparison (ts : List Token) : Nat → Nat → PResult Expr
  | 0, _ => .timeout
  | fuel + 1, cur => (term ts fuel cur).bind fun expr cur1 => comparisonLoop ts fuel cur1 expr
termination_by structural fuel => fuel

/-- The loop of `term`. -/
def termLoop (ts : List Token) : Nat → Nat → Expr → PResult Expr
  | 0, _, _ => .timeout
  | fuel + 1, cur, expr =>
    match matchAny ts cur [.PLUS, .MINUS] with
    | some cur1 =>
      (factor ts fuel cur1).bind fun right cur2 =>
        termLoop ts fuel cur2 (.BinaryExpr expr (previous ts cur1) right)
    | none => .ok expr cur
termination_by structural fuel => fuel

def term (ts : List Token) : Nat → Nat → PResult Expr
  | 0, _ => .timeout
  | fuel + 1, cur => (factor ts fuel cur).bind fun expr cur1 => termLoop ts fuel cur1 expr
termination_by structural fuel => fuel

/-- The loop of `factor`. -/
def factorLoop (ts : List Token) : Nat → Nat → Expr → PResult Expr
  | 0, _, _ => .timeout
  | fuel + 1, cur, expr =>
    match matchAny ts cur [.STAR, .SLASH, .PERCENT] with
    | some cur1 =>
      (unary ts fuel cur1).bind fun right cur2 =>
        factorLoop ts fuel cur2 (.BinaryExpr expr (previous ts cur1) right)
    | none => .ok expr cur
termination_by structural fuel => fuel

def factor (ts : List Token) : Nat → Nat → PResult Expr
  | 0, _ => .timeout
  | fuel + 1, cur => (unary ts fuel cur).bind fun expr cur1 => factorLoop ts fuel cur1 expr
termination_by structural fuel => fuel

def unary (ts : List Token) : Nat → Nat → PResult Expr
  | 0, _ => .timeout
  | fuel + 1, cur =>
    match matchAny ts cur [.BANG, .MINUS, .NOT_KW] with
    | some cur1 =>
      let op := if (previous ts cur1).type = .NOT_KW then normalize (previous ts cur1) .BANG
                else previous ts cur1
      (unary ts fuel cur1).bind fun right cur2 => .ok (.UnaryExpr op right) cur2
    | none => call ts fuel cur
termination_by structural fuel => fuel

/-- The loop `do args.push_back(expression()); while (match({COMMA}));`. -/
def exprList (ts : List Token) : Nat → Nat → List Expr → PResult (List Expr)
  | 0, _, _ => .timeout
  | fuel + 1, cur, acc =>
    (expression ts fuel cur).bind fun e cur1 =>
      match matchAny ts cur1 [.COMMA] with
      | some cur2 => exprList ts fuel cur2 (acc ++ [e])
      | none => .ok (acc ++ [e]) cur1
termination_by structural fuel => fuel

/-- The loop `while (true)` of `call`. -/
def callLoop (ts : List Token) : Nat → Nat → Expr → PResult Expr
  | 0, _, _ => .timeout
  | fuel + 1, cur, expr =>
    match matchAny ts cur [.LEFT_PAREN] with
    | some cur1 =>
      (if !check ts cur1 .RIGHT_PAREN then exprList ts fuel cur1 [] else .ok [] cur1).bind
        fun args cur2 =>
      (consume ts cur2 .RIGHT_PAREN "Expected ')'").bind fun _ cur3 =>
        callLoop ts fuel cur3 (.CallExpr expr args)
    | none =>
    match matchAny ts cur [.DOT] with
    | some cur1 =>
      (consume ts cur1 .IDENTIFIER "Expected property name after '.'").bind fun name cur2 =>
        callLoop ts fuel cur2 (.GetExpr expr name.lexeme)
    | none =>
    match matchAny ts cur [.LEFT_BRACKET] with
    | some cur1 =>
      (expression ts fuel cur1).bind fun idx cur2 =>
      (consume ts cur2 .RIGHT_BRACKET "Expected ']'").bind fun _ cur3 =>
        callLoop ts fuel cur3 (.IndexExpr expr idx)
    | none => .ok expr cur
termination_by structural fuel => fuel

def call (ts : List Token) : Nat → Nat → PResult Expr
  | 0, _ => .timeout
  | fuel + 1, cur => (primary ts fuel cur).bind fun expr cur1 => callLoop ts fuel cur1 expr
termination_by structural fuel => fuel

/-- The loop of a dict literal: `do key ':' value while (match({COMMA}));`. -/
def dictEntries (ts : List Token) : Nat → Nat → List Expr → PResult (List Expr)
  | 0, _, _ => .timeout
  | fuel + 1, cur, kv =>
    (consume ts cur .STRING "Expected string key in dict literal").bind fun keyTok cur1 =>
    (consume ts cur1 .COLON "Expected ':'").bind fun _ cur2 =>
    (expression ts fuel cur2).bind fun v cur3 =>
      match matchAny ts cur3 [.COMMA] with
      | some cur4 => dictEntries ts fuel cur4 (kv ++ [.LiteralExpr (.string keyTok.lexeme), v])
      | none => .ok (kv ++ [.LiteralExpr (.string keyTok.lexeme), v]) cur3
termination_by structural fuel => fuel

def primary (ts : List Token) : Nat → Nat → PResult Expr
  | 0, _ => .timeout
  | fuel + 1, cur =>
    match matchAny ts cur [.FALSE] with
    | some c => .ok (.LiteralExpr (.bool false)) c
    | none =>
    match matchAny ts cur [.TRUE] with
    | some c => .ok (.LiteralExpr (.bool true)) c
    | none =>
    match matchAny ts cur [.NULL_T] with
    | some c => .ok (.LiteralExpr .null) c
    | none =>
    match matchAny ts cur [.THIS] with
    | some c => .ok (.VarExpr "this") c
    | none =>
    match matchAny ts cur [.NUMBER] with
    | some c =>
      match stod (previous ts c).lexeme with
      | some d => .ok (.LiteralExpr (.number d)) c
      | none => .stdException "stod"
    | none =>
    match matchAny ts cur [.STRING] with
    | some c => .ok (.LiteralExpr (.string (previous ts c).lexeme)) c
    | none =>
    match matchAny ts cur [.LEFT_PAREN] with
    | some c =>
      (expression ts fuel c).bind fun e c1 =>
      (consume ts c1 .RIGHT_PAREN "Expected ')'").bind fun _ c2 => .ok (.GroupingExpr e) c2
    | none =>
    match matchAny ts cur [.LEFT_BRACKET] with
    | some c =>
      (if !check ts c .RIGHT_BRACKET then exprList ts fuel c [] else .ok [] c).bind fun elems c1 =>
      (consume ts c1 .RIGHT_BRACKET "Expected ']'").bind fun _ c2 =>
        .ok (.CallExpr (.VarExpr "__list_literal__") elems) c2
    | none =>
    match matchAny ts cur [.LEFT_BRACE] with
    | some c =>
      (if !check ts c .RIGHT_BRACE then dictEntries ts fuel c [] else .ok [] c).bind fun kv c1 =>
      (consume ts c1 .RIGHT_BRACE "Expected '\x7d'").bind fun _ c2 =>
        .ok (.CallExpr (.VarExpr "__dict_literal__") kv) c2
    | none =>
    match matchAny ts cur [.IDENTIFIER] with
    | some c => .ok (.VarExpr (previous ts c).lexeme) c
    | none => .error "Expected expression"
termination_by structural fuel => fuel
end

/-- The loop of `Parser::parse`: `while (!isAtEnd()) stmts.push_back(declaration());`. -/
def parseLoop (ts : List Token) (depth : Nat) : Nat → Nat → List Stmt → PResult (List Stmt)
  | 0, _, _ => .timeout
  | fuel + 1, cur, stmts =>
    if isAtEnd ts cur then .ok stmts cur
    else (declaration ts depth cur).bind fun s cur1 => parseLoop ts depth fuel cur1 (stmts ++ [s])

/-- The method `Parser::parse` with recursion budget `depth`. -/
def parse (ts : List Token) (depth : Nat) : ParseResult :=
  match parseLoop ts depth (ts.length + 1) 0 [] with
  | .ok stmts _ => .ok stmts
  | .error msg => .error msg
  | .stdException w => .stdException w
  | .timeout => .timeout

end Parser

/-- The idiom `Lexer lx(src); auto tokens = lx.scan(); Parser ps(tokens); auto stmts = ps.parse();`
shared by `AdaScript_Eval`, `AdaScript_RunFile`, `execImport` and `main`. -/
def frontEnd (fuel : Nat) (src : String) : ParseResult :=
  match lex src with
  | .error e => .error e
  | .timeout => .timeout
  | .ok tokens => Parser.parse tokens fuel

/-! ## Values, environments and the interpreter state -/

/-- A user function (`struct Function`); `closure` is the captured environment. -/
structure Function where
  name : String
  params : List String
  body : List Stmt
  closure : Nat
  isInit : Bool
deriving Repr

/-- The callback stored in a `NativeFunction`: one of the builtins registered by the
interpreter's constructor, the closure built by string property `split`, or the wrapper
that `AdaScript_RegisterNativeStringFn` builds around host function number `fn`. -/
inductive NativeFn where
  | print | len | input | map | sqrt_bs | range | int | float | str | split | join
  | abs | has | list_input
  | requests_get | requests_post | requests_request
  | fs_read_text | fs_write_text | fs_exists | fs_listdir | fs_mkdirs | fs_remove
  | content_get | c_run | server_serve | proc_exec | native_load
  | string_split (base : String)
  | thunk (fn : Nat)
deriving DecidableEq, Repr

structure NativeFunction where
  name : String
  fixedArity : Int
  fn : NativeFn
deriving DecidableEq, Repr

structure Class where
  name : String
  methods : List (String × Function)
deriving Repr

/-- The variant `Value`.  `cls` and `inst` are the kinds `class` and `instance`; an
instance is a reference into the instance heap. -/
inductive Value where
  | null
  | bool (b : Bool)
  | number (n : Double)
  | string (s : String)
  | list (l : List Value)
  | dict (d : List (String × Value))
  | function (f : Function)
  | native (f : NativeFunction)
  | cls (k : Class)
  | inst (ref : Nat)
deriving Repr

def Value.typeName : Value → String
  | .null => "null"
  | .bool _ => "bool"
  | .number _ => "number"
  | .string _ => "string"
  | .list _ => "list"
  | .dict _ => "dict"
  | .function _ => "function"
  | .native _ => "native"
  | .cls _ => "class"
  | .inst _ => "instance"

/-- The value of a literal: `p->value` of a `LiteralExpr`. -/
def Literal.toValue : Literal → Value
  | .null => .null
  | .bool b => .bool b
  | .number d => .number d
  | .string s => .string s

structure Environment where
  parent : Option Nat
  values : List (String × Value)
deriving Repr

structure Instance where
  klass : Class
  fields : List (String × Value)
deriving Repr

/-- A host callback `char* fn(void* user, const char* const* args, int argc)`, as a
function of the argument strings; `none` is a `NULL` return. -/
abbrev HostFn := List String → Option String

/-- The state of `class Interpreter` with the two heaps its shared pointers refer to,
followed by the world it acts on: the standard streams, the files that can be
opened, the registered host callbacks, the log of their invocations and the order in
which the C++ library enumerates the keys of a map. -/
structure Interpreter where
  envs : List Environment
  instances : List Instance
  env : Nat
  current_dir : String
  builtins_dir : String
  loaded_files : List String
  stdout : String
  stderr : String
  stdin : List String
  files : List (String × String)
  hostFns : List HostFn
  hostCalls : List (Nat × List String)
  keyRank : List String → String → Nat

/-- The entries of a dict in the order in which `std::unordered_map` enumerates them.
C++ leaves the order to the library, which derives it from the keys and the order in
which they were inserted: the entries are sorted by the rank `keyRank` gives each key
of this map. -/
def Interpreter.enumerate (ip : Interpreter) (d : List (String × Value)) :
    List (String × Value) :=
  d.insertionSort fun a b =>
    ip.keyRank (d.map Prod.fst) a.1 ≤ ip.keyRank (d.map Prod.fst) b.1

/-- The member `globals`: the first environment ever allocated. -/
def globals : Nat := 0

/-- What a C++ `throw` carries in this program. -/
inductive Thrown where
  | RuntimeError (what : String)
  | StdException (what : String)
  | ReturnSignal (value : Value)
deriving Repr

/-- Outcome of running interpreter code: normal completion, an exception in flight,
exhausted fuel, or a construct outside the model. -/
inductive Res (α : Type) where
  | ok (a : α) (ip : Interpreter)
  | throw (e : Thrown) (ip : Interpreter)
  | timeout
  | unsupported (what : String)

def Res.bind {α β : Type} (r : Res α) (f : α → Interpreter → Res β) : Res β :=
  match r with
  | .ok a ip => f a ip
  | .throw e ip => .throw e ip
  | .timeout => .timeout
  | .unsupported w => .unsupported w

/-- The statement `throw RuntimeError(msg)`. -/
def throwRT {α : Type} (msg : String) (ip : Interpreter) : Res α := .throw (.RuntimeError msg) ip

/-- The exception `std::bad_variant_access` raised by a failing `std::get`, with the
`what()` libstdc++ gives it. -/
def badVariant {α : Type} (ip : Interpreter) : Res α :=
  .throw (.StdException "std::get: wrong index for variant") ip

namespace Interpreter

def envAt (ip : Interpreter) (e : Nat) : Environment := ip.envs.getD e ⟨none, []⟩

/-- The allocation `std::make_shared<Environment>(parent)`. -/
def newEnv (ip : Interpreter) (parent : Nat) : Nat × Interpreter :=
  (ip.envs.length, { ip with envs := ip.envs ++ [⟨some parent, []⟩] })

/-- The method `Environment::define` on environment `e`. -/
def define (ip : Interpreter) (e : Nat) (name : String) (v : Value) : Interpreter :=
  { ip with envs := ip.envs.set e { ip.envAt e with values := mapSet (ip.envAt e).values name v } }

/-- The innermost environment on the chain from `e` that defines `name`; the walk
follows at most `fuel` parent links, and callers pass the size of the heap. -/
def findEnv (ip : Interpreter) (name : String) : Nat → Nat → Option Nat
  | 0, _ => none
  | fuel + 1, e =>
    if mapHas (ip.envAt e).values name then some e
    else match (ip.envAt e).parent with
      | some p => findEnv ip name fuel p
      | none => none

/-- The method `Environment::getPtr`, dereferenced. -/
def getPtr (ip : Interpreter) (e : Nat) (name : String) : Option Value :=
  match ip.findEnv name ip.envs.length e with
  | some e1 => mapFind (ip.envAt e1).values name
  | none => none

/-- The method `Environment::assign`: the new state when some scope defines `name`. -/
def assign (ip : Interpreter) (e : Nat) (name : String) (v : Value) : Option Interpreter :=
  match ip.findEnv name ip.envs.length e with
  | some e1 => some (ip.define e1 name v)
  | none => none

/-- The method `Environment::get`. -/
def get (ip : Interpreter) (e : Nat) (name : String) : Res Value :=
  match ip.getPtr e name with
  | some v => .ok v ip
  | none => throwRT ("Undefined variable: " ++ name) ip

def instAt (ip : Interpreter) (r : Nat) : Instance := ip.instances.getD r ⟨⟨"", []⟩, []⟩

/-- The allocation `std::make_shared<Instance>(klass)`. -/
def newInstance (ip : Interpreter) (k : Class) : Nat × Interpreter :=
  (ip.instances.length, { ip with instances := ip.instances ++ [⟨k, []⟩] })

/-- The assignment `inst->fields[name] = v`. -/
def setField (ip : Interpreter) (r : Nat) (name : String) (v : Value) : Interpreter :=
  { ip with instances :=
      ip.instances.set r { ip.instAt r with fields := mapSet (ip.instAt r).fields name v } }

/-- The pattern `if (env->values.count(name)) env->assign(name, v); else env->define(name, v);`
of multi-assign and `for`: both branches write `name` in the current environment. -/
def setVar (ip : Interpreter) (name : String) (v : Value) : Interpreter :=
  if mapHas (ip.envAt ip.env).values name then
    match ip.assign ip.env name v with
    | some ip1 => ip1
    | none => ip
  else ip.define ip.env name v

def write (ip : Interpreter) (text : String) : Interpreter := { ip with stdout := ip.stdout ++ text }

end Interpreter

/-- The method `Class::findMethod`. -/
def Class.findMethod (k : Class) (n : String) : Option Function := mapFind k.methods n

/-- The method `Interpreter::isTruthy`. -/
def isTruthy : Value → Bool
  | .null => false
  | .bool b => b
  | .number n => !n.isZero
  | _ => true

/-- The method `Interpreter::equal`.  For the six kinds that are not scalars the
source returns `&a == &b`, the comparison of the addresses of the two `Value`
objects handed to `evalBinary`; its only caller passes two distinct temporaries,
so that comparison is false. -/
def equal : Value → Value → Bool
  | .null, .null => true
  | .bool a, .bool b => a == b
  | .number a, .number b => a == b
  | .string a, .string b => a == b
  | _, _ => false

/-- The function `value_to_string` of the C API; `builtin_str` has the same body. -/
def value_to_string : Value → String
  | .number n => fmtNum n
  | .string s => s
  | .bool b => if b then "true" else "false"
  | .null => "null"
  | v => "<" ++ v.typeName ++ ">"

/-- How `evalBinary` writes one operand of a string `+`. -/
def plusOperand : Value → String
  | .string s => s
  | .number n => fmtNum n
  | _ => "[obj]"

/-- The lambda `num` of `evalBinary`. -/
def num (v : Value) : Except Thrown Double :=
  match v with
  | .number n => .ok n
  | _ => .error (.RuntimeError "Expected number")

/-- A binary numeric operation `Value(f(num(l), num(r)))`. -/
def numOp (l r : Value) (f : Double → Double → Value) : Except Thrown Value :=
  match num l, num r with
  | .ok a, .ok b => .ok (f a b)
  | .error e, _ => .error e
  | _, .error e => .error e

/-- The method `Interpreter::evalBinary`. -/
def evalBinary (l : Value) (op : Token) (r : Value) : Except Thrown Value :=
  match op.type with
  | .PLUS =>
    match l, r with
    | .number a, .number b => .ok (.number (a.add b))
    | .string _, _ => .ok (.string (plusOperand l ++ plusOperand r))
    | _, .string _ => .ok (.string (plusOperand l ++ plusOperand r))
    | _, _ => .error (.RuntimeError "'+' needs numbers or strings")
  | .MINUS => numOp l r fun a b => .number (a.sub b)
  | .STAR => numOp l r fun a b => .number (a.mul b)
  | .SLASH =>
    match num r with
    | .error e => .error e
    | .ok d =>
      if d.isZero then .error (.RuntimeError "Division by zero")
      else match num l with
        | .error e => .error e
        | .ok a => .ok (.number (a.div d))
  | .PERCENT =>
    match num r with
    | .error e => .error e
    | .ok d =>
      if d.isZero then .error (.RuntimeError "Modulo by zero")
      else match num l with
        | .error e => .error e
        | .ok a => .ok (.number (a.fmod d))
  | .EQUAL_EQUAL => .ok (.bool (equal l r))
  | .BANG_EQUAL => .ok (.bool (!equal l r))
  | .LESS => numOp l r fun a b => .bool (a.lt b)
  | .LESS_EQUAL => numOp l r fun a b => .bool (a.le b)
  | .GREATER => numOp l r fun a b => .bool (b.lt a)
  | .GREATER_EQUAL => numOp l r fun a b => .bool (b.le a)
  | .AND_AND => .ok (.bool (isTruthy l && isTruthy r))
  | .OR_OR => .ok (.bool (isTruthy l || isTruthy r))
  | _ => .error (.RuntimeError "Invalid binary op")

/-- The method `Interpreter::evalUnary`. -/
def evalUnary (op : Token) (r : Value) : Except Thrown Value :=
  match op.type with
  | .BANG => .ok (.bool (!isTruthy r))
  | .MINUS =>
    match r with
    | .number n => .ok (.number n.neg)
    | _ => .error (.RuntimeError "Unary '-' on non-number")
  | _ => .error (.RuntimeError "Invalid unary op")

/-- Lift a pure outcome into the interpreter. -/
def liftE {α : Type} (r : Except Thrown α) (ip : Interpreter) : Res α :=
  match r with
  | .ok a => .ok a ip
  | .error e => .throw e ip

/-! ## Builtins -/

/-- How `builtin_print` writes an element of a list or a value of a dict. -/
def printElem : Value → String
  | .number n => fmtNum n
  | .string s => String.singleton DQUOTE ++ s ++ String.singleton DQUOTE
  | _ => "..."

/-- How `builtin_print` writes one argument; `enum` is the order in which the entries
of a dict are enumerated. -/
def printArg (enum : List (String × Value) → List (String × Value)) : Value → String
  | .number n => fmtNum n
  | .string s => s
  | .bool b => if b then "true" else "false"
  | .null => "null"
  | .list l => "[" ++ ", ".intercalate (l.map printElem) ++ "]"
  | .dict d =>
    String.singleton LBRACE
      ++ ", ".intercalate ((enum d).map fun kv => kv.1 ++ ": " ++ printElem kv.2)
      ++ String.singleton RBRACE
  | v => "<" ++ v.typeName ++ ">"

/-- The function `std::isspace` in the C locale. -/
def isSpace (c : Char) : Bool := c.toNat = 32 || (9 ≤ c.toNat && c.toNat ≤ 13)

/-- The loop `while (iss >> tok) out.push_back(tok)`: the maximal runs of
characters that are not white space. -/
def splitWhitespace : List Char → List Char → List String
  | [], acc => if acc.isEmpty then [] else [String.mk acc.reverse]
  | c :: cs, acc =>
    if isSpace c then
      (if acc.isEmpty then [] else [String.mk acc.reverse]) ++ splitWhitespace cs []
    else splitWhitespace cs (c :: acc)

/-- Whether `pre` begins the list `s`. -/
def startsWith : List Char → List Char → Bool
  | [], _ => true
  | _ :: _, [] => false
  | a :: pre, b :: s => a == b && startsWith pre s

/-- The loop of `builtin_split` for a non-empty separator: cut at each occurrence of
`sep` found left to right by `find(sep, pos)`.  `skip` counts the characters of an
occurrence still to be passed over, `acc` holds the current piece reversed. -/
def splitOn (sep : List Char) : List Char → Nat → List Char → List String
  | [], _, acc => [String.mk acc.reverse]
  | _ :: cs, skip + 1, acc => splitOn sep cs skip acc
  | c :: cs, 0, acc =>
    if startsWith sep (c :: cs) then String.mk acc.reverse :: splitOn sep cs (sep.length - 1) []
    else splitOn sep cs 0 (c :: acc)

/-- The split shared by `builtin_split` and the string property `split`. -/
def splitString (s sep : String) : Value :=
  if sep.data.isEmpty then .list ((splitWhitespace s.data []).map Value.string)
  else .list ((splitOn sep.data s.data 0 []).map Value.string)

/-- Whether an integer is a value of `long long`. -/
def isLongLong (i : Int) : Bool := decide (-(2 : Int) ^ 63 ≤ i ∧ i < (2 : Int) ^ 63)

/-- The loop `for (i = start; i < stop; i += step)` of `builtin_range`, `step > 0`: the
elements `(double)i`, or `none` when `i += step` leaves the range of `long long`, which
C++ leaves undefined. -/
def rangeUp (stop step : Int) : Nat → Int → Option (List Value)
  | 0, _ => some []
  | fuel + 1, i =>
    if i < stop then
      if isLongLong (i + step) then
        (rangeUp stop step fuel (i + step)).map fun l => .number (Double.ofLongLong i) :: l
      else none
    else some []

/-- The loop `for (i = start; i > stop; i += step)` of `builtin_range`, `step < 0`. -/
def rangeDown (stop step : Int) : Nat → Int → Option (List Value)
  | 0, _ => some []
  | fuel + 1, i =>
    if stop < i then
      if isLongLong (i + step) then
        (rangeDown stop step fuel (i + step)).map fun l => .number (Double.ofLongLong i) :: l
      else none
    else some []

/-- The lambda `asInt` of `builtin_range` applied to every argument in order: `none`
when it throws at an argument that is no number, `some none` when a number before
that is outside the range of `long long`, for which C++ leaves the cast undefined. -/
def rangeInts : List Value → Option (Option (List Int))
  | [] => some (some [])
  | .number n :: rest =>
    match n.toLongLong with
    | none => some none
    | some i =>
      match rangeInts rest with
      | none => none
      | some none => some none
      | some (some is) => some (some (i :: is))
  | _ :: _ => none

def builtin_range (args : List Value) (ip : Interpreter) : Res Value :=
  let run (start stop step : Int) : Res Value :=
    match (if 0 < step then rangeUp stop step (stop - start).toNat start
           else rangeDown stop step (start - stop).toNat start) with
    | some l => .ok (.list l) ip
    | none => .unsupported "range: overflow of long long"
  if args.length = 0 || 3 < args.length then throwRT "range expects 1..3 args" ip
  else match rangeInts args with
    | none => throwRT "range expects numbers" ip
    | some none => .unsupported "range: number outside the range of long long"
    | some (some [stop]) => run 0 stop 1
    | some (some [start, stop]) => run start stop 1
    | some (some [start, stop, step]) =>
      if step = 0 then throwRT "range step cannot be 0" ip else run start stop step
    | some (some _) => throwRT "range expects 1..3 args" ip

/-- The text of the strings of a list, for `builtin_join`: `std::get<std::string>` on
every element, `none` when one is not a string. -/
def joinStrings : List Value → Option (List String)
  | [] => some []
  | .string s :: rest => (joinStrings rest).map fun ss => s :: ss
  | _ :: _ => none

/-- What C code reads from a `char*`: the bytes before the first NUL. -/
def cstr (s : String) : String := String.mk (s.data.takeWhile fun c => c != NUL)

/-- Every native callback except `builtin_map`, which calls back into the interpreter.
Callbacks that belong to platform adapters, that read numbers out of strings
(`stoll`, `stod`) or that iterate in floating point are outside the model. -/
def callBuiltin (f : NativeFn) (args : List Value) (ip : Interpreter) : Res Value :=
  match f with
  | .print => .ok .null (ip.write (" ".intercalate (args.map (printArg ip.enumerate)) ++ "\n"))
  | .len =>
    match args with
    | [.list l] => .ok (.number (Double.ofNat l.length)) ip
    | [.string s] => .ok (.number (Double.ofNat s.length)) ip
    | [.dict d] => .ok (.number (Double.ofNat d.length)) ip
    | [_] => throwRT "len on unsupported type" ip
    | _ => throwRT "len expects 1 arg" ip
  | .input =>
    let read (ip1 : Interpreter) : Res Value :=
      .ok (.string (ip1.stdin.headD "")) { ip1 with stdin := ip1.stdin.tail }
    match args with
    | [] => read ip
    | [.string s] => read (ip.write s)
    | [_] => throwRT "input prompt must be string" ip
    | _ => throwRT "input expects 0 or 1 arg" ip
  | .sqrt_bs =>
    match args with
    | [.number x] =>
      if x.lt Double.zero then throwRT "sqrt_bs domain error" ip
      else if x.isZero then .ok (.number Double.zero) ip
      else .unsupported "sqrt_bs: floating-point bisection"
    | [_] => throwRT "sqrt_bs needs number" ip
    | _ => throwRT "sqrt_bs expects 1 arg" ip
  | .range => builtin_range args ip
  | .int =>
    match args with
    | [.number n] =>
      match n.toLongLong with
      | some i => .ok (.number (Double.ofLongLong i)) ip
      | none => .unsupported "int: number outside the range of long long"
    | [.string _] => .unsupported "int: std::stoll"
    | [.bool b] => .ok (.number (if b then Double.ofNat 1 else Double.zero)) ip
    | [_] => throwRT "int() unsupported type" ip
    | _ => throwRT "int expects 1 arg" ip
  | .float =>
    match args with
    | [.number n] => .ok (.number n) ip
    | [.string _] => .unsupported "float: std::stod"
    | [.bool b] => .ok (.number (if b then Double.ofNat 1 else Double.zero)) ip
    | [_] => throwRT "float() unsupported type" ip
    | _ => throwRT "float expects 1 arg" ip
  | .str =>
    match args with
    | [v] => .ok (.string (value_to_string v)) ip
    | _ => throwRT "str expects 1 arg" ip
  | .split =>
    match args with
    | [.string s] => .ok (splitString s "") ip
    | [.string s, .string sep] => .ok (splitString s sep) ip
    | [.string _, _] => badVariant ip
    | [_] => throwRT "split first arg must be string" ip
    | [_, _] => throwRT "split first arg must be string" ip
    | _ => throwRT "split expects (string[, sep])" ip
  | .join =>
    match args with
    | [.list l, .string sep] =>
      match joinStrings l with
      | some ss => .ok (.string (sep.intercalate ss)) ip
      | none => badVariant ip
    | [.list _, _] => badVariant ip
    | [_, _] => throwRT "join first arg must be list of strings" ip
    | _ => throwRT "join expects (list, sep)" ip
  | .abs =>
    match args with
    | [.number n] => .ok (.number n.abs) ip
    | [_] => throwRT "abs expects number" ip
    | _ => throwRT "abs expects 1 arg" ip
  | .has =>
    match args with
    | [.dict d, .string key] => .ok (.bool (mapHas d key)) ip
    | [.dict _, _] => badVariant ip
    | [_, _] => throwRT "has first arg must be dict" ip
    | _ => throwRT "has expects (dict, key)" ip
  | .string_split base =>
    match args with
    | [] => .ok (splitString base "") ip
    | [.string sep] => .ok (splitString base sep) ip
    | [_] => throwRT "split sep must be string" ip
    | _ => throwRT "split expects at most 1 arg" ip
  | .thunk n =>
    match ip.hostFns.get? n with
    | none => .unsupported "host function not registered"
    | some fn =>
      let cargs := (args.map value_to_string).map cstr
      let out := match fn cargs with
        | some res => cstr res
        | none => ""
      .ok (.string out) { ip with hostCalls := ip.hostCalls ++ [(n, cargs)] }
  | .map => .unsupported "map is dispatched by callNative"
  | .list_input => .unsupported "list_input"
  | .requests_get => .unsupported "requests.get"
  | .requests_post => .unsupported "requests.post"
  | .requests_request => .unsupported "requests.request"
  | .fs_read_text => .unsupported "fs.read_text"
  | .fs_write_text => .unsupported "fs.write_text"
  | .fs_exists => .unsupported "fs.exists"
  | .fs_listdir => .unsupported "fs.listdir"
  | .fs_mkdirs => .unsupported "fs.mkdirs"
  | .fs_remove => .unsupported "fs.remove"
  | .content_get => .unsupported "content.get"
  | .c_run => .unsupported "c.run"
  | .server_serve =>
    throwRT "server.serve: not implemented in this build" ip
  | .proc_exec => .unsupported "proc.exec"
  | .native_load => .unsupported "native.load"

/-! ## Paths (`std::filesystem::path`, POSIX separators) -/

/-- The components of a path between separators. -/
def pathParts (p : String) : List String := (splitOn ['/'] p.data 0 []).filter fun c => c != ""

/-- The text after the last separator: `path::filename`. -/
def pathFilename (p : String) : String :=
  String.mk ((p.data.reverse.takeWhile fun c => c != '/').reverse)

/-- Whether `path::extension` is empty: the file name has no dot past its first
character, or is `.` or `..`. -/
def extensionEmpty (p : String) : Bool :=
  let f := pathFilename p
  f == "." || f == ".." || !(f.data.drop 1).contains '.'

/-- The method `path::parent_path`. -/
def parentPath (p : String) : String :=
  let rest := (p.data.reverse.dropWhile fun c => c != '/')
  match rest with
  | [] => ""
  | [_] => "/"
  | _ :: more => String.mk more.reverse

/-- The operator `lhs / rhs` on paths. -/
def pathJoin (lhs rhs : String) : String :=
  if startsWith ['/'] rhs.data then rhs
  else if lhs == "" then rhs
  else if lhs.data.getLast? == some '/' then lhs ++ rhs
  else lhs ++ "/" ++ rhs

/-- Resolve `.` and `..` components against the components already kept (reversed). -/
def normalParts (absolute : Bool) : List String → List String → List String
  | [], kept => kept.reverse
  | c :: cs, kept =>
    if c == "." then normalParts absolute cs kept
    else if c == ".." then
      match kept with
      | [] => if absolute then normalParts absolute cs [] else normalParts absolute cs [".."]
      | k :: ks => if k == ".." then normalParts absolute cs (".." :: k :: ks)
                   else normalParts absolute cs ks
    else normalParts absolute cs (c :: kept)

/-- The method `path::lexically_normal`, up to trailing separators. -/
def lexicallyNormal (p : String) : String :=
  if p == "" then ""
  else
    let absolute := startsWith ['/'] p.data
    let body := "/".intercalate (normalParts absolute (pathParts p) [])
    if absolute then "/" ++ body else if body == "" then "." else body

/-- The position-independent part of `execImport`: the path the import argument
resolves to. -/
def resolveImport (current_dir builtins_dir rawPath : String) : String :=
  let p := if extensionEmpty rawPath then rawPath ++ ".ad" else rawPath
  if builtins_dir != "" &&
      (startsWith "builtins/".data rawPath.data
        || startsWith ("builtins".data ++ [BACKSLASH]) rawPath.data) then
    let sub :=
      if rawPath.data.contains '/' then
        String.mk ((rawPath.data.dropWhile fun c => c != '/').drop 1)
      else String.mk ((rawPath.data.dropWhile fun c => c != BACKSLASH).drop 1)
    lexicallyNormal (pathJoin builtins_dir sub)
  else lexicallyNormal (pathJoin current_dir p)

/-! ## Interpreter -/

/-- The index store shared by the four branches of `evalSetIndex`: the container
that results from writing `val` at `idxv` into `slot`. -/
def storeIndex (slot idxv val : Value) (notIndexable : String) : Except Thrown Value :=
  match slot with
  | .list lst =>
    match idxv with
    | .number n =>
      let i := n.trunc
      if i < 0 then .error (.RuntimeError "List index out of range")
      else if i = (lst.length : Int) then .ok (.list (lst ++ [val]))
      else if (lst.length : Int) ≤ i then .error (.RuntimeError "List index out of range")
      else .ok (.list (lst.set i.toNat val))
    | _ => .error (.StdException "std::get: wrong index for variant")
  | .dict d =>
    match idxv with
    | .string key => .ok (.dict (mapSet d key val))
    | _ => .error (.StdException "std::get: wrong index for variant")
  | _ => .error (.RuntimeError notIndexable)

/-- The methods of a class value, built by `execute` from a `ClassStmt` in environment `e`. -/
def classMethodsOf (methods : List (String × List String × List Stmt)) (e : Nat) :
    List (String × Function) :=
  methods.foldl (fun acc m => mapSet acc m.1 ⟨m.1, m.2.1, m.2.2, e, m.1 == "init"⟩) []

/-- Whether the callee of a call is the variable `name`. -/
def isMarker (callee : Expr) (name : String) : Bool :=
  match callee with
  | .VarExpr n => n == name
  | _ => false

set_option maxHeartbeats 8000000 in
mutual

def execute : Nat → Stmt → Interpreter → Res Unit
  | 0, _, _ => .timeout
  | fuel + 1, stmt, ip =>
    match stmt with
    | .BlockStmt stmts => execBlock fuel stmts (ip.newEnv ip.env).1 (ip.newEnv ip.env).2
    | .LetStmt name init =>
      (evaluate fuel init ip).bind fun v ip1 => .ok () (ip1.define ip1.env name v)
    | .ExprStmt e => (evaluate fuel e ip).bind fun _ ip1 => .ok () ip1
    | .IfStmt cond thenB elseB =>
      (evaluate fuel cond ip).bind fun c ip1 =>
        if isTruthy c then execute fuel thenB ip1
        else match elseB with
          | some s => execute fuel s ip1
          | none => .ok () ip1
    | .WhileStmt cond body => whileLoop fuel cond body ip
    | .ForStmt var iterable body => execFor fuel var iterable body ip
    | .ReturnStmt value =>
      match value with
      | some e => (evaluate fuel e ip).bind fun v ip1 => .throw (.ReturnSignal v) ip1
      | none => .throw (.ReturnSignal .null) ip
    | .FunctionStmt name params body =>
      .ok () (ip.define ip.env name (.function ⟨name, params, body, ip.env, false⟩))
    | .ClassStmt name methods =>
      .ok () (ip.define ip.env name (.cls ⟨name, classMethodsOf methods ip.env⟩))
    | .StructStmt name _ => .ok () (ip.define ip.env name (.cls ⟨name, []⟩))
    | .UnionStmt name _ => .ok () (ip.define ip.env name (.cls ⟨name, []⟩))
    | .ImportStmt path => execImport fuel path ip
    | .MultiAssignStmt names value =>
      (evaluate fuel value ip).bind fun rv ip1 =>
        match rv with
        | .list lst =>
          if lst.length != names.length then throwRT "Multi-assign length mismatch" ip1
          else .ok () ((names.zip lst).foldl (fun s nv => s.setVar nv.1 nv.2) ip1)
        | _ => throwRT "Right-hand side of multi-assign must be a list" ip1
    | .MultiLetStmt names => .ok () (names.foldl (fun s n => s.define s.env n .null) ip)
termination_by structural fuel => fuel

/-- The loop `for (auto& s : stmts) execute(s);`. -/
def execStmts : Nat → List Stmt → Interpreter → Res Unit
  | 0, _, _ => .timeout
  | _ + 1, [], ip => .ok () ip
  | fuel + 1, s :: rest, ip => (execute fuel s ip).bind fun _ ip1 => execStmts fuel rest ip1
termination_by structural fuel => fuel

/-- The method `execBlock`: run the statements in `newEnv` and restore the
environment pointer on every exit, normal or exceptional. -/
def execBlock : Nat → List Stmt → Nat → Interpreter → Res Unit
  | 0, _, _, _ => .timeout
  | fuel + 1, stmts, newEnv, ip =>
    match execStmts fuel stmts { ip with env := newEnv } with
    | .ok _ ip1 => .ok () { ip1 with env := ip.env }
    | .throw e ip1 => .throw e { ip1 with env := ip.env }
    | .timeout => .timeout
    | .unsupported w => .unsupported w
termination_by structural fuel => fuel

/-- The loop `while (isTruthy(evaluate(cond))) execute(body);`. -/
def whileLoop : Nat → Expr → Stmt → Interpreter → Res Unit
  | 0, _, _, _ => .timeout
  | fuel + 1, cond, body, ip =>
    (evaluate fuel cond ip).bind fun c ip1 =>
      if isTruthy c then (execute fuel body ip1).bind fun _ ip2 => whileLoop fuel cond body ip2
      else .ok () ip1
termination_by structural fuel => fuel

/-- The loops of `execFor`: bind the variable to each item and run the body. -/
def forLoop : Nat → String → List Value → Stmt → Interpreter → Res Unit
  | 0, _, _, _, _ => .timeout
  | _ + 1, _, [], _, ip => .ok () ip
  | fuel + 1, var, v :: rest, body, ip =>
    (execute fuel body (ip.setVar var v)).bind fun _ ip1 => forLoop fuel var rest body ip1
termination_by structural fuel => fuel

def execFor : Nat → String → Expr → Stmt → Interpreter → Res Unit
  | 0, _, _, _, _ => .timeout
  | fuel + 1, var, iterable, body, ip =>
    (evaluate fuel iterable ip).bind fun it ip1 =>
      match it with
      | .list l => forLoop fuel var l body ip1
      | .dict d => forLoop fuel var ((ip1.enumerate d).map fun kv => Value.string kv.1) body ip1
      | .string s => forLoop fuel var (s.data.map fun ch => Value.string (String.singleton ch)) body ip1
      | _ => throwRT "for 'in' expects list, dict, or string" ip1
termination_by structural fuel => fuel

def execImport : Nat → String → Interpreter → Res Unit
  | 0, _, _ => .timeout
  | fuel + 1, rawPath, ip =>
    let key := resolveImport ip.current_dir ip.builtins_dir rawPath
    if ip.loaded_files.contains key then .ok () ip
    else
      let ip1 := { ip with loaded_files := ip.loaded_files ++ [key] }
      match mapFind ip1.files key with
      | none => throwRT ("import: cannot open " ++ key) ip1
      | some src =>
        match frontEnd fuel src with
        | .timeout => .timeout
        | .error e => throwRT e ip1
        | .stdException w => .throw (.StdException w) ip1
        | .ok stmts =>
          match execStmts fuel stmts { ip1 with current_dir := parentPath key } with
          | .ok _ ip2 => .ok () { ip2 with current_dir := ip1.current_dir }
          | .throw e ip2 => .throw e { ip2 with current_dir := ip1.current_dir }
          | .timeout => .timeout
          | .unsupported w => .unsupported w
termination_by structural fuel => fuel

/-- The method `evaluate`.  The two operands of a binary operator that is not
logical are evaluated left to right (C++ leaves the order open). -/
def evaluate : Nat → Expr → Interpreter → Res Value
  | 0, _, _ => .timeout
  | fuel + 1, expr, ip =>
    match expr with
    | .LiteralExpr v => .ok v.toValue ip
    | .VarExpr name =>
      match ip.getPtr ip.env name with
      | some v => .ok v ip
      | none => .ok .null ip
    | .AssignExpr name value =>
      (evaluate fuel value ip).bind fun v ip1 =>
        match ip1.assign ip1.env name v with
        | some ip2 => .ok v ip2
        | none => throwRT ("Undefined variable: " ++ name) ip1
    | .GroupingExpr e => evaluate fuel e ip
    | .UnaryExpr op right => (evaluate fuel right ip).bind fun r ip1 => liftE (evalUnary op r) ip1
    | .BinaryExpr left op right =>
      if op.type = .AND_AND || op.type = .AND_KW then
        (evaluate fuel left ip).bind fun l ip1 =>
          if !isTruthy l then .ok (.bool false) ip1
          else (evaluate fuel right ip1).bind fun r ip2 =>
            liftE (evalBinary l (if op.type = .AND_KW then Parser.normalize op .AND_AND else op) r) ip2
      else if op.type = .OR_OR || op.type = .OR_KW then
        (evaluate fuel left ip).bind fun l ip1 =>
          if isTruthy l then .ok (.bool true) ip1
          else (evaluate fuel right ip1).bind fun r ip2 =>
            liftE (evalBinary l (if op.type = .OR_KW then Parser.normalize op .OR_OR else op) r) ip2
      else
        (evaluate fuel left ip).bind fun l ip1 =>
        (evaluate fuel right ip1).bind fun r ip2 => liftE (evalBinary l op r) ip2
    | .CallExpr callee args => evalCall fuel callee args ip
    | .GetExpr object name => evalGet fuel object name ip
    | .SetExpr object name value => evalSet fuel object name value ip
    | .IndexExpr object index => evalIndex fuel object index ip
    | .SetIndexExpr object index value => evalSetIndex fuel object index value ip
termination_by structural fuel => fuel

/-- The loop `for (auto& a : c->args) evaluated.push_back(evaluate(a));`. -/
def evalArgs : Nat → List Expr → Interpreter → Res (List Value)
  | 0, _, _ => .timeout
  | _ + 1, [], ip => .ok [] ip
  | fuel + 1, a :: rest, ip =>
    (evaluate fuel a ip).bind fun v ip1 =>
    (evalArgs fuel rest ip1).bind fun vs ip2 => .ok (v :: vs) ip2
termination_by structural fuel => fuel

/-- The loop of the dict-literal marker, two arguments at a time.  With an odd
number of arguments the source reads past the end of the vector. -/
def evalDict : Nat → List Expr → List (String × Value) → Interpreter → Res Value
  | 0, _, _, _ => .timeout
  | _ + 1, [], d, ip => .ok (.dict d) ip
  | _ + 1, [_], _, _ => .unsupported "dict literal marker with an odd number of arguments"
  | fuel + 1, k :: v :: rest, d, ip =>
    (evaluate fuel k ip).bind fun kv ip1 =>
    (evaluate fuel v ip1).bind fun vv ip2 =>
      match kv with
      | .string key => evalDict fuel rest (mapSet d key vv) ip2
      | _ => badVariant ip2
termination_by structural fuel => fuel

def evalCall : Nat → Expr → List Expr → Interpreter → Res Value
  | 0, _, _, _ => .timeout
  | fuel + 1, callee, args, ip =>
    if isMarker callee "__list_literal__" then
      (evalArgs fuel args ip).bind fun lst ip1 => .ok (.list lst) ip1
    else if isMarker callee "__dict_literal__" then evalDict fuel args [] ip
    else
      (evaluate fuel callee ip).bind fun cal ip1 =>
        match cal with
        | .native nf =>
          (evalArgs fuel args ip1).bind fun evaluated ip2 => callNative fuel nf.fn evaluated ip2
        | .function uf =>
          (evalArgs fuel args ip1).bind fun evaluated ip2 => callFunction fuel uf evaluated ip2
        | .cls kc =>
          (evalArgs fuel args ip1).bind fun evaluated ip2 => callClass fuel kc evaluated ip2
        | _ => throwRT "Can only call functions/classes" ip1
termination_by structural fuel => fuel

def evalGet : Nat → Expr → String → Interpreter → Res Value
  | 0, _, _, _ => .timeout
  | fuel + 1, object, name, ip =>
    (evaluate fuel object ip).bind fun obj ip1 =>
      match obj with
      | .inst r =>
        match mapFind (ip1.instAt r).fields name with
        | some v => .ok v ip1
        | none =>
          match (ip1.instAt r).klass.findMethod name with
          | some m =>
            .ok (.function ⟨m.name, m.params, m.body, (ip1.newEnv m.closure).1, m.isInit⟩)
              ((ip1.newEnv m.closure).2.define (ip1.newEnv m.closure).1 "this" obj)
          | none => throwRT ("Undefined property: " ++ name) ip1
      | .dict d =>
        match mapFind d name with
        | some v => .ok v ip1
        | none => throwRT ("Dict has no key: " ++ name) ip1
      | .string s =>
        if name = "split" then .ok (.native ⟨"string.split", -1, .string_split s⟩) ip1
        else throwRT ("String has no property: " ++ name) ip1
      | _ => throwRT "Only instances, dicts, or strings have properties" ip1
termination_by structural fuel => fuel

/-- The method `evalSet`.  On a dict the write `(*d)[s->name] = v` lands in `obj`,
the local copy that `evaluate` returned, which is then dropped. -/
def evalSet : Nat → Expr → String → Expr → Interpreter → Res Value
  | 0, _, _, _, _ => .timeout
  | fuel + 1, object, name, value, ip =>
    (evaluate fuel object ip).bind fun obj ip1 =>
    (evaluate fuel value ip1).bind fun v ip2 =>
      match obj with
      | .inst r => .ok v (ip2.setField r name v)
      | .dict _ => .ok v ip2
      | _ => throwRT "Only instances or dicts support set" ip2
termination_by structural fuel => fuel

def evalIndex : Nat → Expr → Expr → Interpreter → Res Value
  | 0, _, _, _ => .timeout
  | fuel + 1, object, index, ip =>
    (evaluate fuel object ip).bind fun obj ip1 =>
    (evaluate fuel index ip1).bind fun idx ip2 =>
      match obj with
      | .list lst =>
        match idx with
        | .number n =>
          if n.trunc < 0 || (lst.length : Int) ≤ n.trunc then throwRT "List index out of range" ip2
          else .ok (lst.getD n.trunc.toNat .null) ip2
        | _ => badVariant ip2
      | .dict d =>
        match idx with
        | .string key =>
          match mapFind d key with
          | some v => .ok v ip2
          | none => throwRT "Key not found" ip2
        | _ => badVariant ip2
      | _ => throwRT "Indexing supported on list/dict" ip2
termination_by structural fuel => fuel

/-- The fallback of `evalSetIndex`: the object is evaluated and the write lands in
that temporary. -/
def setIndexFallback : Nat → Expr → Value → Value → Interpreter → Res Value
  | 0, _, _, _, _ => .timeout
  | fuel + 1, object, idxv, val, ip =>
    (evaluate fuel object ip).bind fun obj ip1 =>
      match storeIndex obj idxv val "Index assignment supported on list/dict" with
      | .ok _ => .ok val ip1
      | .error e => .throw e ip1
termination_by structural fuel => fuel

def evalSetIndex : Nat → Expr → Expr → Expr → Interpreter → Res Value
  | 0, _, _, _, _ => .timeout
  | fuel + 1, object, index, value, ip =>
    (evaluate fuel index ip).bind fun idxv ip1 =>
    (evaluate fuel value ip1).bind fun val ip2 =>
      match object with
      | .GetExpr geObject geName =>
        (evaluate fuel geObject ip2).bind fun base ip3 =>
          match base with
          | .inst r =>
            -- `Value &slot = (*inst)->fields[ge->name];` adds a null field when absent
            let slot := (mapFind (ip3.instAt r).fields geName).getD .null
            let ip4 := ip3.setField r geName slot
            match storeIndex slot idxv val "Index assignment on non-indexable field" with
            | .ok c => .ok val (ip4.setField r geName c)
            | .error e => .throw e ip4
          | .dict d =>
            -- `Value &slot = (*d)[ge->name];` refers into `base`, a local copy
            match storeIndex ((mapFind d geName).getD .null) idxv val
                "Index assignment on non-indexable dict property" with
            | .ok _ => .ok val ip3
            | .error e => .throw e ip3
          | _ => setIndexFallback fuel object idxv val ip3
      | .VarExpr name =>
        match ip2.findEnv name ip2.envs.length ip2.env with
        | none => throwRT ("Undefined variable: " ++ name) ip2
        | some e1 =>
          match storeIndex ((mapFind (ip2.envAt e1).values name).getD .null) idxv val
              "Index assignment on non-indexable variable" with
          | .ok c => .ok val (ip2.define e1 name c)
          | .error e => .throw e ip2
      | _ => setIndexFallback fuel object idxv val ip2
termination_by structural fuel => fuel

/-- The method `Function::call`. -/
def callFunction : Nat → Function → List Value → Interpreter → Res Value
  | 0, _, _, _ => .timeout
  | fuel + 1, f, args, ip =>
    if args.length != f.params.length then throwRT "Arity mismatch" ip
    else
      match execBlock fuel f.body (ip.newEnv f.closure).1
          ((f.params.zip args).foldl (fun s pa => s.define (ip.newEnv f.closure).1 pa.1 pa.2)
            (ip.newEnv f.closure).2) with
      | .ok _ ip1 => if f.isInit then ip1.get (ip.newEnv f.closure).1 "this" else .ok .null ip1
      | .throw (.ReturnSignal v) ip1 =>
        if f.isInit then ip1.get (ip.newEnv f.closure).1 "this" else .ok v ip1
      | .throw e ip1 => .throw e ip1
      | .timeout => .timeout
      | .unsupported w => .unsupported w
termination_by structural fuel => fuel

/-- The method `Class::call`. -/
def callClass : Nat → Class → List Value → Interpreter → Res Value
  | 0, _, _, _ => .timeout
  | fuel + 1, k, args, ip =>
    match k.findMethod "init" with
    | some init =>
      let r := (ip.newInstance k).1
      let ip1 := (ip.newInstance k).2
      let e := (ip1.newEnv init.closure).1
      let ip2 := (ip1.newEnv init.closure).2.define e "this" (.inst r)
      if args.length != init.params.length then throwRT "Arity mismatch in init" ip2
      else
        (callFunction fuel ⟨init.name, init.params, init.body, e, true⟩ args ip2).bind
          fun _ ip3 => .ok (.inst r) ip3
    | none => .ok (.inst (ip.newInstance k).1) (ip.newInstance k).2
termination_by structural fuel => fuel

/-- The method `NativeFunction::call`: `builtin_map` here, the rest in `callBuiltin`. -/
def callNative : Nat → NativeFn → List Value → Interpreter → Res Value
  | 0, _, _, _ => .timeout
  | fuel + 1, f, args, ip =>
    match f with
    | .map =>
      match args with
      | [fn, .list l] => mapLoop fuel fn l [] ip
      | [_, _] => throwRT "map arg2 must be list" ip
      | _ => throwRT "map expects (func, list)" ip
    | _ => callBuiltin f args ip
termination_by structural fuel => fuel

/-- The loop of `builtin_map`. -/
def mapLoop : Nat → Value → List Value → List Value → Interpreter → Res Value
  | 0, _, _, _, _ => .timeout
  | _ + 1, _, [], out, ip => .ok (.list out) ip
  | fuel + 1, fn, v :: rest, out, ip =>
    match fn with
    | .function uf =>
      (callFunction fuel uf [v] ip).bind fun r ip1 => mapLoop fuel fn rest (out ++ [r]) ip1
    | .native nf =>
      (callNative fuel nf.fn [v] ip).bind fun r ip1 => mapLoop fuel fn rest (out ++ [r]) ip1
    | _ => throwRT "map arg1 must be callable" ip
termination_by structural fuel => fuel

end

/-- The method `Interpreter::interpret`: a `RuntimeError` is caught here and reported
on standard error; any other exception passes through. -/
def interpret (fuel : Nat) (stmts : List Stmt) (ip : Interpreter) : Res Unit :=
  match execStmts fuel stmts ip with
  | .throw (.RuntimeError what) ip1 =>
    .ok () { ip1 with stderr := ip1.stderr ++ "Runtime error: " ++ what ++ "\n" }
  | r => r

/-! ## Construction and the C API -/

/-- What the process offers a fresh VM: the working directory, the lines waiting on
standard input and the files that can be opened. -/
structure World where
  cwd : String
  stdin : List String
  files : List (String × String)

/-- A native global as the constructor registers it. -/
def nativeValue (name : String) (arity : Int) (fn : NativeFn) : Value := .native ⟨name, arity, fn⟩

/-- The globals defined by the constructor `Interpreter::Interpreter`, in order. -/
def initialGlobals : List (String × Value) :=
  [ ("print", nativeValue "print" (-1) .print),
    ("len", nativeValue "len" 1 .len),
    ("input", nativeValue "input" 0 .input),
    ("map", nativeValue "map" 2 .map),
    ("sqrt_bs", nativeValue "sqrt_bs" 1 .sqrt_bs),
    ("range", nativeValue "range" (-1) .range),
    ("int", nativeValue "int" 1 .int),
    ("float", nativeValue "float" 1 .float),
    ("str", nativeValue "str" 1 .str),
    ("split", nativeValue "split" (-1) .split),
    ("join", nativeValue "join" 2 .join),
    ("abs", nativeValue "abs" 1 .abs),
    ("has", nativeValue "has" 2 .has),
    ("list_input", nativeValue "list_input" (-1) .list_input),
    ("requests", .dict [
      ("get", nativeValue "requests.get" 1 .requests_get),
      ("post", nativeValue "requests.post" (-1) .requests_post),
      ("request", nativeValue "requests.request" (-1) .requests_request)]),
    ("fs", .dict [
      ("read_text", nativeValue "fs.read_text" 1 .fs_read_text),
      ("write_text", nativeValue "fs.write_text" 2 .fs_write_text),
      ("exists", nativeValue "fs.exists" 1 .fs_exists),
      ("listdir", nativeValue "fs.listdir" 1 .fs_listdir),
      ("mkdirs", nativeValue "fs.mkdirs" 1 .fs_mkdirs),
      ("remove", nativeValue "fs.remove" 1 .fs_remove)]),
    ("content", .dict [("get", nativeValue "content.get" 1 .content_get)]),
    ("c", .dict [("run", nativeValue "c.run" (-1) .c_run)]),
    ("server", .dict [("serve", nativeValue "server.serve" (-1) .server_serve)]),
    ("proc", .dict [("exec", nativeValue "proc.exec" 1 .proc_exec)]),
    ("native", .dict [("load", nativeValue "native.load" 1 .native_load)]) ]

/-- The constructor `Interpreter::Interpreter(entry_dir)`.  The VMs built here enumerate
a map in the order of insertion; every statement below that runs one holds for any
other order as well, or is about maps with a single key. -/
def Interpreter.new (entry_dir : String) (w : World) : Interpreter :=
  { envs := [⟨none, initialGlobals⟩], instances := [], env := globals,
    current_dir := entry_dir, builtins_dir := "", loaded_files := [],
    stdout := "", stderr := "", stdin := w.stdin, files := w.files,
    hostFns := [], hostCalls := [], keyRank := fun _ _ => 0 }

/-- How a call of the C API ends.  `returned` carries the return value, the string
stored through `error_message` (`none` when the call stores nothing) and the VM
afterwards; `terminate` is an exception that leaves the call uncaught. -/
inductive Outcome (α : Type) where
  | returned (value : α) (error_message : Option String) (vm : Option Interpreter)
  | terminate
  | timeout
  | unsupported (what : String)

/-- The function `AdaScript_Create`; `entry_dir = none` is a `NULL` argument. -/
def AdaScript_Create (entry_dir : Option String) (w : World) : Option Interpreter :=
  match entry_dir with
  | some d => some (Interpreter.new (cstr d) w)
  | none => some (Interpreter.new w.cwd w)

/-- The working directory `AdaScript_Eval` installs before it runs the statements:
`if (filename) current_dir = path(filename).parent_path();`. -/
def evalDir (ip : Interpreter) (filename : Option String) : Interpreter :=
  match filename with
  | some f => { ip with current_dir := parentPath (cstr f) }
  | none => ip

/-- The handlers that close the `try` block of `AdaScript_Eval` and `AdaScript_RunFile`,
applied to the outcome of `interpret`; `c` is the code of the first handler. -/
def evalHandlers (c : Int) (r : Res Unit) : Outcome Int :=
  match r with
  | .ok _ ip1 => .returned 0 none (some ip1)
  | .throw (.RuntimeError what) ip1 => .returned c (some (cstr what)) (some ip1)
  | .throw (.StdException what) ip1 => .returned (c + 1) (some (cstr what)) (some ip1)
  | .throw (.ReturnSignal _) _ => .terminate
  | .timeout => .timeout
  | .unsupported w => .unsupported w

/-- The function `AdaScript_Eval`.  `vm`, `source` and `filename` are `none` for a
`NULL` pointer; `error_message` is taken to be a valid pointer. -/
def AdaScript_Eval (fuel : Nat) (vm : Option Interpreter) (source filename : Option String) :
    Outcome Int :=
  match vm, source with
  | some ip, some src =>
    match frontEnd fuel (cstr src) with
    | .timeout => .timeout
    | .error e => .returned 2 (some (cstr e)) (some ip)
    | .stdException w => .returned 3 (some (cstr w)) (some ip)
    | .ok stmts => evalHandlers 2 (interpret fuel stmts (evalDir ip filename))
  | _, _ => .returned 1 (some "invalid vm or source") vm

/-- The function `AdaScript_RunFile`. -/
def AdaScript_RunFile (fuel : Nat) (vm : Option Interpreter) (path : Option String) :
    Outcome Int :=
  match vm, path with
  | some ip, some p =>
    match mapFind ip.files (cstr p) with
    | none => .returned 2 (some "failed to open file") (some ip)
    | some src =>
      match frontEnd fuel src with
      | .timeout => .timeout
      | .error e => .returned 3 (some (cstr e)) (some ip)
      | .stdException w => .returned 4 (some (cstr w)) (some ip)
      | .ok stmts =>
        evalHandlers 3 (interpret fuel stmts { ip with current_dir := parentPath (cstr p) })
  | _, _ => .returned 1 (some "invalid vm or path") vm

/-- The argument vector of `AdaScript_Call` as string values:
`av.emplace_back(std::string(args[i] ? args[i] : ""))`. -/
def callArgs (args : List (Option String)) : List Value :=
  args.map fun a => match a with
    | some s => Value.string (cstr s)
    | none => Value.string ""

/-- Whether a value is of one of the three kinds `AdaScript_Call` dispatches on. -/
def Value.isCallable : Value → Bool
  | .native _ => true
  | .function _ => true
  | .cls _ => true
  | _ => false

/-- The dispatch of `AdaScript_Call` on the kind of the target. -/
def callTarget (fuel : Nat) (target : Value) (av : List Value) (ip : Interpreter) : Res Value :=
  match target with
  | .native nf => callNative fuel nf.fn av ip
  | .function uf => callFunction fuel uf av ip
  | .cls kc => callClass fuel kc av ip
  | _ => throwRT "Target is not callable" ip

/-- The tail of `AdaScript_Call`: the returned string, or the handlers. -/
def callHandlers (r : Res Value) : Outcome (Option String) :=
  match r with
  | .ok v ip1 => .returned (some (cstr (value_to_string v))) none (some ip1)
  | .throw (.RuntimeError what) ip1 => .returned none (some (cstr what)) (some ip1)
  | .throw (.StdException what) ip1 => .returned none (some (cstr what)) (some ip1)
  | .throw (.ReturnSignal _) _ => .terminate
  | .timeout => .timeout
  | .unsupported w => .unsupported w

/-- The function `AdaScript_Call`; the value is `none` for a `NULL` return.  `argc`
is the length of `args`. -/
def AdaScript_Call (fuel : Nat) (vm : Option Interpreter) (func_name : Option String)
    (args : List (Option String)) : Outcome (Option String) :=
  match vm, func_name with
  | some ip, some fname =>
    match ip.getPtr globals (cstr fname) with
    | none => .returned none (some (cstr ("Undefined function: " ++ cstr fname))) (some ip)
    | some target => callHandlers (callTarget fuel target (callArgs args) ip)
  | _, _ => .returned none (some "invalid vm or func_name") vm

/-- The function `AdaScript_RegisterNativeStringFn`: the return code and the VM
afterwards.  `name` and `fn` are `none` for a `NULL` pointer. -/
def AdaScript_RegisterNativeStringFn (vm : Option Interpreter) (name : Option String)
    (arity : Int) (fn : Option HostFn) : Int × Option Interpreter :=
  match vm, name, fn with
  | some ip, some n, some f =>
    (0, some ({ ip with hostFns := ip.hostFns ++ [f] }.define globals (cstr n)
      (.native ⟨cstr n, arity, .thunk ip.hostFns.length⟩)))
  | _, _, _ => (1, vm)

/-! ## Observations used in the statements below -/

/-- The value a call of the C API returned, if it returned. -/
def Outcome.value? {α : Type} : Outcome α → Option α
  | .returned v _ _ => some v
  | _ => none

/-- The string a call of the C API stored through `error_message`. -/
def Outcome.message? {α : Type} : Outcome α → Option String
  | .returned _ m _ => m
  | _ => none

/-- The VM after a call of the C API. -/
def Outcome.vm? {α : Type} : Outcome α → Option Interpreter
  | .returned _ _ vm => vm
  | _ => none

/-- Standard output of a VM. -/
def vmStdout : Option Interpreter → String
  | some ip => ip.stdout
  | none => ""

/-- Standard error of a VM. -/
def vmStderr : Option Interpreter → String
  | some ip => ip.stderr
  | none => ""

/-- The message of the `RuntimeError` in flight, if that is how the run ended. -/
def Res.runtimeError? {α : Type} : Res α → Option String
  | .throw (.RuntimeError what) _ => some what
  | _ => none

/-- Whether the front end produced exactly these statements. -/
def ParseResult.yields (r : ParseResult) (stmts : List Stmt) : Bool :=
  match r with
  | .ok s => Stmt.beqList s stmts
  | _ => false

/-- The message of the `RuntimeError` of the lexer or the parser, if the front end
failed with one. -/
def ParseResult.error? : ParseResult → Option String
  | .error e => some e
  | _ => none

/-- The `what()` of the exception of the standard library, if the front end failed
with one. -/
def ParseResult.stdException? : ParseResult → Option String
  | .stdException w => some w
  | _ => none

/-- The message of the `RuntimeError` that running a source text raises when the
statements `AdaScript_Eval` obtains from it are executed without the handler of
`interpret`; `none` when the text does not lex or parse, or runs differently. -/
def sourceRuntimeError? (fuel : Nat) (ip : Interpreter) (src : String)
    (filename : Option String) : Option String :=
  match frontEnd fuel (cstr src) with
  | .ok stmts => (execStmts fuel stmts (evalDir ip filename)).runtimeError?
  | _ => none

/-- The kinds that `equal` compares by content. -/
def Value.isScalar : Value → Bool
  | .null => true
  | .bool _ => true
  | .number _ => true
  | .string _ => true
  | _ => false

/-- The host callback `c_concat` of the tests: the concatenation of all arguments. -/
def c_concat : HostFn := fun args => some (String.join args)

/-- A process with no input and no files. -/
def emptyWorld : World := ⟨"", [], []⟩

/-- A VM as `AdaScript_Create(NULL)` returns it in the empty world. -/
def freshVM : Option Interpreter := AdaScript_Create none emptyWorld

/-- The interpreter of `freshVM`. -/
def freshIp : Interpreter := Interpreter.new "" emptyWorld

/-- The token of a binary or unary operator as the lexer emits it. -/
def opToken (t : TokenType) (lexeme : String) : Token := ⟨t, lexeme, 1, 1⟩

/-- The script of the embedding test `test_c_api.c`, without its `print` line. -/
def greetSource : String := "func greet(x) \x7b return c_concat(\"Hello, \", x); \x7d"

/-- The statement `greetSource` parses to. -/
def greetStmt : Stmt :=
  .FunctionStmt "greet" ["x"]
    [.ReturnStmt (some (.CallExpr (.VarExpr "c_concat")
      [.LiteralExpr (.string "Hello, "), .VarExpr "x"]))]

/-- The call `AdaScript_RegisterNativeStringFn(vm, "c_concat", -1, c_concat, NULL)` of the
tests, keeping the VM. -/
def registerConcat (vm : Option Interpreter) : Option Interpreter :=
  (AdaScript_RegisterNativeStringFn vm (some "c_concat") (-1) (some c_concat)).2

/-- The class program of the specification, written with `new`. -/
def newProgram : String :=
  "class C \x7b func init(x)\x7b this.x = x; \x7d func get()\x7b return this.x; \x7d \x7d "
    ++ "let c = new C(7); print(c.get());"

/-- The same program without `new`. -/
def plainProgram : String :=
  "class C \x7b func init(x)\x7b this.x = x; \x7d func get()\x7b return this.x; \x7d \x7d "
    ++ "let c = C(7); print(c.get());"

/-- The tokens of a source text, empty when it does not lex. -/
def tokensOf (src : String) : List Token :=
  match lex src with
  | .ok ts => ts
  | _ => []

/-- Run a source text with `AdaScript_Eval` on a fresh VM, with no file name. -/
def runFresh (src : String) : Outcome Int := AdaScript_Eval 200 freshVM (some src) none

/-- The statements `let b = a; b[idx] = val;` for literals `idx` and `val`. -/
def aliasThenStore (a b : String) (idx val : Literal) : List Stmt :=
  [.LetStmt b (.VarExpr a),
   .ExprStmt (.SetIndexExpr (.VarExpr b) (.LiteralExpr idx) (.LiteralExpr val))]

/-- A fresh interpreter in which the global `a` holds the list `[1, 2]`. -/
def listA : Interpreter :=
  freshIp.define globals "a" (.list [.number ⟨1, 1⟩, .number ⟨2, 1⟩])

/-- Whether a value is of kind string. -/
def Value.isString : Value → Bool
  | .string _ => true
  | _ => false

/-- Whether a value is of kind number. -/
def Value.isNumber : Value → Bool
  | .number _ => true
  | _ => false

/-- The expression `name == name`, with the operator token at the given position. -/
def selfEquality (name : String) (line col : Nat) : Expr :=
  .BinaryExpr (.VarExpr name) ⟨.EQUAL_EQUAL, "==", line, col⟩ (.VarExpr name)

/-- Whether scope `e` defines `name`: `values.count(name)` of that environment. -/
def Interpreter.defines (ip : Interpreter) (name : String) (e : Nat) : Bool :=
  mapHas (ip.envAt e).values name

/-- The scopes on the chain from `e`, innermost first: `e`, its parent, the parent of
that one, and so on, following at most `fuel` links. -/
def Interpreter.scopeChain (ip : Interpreter) : Nat → Nat → List Nat
  | 0, _ => []
  | fuel + 1, e =>
    e :: match (ip.envAt e).parent with
      | some p => ip.scopeChain fuel p
      | none => []

/-- A heap in which every environment was allocated after its parent, as
`std::make_shared<Environment>(parent)` guarantees. -/
def Interpreter.WellFormed (ip : Interpreter) : Prop :=
  ∀ e, e < ip.envs.length → ∀ p ∈ (ip.envAt e).parent, p < e

instance (ip : Interpreter) : Decidable ip.WellFormed := by
  unfold Interpreter.WellFormed; infer_instance

/-- The native `has` as the interpreter's constructor registers it. -/
def hasNative : Value := nativeValue "has" 2 .has

/-- A fresh interpreter in which the global `d` holds the dict with key `k` bound to 1. -/
def dictD : Interpreter := freshIp.define globals "d" (.dict [("k", .number ⟨1, 1⟩)])

/-- Whether a value is an instance or a dict, the two kinds `evalSet` accepts. -/
def Value.isSetTarget : Value → Bool
  | .inst _ => true
  | .dict _ => true
  | _ => false

/-- The state after `evalGet` has bound a method of closure `closure` to `obj`: a new
environment with that parent, in which `this` is defined. -/
def Interpreter.bindThis (ip : Interpreter) (closure : Nat) (obj : Value) : Interpreter :=
  (ip.newEnv closure).2.define (ip.newEnv closure).1 "this" obj

/-- The function value `evalGet` returns for method `m`: `m` with closure `e`. -/
def Function.boundTo (m : Function) (e : Nat) : Function :=
  ⟨m.name, m.params, m.body, e, m.isInit⟩

/-- The method `get` of the class `C` below, declared in the globals. -/
def getMethod : Function :=
  ⟨"get", [], [.ReturnStmt (some (.GetExpr (.VarExpr "this") "x"))], globals, false⟩

/-- A fresh interpreter in which the global `a` holds an instance, with field `x` equal
to 1, of a class `C` whose only method is `get`. -/
def instA : Interpreter :=
  ((freshIp.newInstance ⟨"C", [("get", getMethod)]⟩).2.setField 0 "x" (.number ⟨1, 1⟩)).define
    globals "a" (.inst 0)

/-- The state in which `Function::call` runs the body: a new environment whose parent is
the closure, in which `define(params[i], args[i])` has been done for every `i` in order. -/
def Interpreter.bindParams (ip : Interpreter) (f : Function) (args : List Value) : Interpreter :=
  (f.params.zip args).foldl (fun s pa => s.define ip.envs.length pa.1 pa.2) (ip.newEnv f.closure).2

/-- What `Function::call` makes of the way the body ended, `local` being the
environment of the call. -/
def finishCall (f : Function) (loc : Nat) : Res Unit → Res Value
  | .ok _ ip1 => if f.isInit then ip1.get loc "this" else .ok .null ip1
  | .throw (.ReturnSignal v) ip1 => if f.isInit then ip1.get loc "this" else .ok v ip1
  | .throw e ip1 => .throw e ip1
  | .timeout => .timeout
  | .unsupported w => .unsupported w

/-- The function `Class::call` invokes for the method `init`: bound to environment `e`
and flagged as initializer. -/
def Function.asInit (m : Function) (e : Nat) : Function :=
  ⟨m.name, m.params, m.body, e, true⟩

/-- The function value that `func name(params) { return x; }` defines in scope `S`. -/
def readerOf (name : String) (params : List String) (x : String) (S : Nat) : Function :=
  ⟨name, params, [.ReturnStmt (some (.VarExpr x))], S, false⟩

/-- What a run of interpreter code that starts in `ip` and ends in `ip1` preserves.
The environment pointer and the current directory are restored; environments and
instances are only added; an environment that existed keeps its parent and loses no
name, and gains names only if it is the scope `w` in which the code defines; an
instance keeps its class; the registry of loaded files loses no entry; the directory
of the builtins and the files that can be opened stay as they were. -/
structure Interpreter.Frame (w : Option Nat) (ip ip1 : Interpreter) : Prop where
  env : ip1.env = ip.env
  current_dir : ip1.current_dir = ip.current_dir
  length : ip.envs.length ≤ ip1.envs.length
  instances : ip.instances.length ≤ ip1.instances.length
  klass : ∀ r, r < ip.instances.length → (ip1.instAt r).klass = (ip.instAt r).klass
  loaded : ∀ p, p ∈ ip.loaded_files → p ∈ ip1.loaded_files
  parent : ∀ e, e < ip.envs.length → (ip1.envAt e).parent = (ip.envAt e).parent
  mono : ∀ e n, e < ip.envs.length → mapHas (ip.envAt e).values n = true →
    mapHas (ip1.envAt e).values n = true
  fixed : ∀ e n, e < ip.envs.length → w ≠ some e →
    mapHas (ip1.envAt e).values n = mapHas (ip.envAt e).values n
  builtins_dir : ip1.builtins_dir = ip.builtins_dir
  files : ip1.files = ip.files

/-- The frame condition on an outcome: it holds of the state the code ended in,
normally or by an exception. -/
def Res.Framed {α : Type} (w : Option Nat) (ip : Interpreter) : Res α → Prop
  | .ok _ ip1 => ip.Frame w ip1
  | .throw _ ip1 => ip.Frame w ip1
  | .timeout => True
  | .unsupported _ => True

/-- The frame condition for every function of the interpreter run with fuel `fuel`:
statements may define names in the current scope, a block in the scope it is given,
expressions and calls in no existing scope. -/
structure FramedAt (fuel : Nat) : Prop where
  execute : ∀ s ip, (execute fuel s ip).Framed (some ip.env) ip
  execStmts : ∀ ss ip, (execStmts fuel ss ip).Framed (some ip.env) ip
  execBlock : ∀ ss e ip, (execBlock fuel ss e ip).Framed (some e) ip
  whileLoop : ∀ c b ip, (whileLoop fuel c b ip).Framed (some ip.env) ip
  forLoop : ∀ x l b ip, (forLoop fuel x l b ip).Framed (some ip.env) ip
  execFor : ∀ x it b ip, (execFor fuel x it b ip).Framed (some ip.env) ip
  execImport : ∀ p ip, (execImport fuel p ip).Framed (some ip.env) ip
  evaluate : ∀ e ip, (evaluate fuel e ip).Framed none ip
  evalArgs : ∀ es ip, (evalArgs fuel es ip).Framed none ip
  evalDict : ∀ es d ip, (evalDict fuel es d ip).Framed none ip
  evalCall : ∀ c es ip, (evalCall fuel c es ip).Framed none ip
  evalGet : ∀ o n ip, (evalGet fuel o n ip).Framed none ip
  evalSet : ∀ o n v ip, (evalSet fuel o n v ip).Framed none ip
  evalIndex : ∀ o i ip, (evalIndex fuel o i ip).Framed none ip
  setIndexFallback : ∀ o i v ip, (setIndexFallback fuel o i v ip).Framed none ip
  evalSetIndex : ∀ o i v ip, (evalSetIndex fuel o i v ip).Framed none ip
  callFunction : ∀ f args ip, (callFunction fuel f args ip).Framed none ip
  callClass : ∀ k args ip, (callClass fuel k args ip).Framed none ip
  callNative : ∀ f args ip, (callNative fuel f args ip).Framed none ip
  mapLoop : ∀ f l out ip, (mapLoop fuel f l out ip).Framed none ip

/-- The state in which `execute` runs the statements of a block: a new child
environment of the current one, made current. -/
def Interpreter.enterBlock (ip : Interpreter) : Interpreter :=
  { (ip.newEnv ip.env).2 with env := ip.envs.length }

/-- Whether a value is a list. -/
def Value.isList : Value → Bool
  | .list _ => true
  | _ => false

/-- The statement `let a,b,c = xs;` of the specification, as the parser builds it. -/
def unpackStmt : Stmt := .MultiAssignStmt ["a", "b", "c"] (.VarExpr "xs")

/-- The statement `let a, a = xs;`: one name twice. -/
def unpackTwice : Stmt := .MultiAssignStmt ["a", "a"] (.VarExpr "xs")

/-- Whether a block ended the way a function body may end: by falling off its end or
at a `return`. -/
def Res.completed : Res Unit → Bool
  | .ok _ _ => true
  | .throw (.ReturnSignal _) _ => true
  | _ => false

/-- The state a run ended in, when it ended normally or by an exception. -/
def Res.state? {α : Type} : Res α → Option Interpreter
  | .ok _ ip => some ip
  | .throw _ ip => some ip
  | _ => none

/-- The state in which `Class::call` invokes `init`: the instance is allocated and a
new environment, child of the closure of `init`, defines `this` as that instance. -/
def Interpreter.initCall (ip : Interpreter) (k : Class) (init : Function) : Interpreter :=
  (ip.newInstance k).2.bindThis init.closure (.inst ip.instances.length)

/-- An initializer without parameters, with the given body and closure. -/
def initOf (body : List Stmt) (closure : Nat) : Function := ⟨"init", [], body, closure, true⟩

/-- The method `init` of `returningClass`: no parameter, body `return 99;`. -/
def returningInit : Function :=
  ⟨"init", [], [.ReturnStmt (some (.LiteralExpr (.number ⟨99, 1⟩)))], globals, true⟩

/-- A class declared in the globals whose only method is `returningInit`. -/
def returningClass : Class := ⟨"C", [("init", returningInit)]⟩

/-- A program that evaluates `&&` and `||` with an assignment as the right operand. -/
def shortCircuitProgram : String :=
  "let x = 0; let a = false && (x = 1); let b = true || (x = 2); print(x, a, b);"

/-- A program that branches on values of every kind with `if`, `while` and `!`. -/
def truthyProgram : String :=
  "if (\"\") print(1); if ([]) print(2); if (\x7b\x7d) print(3); if (0) print(4); "
    ++ "if (null) print(5); while (0) print(6); print(!0, !\"\", !null);"

/-- The number value that holds the integer `i`. -/
def intValue (i : Int) : Value := .number (Double.ofInt i)

/-- The condition of the loop of `builtin_range` as the claim words it: `v < stop` for a
positive step, `v > stop` for a negative one. -/
def inRange (stop step v : Int) : Prop := if 0 < step then v < stop else stop < v

/-- The loop body `print(x);`. -/
def printVar (x : String) : Stmt := .ExprStmt (.CallExpr (.VarExpr "print") [.VarExpr x])

/-- The keys of the entries of a dict, in the order of the entries, as the values
`execFor` binds to the loop variable. -/
def dictKeys (d : List (String × Value)) : List Value := d.map fun kv => Value.string kv.1

/-- The bytes of a string as the one-character strings `execFor` binds. -/
def stringItems (s : String) : List Value :=
  s.data.map fun ch => Value.string (String.singleton ch)

/-- The state in which `execImport` runs the statements of the file `key`: the file is
registered and the current directory is its directory. -/
def Interpreter.importing (ip : Interpreter) (key : String) : Interpreter :=
  { ip with loaded_files := ip.loaded_files ++ [key], current_dir := parentPath key }

/-- The state after an outcome with the current directory put back to `dir`, as
`execImport` does on both exits. -/
def restoreDir (dir : String) : Res Unit → Res Unit
  | .ok _ ip2 => .ok () { ip2 with current_dir := dir }
  | .throw e ip2 => .throw e { ip2 with current_dir := dir }
  | .timeout => .timeout
  | .unsupported w => .unsupported w

/-- The state an outcome ended in, with the exception if there is one dropped. -/
def Res.endedIn {α : Type} (r : Res α) (ip1 : Interpreter) : Prop :=
  match r with
  | .ok _ s => s = ip1
  | .throw _ s => s = ip1
  | .timeout => False
  | .unsupported _ => False

/-- The precedence level of a binary operator as the specification orders the levels,
tightest first: multiplicative 6, additive 5, comparison 4, equality 3, logical-and 2,
logical-or 1.  Assignment, the loosest level, is not a binary operator of the AST. -/
def precedence : TokenType → Option Nat
  | .STAR => some 6
  | .SLASH => some 6
  | .PERCENT => some 6
  | .PLUS => some 5
  | .MINUS => some 5
  | .LESS => some 4
  | .LESS_EQUAL => some 4
  | .GREATER => some 4
  | .GREATER_EQUAL => some 4
  | .BANG_EQUAL => some 3
  | .EQUAL_EQUAL => some 3
  | .EQUALS_KW => some 3
  | .AND_AND => some 2
  | .AND_KW => some 2
  | .OR_OR => some 1
  | .OR_KW => some 1
  | _ => none

/-- The operator token a binary node carries: the parser replaces the type of the
keyword forms `or`, `and` and `equals` by that of the symbol. -/
def astOp (op : Token) : Token :=
  if op.type = .OR_KW then Parser.normalize op .OR_OR
  else if op.type = .AND_KW then Parser.normalize op .AND_AND
  else if op.type = .EQUALS_KW then Parser.normalize op .EQUAL_EQUAL
  else op

/-- Whether an expression ends before a token of this type: it is no binary operator,
no `=` and opens no call, property access or index. -/
def endsExpression (t : TokenType) : Bool :=
  (precedence t).isNone && t != .EQUAL && t != .LEFT_PAREN && t != .DOT && t != .LEFT_BRACKET

namespace Parser

/-- The methods of the expression grammar from `unary` (level 0) up to `orExpr`
(level 6). -/
def level (ts : List Token) : Nat → Nat → Nat → PResult Expr
  | 0 => unary ts
  | 1 => factor ts
  | 2 => term ts
  | 3 => comparison ts
  | 4 => equality ts
  | 5 => andExpr ts
  | _ => orExpr ts

/-- The loop of each level from `factor` (level 1) up to `orExpr` (level 6). -/
def levelLoop (ts : List Token) : Nat → Nat → Nat → Expr → PResult Expr
  | 1 => factorLoop ts
  | 2 => termLoop ts
  | 3 => comparisonLoop ts
  | 4 => equalityLoop ts
  | 5 => andLoop ts
  | _ => orLoop ts

/-- The operator tokens the loop of each level matches. -/
def levelOps : Nat → List TokenType
  | 1 => [.STAR, .SLASH, .PERCENT]
  | 2 => [.PLUS, .MINUS]
  | 3 => [.LESS, .LESS_EQUAL, .GREATER, .GREATER_EQUAL]
  | 4 => [.BANG_EQUAL, .EQUAL_EQUAL, .EQUALS_KW]
  | 5 => [.AND_AND, .AND_KW]
  | 6 => [.OR_OR, .OR_KW]
  | _ => []

/-- Whether the loop of level `l` goes on at the token at `c`. -/
def continues (ts : List Token) (l c : Nat) : Prop :=
  (peek ts c).type ∈ levelOps l ∧ (peek ts c).type ≠ .END_OF_FILE

end Parser

/-- The tokens of `1 + 2 * 3;`. -/
def sumProductTokens : List Token :=
  [⟨.NUMBER, "1", 1, 2⟩, ⟨.PLUS, "+", 1, 4⟩, ⟨.NUMBER, "2", 1, 6⟩, ⟨.STAR, "*", 1, 8⟩,
   ⟨.NUMBER, "3", 1, 10⟩, ⟨.SEMICOLON, ";", 1, 11⟩, ⟨.END_OF_FILE, "", 1, 11⟩]

/-- The program of the specification for precedence, with a `print` of the result. -/
def precedenceProgram : String := "let x = 2 + 3 * 4; print(x);"

/-- The function definition of the specification. -/
def fibSource : String := "func f(n)\x7b if(n<2) return n; return f(n-1)+f(n-2);\x7d"

/-- The call `f(n - j)` as the parser builds it, with the `-` at column `col`. -/
def fibCall (j : Int) (col : Nat) : Expr :=
  .CallExpr (.VarExpr "f")
    [.BinaryExpr (.VarExpr "n") ⟨.MINUS, "-", 1, col⟩ (.LiteralExpr (.number ⟨j, 1⟩))]

/-- The body `fibSource` parses to. -/
def fibBody : List Stmt :=
  [.IfStmt (.BinaryExpr (.VarExpr "n") ⟨.LESS, "<", 1, 17⟩ (.LiteralExpr (.number ⟨2, 1⟩)))
      (.ReturnStmt (some (.VarExpr "n"))) none,
   .ReturnStmt (some (.BinaryExpr (fibCall 1 41) ⟨.PLUS, "+", 1, 44⟩ (fibCall 2 48)))]

/-- The function value that executing `fibSource` in scope `S` binds to `f`. -/
def fibFunction (S : Nat) : Function := ⟨"f", ["n"], fibBody, S, false⟩

/-- A state that differs from `ip` by environments allocated since: every other field,
the environment pointer included, and every environment of `ip` are as in `ip`. -/
def Interpreter.Extends (ip ip1 : Interpreter) : Prop :=
  ∃ extra, ip1 = { ip with envs := ip.envs ++ extra }

/-- The number value that holds the natural number `n`. -/
def natValue (n : Nat) : Value := .number (Double.ofNat n)

/-- A fresh interpreter whose globals bind `f` as executing `fibSource` does. -/
def fibIp : Interpreter := freshIp.define globals "f" (.function (fibFunction globals))

/-- The program that defines `f` and prints `f(10)`. -/
def fibProgram : String := fibSource ++ " print(f(10));"

/-- Whether every character of the list is a decimal digit. -/
def allDigits (cs : List Char) : Bool := cs.all isDigit

/-- The number a display text denotes when it is read again as a number literal: the
text must lex to a single NUMBER token, whose lexeme `Parser::primary` hands to
`std::stod`. -/
def reparseNumber (text : String) : Option Double :=
  match lex text with
  | .ok [t, _] => if t.type = .NUMBER then stod t.lexeme else none
  | _ => none

/-- The string a display text denotes when it is read again as a string literal: the
text between double quotes must lex to a single STRING token, whose lexeme is the
value. -/
def reparseString (text : String) : Option String :=
  match lex (String.mk (DQUOTE :: text.data ++ [DQUOTE])) with
  | .ok [t, _] => if t.type = .STRING then some t.lexeme else none
  | _ => none

/-- A program that prints `str` of a literal with seven significant digits. -/
def strProgram : String := "print(str(0.1234567)); print(str(1234567)); print(str(0.5));"

/-- The function `func f() { let x = 2; { let x = 3; return x; } }` run against a global
`x`, and a block that fails part-way, followed by a read of `x`. -/
def blockExitProgram : String :=
  "let x = 1; func f() \x7b let x = 2; \x7b let x = 3; return x; \x7d \x7d print(f()); print(x); "
    ++ "\x7b let x = 4; \x7b let x = 5; 1 / 0; \x7d \x7d"

/-- The VM after `blockExitProgram` has run on a fresh VM. -/
def afterBlockExit : Option Interpreter := (runFresh blockExitProgram).vm?

/-- The state after the insertion `loaded_files.insert(key)` of `execImport`. -/
def Interpreter.register (ip : Interpreter) (key : String) : Interpreter :=
  { ip with loaded_files := ip.loaded_files ++ [key] }

/-- The same VM in a world whose files have changed. -/
def Interpreter.withFiles (ip : Interpreter) (files : List (String × String)) : Interpreter :=
  { ip with files := files }

/-- A working directory `/w` without any file. -/
def missingWorld : World := ⟨"/w", [], []⟩

/-- The VM after `import "m";` has failed in `missingWorld`. -/
def afterFailedImport : Option Interpreter :=
  (AdaScript_Eval 200 (AdaScript_Create none missingWorld)
    (some "import \"m\"; print(\"first\");") none).vm?

/-- The VM of `afterFailedImport` once the file `/w/m.ad` exists. -/
def fileAppears : Option Interpreter :=
  afterFailedImport.map fun ip => ip.withFiles [("/w/m.ad", "print(\"m\");")]

/-- The same program run on a VM that was created when the file existed. -/
def importPresent : Outcome Int :=
  AdaScript_Eval 200 (AdaScript_Create none ⟨"/w", [], [("/w/m.ad", "print(\"m\");")]⟩)
    (some "import \"m\"; print(\"second\");") none

/-- Whether a call of the C API was left by an exception that none of its handlers
catches. -/
def Outcome.isTerminate {α : Type} : Outcome α → Bool
  | .terminate => true
  | _ => false

/-- The value of the return signal in flight, if that is how the run ended. -/
def Res.returnSignal? {α : Type} : Res α → Option Value
  | .throw (.ReturnSignal v) _ => some v
  | _ => none

/-- Standard output at the point where a run ended. -/
def Res.stdout? {α : Type} (r : Res α) : Option String := r.state?.map fun ip => ip.stdout

/-- What `Interpreter::interpret` makes of a source text on a fresh interpreter. -/
def interpretFresh (src : String) : Res Unit :=
  match frontEnd 200 src with
  | .ok stmts => interpret 200 stmts freshIp
  | _ => .timeout

/-- A program with a `return` between two `print` statements at top level. -/
def returnProgram : String := "print(1); return 7; print(2);"

/-- A working directory with a file that returns at its top level. -/
def returnWorld : World :=
  ⟨"/w", [], [("/w/r.ad", "print(\"r\"); return; print(\"no\");"),
    ("/w/main.ad", "import \"r\"; print(\"main\");")]⟩

/-- The call `AdaScript_RegisterNativeStringFn(vm, "c_concat", 0, c_concat, NULL)` on a
fresh VM: the host function is registered with arity 0. -/
def concatArityZero : Option Interpreter :=
  (AdaScript_RegisterNativeStringFn freshVM (some "c_concat") 0 (some c_concat)).2

/-- The host calls a VM has recorded. -/
def vmHostCalls : Option Interpreter → List (Nat × List String)
  | some ip => ip.hostCalls
  | none => []

/-- A multi-assign to two globals from inside a block, with a `print` of the two names
inside the block and after it. -/
def shadowProgram : String :=
  "let a = 1; let b = 2; \x7b a, b = [b, a]; print(a, b); \x7d print(a, b);"

/-- The same multi-assign in the scope that defines the two names. -/
def sameScopeProgram : String := "let a = 1; let b = 2; a, b = [b, a]; print(a, b);"

/-- A single assignment to a global from inside a block. -/
def assignProgram : String := "let a = 1; \x7b a = 5; \x7d print(a);"

/-- The statement `a, b = xs;` as the parser builds it. -/
def pairAssign : Stmt := .MultiAssignStmt ["a", "b"] (.VarExpr "xs")

/-- The tokens of `10 - 3 - 2;`. -/
def differenceTokens : List Token :=
  [⟨.NUMBER, "10", 1, 3⟩, ⟨.MINUS, "-", 1, 5⟩, ⟨.NUMBER, "3", 1, 7⟩, ⟨.MINUS, "-", 1, 9⟩,
   ⟨.NUMBER, "2", 1, 11⟩, ⟨.SEMICOLON, ";", 1, 12⟩, ⟨.END_OF_FILE, "", 1, 12⟩]

/-- A program that assigns to two variables in one chained assignment. -/
def chainProgram : String := "let x = 0; let y = 0; let z = x = y = 7; print(x, y, z);"

/-- The number of occurrences of `sep` in a text that a scan from left to right finds
when each search starts behind the occurrence found before, so that the occurrences
counted do not overlap.  The first argument bounds the number of steps; the length of
the text suffices. -/
def countOccurrences (sep : List Char) : Nat → List Char → Nat
  | 0, _ => 0
  | _ + 1, [] => 0
  | fuel + 1, c :: cs =>
    if startsWith sep (c :: cs) then 1 + countOccurrences sep fuel ((c :: cs).drop sep.length)
    else countOccurrences sep fuel cs

/-- The characters written behind the first piece by a join: the separator before each
further piece. -/
def tailData (sep : List Char) : List String → List Char
  | [] => []
  | p :: ps => sep ++ p.data ++ tailData sep ps

/-- The characters of the pieces with the separator between every two of them. -/
def joinData (sep : List Char) : List String → List Char
  | [] => []
  | p :: ps => p.data ++ tailData sep ps

/-- A program that splits and joins again, with a separator that occurs twice in a row
and with a separator whose occurrences overlap. -/
def splitJoinProgram : String :=
  "let p = split(\"a,b,,c\", \",\"); print(len(p)); print(join(p, \",\")); "
    ++ "let q = split(\"aaa\", \"aa\"); print(len(q)); print(q); print(join(q, \"aa\")); "
    ++ "print(len(split(\"\", \",\")));"

/-- No occurrence of `sep` in the text `acc.reverse ++ cs` starts inside `acc.reverse`. -/
def NoneStarts (sep acc cs : List Char) : Prop :=
  ∀ u v : List Char, acc.reverse = u ++ v → v ≠ [] → startsWith sep (v ++ cs) = false

/-- The token `t` was scanned from the characters of `src` at the offsets `a` up to
`b`: it is no END_OF_FILE token, its lexeme is that substring, and for a STRING token
the substring between the first and the last of these characters, the two quotes. -/
def TokenAt (src : List Char) (a b : Nat) (t : Token) : Prop :=
  t.type ≠ .END_OF_FILE
    ∧ (t.type ≠ .STRING → t.lexeme = substr src a (b - a))
    ∧ (t.type = .STRING → t.lexeme = substr src (a + 1) ((b - 1) - (a + 1)))

/-- The tokens were scanned, in this order, from stretches of `src` that are not empty,
do not overlap and lie between the offsets `lo` and `hi`. -/
def Spanned (src : List Char) : Nat → List Token → Nat → Prop
  | lo, [], hi => lo ≤ hi
  | lo, t :: rest, hi => ∃ a b, lo ≤ a ∧ a < b ∧ TokenAt src a b t ∧ Spanned src b rest hi

/-- A state of the lexer inside the round of `scan` that started in `lx0`: the input and
the tokens are those of `lx0`, `start` is where the round began, and at least one
character has been consumed. -/
def Lexer.Within (lx0 lx : Lexer) : Prop :=
  lx.src = lx0.src ∧ lx.start = lx0.current ∧ lx.tokens = lx0.tokens
    ∧ lx0.current < lx.current ∧ lx.current ≤ lx.src.length

/-- What one round of `scan` does when it succeeds: it consumes at least one character
and adds no token or one token, scanned from the characters consumed. -/
def Lexer.StepOK (lx0 lx1 : Lexer) : Prop :=
  lx1.src = lx0.src ∧ lx0.current < lx1.current ∧ lx1.current ≤ lx1.src.length
    ∧ (lx1.tokens = lx0.tokens
        ∨ ∃ t, lx1.tokens = lx0.tokens ++ [t] ∧ TokenAt lx0.src lx0.current lx1.current t)

/-- The types and lexemes of the tokens of a source text. -/
def tokenTexts (src : String) : List (TokenType × String) :=
  (tokensOf src).map fun t => (t.type, t.lexeme)

/-- The first two statements of a round of `scan`, `start = current; char c = advance();`:
the character read and the state after it. -/
def Lexer.begin (lx0 : Lexer) : Char × Lexer := ({ lx0 with start := lx0.current } : Lexer).advance

/-- One round of `scan` from `lx0` consumes `n` characters and adds the one token of type
`T` whose lexeme is `text`. -/
def Lexer.emits (lx0 : Lexer) (T : TokenType) (text : List Char) (n : Nat) : Prop :=
  ∃ lx1 line col, lx0.scanStep = .ok lx1 ∧ lx1.src = lx0.src ∧ lx1.current = lx0.current + n
    ∧ lx1.tokens = lx0.tokens ++ [⟨T, String.mk text, line, col⟩]

/-- One round of `scan` from `lx0` consumes `n` characters and adds no token. -/
def Lexer.skips (lx0 : Lexer) (n : Nat) : Prop :=
  ∃ lx1, lx0.scanStep = .ok lx1 ∧ lx1.src = lx0.src ∧ lx1.current = lx0.current + n
    ∧ lx1.tokens = lx0.tokens

/-- The round of `scan` from `lx0` throws, and so does the loop of `scan` from there. -/
def Lexer.fails (lx0 : Lexer) (msg : String) : Prop :=
  lx0.scanStep = .error msg ∧ ∀ n, Lexer.scanLoop (n + 1) lx0 = some (.error msg)

/-- The operators of two characters with their token types. -/
def twoCharOps : List (Char × Char × TokenType) :=
  [('!', '=', .BANG_EQUAL), ('=', '=', .EQUAL_EQUAL), ('<', '=', .LESS_EQUAL),
   ('>', '=', .GREATER_EQUAL), ('&', '&', .AND_AND), ('|', '|', .OR_OR)]

/-- The characters that `scan` passes over. -/
def blanks : List Char := [' ', Char.ofNat 13, Char.ofNat 9, NEWLINE]

/-- Whether a text does not begin with a character that satisfies `p`. -/
def stopsAt (p : Char → Bool) (post : List Char) : Prop := ∀ c rest, post = c :: rest → p c = false

/-- The message of the error `scan` throws on a source text, if it throws. -/
def lexError (src : String) : Option String :=
  match lex src with
  | .error e => some e
  | _ => none

/-- The token with nothing but its type: the kind of an operator. -/
def Token.kind (t : Token) : Token := ⟨t.type, "", 0, 0⟩

mutual

/-- The shape of an expression: the same tree with nothing but the kind in each of its
operator tokens.  Two expressions have the same shape and the same operator kinds when
their shapes are equal. -/
def Expr.shape : Expr → Expr
  | .LiteralExpr v => .LiteralExpr v
  | .VarExpr n => .VarExpr n
  | .AssignExpr n v => .AssignExpr n v.shape
  | .BinaryExpr l op r => .BinaryExpr l.shape op.kind r.shape
  | .UnaryExpr op r => .UnaryExpr op.kind r.shape
  | .GroupingExpr e => .GroupingExpr e.shape
  | .CallExpr c args => .CallExpr c.shape (Expr.shapes args)
  | .GetExpr o n => .GetExpr o.shape n
  | .SetExpr o n v => .SetExpr o.shape n v.shape
  | .IndexExpr o i => .IndexExpr o.shape i.shape
  | .SetIndexExpr o i v => .SetIndexExpr o.shape i.shape v.shape

/-- The shapes of a list of expressions. -/
def Expr.shapes : List Expr → List Expr
  | [] => []
  | a :: as => a.shape :: Expr.shapes as

end

/-- The functions of the interpreter that take an expression, run with fuel `fuel`,
do on an expression what they do on its shape. -/
structure ShapeAt (fuel : Nat) : Prop where
  evaluate : ∀ e ip, evaluate fuel (Expr.shape e) ip = evaluate fuel e ip
  evalArgs : ∀ es ip, evalArgs fuel (Expr.shapes es) ip = evalArgs fuel es ip
  evalDict : ∀ es d ip, evalDict fuel (Expr.shapes es) d ip = evalDict fuel es d ip
  evalCall : ∀ c es ip, evalCall fuel (Expr.shape c) (Expr.shapes es) ip = evalCall fuel c es ip
  evalGet : ∀ o n ip, evalGet fuel (Expr.shape o) n ip = evalGet fuel o n ip
  evalSet : ∀ o n v ip, evalSet fuel (Expr.shape o) n (Expr.shape v) ip = evalSet fuel o n v ip
  evalIndex : ∀ o i ip, evalIndex fuel (Expr.shape o) (Expr.shape i) ip = evalIndex fuel o i ip
  setIndexFallback : ∀ o i v ip,
    setIndexFallback fuel (Expr.shape o) i v ip = setIndexFallback fuel o i v ip
  evalSetIndex : ∀ o i v ip,
    evalSetIndex fuel (Expr.shape o) (Expr.shape i) (Expr.shape v) ip
      = evalSetIndex fuel o i v ip


/-- The type of the symbol that a keyword operator stands for; every other type stands
for itself. -/
def TokenType.symbol : TokenType → TokenType
  | .AND_KW => .AND_AND
  | .OR_KW => .OR_OR
  | .EQUALS_KW => .EQUAL_EQUAL
  | .NOT_KW => .BANG
  | t => t

/-- What the expression grammar reads of a token once keyword operators are taken for
their symbols: the type, and the lexeme of a name, a number or a string. -/
def Token.canon (t : Token) : Token :=
  ⟨t.type.symbol,
    if t.type = .IDENTIFIER ∨ t.type = .NUMBER ∨ t.type = .STRING then t.lexeme else "", 0, 0⟩

/-- Two outcomes of a parser method agree: both succeed, at the same cursor and with
results related by `R`, or both throw a `RuntimeError`, or both throw the same
exception of the standard library, or both run out of budget. -/
def PResult.Sim {α : Type} (R : α → α → Prop) : PResult α → PResult α → Prop
  | .ok a c, .ok b d => R a b ∧ c = d
  | .error _, .error _ => True
  | .stdException w1, .stdException w2 => w1 = w2
  | .timeout, .timeout => True
  | _, _ => False

/-- Two expressions have the same shape and the same operator kinds. -/
def sameShape (a b : Expr) : Prop := Expr.shape a = Expr.shape b

/-- Two lists of expressions have the same shapes and operator kinds. -/
def sameShapes (as bs : List Expr) : Prop := Expr.shapes as = Expr.shapes bs

/-- The methods of the expression grammar, run with budget `k`, return expressions of
the same shape on a token list and on what the grammar reads of it. -/
structure ParseShapeAt (ts : List Token) (k : Nat) : Prop where
  expression : ∀ c, PResult.Sim sameShape (Parser.expression (ts.map Token.canon) k c)
    (Parser.expression ts k c)
  assignment : ∀ c, PResult.Sim sameShape (Parser.assignment (ts.map Token.canon) k c)
    (Parser.assignment ts k c)
  level : ∀ i c, PResult.Sim sameShape (Parser.level (ts.map Token.canon) i k c)
    (Parser.level ts i k c)
  levelLoop : ∀ i c e1 e, i < 6 → sameShape e1 e →
    PResult.Sim sameShape (Parser.levelLoop (ts.map Token.canon) (i + 1) k c e1)
      (Parser.levelLoop ts (i + 1) k c e)
  exprList : ∀ c acc1 acc, sameShapes acc1 acc →
    PResult.Sim sameShapes (Parser.exprList (ts.map Token.canon) k c acc1)
      (Parser.exprList ts k c acc)
  callLoop : ∀ c e1 e, sameShape e1 e →
    PResult.Sim sameShape (Parser.callLoop (ts.map Token.canon) k c e1)
      (Parser.callLoop ts k c e)
  call : ∀ c, PResult.Sim sameShape (Parser.call (ts.map Token.canon) k c) (Parser.call ts k c)
  dictEntries : ∀ c acc1 acc, sameShapes acc1 acc →
    PResult.Sim sameShapes (Parser.dictEntries (ts.map Token.canon) k c acc1)
      (Parser.dictEntries ts k c acc)
  primary : ∀ c, PResult.Sim sameShape (Parser.primary (ts.map Token.canon) k c)
    (Parser.primary ts k c)

/-- The keyword operators paired with the types of their symbols. -/
def operatorAliases : List (TokenType × TokenType) :=
  [(.AND_KW, .AND_AND), (.OR_KW, .OR_OR), (.EQUALS_KW, .EQUAL_EQUAL), (.NOT_KW, .BANG)]

/-- The tokens of `a and b` followed by the end of the file. -/
def wordTokens : List Token :=
  [⟨.IDENTIFIER, "a", 1, 2⟩, ⟨.AND_KW, "and", 1, 6⟩, ⟨.IDENTIFIER, "b", 1, 8⟩,
   ⟨.END_OF_FILE, "", 1, 8⟩]

/-- The tokens of `a && b` followed by the end of the file. -/
def symbolTokens : List Token :=
  [⟨.IDENTIFIER, "a", 1, 2⟩, ⟨.AND_AND, "&&", 1, 5⟩, ⟨.IDENTIFIER, "b", 1, 7⟩,
   ⟨.END_OF_FILE, "", 1, 7⟩]

/-- A program that combines calls of a printing function with the keyword operators. -/
def wordProgram : String :=
  "func t(x) \x7b print(x); return x; \x7d " ++
  "print(t(1) equals 1 and not t(false) or t(3)); print(not (t(2) equals 3) and t(0) or t(5));"

/-- The program `wordProgram` written with the symbols. -/
def symbolProgram : String :=
  "func t(x) \x7b print(x); return x; \x7d " ++
  "print(t(1) == 1 && !t(false) || t(3)); print(!(t(2) == 3) && t(0) || t(5));"

/-- The words of the keyword operators with the token types the lexer gives them. -/
def operatorWords : List (List Char × TokenType) :=
  [("and".data, .AND_KW), ("or".data, .OR_KW), ("equals".data, .EQUALS_KW),
   ("not".data, .NOT_KW)]

/-- A number literal beyond the largest double: a one followed by 309 zeros. -/
def hugeLiteral : String := String.mk ('1' :: List.replicate 309 '0')

/-- A number literal below the smallest double: `0.` followed by 399 zeros and a one. -/
def tinyLiteral : String := String.mk ('0' :: '.' :: List.replicate 399 '0' ++ ['1'])

/-- The value of a `Double` as a rational number. -/
def Double.toRat (a : Double) : ℚ := (a.num : ℚ) / (a.den : ℚ)

/-- A program that builds `range(2^53, 2^53 + 4)` and prints its length, whether its
first two elements are equal and whether its last element is below the stop. -/
def rangeProgram : String :=
  "let r = range(9007199254740992, 9007199254740996); print(len(r)); "
    ++ "print(r[0] == r[1]); print(r[3] < 9007199254740996);"

/-- The number the body of `fibSource` computes for the argument `n`: `n` itself below 2,
and otherwise the sum, in double arithmetic, of the numbers for `n - 1` and `n - 2`. -/
def fibDouble : Nat → Double
  | 0 => Double.ofNat 0
  | 1 => Double.ofNat 1
  | n + 2 => (fibDouble (n + 1)).add (fibDouble n)

/-- A program with one `for` loop over a list, a dict with one key, a string and an empty
list, a loop that counts the keys of a dict with three keys, and a loop over a
number. -/
def forLoopsProgram : String :=
  "for (x in [1, 2]) print(x); for (k in \x7b\"a\": 1\x7d) print(k); "
    ++ "for (c in \"hi\") print(c); for (x in []) print(x); "
    ++ "let n = 0; for (k in \x7b\"a\": 1, \"b\": 2, \"c\": 3\x7d) n = n + 1; print(n); "
    ++ "for (x in 5) print(x);"

/-- C1 (the code departs from the claim): when a source text lexes and parses and
running its statements raises a `RuntimeError`, `AdaScript_Eval` returns 0 and stores
no error message, because `interpret` has already caught the error. -/
theorem C1_eval_returns_zero_on_runtime_error (fuel : Nat) (ip : Interpreter) (src : String)
    (filename : Option String) (what : String)
    (hrun : sourceRuntimeError? fuel ip src filename = some what) :
    (AdaScript_Eval fuel (some ip) (some src) filename).value? = some 0 ∧
    (AdaScript_Eval fuel (some ip) (some src) filename).message? = none := by
  unfold sourceRuntimeError? at hrun
  cases hfront : frontEnd fuel (cstr src) with
  | error e => simp [hfront] at hrun
  | stdException w => simp [hfront] at hrun
  | timeout => simp [hfront] at hrun
  | ok stmts =>
    simp only [hfront] at hrun
    simp only [AdaScript_Eval, hfront, interpret]
    cases hres : execStmts fuel stmts (evalDir ip filename) with
    | ok a ip1 => simp [hres, Res.runtimeError?] at hrun
    | timeout => simp [hres, Res.runtimeError?] at hrun
    | unsupported w => simp [hres, Res.runtimeError?] at hrun
    | throw e ip1 =>
      cases e with
      | RuntimeError m => simp [evalHandlers, Outcome.value?, Outcome.message?]
      | StdException m => simp [hres, Res.runtimeError?] at hrun
      | ReturnSignal v => simp [hres, Res.runtimeError?] at hrun

/-- Witness for C1: the sources `1/0;` and `x = 1;` on a fresh VM. -/
theorem C1_eval_returns_zero_on_runtime_error_witness :
    (sourceRuntimeError? 100 freshIp "1/0;" none = some "Division by zero" ∧
      (AdaScript_Eval 100 (some freshIp) (some "1/0;") none).value? = some 0 ∧
      (AdaScript_Eval 100 (some freshIp) (some "1/0;") none).message? = none) ∧
    (sourceRuntimeError? 100 freshIp "x = 1;" none = some "Undefined variable: x" ∧
      (AdaScript_Eval 100 (some freshIp) (some "x = 1;") none).value? = some 0 ∧
      (AdaScript_Eval 100 (some freshIp) (some "x = 1;") none).message? = none) :=
  ⟨⟨by decide!, C1_eval_returns_zero_on_runtime_error 100 freshIp "1/0;" none
      "Division by zero" (by decide!)⟩,
   ⟨by decide!, C1_eval_returns_zero_on_runtime_error 100 freshIp "x = 1;" none
      "Undefined variable: x" (by decide!)⟩⟩

/-! ## Structural equality of syntax trees -/

mutual
theorem expr_beq_sound : ∀ (a b : Expr), Expr.beq a b = true → a = b
  | .LiteralExpr a, b, h => by
    cases b <;> first | exact Bool.noConfusion h | (simp only [Expr.beq, beq_iff_eq] at h; rw [h])
  | .VarExpr a, b, h => by
    cases b <;> first | exact Bool.noConfusion h | (simp only [Expr.beq, beq_iff_eq] at h; rw [h])
  | .AssignExpr n v, b, h => by
    cases b <;> first
      | exact Bool.noConfusion h
      | (simp only [Expr.beq, Bool.and_eq_true, beq_iff_eq] at h
         rw [h.1, expr_beq_sound _ _ h.2])
  | .BinaryExpr l o r, b, h => by
    cases b <;> first
      | exact Bool.noConfusion h
      | (simp only [Expr.beq, Bool.and_eq_true, beq_iff_eq] at h
         rw [expr_beq_sound _ _ h.1.1, h.1.2, expr_beq_sound _ _ h.2])
  | .UnaryExpr o r, b, h => by
    cases b <;> first
      | exact Bool.noConfusion h
      | (simp only [Expr.beq, Bool.and_eq_true, beq_iff_eq] at h
         rw [h.1, expr_beq_sound _ _ h.2])
  | .GroupingExpr e, b, h => by
    cases b <;> first
      | exact Bool.noConfusion h
      | (simp only [Expr.beq] at h; rw [expr_beq_sound _ _ h])
  | .CallExpr c as, b, h => by
    cases b <;> first
      | exact Bool.noConfusion h
      | (simp only [Expr.beq, Bool.and_eq_true] at h
         rw [expr_beq_sound _ _ h.1, expr_beqList_sound _ _ h.2])
  | .GetExpr o n, b, h => by
    cases b <;> first
      | exact Bool.noConfusion h
      | (simp only [Expr.beq, Bool.and_eq_true, beq_iff_eq] at h
         rw [expr_beq_sound _ _ h.1, h.2])
  | .SetExpr o n v, b, h => by
    cases b <;> first
      | exact Bool.noConfusion h
      | (simp only [Expr.beq, Bool.and_eq_true, beq_iff_eq] at h
         rw [expr_beq_sound _ _ h.1.1, h.1.2, expr_beq_sound _ _ h.2])
  | .IndexExpr o i, b, h => by
    cases b <;> first
      | exact Bool.noConfusion h
      | (simp only [Expr.beq, Bool.and_eq_true] at h
         rw [expr_beq_sound _ _ h.1, expr_beq_sound _ _ h.2])
  | .SetIndexExpr o i v, b, h => by
    cases b <;> first
      | exact Bool.noConfusion h
      | (simp only [Expr.beq, Bool.and_eq_true] at h
         rw [expr_beq_sound _ _ h.1.1, expr_beq_sound _ _ h.1.2, expr_beq_sound _ _ h.2])
theorem expr_beqList_sound : ∀ (as bs : List Expr), Expr.beqList as bs = true → as = bs
  | [], bs, h => by
    cases bs <;> first | rfl | exact Bool.noConfusion h
  | a :: as, bs, h => by
    cases bs <;> first
      | exact Bool.noConfusion h
      | (simp only [Expr.beqList, Bool.and_eq_true] at h
         rw [expr_beq_sound _ _ h.1, expr_beqList_sound _ _ h.2])
end

theorem expr_beqOpt_sound (a b : Option Expr) (h : Expr.beqOpt a b = true) : a = b := by
  cases a <;> cases b <;> first
    | rfl
    | exact Bool.noConfusion h
    | (simp only [Expr.beqOpt] at h; rw [expr_beq_sound _ _ h])

mutual
theorem stmt_beq_sound : ∀ (a b : Stmt), Stmt.beq a b = true → a = b
  | .ExprStmt e, b, h => by
    cases b <;> first
      | exact Bool.noConfusion h
      | (simp only [Stmt.beq] at h; rw [expr_beq_sound _ _ h])
  | .LetStmt n i, b, h => by
    cases b <;> first
      | exact Bool.noConfusion h
      | (simp only [Stmt.beq, Bool.and_eq_true, beq_iff_eq] at h
         rw [h.1, expr_beq_sound _ _ h.2])
  | .BlockStmt ss, b, h => by
    cases b <;> first
      | exact Bool.noConfusion h
      | (simp only [Stmt.beq] at h; rw [stmt_beqList_sound _ _ h])
  | .IfStmt c t none, b, h => by
    cases b with
    | IfStmt c1 t1 e1 =>
      cases e1 with
      | none =>
        simp only [Stmt.beq, Bool.and_eq_true] at h
        rw [expr_beq_sound _ _ h.1, stmt_beq_sound _ _ h.2]
      | some e1 => exact Bool.noConfusion h
    | _ => exact Bool.noConfusion h
  | .IfStmt c t (some e), b, h => by
    cases b with
    | IfStmt c1 t1 e1 =>
      cases e1 with
      | none => exact Bool.noConfusion h
      | some e1 =>
        simp only [Stmt.beq, Bool.and_eq_true] at h
        rw [expr_beq_sound _ _ h.1.1, stmt_beq_sound _ _ h.1.2, stmt_beq_sound _ _ h.2]
    | _ => exact Bool.noConfusion h
  | .WhileStmt c body, b, h => by
    cases b <;> first
      | exact Bool.noConfusion h
      | (simp only [Stmt.beq, Bool.and_eq_true] at h
         rw [expr_beq_sound _ _ h.1, stmt_beq_sound _ _ h.2])
  | .ReturnStmt v, b, h => by
    cases b <;> first
      | exact Bool.noConfusion h
      | (simp only [Stmt.beq] at h; rw [expr_beqOpt_sound _ _ h])
  | .FunctionStmt n ps body, b, h => by
    cases b <;> first
      | exact Bool.noConfusion h
      | (simp only [Stmt.beq, Bool.and_eq_true, beq_iff_eq] at h
         rw [h.1.1, h.1.2, stmt_beqList_sound _ _ h.2])
  | .ClassStmt n ms, b, h => by
    cases b <;> first
      | exact Bool.noConfusion h
      | (simp only [Stmt.beq, Bool.and_eq_true, beq_iff_eq] at h
         rw [h.1, stmt_beqMethods_sound _ _ h.2])
  | .StructStmt n fs, b, h => by
    cases b <;> first
      | exact Bool.noConfusion h
      | (simp only [Stmt.beq, Bool.and_eq_true, beq_iff_eq] at h; rw [h.1, h.2])
  | .UnionStmt n ts, b, h => by
    cases b <;> first
      | exact Bool.noConfusion h
      | (simp only [Stmt.beq, Bool.and_eq_true, beq_iff_eq] at h; rw [h.1, h.2])
  | .ForStmt v i body, b, h => by
    cases b <;> first
      | exact Bool.noConfusion h
      | (simp only [Stmt.beq, Bool.and_eq_true, beq_iff_eq] at h
         rw [h.1.1, expr_beq_sound _ _ h.1.2, stmt_beq_sound _ _ h.2])
  | .ImportStmt p, b, h => by
    cases b <;> first
      | exact Bool.noConfusion h
      | (simp only [Stmt.beq, beq_iff_eq] at h; rw [h])
  | .MultiAssignStmt ns v, b, h => by
    cases b <;> first
      | exact Bool.noConfusion h
      | (simp only [Stmt.beq, Bool.and_eq_true, beq_iff_eq] at h
         rw [h.1, expr_beq_sound _ _ h.2])
  | .MultiLetStmt ns, b, h => by
    cases b <;> first
      | exact Bool.noConfusion h
      | (simp only [Stmt.beq, beq_iff_eq] at h; rw [h])
theorem stmt_beqList_sound : ∀ (as bs : List Stmt), Stmt.beqList as bs = true → as = bs
  | [], bs, h => by
    cases bs <;> first | rfl | exact Bool.noConfusion h
  | a :: as, bs, h => by
    cases bs <;> first
      | exact Bool.noConfusion h
      | (simp only [Stmt.beqList, Bool.and_eq_true] at h
         rw [stmt_beq_sound _ _ h.1, stmt_beqList_sound _ _ h.2])
theorem stmt_beqMethods_sound :
    ∀ (as bs : List (String × List String × List Stmt)), Stmt.beqMethods as bs = true → as = bs
  | [], bs, h => by
    cases bs <;> first | rfl | exact Bool.noConfusion h
  | (n, ps, body) :: as, bs, h => by
    cases bs with
    | nil => exact Bool.noConfusion h
    | cons b bs =>
      obtain ⟨n1, ps1, body1⟩ := b
      simp only [Stmt.beqMethods, Bool.and_eq_true, beq_iff_eq] at h
      rw [h.1.1.1, h.1.1.2, stmt_beqList_sound _ _ h.1.2, stmt_beqMethods_sound _ _ h.2]
end

/-- A front-end result that passes the boolean test is that result. -/
theorem parseResult_eq_of_yields (r : ParseResult) (stmts : List Stmt)
    (h : r.yields stmts = true) : r = .ok stmts := by
  cases r with
  | ok s =>
    simp only [ParseResult.yields] at h
    rw [stmt_beqList_sound _ _ h]
  | error e => simp [ParseResult.yields] at h
  | stdException w => simp [ParseResult.yields] at h
  | timeout => simp [ParseResult.yields] at h

/-! ## C3: calling a script function that calls a host function -/

theorem cstr_of_nul_free (s : String) (h : NUL ∉ s.data) : cstr s = s := by
  unfold cstr
  have : s.data.takeWhile (fun c => c != NUL) = s.data := by
    rw [List.takeWhile_eq_self_iff]
    intro c hc
    simp only [bne_iff_ne, ne_eq]
    intro hcn
    exact h (hcn ▸ hc)
  rw [this]

theorem frontEnd_greetSource : frontEnd 100 (cstr greetSource) = .ok [greetStmt] :=
  parseResult_eq_of_yields _ _ (by decide!)

theorem interpret_greetStmt (ip : Interpreter) :
    interpret 100 [greetStmt] ip
      = .ok () (ip.define ip.env "greet" (.function ⟨"greet", ["x"],
          [.ReturnStmt (some (.CallExpr (.VarExpr "c_concat")
            [.LiteralExpr (.string "Hello, "), .VarExpr "x"]))], ip.env, false⟩)) := rfl

theorem cstr_hello_append (n : String) (hn : NUL ∉ n.data) :
    cstr (String.join [cstr "Hello, ", cstr n]) = "Hello, " ++ n := by
  have h1 : cstr "Hello, " = "Hello, " := by decide
  have h2 : String.join ["Hello, ", n] = "Hello, " ++ n := by
    simp [String.join]
  rw [h1, cstr_of_nul_free n hn, h2]
  apply cstr_of_nul_free
  rw [String.data_append, List.mem_append]
  rintro (h | h)
  · exact absurd h (by decide)
  · exact hn h

set_option maxHeartbeats 4000000 in
set_option maxRecDepth 100000 in
/-- The call of `greet` in the state left by evaluating `greetSource`. -/
theorem call_greet (d : String) (w : World) (cd : String) (m : String) :
    (callHandlers (callTarget 100
      (.function ⟨"greet", ["x"],
          [.ReturnStmt (some (.CallExpr (.VarExpr "c_concat")
            [.LiteralExpr (.string "Hello, "), .VarExpr "x"]))], 0, false⟩)
      [.string m]
      (Interpreter.define
        { ({ Interpreter.new d w with hostFns := [c_concat] }.define globals "c_concat"
            (.native ⟨"c_concat", -1, .thunk 0⟩)) with current_dir := cd }
        0 "greet" (.function ⟨"greet", ["x"],
          [.ReturnStmt (some (.CallExpr (.VarExpr "c_concat")
            [.LiteralExpr (.string "Hello, "), .VarExpr "x"]))], 0, false⟩)))).value?
      = some (some (cstr (cstr (String.join [cstr "Hello, ", cstr m])))) ∧
    (callHandlers (callTarget 100
      (.function ⟨"greet", ["x"],
          [.ReturnStmt (some (.CallExpr (.VarExpr "c_concat")
            [.LiteralExpr (.string "Hello, "), .VarExpr "x"]))], 0, false⟩)
      [.string m]
      (Interpreter.define
        { ({ Interpreter.new d w with hostFns := [c_concat] }.define globals "c_concat"
            (.native ⟨"c_concat", -1, .thunk 0⟩)) with current_dir := cd }
        0 "greet" (.function ⟨"greet", ["x"],
          [.ReturnStmt (some (.CallExpr (.VarExpr "c_concat")
            [.LiteralExpr (.string "Hello, "), .VarExpr "x"]))], 0, false⟩)))).message? = none :=
  ⟨rfl, rfl⟩

/-- The state in which `greetSource` leaves a VM that has `c_concat` registered. -/
theorem eval_greetSource (d : String) (w : World) (filename : Option String) :
    AdaScript_Eval 100 (registerConcat (some (Interpreter.new d w))) (some greetSource) filename
      = .returned 0 none (some (Interpreter.define
        { ({ Interpreter.new d w with hostFns := [c_concat] }.define globals "c_concat"
            (.native ⟨"c_concat", -1, .thunk 0⟩)) with
          current_dir := match filename with
            | some f => parentPath (cstr f)
            | none => d }
        0 "greet" (.function ⟨"greet", ["x"],
          [.ReturnStmt (some (.CallExpr (.VarExpr "c_concat")
            [.LiteralExpr (.string "Hello, "), .VarExpr "x"]))], 0, false⟩))) := by
  simp only [AdaScript_Eval, registerConcat, AdaScript_RegisterNativeStringFn,
    frontEnd_greetSource, interpret_greetStmt, evalHandlers]
  cases filename <;> rfl

/-- C3: in a VM created by `AdaScript_Create` in which the host function `c_concat`
(the concatenation of all its arguments) is registered, evaluating
`func greet(x) { return c_concat("Hello, ", x); }` succeeds, and afterwards
`AdaScript_Call(vm, "greet", [n], 1)` returns exactly `"Hello, "` followed by `n`,
with no error message, for every string `n` free of NUL. -/
theorem C3_greet_returns_hello (w : World) (entry_dir filename : Option String) (n : String)
    (hn : NUL ∉ n.data) :
    (AdaScript_Eval 100 (registerConcat (AdaScript_Create entry_dir w)) (some greetSource)
      filename).value? = some 0 ∧
    (AdaScript_Call 100
      (AdaScript_Eval 100 (registerConcat (AdaScript_Create entry_dir w)) (some greetSource)
        filename).vm? (some "greet") [some n]).value? = some (some ("Hello, " ++ n)) ∧
    (AdaScript_Call 100
      (AdaScript_Eval 100 (registerConcat (AdaScript_Create entry_dir w)) (some greetSource)
        filename).vm? (some "greet") [some n]).message? = none := by
  have hcreate : ∃ d, AdaScript_Create entry_dir w = some (Interpreter.new d w) := by
    cases entry_dir
    · exact ⟨_, rfl⟩
    · exact ⟨_, rfl⟩
  obtain ⟨d, hd⟩ := hcreate
  rw [hd, eval_greetSource]
  have hlook : ∀ cd : String, (Interpreter.define
        { ({ Interpreter.new d w with hostFns := [c_concat] }.define globals "c_concat"
            (.native ⟨"c_concat", -1, .thunk 0⟩)) with current_dir := cd }
        0 "greet" (.function ⟨"greet", ["x"],
          [.ReturnStmt (some (.CallExpr (.VarExpr "c_concat")
            [.LiteralExpr (.string "Hello, "), .VarExpr "x"]))], 0, false⟩)).getPtr globals
          (cstr "greet") = some (.function ⟨"greet", ["x"],
          [.ReturnStmt (some (.CallExpr (.VarExpr "c_concat")
            [.LiteralExpr (.string "Hello, "), .VarExpr "x"]))], 0, false⟩) := fun _ => rfl
  have hres := call_greet d w (match filename with
            | some f => parentPath (cstr f)
            | none => d) (cstr n)
  have hstr : cstr (cstr (String.join [cstr "Hello, ", cstr (cstr n)])) = "Hello, " ++ n := by
    rw [cstr_of_nul_free n hn, cstr_hello_append n hn]
    apply cstr_of_nul_free
    rw [String.data_append, List.mem_append]
    rintro (h | h)
    · exact absurd h (by decide)
    · exact hn h
  rw [hstr] at hres
  refine ⟨rfl, ?_, ?_⟩
  · simp only [Outcome.vm?, AdaScript_Call, hlook, callArgs, List.map]
    exact hres.1
  · simp only [Outcome.vm?, AdaScript_Call, hlook, callArgs, List.map]
    exact hres.2

/-- Witness for C3: `n = "World"` in the setting of `test_c_api.c`. -/
theorem C3_greet_returns_hello_witness :
    NUL ∉ "World".data ∧
    (AdaScript_Eval 100 (registerConcat (AdaScript_Create none emptyWorld)) (some greetSource)
      (some "inline")).value? = some 0 ∧
    (AdaScript_Call 100
      (AdaScript_Eval 100 (registerConcat (AdaScript_Create none emptyWorld)) (some greetSource)
        (some "inline")).vm? (some "greet") [some "World"]).value?
      = some (some ("Hello, " ++ "World")) ∧
    (AdaScript_Call 100
      (AdaScript_Eval 100 (registerConcat (AdaScript_Create none emptyWorld)) (some greetSource)
        (some "inline")).vm? (some "greet") [some "World"]).message? = none :=
  ⟨by decide, C3_greet_returns_hello emptyWorld none (some "inline") "World" (by decide)⟩

/-! ## Maps and the environment heap -/

theorem mapFind_mapSet_self {α : Type} (m : List (String × α)) (k : String) (v : α) :
    mapFind (mapSet m k v) k = some v := by
  induction m with
  | nil => simp [mapSet, mapFind]
  | cons kv rest ih =>
    obtain ⟨k1, v1⟩ := kv
    by_cases h : k1 = k
    · simp [mapSet, mapFind, h]
    · simp [mapSet, mapFind, h, ih]

theorem mapFind_mapSet_ne {α : Type} (m : List (String × α)) (k k1 : String) (v : α)
    (h : k1 ≠ k) : mapFind (mapSet m k v) k1 = mapFind m k1 := by
  induction m with
  | nil =>
    have h' : ¬ k = k1 := fun e => h e.symm
    simp [mapSet, mapFind, h']
  | cons kv rest ih =>
    obtain ⟨k2, v2⟩ := kv
    by_cases h2 : k2 = k
    · subst h2
      have h' : ¬ k2 = k1 := fun e => h e.symm
      simp [mapSet, mapFind, h']
    · by_cases h3 : k2 = k1
      · subst h3
        simp [mapSet, mapFind, h]
      · simp [mapSet, mapFind, h2, h3, ih]

theorem define_envs_length (ip : Interpreter) (e : Nat) (n : String) (v : Value) :
    (ip.define e n v).envs.length = ip.envs.length := by
  simp [Interpreter.define]

/-- A definition in an environment that does not exist changes nothing. -/
theorem define_of_not_lt (ip : Interpreter) (e : Nat) (n : String) (v : Value)
    (he : ¬ e < ip.envs.length) : ip.define e n v = ip := by
  show ({ ip with envs := ip.envs.set e _ } : Interpreter) = ip
  rw [List.set_eq_of_length_le (by omega)]

theorem envAt_define_same (ip : Interpreter) (e : Nat) (n : String) (v : Value)
    (he : e < ip.envs.length) :
    (ip.define e n v).envAt e = { ip.envAt e with values := mapSet (ip.envAt e).values n v } := by
  simp [Interpreter.define, Interpreter.envAt, List.getD_eq_getElem?_getD, he]

theorem envAt_define_other (ip : Interpreter) (e e1 : Nat) (n : String) (v : Value)
    (h : e1 ≠ e) : (ip.define e n v).envAt e1 = ip.envAt e1 := by
  have h' : e ≠ e1 := fun x => h x.symm
  simp [Interpreter.define, Interpreter.envAt, List.getD_eq_getElem?_getD, List.getElem?_set, h']

/-- Defining `n` leaves the parent link of every environment as it was. -/
theorem envAt_define_parent (ip : Interpreter) (e e1 : Nat) (n : String) (v : Value) :
    ((ip.define e n v).envAt e1).parent = (ip.envAt e1).parent := by
  by_cases h : e1 = e
  · subst h
    by_cases he : e1 < ip.envs.length
    · rw [envAt_define_same ip e1 n v he]
    · rw [define_of_not_lt ip e1 n v he]
  · rw [envAt_define_other ip e e1 n v h]

/-- Defining `n` leaves the binding of every other name in every environment as it was. -/
theorem envAt_define_find_ne (ip : Interpreter) (e e1 : Nat) (n a : String) (v : Value)
    (ha : a ≠ n) :
    mapFind ((ip.define e n v).envAt e1).values a = mapFind (ip.envAt e1).values a := by
  by_cases h : e1 = e
  · subst h
    by_cases he : e1 < ip.envs.length
    · rw [envAt_define_same ip e1 n v he]
      exact mapFind_mapSet_ne _ _ _ _ ha
    · rw [define_of_not_lt ip e1 n v he]
  · rw [envAt_define_other ip e e1 n v h]

theorem findEnv_define_ne (ip : Interpreter) (e : Nat) (n a : String) (v : Value) (ha : a ≠ n)
    (fuel e0 : Nat) : (ip.define e n v).findEnv a fuel e0 = ip.findEnv a fuel e0 := by
  induction fuel generalizing e0 with
  | zero => rfl
  | succ k ih =>
    simp only [Interpreter.findEnv, mapHas, envAt_define_find_ne ip e e0 n a v ha,
      envAt_define_parent]
    split
    · rfl
    · split
      · exact ih _
      · rfl

/-- Reading any other name is not affected by a definition. -/
theorem getPtr_define_ne (ip : Interpreter) (e e0 : Nat) (n a : String) (v : Value)
    (ha : a ≠ n) : (ip.define e n v).getPtr e0 a = ip.getPtr e0 a := by
  simp only [Interpreter.getPtr, define_envs_length, findEnv_define_ne ip e n a v ha]
  cases ip.findEnv a ip.envs.length e0 with
  | none => rfl
  | some e1 => exact envAt_define_find_ne ip e e1 n a v ha

theorem findEnv_define_self (ip : Interpreter) (e : Nat) (n : String) (v : Value)
    (he : e < ip.envs.length) :
    (ip.define e n v).findEnv n (ip.define e n v).envs.length e = some e := by
  rw [define_envs_length]
  obtain ⟨k, hk⟩ : ∃ k, ip.envs.length = k + 1 := ⟨ip.envs.length - 1, by omega⟩
  rw [hk]
  simp [Interpreter.findEnv, mapHas, envAt_define_same ip e n v he, mapFind_mapSet_self]

/-- A name reads back the value it was just defined with, in the scope of the definition. -/
theorem getPtr_define_self (ip : Interpreter) (e : Nat) (n : String) (v : Value)
    (he : e < ip.envs.length) : (ip.define e n v).getPtr e n = some v := by
  simp only [Interpreter.getPtr, findEnv_define_self ip e n v he,
    envAt_define_same ip e n v he, mapFind_mapSet_self]

/-! ## C4: registering a native string function -/

/-- C4: registration with valid pointers returns 0 and binds the (C string of the) name
in the globals to a native function wrapping the callback, which it stores under a
fresh number.  Calling that native with any values, in any later state that still
holds the callback under that number, invokes the callback exactly once (the log of
host calls grows by one entry), with as many arguments as values and argument `i` the
display string of value `i` as a C string (the display string itself when it is free
of NUL), and yields the returned buffer as a string value, or the empty string for a
`NULL` return.  With a `NULL` VM, name or callback it returns 1 and the VM is
untouched. -/
theorem C4_register_native_string_fn (ip : Interpreter) (name : String) (arity : Int)
    (fn : HostFn) (hglobals : 0 < ip.envs.length) :
    (AdaScript_RegisterNativeStringFn (some ip) (some name) arity (some fn)).1 = 0 ∧
    (∃ ip1, (AdaScript_RegisterNativeStringFn (some ip) (some name) arity (some fn)).2 = some ip1 ∧
      ip1.getPtr globals (cstr name)
        = some (.native ⟨cstr name, arity, .thunk ip.hostFns.length⟩) ∧
      ip1.hostFns.get? ip.hostFns.length = some fn) ∧
    (∀ (fuel : Nat) (args : List Value) (ip2 : Interpreter),
      ip2.hostFns.get? ip.hostFns.length = some fn →
        callNative (fuel + 1) (.thunk ip.hostFns.length) args ip2
          = .ok (.string (match fn ((args.map value_to_string).map cstr) with
                | some res => cstr res
                | none => ""))
              { ip2 with hostCalls :=
                  ip2.hostCalls ++ [(ip.hostFns.length, (args.map value_to_string).map cstr)] } ∧
        ((args.map value_to_string).map cstr).length = args.length ∧
        ((∀ v ∈ args, NUL ∉ (value_to_string v).data) →
          (args.map value_to_string).map cstr = args.map value_to_string)) ∧
    (∀ (vm : Option Interpreter) (nm : Option String) (f : Option HostFn),
      vm = none ∨ nm = none ∨ f = none →
        AdaScript_RegisterNativeStringFn vm nm arity f = (1, vm)) := by
  refine ⟨rfl, ⟨_, rfl, ?_, ?_⟩, ?_, ?_⟩
  · exact getPtr_define_self _ globals (cstr name) _ hglobals
  · simp [Interpreter.define]
  · intro fuel args ip2 hfn
    refine ⟨?_, by simp, ?_⟩
    · simp only [callNative, callBuiltin, hfn]
    · intro h
      rw [List.map_map]
      apply List.map_congr_left
      intro v hv
      exact cstr_of_nul_free _ (h v hv)
  · intro vm nm f h
    rcases h with h | h | h
    · subst h; rfl
    · subst h; cases vm <;> rfl
    · subst h; cases vm <;> cases nm <;> rfl

/-- Witness for C4: `c_concat` registered in a fresh VM and called with
`"Hello, "`, `"from "`, `"C!"`, as in `c_api_test.c`. -/
theorem C4_register_native_string_fn_witness :
    0 < freshIp.envs.length ∧
    (AdaScript_RegisterNativeStringFn (some freshIp) (some "c_concat") (-1) (some c_concat)).1 = 0 ∧
    (AdaScript_Call 100 (registerConcat freshVM) (some "c_concat")
      [some "Hello, ", some "from ", some "C!"]).value? = some (some "Hello, from C!") ∧
    (AdaScript_Call 100 (registerConcat freshVM) (some "c_concat")
      [some "Hello, ", some "from ", some "C!"]).message? = none :=
  ⟨by decide, (C4_register_native_string_fn freshIp "c_concat" (-1) c_concat (by decide)).1,
    by decide!, by decide!⟩

/-! ## C5: when `AdaScript_Call` returns `NULL` -/

/-- C5: for a valid VM and name, `AdaScript_Call` returns `NULL` with a message and an
untouched VM, nothing having been invoked, when the name is not defined in the globals
or is bound to a value that is not a native function, user function or class; when the
target is one of those three it is invoked, and the call returns `NULL` with the
message of the error when the invocation raises one, and a string when it completes. -/
theorem C5_call_returns_null (fuel : Nat) (ip : Interpreter) (fname : String)
    (args : List (Option String)) :
    (ip.getPtr globals (cstr fname) = none →
      AdaScript_Call fuel (some ip) (some fname) args
        = .returned none (some (cstr ("Undefined function: " ++ cstr fname))) (some ip)) ∧
    (∀ v, ip.getPtr globals (cstr fname) = some v → v.isCallable = false →
      AdaScript_Call fuel (some ip) (some fname) args
        = .returned none (some "Target is not callable") (some ip)) ∧
    (∀ v, ip.getPtr globals (cstr fname) = some v → v.isCallable = true →
      AdaScript_Call fuel (some ip) (some fname) args
        = callHandlers (callTarget fuel v (callArgs args) ip) ∧
      (∀ what ip1, callTarget fuel v (callArgs args) ip = .throw (.RuntimeError what) ip1 →
        AdaScript_Call fuel (some ip) (some fname) args
          = .returned none (some (cstr what)) (some ip1)) ∧
      (∀ what ip1, callTarget fuel v (callArgs args) ip = .throw (.StdException what) ip1 →
        AdaScript_Call fuel (some ip) (some fname) args
          = .returned none (some (cstr what)) (some ip1)) ∧
      (∀ r ip1, callTarget fuel v (callArgs args) ip = .ok r ip1 →
        AdaScript_Call fuel (some ip) (some fname) args
          = .returned (some (cstr (value_to_string r))) none (some ip1))) := by
  refine ⟨?_, ?_, ?_⟩
  · intro h
    simp [AdaScript_Call, h]
  · intro v h hv
    have hmsg : cstr "Target is not callable" = "Target is not callable" := by decide
    cases v <;> simp [Value.isCallable] at hv <;>
      simp [AdaScript_Call, h, callTarget, callHandlers, throwRT, hmsg]
  · intro v h _
    have hcall : AdaScript_Call fuel (some ip) (some fname) args
        = callHandlers (callTarget fuel v (callArgs args) ip) := by
      simp [AdaScript_Call, h]
    refine ⟨hcall, ?_, ?_, ?_⟩
    · intro what ip1 hr
      rw [hcall, hr]; rfl
    · intro what ip1 hr
      rw [hcall, hr]; rfl
    · intro r ip1 hr
      rw [hcall, hr]; rfl

/-- Witness for C5 on a fresh VM: `nope` is undefined, `fs` is a dict, and `len`
called with no argument raises its own arity error. -/
theorem C5_call_returns_null_witness :
    AdaScript_Call 100 (some freshIp) (some "nope") []
      = .returned none (some (cstr ("Undefined function: " ++ cstr "nope"))) (some freshIp) ∧
    AdaScript_Call 100 (some freshIp) (some "has") [some "k"]
      = .returned none (some (cstr "has expects (dict, key)")) (some freshIp) ∧
    AdaScript_Call 100 (some freshIp) (some "fs") []
      = .returned none (some "Target is not callable") (some freshIp) :=
  ⟨(C5_call_returns_null 100 freshIp "nope" []).1 rfl,
   ((C5_call_returns_null 100 freshIp "has" [some "k"]).2.2
      (.native ⟨"has", 2, .has⟩) rfl rfl).2.1 "has expects (dict, key)" freshIp rfl,
   (C5_call_returns_null 100 freshIp "fs" []).2.1 _ rfl rfl⟩

/-! ## C6: the keyword `new` -/

/-- C6 (the code departs from the claim): the lexer turns `new` into the token `NEW`,
but no parser rule consumes that token, so an expression that starts with `new` does
not parse: `expression` fails with `Expected expression` wherever the next token is
`NEW`, whatever follows it. -/
theorem C6_new_is_not_parsed (ts : List Token) (cur fuel : Nat)
    (h : (Parser.peek ts cur).type = .NEW) :
    Parser.expression ts (fuel + 11) cur = .error "Expected expression" := by
  simp [Parser.expression, Parser.assignment, Parser.orExpr, Parser.andExpr, Parser.equality,
    Parser.comparison, Parser.term, Parser.factor, Parser.unary, Parser.call, Parser.primary,
    Parser.matchAny, Parser.check, Parser.isAtEnd, h, PResult.bind]

/-- Witness for C6: the tokens of `new C(7)`, and the program of the specification run
with and without `new`. -/
theorem C6_new_is_not_parsed_witness :
    (Parser.peek (tokensOf "new C(7)") 0).type = .NEW ∧
    Parser.expression (tokensOf "new C(7)") (0 + 11) 0 = .error "Expected expression" ∧
    (runFresh newProgram).value? = some 2 ∧
    (runFresh newProgram).message? = some "Expected expression" ∧
    vmStdout (runFresh newProgram).vm? = "" ∧
    (runFresh plainProgram).value? = some 0 ∧
    vmStdout (runFresh plainProgram).vm? = "7\n" :=
  ⟨by decide!, C6_new_is_not_parsed (tokensOf "new C(7)") 0 0 (by decide!),
    by decide!, by decide!, by decide!, by decide!, by decide!⟩

/-! ## C7: containers are copied -/

/-- Counterexample to C7 as stated: after `let b = a;` a write through `b` is not seen
through `a`, for a list and for a dict. -/
theorem C7_counterexample :
    vmStdout (runFresh "let a = [1, 2]; let b = a; b[0] = 5; print(a[0]);").vm? = "1\n" ∧
    vmStdout (runFresh "let a = [1, 2]; let b = a; b[0] = 5; print(a[0]);").vm? ≠ "5\n" ∧
    vmStdout (runFresh
      "let a = \x7b\"k\": 1\x7d; let b = a; b[\"k\"] = 5; print(a[\"k\"]);").vm? = "1\n" ∧
    vmStdout (runFresh
      "let a = \x7b\"k\": 1\x7d; let b = a; b[\"k\"] = 5; print(a[\"k\"]);").vm? ≠ "5\n" :=
  ⟨by decide!, by decide!, by decide!, by decide!⟩

/-- C7 as amended: containers have value semantics.  Whenever the variable `a` holds a
container `c` and writing `val` at `idx` into `c` gives the container `c1`, running
`let b = a; b[idx] = val;` succeeds, leaves `b` bound to `c1` and leaves `a` bound to
the unchanged `c`, without moving the environment pointer. -/
theorem C7_containers_are_copied (fuel : Nat) (ip : Interpreter) (a b : String)
    (c c1 : Value) (idx val : Literal)
    (hab : a ≠ b) (henv : ip.env < ip.envs.length)
    (ha : ip.getPtr ip.env a = some c)
    (hstore : storeIndex c idx.toValue val.toValue
      "Index assignment on non-indexable variable" = .ok c1) :
    ∃ ip1, execStmts (fuel + 6) (aliasThenStore a b idx val) ip = .ok () ip1 ∧
      ip1.getPtr ip1.env b = some c1 ∧ ip1.getPtr ip1.env a = some c ∧ ip1.env = ip.env := by
  have henv1 : ip.env < (ip.define ip.env b c).envs.length := by
    rw [define_envs_length]; exact henv
  have hfind := findEnv_define_self ip ip.env b c henv
  have hslot : mapFind ((ip.define ip.env b c).envAt ip.env).values b = some c := by
    rw [envAt_define_same ip ip.env b c henv]
    exact mapFind_mapSet_self _ _ _
  refine ⟨(ip.define ip.env b c).define ip.env b c1, ?_, ?_, ?_, rfl⟩
  · have hcur : (ip.define ip.env b c).env = ip.env := rfl
    simp [aliasThenStore, execStmts, execute, evaluate, evalSetIndex, Res.bind, ha, hcur,
      hfind, hslot, hstore]
  · exact getPtr_define_self _ ip.env b c1 henv1
  · show ((ip.define ip.env b c).define ip.env b c1).getPtr ip.env a = some c
    rw [getPtr_define_ne _ _ _ _ _ _ hab, getPtr_define_ne _ _ _ _ _ _ hab]
    exact ha

/-- Witness for C7 as amended: the global `a` holds `[1, 2]` and `b[0] = 5` is run. -/
theorem C7_containers_are_copied_witness :
    "a" ≠ "b" ∧ listA.env < listA.envs.length ∧
    listA.getPtr listA.env "a" = some (.list [.number ⟨1, 1⟩, .number ⟨2, 1⟩]) ∧
    storeIndex (.list [.number ⟨1, 1⟩, .number ⟨2, 1⟩]) (Literal.number ⟨0, 1⟩).toValue
      (Literal.number ⟨5, 1⟩).toValue "Index assignment on non-indexable variable"
      = .ok (.list [.number ⟨5, 1⟩, .number ⟨2, 1⟩]) ∧
    ∃ ip1, execStmts (0 + 6) (aliasThenStore "a" "b" (.number ⟨0, 1⟩) (.number ⟨5, 1⟩)) listA
        = .ok () ip1 ∧
      ip1.getPtr ip1.env "b" = some (.list [.number ⟨5, 1⟩, .number ⟨2, 1⟩]) ∧
      ip1.getPtr ip1.env "a" = some (.list [.number ⟨1, 1⟩, .number ⟨2, 1⟩]) ∧
      ip1.env = listA.env :=
  ⟨by decide, by decide, rfl, rfl,
    C7_containers_are_copied 0 listA "a" "b" _ _ (.number ⟨0, 1⟩) (.number ⟨5, 1⟩)
      (by decide) (by decide) rfl rfl⟩

/-! ## C8: `==` on values that are not scalars -/

/-- C8 (the code departs from the claim): for a variable bound to a list, dict,
function, native, class or instance, the expression `x == x` evaluates to `false`:
`equal` compares the addresses of the two temporaries it is handed. -/
theorem C8_self_equality_is_false (fuel : Nat) (ip : Interpreter) (name : String) (v : Value)
    (line col : Nat) (hv : ip.getPtr ip.env name = some v) (hk : v.isScalar = false) :
    evaluate (fuel + 2) (selfEquality name line col) ip = .ok (.bool false) ip := by
  have heq : equal v v = false := by
    cases v <;> simp [Value.isScalar] at hk <;> rfl
  simp [selfEquality, evaluate, Res.bind, hv, evalBinary, liftE, heq]

/-- Witness for C8: `a == a` where `a` holds the list `[1, 2]`, and the six kinds run
from source text. -/
theorem C8_self_equality_is_false_witness :
    listA.getPtr listA.env "a" = some (.list [.number ⟨1, 1⟩, .number ⟨2, 1⟩]) ∧
    evaluate (0 + 2) (selfEquality "a" 1 3) listA = .ok (.bool false) listA ∧
    vmStdout (runFresh "let x = [1]; print(x == x);").vm? = "false\n" ∧
    vmStdout (runFresh "let x = \x7b\"k\": 1\x7d; print(x == x);").vm? = "false\n" ∧
    vmStdout (runFresh "func f() \x7b \x7d print(f == f);").vm? = "false\n" ∧
    vmStdout (runFresh "print(len == len);").vm? = "false\n" ∧
    vmStdout (runFresh "class C \x7b \x7d print(C == C);").vm? = "false\n" ∧
    vmStdout (runFresh "class C \x7b \x7d let c = C(); print(c == c);").vm? = "false\n" :=
  ⟨rfl, C8_self_equality_is_false 0 listA "a" _ 1 3 rfl rfl,
    by decide!, by decide!, by decide!, by decide!, by decide!, by decide!⟩

/-! ## C9: `+` with a string operand -/

/-- Counterexample to C9 as stated: `"s" + true` is not `"strue"` and `"s" + null` is
not `"snull"`; both are `"s[obj]"`. -/
theorem C9_counterexample :
    evalBinary (.string "s") (opToken .PLUS "+") (.bool true) = .ok (.string "s[obj]") ∧
    evalBinary (.string "s") (opToken .PLUS "+") .null = .ok (.string "s[obj]") ∧
    value_to_string (.bool true) = "true" ∧ value_to_string .null = "null" ∧
    "s[obj]" ≠ "s" ++ "true" ∧ "s[obj]" ≠ "s" ++ "null" ∧
    vmStdout (runFresh "print(\"s\" + true); print(\"s\" + null);").vm? = "s[obj]\ns[obj]\n" :=
  ⟨rfl, rfl, rfl, rfl, by decide, by decide, by decide!⟩

/-- C9 as amended: for `+`, two strings are concatenated; a string and a number give
the string joined in operand order with the display form of the number, the one `str`
produces; a string and a value of any other kind give the string joined in operand
order with the fixed text `[obj]`; and when neither operand is a string and they are
not both numbers, `+` fails. -/
theorem C9_plus_with_a_string (op : Token) (hop : op.type = .PLUS) (s : String) :
    (∀ t : String, evalBinary (.string s) op (.string t) = .ok (.string (s ++ t))) ∧
    (∀ (n : Double) (ip : Interpreter),
      evalBinary (.string s) op (.number n) = .ok (.string (s ++ value_to_string (.number n))) ∧
      evalBinary (.number n) op (.string s) = .ok (.string (value_to_string (.number n) ++ s)) ∧
      callBuiltin .str [.number n] ip = .ok (.string (value_to_string (.number n))) ip) ∧
    (∀ v : Value, v.isString = false → v.isNumber = false →
      evalBinary (.string s) op v = .ok (.string (s ++ "[obj]")) ∧
      evalBinary v op (.string s) = .ok (.string ("[obj]" ++ s))) ∧
    (∀ l r : Value, l.isString = false → r.isString = false →
      (l.isNumber && r.isNumber) = false →
      evalBinary l op r = .error (.RuntimeError "'+' needs numbers or strings")) := by
  refine ⟨?_, ?_, ?_, ?_⟩
  · intro t
    simp [evalBinary, hop, plusOperand]
  · intro n ip
    simp [evalBinary, hop, plusOperand, value_to_string, callBuiltin]
  · intro v hs hn
    cases v <;> simp [Value.isString, Value.isNumber] at hs hn <;>
      simp [evalBinary, hop, plusOperand]
  · intro l r hl hr hnum
    cases l <;> cases r <;> simp [Value.isString, Value.isNumber] at hl hr hnum <;>
      simp [evalBinary, hop]

/-- Witness for C9 as amended, at the operator token of `"s" + x`. -/
theorem C9_plus_with_a_string_witness :
    (opToken .PLUS "+").type = .PLUS ∧
    evalBinary (.string "s") (opToken .PLUS "+") (.string "t") = .ok (.string ("s" ++ "t")) ∧
    (Value.list []).isString = false ∧ (Value.list []).isNumber = false ∧
    evalBinary (.string "s") (opToken .PLUS "+") (.list []) = .ok (.string ("s" ++ "[obj]")) ∧
    evalBinary (.bool true) (opToken .PLUS "+") .null
      = .error (.RuntimeError "'+' needs numbers or strings") ∧
    vmStdout (runFresh "print(\"n=\" + 1.5); print(2 + \"x\"); print(str(1.5));").vm?
      = "n=1.5\n2x\n1.5\n" :=
  ⟨rfl, (C9_plus_with_a_string (opToken .PLUS "+") rfl "s").1 "t", rfl, rfl,
    ((C9_plus_with_a_string (opToken .PLUS "+") rfl "s").2.2.1 (.list []) rfl rfl).1,
    (C9_plus_with_a_string (opToken .PLUS "+") rfl "s").2.2.2 (.bool true) .null rfl rfl rfl,
    by decide!⟩

/-! ## C10: calling a class that has no `init` -/

/-- Counterexample to C10 as stated: a struct, a union and a class without `init`,
each called with arguments, return an instance; nothing fails. -/
theorem C10_counterexample :
    (runFresh "struct S \x7b x; \x7d let s = S(1, 2); print(s);").value? = some 0 ∧
    vmStdout (runFresh "struct S \x7b x; \x7d let s = S(1, 2); print(s);").vm? = "<instance>\n" ∧
    vmStderr (runFresh "struct S \x7b x; \x7d let s = S(1, 2); print(s);").vm? = "" ∧
    vmStdout (runFresh "union U \x7b a; b; \x7d print(U(1));").vm? = "<instance>\n" ∧
    vmStderr (runFresh "union U \x7b a; b; \x7d print(U(1));").vm? = "" ∧
    vmStdout (runFresh "class C \x7b func get() \x7b return 1; \x7d \x7d print(C(1, 2, 3));").vm?
      = "<instance>\n" ∧
    vmStderr (runFresh "class C \x7b func get() \x7b return 1; \x7d \x7d print(C(1, 2, 3));").vm?
      = "" :=
  ⟨by decide!, by decide!, by decide!, by decide!, by decide!, by decide!, by decide!⟩

/-- C10 as amended: calling a class value that has no `init` method returns, for every
argument list, a fresh instance of that class with no fields, the arguments being
ignored; every struct and union declaration defines such a class. -/
theorem C10_class_without_init (fuel : Nat) (k : Class) (args : List Value) (ip : Interpreter)
    (hinit : k.findMethod "init" = none) :
    callClass (fuel + 1) k args ip
      = .ok (.inst ip.instances.length) { ip with instances := ip.instances ++ [⟨k, []⟩] } ∧
    (∀ (name : String) (members : List String),
      execute (fuel + 1) (.StructStmt name members) ip
        = .ok () (ip.define ip.env name (.cls ⟨name, []⟩)) ∧
      execute (fuel + 1) (.UnionStmt name members) ip
        = .ok () (ip.define ip.env name (.cls ⟨name, []⟩)) ∧
      Class.findMethod ⟨name, []⟩ "init" = none) := by
  refine ⟨?_, ?_⟩
  · simp [callClass, hinit, Interpreter.newInstance]
  · intro name members
    exact ⟨rfl, rfl, rfl⟩

/-- Witness for C10 as amended: the class of `struct S` called with two arguments. -/
theorem C10_class_without_init_witness :
    Class.findMethod ⟨"S", []⟩ "init" = none ∧
    callClass (0 + 1) ⟨"S", []⟩ [.number ⟨1, 1⟩, .number ⟨2, 1⟩] freshIp
      = .ok (.inst freshIp.instances.length)
          { freshIp with instances := freshIp.instances ++ [⟨⟨"S", []⟩, []⟩] } :=
  ⟨rfl, (C10_class_without_init 0 ⟨"S", []⟩ [.number ⟨1, 1⟩, .number ⟨2, 1⟩] freshIp rfl).1⟩

/-! ## Chains of scopes -/

theorem findEnv_eq_find_scopeChain (ip : Interpreter) (name : String) (fuel e : Nat) :
    ip.findEnv name fuel e = (ip.scopeChain fuel e).find? (ip.defines name) := by
  induction fuel generalizing e with
  | zero => rfl
  | succ k ih =>
    simp only [Interpreter.findEnv, Interpreter.scopeChain, List.find?, Interpreter.defines]
    cases hm : mapHas (ip.envAt e).values name with
    | true => simp
    | false =>
      simp only [Bool.false_eq_true, if_false]
      cases hp : (ip.envAt e).parent with
      | none => simp
      | some p => simpa [Interpreter.defines] using ih p

theorem mapHas_mapSet {α : Type} (m : List (String × α)) (k n : String) (v : α) :
    mapHas (mapSet m k v) n = (decide (n = k) || mapHas m n) := by
  by_cases h : n = k
  · subst h
    simp [mapHas, mapFind_mapSet_self]
  · simp [mapHas, mapFind_mapSet_ne _ _ _ _ h, h]

/-- The scope that `findEnv` returns defines the name. -/
theorem findEnv_defines (ip : Interpreter) (name : String) (fuel e e1 : Nat)
    (h : ip.findEnv name fuel e = some e1) : mapHas (ip.envAt e1).values name = true := by
  induction fuel generalizing e with
  | zero => simp [Interpreter.findEnv] at h
  | succ k ih =>
    simp only [Interpreter.findEnv] at h
    split at h
    · rename_i hm
      cases h
      exact hm
    · split at h
      · exact ih _ h
      · cases h

/-- An environment that defines a name is allocated. -/
theorem lt_of_defines (ip : Interpreter) (name : String) (e : Nat)
    (h : mapHas (ip.envAt e).values name = true) : e < ip.envs.length := by
  by_contra hlt
  have : ip.envAt e = ⟨none, []⟩ := by
    simp [Interpreter.envAt, List.getD_eq_getElem?_getD, List.getElem?_eq_none (Nat.le_of_not_lt hlt)]
  rw [this] at h
  simp [mapHas, mapFind] at h

theorem findEnv_lt (ip : Interpreter) (name : String) (fuel e e1 : Nat)
    (h : ip.findEnv name fuel e = some e1) : e1 < ip.envs.length :=
  lt_of_defines ip name e1 (findEnv_defines ip name fuel e e1 h)

/-- Writing a name into the scope where `findEnv` found it does not move the search. -/
theorem findEnv_define_found (ip : Interpreter) (name : String) (v : Value) (fuel e e1 : Nat)
    (h : ip.findEnv name fuel e = some e1) :
    (ip.define e1 name v).findEnv name fuel e = some e1 := by
  have hlt := findEnv_lt ip name fuel e e1 h
  induction fuel generalizing e with
  | zero => simp [Interpreter.findEnv] at h
  | succ k ih =>
    simp only [Interpreter.findEnv] at h ⊢
    by_cases he : e = e1
    · subst he
      simp [envAt_define_same ip e name v hlt, mapHas_mapSet]
    · rw [envAt_define_other ip e1 e name v he]
      split at h
      · cases h; exact absurd rfl he
      · rename_i hm
        simp only [hm, Bool.false_eq_true, if_false]
        split at h
        · exact ih _ h
        · cases h

/-- After `assign` or an index store, the name reads back the value written. -/
theorem getPtr_define_found (ip : Interpreter) (name : String) (v : Value) (e e1 : Nat)
    (h : ip.findEnv name ip.envs.length e = some e1) :
    (ip.define e1 name v).getPtr e name = some v := by
  have hlt := findEnv_lt ip name _ e e1 h
  simp only [Interpreter.getPtr, define_envs_length, findEnv_define_found ip name v _ e e1 h,
    envAt_define_same ip e1 name v hlt, mapFind_mapSet_self]

/-- Writing a name that a scope already defines leaves every set of defined names as it was. -/
theorem defines_define_found (ip : Interpreter) (name : String) (v : Value) (e1 : Nat)
    (h : mapHas (ip.envAt e1).values name = true) (e2 : Nat) (n2 : String) :
    mapHas ((ip.define e1 name v).envAt e2).values n2 = mapHas (ip.envAt e2).values n2 := by
  have hlt := lt_of_defines ip name e1 h
  by_cases he : e2 = e1
  · subst he
    rw [envAt_define_same ip e2 name v hlt]
    simp only [mapHas_mapSet]
    by_cases hn : n2 = name
    · subst hn; simp [h]
    · simp [hn]
  · rw [envAt_define_other ip e1 e2 name v he]

/-- On a well-formed heap the chain walked with the size of the heap as fuel is
complete: it ends in a scope without parent. -/
theorem scopeChain_complete (ip : Interpreter) (hwf : ip.WellFormed) (fuel e : Nat)
    (he : e < fuel) (hlen : e < ip.envs.length) (last : Nat)
    (h : (ip.scopeChain fuel e).getLast? = some last) : (ip.envAt last).parent = none := by
  induction fuel generalizing e with
  | zero => omega
  | succ k ih =>
    simp only [Interpreter.scopeChain] at h
    cases hp : (ip.envAt e).parent with
    | none =>
      simp [hp] at h
      subst h
      exact hp
    | some p =>
      have hpe : p < e := hwf e hlen p (by simp [hp])
      simp only [hp] at h
      have hk : p < k := by omega
      have hne : ip.scopeChain k p ≠ [] := by
        obtain ⟨j, hj⟩ : ∃ j, k = j + 1 := ⟨k - 1, by omega⟩
        subst hj
        simp [Interpreter.scopeChain]
      obtain ⟨c, cs, hc⟩ := List.exists_cons_of_ne_nil hne
      rw [hc, List.getLast?_cons_cons, ← hc] at h
      exact ih p hk (by omega) h

/-! ## C15: assignment along the chain of scopes -/

/-- C15: `Environment::assign(name, v)` started in scope `e` writes in the innermost
scope of the chain that defines `name`: that scope is the first one of the chain with
the name, the name reads `v` there afterwards, every other binding of every scope, all
parent links, the sets of defined names and everything outside the environments are as
before; when no scope of the chain defines the name it fails, and nothing changes.
Evaluating `x = e` when no scope defines `x` therefore raises
`Undefined variable: x` in exactly the state that evaluating `e` left.  On a
well-formed heap the chain is the whole chain: it ends in a scope without parent. -/
theorem C15_assign_innermost (ip : Interpreter) (e : Nat) (name : String) (v : Value) :
    (∀ e1, (ip.scopeChain ip.envs.length e).find? (ip.defines name) = some e1 →
      ip.assign e name v = some (ip.define e1 name v) ∧
      (∃ inner outer, ip.scopeChain ip.envs.length e = inner ++ e1 :: outer ∧
        ∀ e0 ∈ inner, ip.defines name e0 = false) ∧
      mapFind ((ip.define e1 name v).envAt e1).values name = some v ∧
      (ip.define e1 name v).getPtr e name = some v ∧
      (∀ e2 n2, ¬ (e2 = e1 ∧ n2 = name) →
        mapFind ((ip.define e1 name v).envAt e2).values n2 = mapFind (ip.envAt e2).values n2) ∧
      (∀ e2, ((ip.define e1 name v).envAt e2).parent = (ip.envAt e2).parent) ∧
      (∀ e2 n2, (ip.define e1 name v).defines n2 e2 = ip.defines n2 e2) ∧
      (ip.define e1 name v).envs.length = ip.envs.length ∧
      { ip.define e1 name v with envs := ip.envs } = ip) ∧
    ((∀ e1 ∈ ip.scopeChain ip.envs.length e, ip.defines name e1 = false) →
      ip.assign e name v = none) ∧
    (∀ (fuel : Nat) (value : Expr) (ip1 : Interpreter), evaluate fuel value ip = .ok v ip1 →
      (∀ e1 ∈ ip1.scopeChain ip1.envs.length ip1.env, ip1.defines name e1 = false) →
      evaluate (fuel + 1) (.AssignExpr name value) ip
        = .throw (.RuntimeError ("Undefined variable: " ++ name)) ip1) ∧
    (ip.WellFormed → e < ip.envs.length →
      ∀ last, (ip.scopeChain ip.envs.length e).getLast? = some last →
        (ip.envAt last).parent = none) := by
  refine ⟨?_, ?_, ?_, ?_⟩
  · intro e1 h
    have hfind : ip.findEnv name ip.envs.length e = some e1 := by
      rw [findEnv_eq_find_scopeChain]; exact h
    have hdef := findEnv_defines ip name _ e e1 hfind
    have hlt := findEnv_lt ip name _ e e1 hfind
    refine ⟨by simp [Interpreter.assign, hfind], ?_, ?_, getPtr_define_found ip name v e e1 hfind,
      ?_, fun e2 => envAt_define_parent ip e1 e2 name v,
      fun e2 n2 => defines_define_found ip name v e1 hdef e2 n2, define_envs_length ip e1 name v, rfl⟩
    · obtain ⟨_, inner, outer, hsplit, hpre⟩ := List.find?_eq_some.mp h
      exact ⟨inner, outer, hsplit, fun e0 he0 => by simpa using hpre e0 he0⟩
    · rw [envAt_define_same ip e1 name v hlt]
      exact mapFind_mapSet_self _ _ _
    · intro e2 n2 hne
      by_cases he : e2 = e1
      · subst he
        have hn : n2 ≠ name := fun hn => hne ⟨rfl, hn⟩
        exact envAt_define_find_ne ip e2 e2 name n2 v hn
      · rw [envAt_define_other ip e1 e2 name v he]
  · intro h
    have hfind : ip.findEnv name ip.envs.length e = none := by
      rw [findEnv_eq_find_scopeChain, List.find?_eq_none]
      intro x hx
      simp [h x hx]
    simp [Interpreter.assign, hfind]
  · intro fuel value ip1 hev h
    have hfind : ip1.findEnv name ip1.envs.length ip1.env = none := by
      rw [findEnv_eq_find_scopeChain, List.find?_eq_none]
      intro x hx
      simp [h x hx]
    simp [evaluate, hev, Res.bind, Interpreter.assign, hfind, throwRT]
  · intro hwf he last hlast
    exact scopeChain_complete ip hwf _ e he he last hlast

/-- Witness for C15: in a fresh VM with `a` defined in the globals, `a = 5` rewrites the
global binding, the chain from the globals is the globals alone, and the program
`zz = 1;` is reported as an undefined-variable error. -/
theorem C15_assign_innermost_witness :
    (listA.scopeChain listA.envs.length globals).find? (listA.defines "a") = some globals ∧
    listA.assign globals "a" (.number ⟨5, 1⟩) = some (listA.define globals "a" (.number ⟨5, 1⟩)) ∧
    (listA.define globals "a" (.number ⟨5, 1⟩)).getPtr globals "a" = some (.number ⟨5, 1⟩) ∧
    listA.assign globals "zz" (.number ⟨5, 1⟩) = none ∧
    listA.WellFormed ∧
    vmStderr (runFresh "zz = 1;").vm? = "Runtime error: Undefined variable: zz\n" ∧
    (runFresh "zz = 1;").value? = some 0 :=
  ⟨by decide,
    ((C15_assign_innermost listA globals "a" (.number ⟨5, 1⟩)).1 globals (by decide)).1,
    ((C15_assign_innermost listA globals "a" (.number ⟨5, 1⟩)).1 globals (by decide)).2.2.2.1,
    (C15_assign_innermost listA globals "zz" (.number ⟨5, 1⟩)).2.1 (by decide),
    by decide, by decide!, by decide!⟩

/-! ## C18: storing into a dict held by a variable -/

theorem getPtr_eq_some (ip : Interpreter) (e : Nat) (name : String) (v : Value)
    (h : ip.getPtr e name = some v) :
    ∃ e1, ip.findEnv name ip.envs.length e = some e1 ∧ mapFind (ip.envAt e1).values name = some v := by
  simp only [Interpreter.getPtr] at h
  cases hf : ip.findEnv name ip.envs.length e with
  | none => simp [hf] at h
  | some e1 => exact ⟨e1, rfl, by simpa [hf] using h⟩

/-- C18: when the variable `d` holds a dict at the moment of the store, `d[k] = v`
yields `v` and leaves `d` bound to the dict with `k` set to `v`: afterwards
`has(d, k)` is true, `d[k]` evaluates to `v`, and every other key reads as before
(its old value, or `Key not found` when it has none).  Reading a key that a dict does
not hold fails with `Key not found`. -/
theorem C18_dict_index_store (fuel : Nat) (ip ip1 ip2 : Interpreter) (d k : String) (v : Value)
    (m : List (String × Value)) (index value : Expr)
    (hidx : evaluate fuel index ip = .ok (.string k) ip1)
    (hval : evaluate fuel value ip1 = .ok v ip2)
    (hd : ip2.getPtr ip2.env d = some (.dict m)) :
    (∃ ip3, evaluate (fuel + 2) (.SetIndexExpr (.VarExpr d) index value) ip = .ok v ip3 ∧
      ip3.env = ip2.env ∧
      ip3.getPtr ip3.env d = some (.dict (mapSet m k v)) ∧
      (d ≠ "has" → ip2.getPtr ip2.env "has" = some hasNative →
        evaluate (fuel + 5) (.CallExpr (.VarExpr "has") [.VarExpr d, .LiteralExpr (.string k)]) ip3
          = .ok (.bool true) ip3) ∧
      evaluate (fuel + 3) (.IndexExpr (.VarExpr d) (.LiteralExpr (.string k))) ip3 = .ok v ip3 ∧
      (∀ k1, k1 ≠ k →
        mapFind (mapSet m k v) k1 = mapFind m k1 ∧
        evaluate (fuel + 3) (.IndexExpr (.VarExpr d) (.LiteralExpr (.string k1))) ip3
          = match mapFind m k1 with
            | some v1 => .ok v1 ip3
            | none => .throw (.RuntimeError "Key not found") ip3)) ∧
    (∀ (ip0 : Interpreter) (d0 k0 : String) (m0 : List (String × Value)),
      ip0.getPtr ip0.env d0 = some (.dict m0) → mapFind m0 k0 = none →
        evaluate (fuel + 3) (.IndexExpr (.VarExpr d0) (.LiteralExpr (.string k0))) ip0
          = .throw (.RuntimeError "Key not found") ip0) := by
  obtain ⟨e1, hfind, hslot⟩ := getPtr_eq_some _ _ _ _ hd
  refine ⟨⟨ip2.define e1 d (.dict (mapSet m k v)), ?_, rfl, ?_, ?_, ?_, ?_⟩, ?_⟩
  · simp [evaluate, evalSetIndex, hidx, hval, Res.bind, hfind, hslot, storeIndex]
  · exact getPtr_define_found ip2 d _ ip2.env e1 hfind
  · intro hne hhas
    have h1 : (ip2.define e1 d (.dict (mapSet m k v))).getPtr ip2.env "has" = some hasNative := by
      rw [getPtr_define_ne _ _ _ _ _ _ (Ne.symm hne)]; exact hhas
    have h2 := getPtr_define_found ip2 d (.dict (mapSet m k v)) ip2.env e1 hfind
    have henv : (ip2.define e1 d (.dict (mapSet m k v))).env = ip2.env := rfl
    simp [evaluate, evalCall, isMarker, evalArgs, Res.bind, henv, h1, h2, hasNative, nativeValue,
      callNative, callBuiltin, Literal.toValue, mapHas, mapFind_mapSet_self]
  · have h2 := getPtr_define_found ip2 d (.dict (mapSet m k v)) ip2.env e1 hfind
    have henv : (ip2.define e1 d (.dict (mapSet m k v))).env = ip2.env := rfl
    simp [evaluate, evalIndex, Res.bind, henv, h2, Literal.toValue, mapFind_mapSet_self]
  · intro k1 hk1
    have h2 := getPtr_define_found ip2 d (.dict (mapSet m k v)) ip2.env e1 hfind
    have henv : (ip2.define e1 d (.dict (mapSet m k v))).env = ip2.env := rfl
    refine ⟨mapFind_mapSet_ne _ _ _ _ hk1, ?_⟩
    simp only [evaluate, evalIndex, Res.bind, henv, h2, Literal.toValue,
      mapFind_mapSet_ne _ _ _ _ hk1]
    cases mapFind m k1 <;> rfl
  · intro ip0 d0 k0 m0 h0 hk0
    simp [evaluate, evalIndex, Res.bind, h0, Literal.toValue, hk0, throwRT]

/-- Witness for C18: `d["k"] = 2` where the global `d` holds the dict with `k` bound to 1,
a read of the absent key `z`, and the program of the specification. -/
theorem C18_dict_index_store_witness :
    evaluate 1 (.LiteralExpr (.string "k")) dictD = .ok (.string "k") dictD ∧
    evaluate 1 (.LiteralExpr (.number ⟨2, 1⟩)) dictD = .ok (.number ⟨2, 1⟩) dictD ∧
    dictD.getPtr dictD.env "d" = some (.dict [("k", .number ⟨1, 1⟩)]) ∧
    (∃ ip3, evaluate (1 + 2) (.SetIndexExpr (.VarExpr "d") (.LiteralExpr (.string "k"))
          (.LiteralExpr (.number ⟨2, 1⟩))) dictD = .ok (.number ⟨2, 1⟩) ip3 ∧
      ip3.getPtr ip3.env "d" = some (.dict [("k", .number ⟨2, 1⟩)])) ∧
    evaluate (1 + 3) (.IndexExpr (.VarExpr "d") (.LiteralExpr (.string "z"))) dictD
      = .throw (.RuntimeError "Key not found") dictD ∧
    vmStdout (runFresh
      "let d = \x7b\"k\": 1\x7d; d[\"k\"] = d[\"k\"] + 1; print(d[\"k\"]); print(has(d, \"k\"));").vm?
      = "2\ntrue\n" ∧
    vmStderr (runFresh "let d = \x7b\"k\": 1\x7d; print(d[\"z\"]);").vm?
      = "Runtime error: Key not found\n" :=
  ⟨rfl, rfl, rfl,
    (C18_dict_index_store 1 dictD dictD dictD "d" "k" (.number ⟨2, 1⟩) [("k", .number ⟨1, 1⟩)]
      (.LiteralExpr (.string "k")) (.LiteralExpr (.number ⟨2, 1⟩)) rfl rfl rfl).1.imp
      fun _ h => ⟨h.1, h.2.2.1⟩,
    (C18_dict_index_store 1 dictD dictD dictD "d" "k" (.number ⟨2, 1⟩) [("k", .number ⟨1, 1⟩)]
      (.LiteralExpr (.string "k")) (.LiteralExpr (.number ⟨2, 1⟩)) rfl rfl rfl).2
      dictD "d" "z" [("k", .number ⟨1, 1⟩)] rfl rfl,
    by decide!, by decide!⟩

/-! ## C19: storing into a list held by a variable -/

/-- The cast `(int)` of a number that is an integer is that integer. -/
theorem trunc_ofInt (i : Int) : (Double.ofInt i).trunc = i := by
  simp only [Double.trunc, Double.ofInt, Nat.div_one]
  split <;> omega

/-- C19: when the variable `xs` holds a list of length `n` at the moment of the store
and the index evaluates to a number whose integer part is `i`, `xs[i] = v` with
`0 ≤ i < n` yields `v` and leaves `xs` bound to the list with element `i` replaced, of
the same length and with every other element as before; with `i = n` it leaves `xs`
bound to the list with `v` appended, of length `n + 1` and with the first `n` elements
as before; with `i < 0` or `i > n` it fails with `List index out of range` in the state
reached before the store, where `xs` still holds the list.  The integer part of an
integer-valued number is that integer. -/
theorem C19_list_index_store (fuel : Nat) (ip ip1 ip2 : Interpreter) (xs : String) (x : Double)
    (v : Value) (l : List Value) (index value : Expr)
    (hidx : evaluate fuel index ip = .ok (.number x) ip1)
    (hval : evaluate fuel value ip1 = .ok v ip2)
    (hxs : ip2.getPtr ip2.env xs = some (.list l)) :
    (0 ≤ x.trunc → x.trunc < (l.length : Int) →
      ∃ ip3, evaluate (fuel + 2) (.SetIndexExpr (.VarExpr xs) index value) ip = .ok v ip3 ∧
        ip3.env = ip2.env ∧
        ip3.getPtr ip3.env xs = some (.list (l.set x.trunc.toNat v)) ∧
        (l.set x.trunc.toNat v).length = l.length ∧
        (l.set x.trunc.toNat v)[x.trunc.toNat]? = some v ∧
        ∀ j, j ≠ x.trunc.toNat → (l.set x.trunc.toNat v)[j]? = l[j]?) ∧
    (x.trunc = (l.length : Int) →
      ∃ ip3, evaluate (fuel + 2) (.SetIndexExpr (.VarExpr xs) index value) ip = .ok v ip3 ∧
        ip3.env = ip2.env ∧
        ip3.getPtr ip3.env xs = some (.list (l ++ [v])) ∧
        (l ++ [v]).length = l.length + 1 ∧
        (l ++ [v])[l.length]? = some v ∧
        ∀ j, j < l.length → (l ++ [v])[j]? = l[j]?) ∧
    (x.trunc < 0 ∨ (l.length : Int) < x.trunc →
      evaluate (fuel + 2) (.SetIndexExpr (.VarExpr xs) index value) ip
        = .throw (.RuntimeError "List index out of range") ip2) ∧
    (∀ i : Int, (Double.ofInt i).trunc = i) := by
  obtain ⟨e1, hfind, hslot⟩ := getPtr_eq_some _ _ _ _ hxs
  refine ⟨?_, ?_, ?_, trunc_ofInt⟩
  · intro h0 hn
    refine ⟨ip2.define e1 xs (.list (l.set x.trunc.toNat v)), ?_, rfl,
      getPtr_define_found ip2 xs _ ip2.env e1 hfind, by simp, ?_, ?_⟩
    · have h1 : ¬ x.trunc < 0 := by omega
      have h2 : ¬ x.trunc = (l.length : Int) := by omega
      have h3 : ¬ (l.length : Int) ≤ x.trunc := by omega
      simp [evaluate, evalSetIndex, hidx, hval, Res.bind, hfind, hslot, storeIndex, h1, h2, h3]
    · have : x.trunc.toNat < l.length := by omega
      simp [List.getElem?_set, this]
    · intro j hj
      simp [List.getElem?_set, Ne.symm hj]
  · intro hn
    refine ⟨ip2.define e1 xs (.list (l ++ [v])), ?_, rfl,
      getPtr_define_found ip2 xs _ ip2.env e1 hfind, by simp, by simp, ?_⟩
    · have h1 : ¬ ((l.length : Int) < 0) := by omega
      simp [evaluate, evalSetIndex, hidx, hval, Res.bind, hfind, hslot, storeIndex, h1, hn]
    · intro j hj
      simp [List.getElem?_append, hj]
  · intro h
    rcases h with h | h
    · simp [evaluate, evalSetIndex, hidx, hval, Res.bind, hfind, hslot, storeIndex, h]
    · have h1 : ¬ x.trunc < 0 := by omega
      have h2 : ¬ x.trunc = (l.length : Int) := by omega
      have h3 : (l.length : Int) ≤ x.trunc := by omega
      simp [evaluate, evalSetIndex, hidx, hval, Res.bind, hfind, hslot, storeIndex, h1, h2, h3]

/-- Witness for C19: on the list `[1, 2]` held by the global `a`, `a[2] = 5` appends,
`a[0] = 5` replaces and `a[3] = 5` fails; and programs that replace, append and store
past the end. -/
theorem C19_list_index_store_witness :
    evaluate 1 (.LiteralExpr (.number ⟨2, 1⟩)) listA = .ok (.number ⟨2, 1⟩) listA ∧
    evaluate 1 (.LiteralExpr (.number ⟨5, 1⟩)) listA = .ok (.number ⟨5, 1⟩) listA ∧
    listA.getPtr listA.env "a" = some (.list [.number ⟨1, 1⟩, .number ⟨2, 1⟩]) ∧
    (∃ ip3, evaluate (1 + 2) (.SetIndexExpr (.VarExpr "a") (.LiteralExpr (.number ⟨2, 1⟩))
          (.LiteralExpr (.number ⟨5, 1⟩))) listA = .ok (.number ⟨5, 1⟩) ip3 ∧
      ip3.getPtr ip3.env "a" = some (.list [.number ⟨1, 1⟩, .number ⟨2, 1⟩, .number ⟨5, 1⟩])) ∧
    (∃ ip3, evaluate (1 + 2) (.SetIndexExpr (.VarExpr "a") (.LiteralExpr (.number ⟨0, 1⟩))
          (.LiteralExpr (.number ⟨5, 1⟩))) listA = .ok (.number ⟨5, 1⟩) ip3 ∧
      ip3.getPtr ip3.env "a" = some (.list [.number ⟨5, 1⟩, .number ⟨2, 1⟩])) ∧
    evaluate (1 + 2) (.SetIndexExpr (.VarExpr "a") (.LiteralExpr (.number ⟨3, 1⟩))
          (.LiteralExpr (.number ⟨5, 1⟩))) listA
      = .throw (.RuntimeError "List index out of range") listA ∧
    vmStdout (runFresh "let xs = [1, 2]; xs[0] = 7; print(xs); print(len(xs));").vm?
      = "[7, 2]\n2\n" ∧
    vmStdout (runFresh "let xs = [1, 2]; xs[2] = 7; print(xs); print(len(xs));").vm?
      = "[1, 2, 7]\n3\n" ∧
    vmStderr (runFresh "let xs = [1, 2]; xs[3] = 7; print(xs);").vm?
      = "Runtime error: List index out of range\n" ∧
    vmStderr (runFresh "let xs = [1, 2]; xs[0 - 1] = 7; print(xs);").vm?
      = "Runtime error: List index out of range\n" :=
  ⟨rfl, rfl, rfl,
    ((C19_list_index_store 1 listA listA listA "a" ⟨2, 1⟩ (.number ⟨5, 1⟩)
      [.number ⟨1, 1⟩, .number ⟨2, 1⟩] (.LiteralExpr (.number ⟨2, 1⟩))
      (.LiteralExpr (.number ⟨5, 1⟩)) rfl rfl rfl).2.1 (by decide)).imp
      fun _ h => ⟨h.1, h.2.2.1⟩,
    ((C19_list_index_store 1 listA listA listA "a" ⟨0, 1⟩ (.number ⟨5, 1⟩)
      [.number ⟨1, 1⟩, .number ⟨2, 1⟩] (.LiteralExpr (.number ⟨0, 1⟩))
      (.LiteralExpr (.number ⟨5, 1⟩)) rfl rfl rfl).1 (by decide) (by decide)).imp
      fun _ h => ⟨h.1, h.2.2.1⟩,
    (C19_list_index_store 1 listA listA listA "a" ⟨3, 1⟩ (.number ⟨5, 1⟩)
      [.number ⟨1, 1⟩, .number ⟨2, 1⟩] (.LiteralExpr (.number ⟨3, 1⟩))
      (.LiteralExpr (.number ⟨5, 1⟩)) rfl rfl rfl).2.2.1 (Or.inr (by decide)),
    by decide!, by decide!, by decide!, by decide!⟩

/-! ## C20: property assignment -/

theorem instAt_setField_same (ip : Interpreter) (r : Nat) (name : String) (v : Value)
    (hr : r < ip.instances.length) :
    mapFind ((ip.setField r name v).instAt r).fields name = some v := by
  simp [Interpreter.setField, Interpreter.instAt, List.getD_eq_getElem?_getD, hr,
    mapFind_mapSet_self]

theorem evaluate_VarExpr (n : Nat) (name : String) (ip : Interpreter) :
    evaluate (n + 1) (.VarExpr name) ip = .ok ((ip.getPtr ip.env name).getD .null) ip := by
  simp only [evaluate]
  cases ip.getPtr ip.env name <;> rfl

theorem evaluate_SetExpr (n : Nat) (object value : Expr) (name : String) (ip : Interpreter) :
    evaluate (n + 2) (.SetExpr object name value) ip
      = (evaluate n object ip).bind fun obj ip1 =>
        (evaluate n value ip1).bind fun v ip2 =>
          match obj with
          | .inst r => .ok v (ip2.setField r name v)
          | .dict _ => .ok v ip2
          | _ => throwRT "Only instances or dicts support set" ip2 := by
  simp only [evaluate, evalSet]

/-- C20 (the code departs from the claim): when the variable `d` holds a dict,
evaluating `d.k = value` yields the value and ends in exactly the state that
evaluating `value` left: the write goes to the copy of the dict that `evaluate`
returned, and `d` still holds the same dict.  So when that dict has no key `k`,
afterwards `d.k` fails with `Dict has no key`, `d["k"]` fails with `Key not found`
and `has(d, "k")` is false.  On a variable that holds an instance the same expression
creates or overwrites the field, and on any other kind of value it fails. -/
theorem C20_dict_property_store_is_lost (fuel : Nat) (ip ip1 : Interpreter) (k : String)
    (v : Value) (value : Expr) (hval : evaluate (fuel + 1) value ip = .ok v ip1) :
    (∀ (d : String) (m : List (String × Value)), ip.getPtr ip.env d = some (.dict m) →
      evaluate (fuel + 3) (.SetExpr (.VarExpr d) k value) ip = .ok v ip1 ∧
      (ip1.getPtr ip1.env d = some (.dict m) → mapFind m k = none →
        evaluate (fuel + 3) (.GetExpr (.VarExpr d) k) ip1
          = .throw (.RuntimeError ("Dict has no key: " ++ k)) ip1 ∧
        evaluate (fuel + 3) (.IndexExpr (.VarExpr d) (.LiteralExpr (.string k))) ip1
          = .throw (.RuntimeError "Key not found") ip1 ∧
        callBuiltin .has [.dict m, .string k] ip1 = .ok (.bool false) ip1)) ∧
    (∀ (o : String) (r : Nat), ip.getPtr ip.env o = some (.inst r) →
      evaluate (fuel + 3) (.SetExpr (.VarExpr o) k value) ip = .ok v (ip1.setField r k v) ∧
      (r < ip1.instances.length → mapFind ((ip1.setField r k v).instAt r).fields k = some v)) ∧
    (∀ (t : String) (w : Value), ip.getPtr ip.env t = some w → w.isSetTarget = false →
      evaluate (fuel + 3) (.SetExpr (.VarExpr t) k value) ip
        = .throw (.RuntimeError "Only instances or dicts support set") ip1) := by
  refine ⟨?_, ?_, ?_⟩
  · intro d m hd
    refine ⟨?_, ?_⟩
    · rw [evaluate_SetExpr, evaluate_VarExpr, hd]
      simp only [Res.bind, Option.getD, hval]
    · intro hd1 hk
      refine ⟨?_, ?_, ?_⟩
      · simp [evaluate, evalGet, Res.bind, hd1, hk, throwRT]
      · simp [evaluate, evalIndex, Res.bind, hd1, hk, throwRT, Literal.toValue]
      · simp [callBuiltin, mapHas, hk]
  · intro o r ho
    refine ⟨?_, instAt_setField_same ip1 r k v⟩
    rw [evaluate_SetExpr, evaluate_VarExpr, ho]
    simp only [Res.bind, Option.getD, hval]
  · intro t w ht hw
    rw [evaluate_SetExpr, evaluate_VarExpr, ht]
    cases w <;> simp [Value.isSetTarget] at hw <;>
      simp only [Res.bind, Option.getD, hval, throwRT]

/-- Witness for C20: `d.z = 2` where the global `d` holds a dict without key `z`, the
same assignment on a variable holding an instance and on one holding a list, and the
dict case from source text, next to the index store, which does persist. -/
theorem C20_dict_property_store_is_lost_witness :
    evaluate (0 + 1) (.LiteralExpr (.number ⟨2, 1⟩)) dictD = .ok (.number ⟨2, 1⟩) dictD ∧
    dictD.getPtr dictD.env "d" = some (.dict [("k", .number ⟨1, 1⟩)]) ∧
    evaluate (0 + 3) (.SetExpr (.VarExpr "d") "z" (.LiteralExpr (.number ⟨2, 1⟩))) dictD
      = .ok (.number ⟨2, 1⟩) dictD ∧
    evaluate (0 + 3) (.SetExpr (.VarExpr "a") "z" (.LiteralExpr (.number ⟨2, 1⟩))) instA
      = .ok (.number ⟨2, 1⟩) (instA.setField 0 "z" (.number ⟨2, 1⟩)) ∧
    evaluate (0 + 3) (.SetExpr (.VarExpr "a") "z" (.LiteralExpr (.number ⟨2, 1⟩))) listA
      = .throw (.RuntimeError "Only instances or dicts support set") listA ∧
    vmStdout (runFresh "let d = \x7b\"a\": 1\x7d; d.k = 2; print(has(d, \"k\")); print(d);").vm?
      = "false\n\x7ba: 1\x7d\n" ∧
    vmStderr (runFresh "let d = \x7b\"a\": 1\x7d; d.k = 2; print(d.k);").vm?
      = "Runtime error: Dict has no key: k\n" ∧
    vmStdout (runFresh "let d = \x7b\"a\": 1\x7d; d[\"k\"] = 2; print(has(d, \"k\")); print(d.k);").vm?
      = "true\n2\n" ∧
    vmStdout (runFresh "class C \x7b \x7d let o = C(); o.k = 2; print(o.k);").vm? = "2\n" ∧
    vmStderr (runFresh "let s = 1; s.k = 2;").vm?
      = "Runtime error: Only instances or dicts support set\n" :=
  ⟨rfl, rfl,
    ((C20_dict_property_store_is_lost 0 dictD dictD "z" (.number ⟨2, 1⟩)
      (.LiteralExpr (.number ⟨2, 1⟩)) rfl).1 "d" [("k", .number ⟨1, 1⟩)] rfl).1,
    ((C20_dict_property_store_is_lost 0 instA instA "z" (.number ⟨2, 1⟩)
      (.LiteralExpr (.number ⟨2, 1⟩)) rfl).2.1 "a" 0 rfl).1,
    (C20_dict_property_store_is_lost 0 listA listA "z" (.number ⟨2, 1⟩)
      (.LiteralExpr (.number ⟨2, 1⟩)) rfl).2.2 "a" _ rfl rfl,
    by decide!, by decide!, by decide!, by decide!, by decide!⟩

/-! ## C12: reading a property of an instance -/

theorem bindThis_envs (ip : Interpreter) (closure : Nat) (obj : Value) :
    (ip.bindThis closure obj).envs = ip.envs ++ [⟨some closure, [("this", obj)]⟩] := by
  simp [Interpreter.bindThis, Interpreter.newEnv, Interpreter.define, Interpreter.envAt,
    List.getD_eq_getElem?_getD, mapSet]

theorem bindThis_envAt_old (ip : Interpreter) (closure : Nat) (obj : Value) (e : Nat)
    (he : e < ip.envs.length) : (ip.bindThis closure obj).envAt e = ip.envAt e := by
  simp [Interpreter.envAt, bindThis_envs, List.getD_eq_getElem?_getD, List.getElem?_append_left he]

theorem bindThis_envAt_new (ip : Interpreter) (closure : Nat) (obj : Value) :
    (ip.bindThis closure obj).envAt ip.envs.length = ⟨some closure, [("this", obj)]⟩ := by
  simp [Interpreter.envAt, bindThis_envs, List.getD_eq_getElem?_getD]

/-- A lookup that starts in an environment defining the name ends there. -/
theorem getPtr_of_defined_here (ip : Interpreter) (e : Nat) (name : String) (v : Value)
    (h : mapFind (ip.envAt e).values name = some v) : ip.getPtr e name = some v := by
  have hhas : mapHas (ip.envAt e).values name = true := by simp [mapHas, h]
  have hlt := lt_of_defines ip name e hhas
  obtain ⟨k, hk⟩ : ∃ k, ip.envs.length = k + 1 := ⟨ip.envs.length - 1, by omega⟩
  simp [Interpreter.getPtr, hk, Interpreter.findEnv, hhas, h]

/-- C12: when `object` evaluates to an instance `o`, `object.name` yields the field
`name` of `o` if `o` has one; otherwise, if the class of `o` has a method `name`, a copy
of the method whose closure is a newly allocated environment with the method's closure
as parent and the single binding `this = o`, every environment that existed before
being left as it was; otherwise it fails with `Undefined property`.  Reading the same
method on two instances one after the other gives two functions with two different new
closures, each seeing its own instance as `this`, while every earlier environment, the
closure captured by the method among them, stays as it was and gains no `this`. -/
theorem C12_property_read (fuel : Nat) (ip ip1 : Interpreter) (object : Expr) (name : String)
    (r : Nat) (hobj : evaluate fuel object ip = .ok (.inst r) ip1) :
    (∀ v, mapFind (ip1.instAt r).fields name = some v →
      evaluate (fuel + 2) (.GetExpr object name) ip = .ok v ip1) ∧
    (∀ m, mapFind (ip1.instAt r).fields name = none →
      (ip1.instAt r).klass.findMethod name = some m →
      evaluate (fuel + 2) (.GetExpr object name) ip
        = .ok (.function (m.boundTo ip1.envs.length)) (ip1.bindThis m.closure (.inst r)) ∧
      (ip1.bindThis m.closure (.inst r)).envs.length = ip1.envs.length + 1 ∧
      (ip1.bindThis m.closure (.inst r)).envAt ip1.envs.length
        = ⟨some m.closure, [("this", .inst r)]⟩ ∧
      (ip1.bindThis m.closure (.inst r)).getPtr (m.boundTo ip1.envs.length).closure "this"
        = some (.inst r) ∧
      (∀ e, e < ip1.envs.length → (ip1.bindThis m.closure (.inst r)).envAt e = ip1.envAt e) ∧
      { ip1.bindThis m.closure (.inst r) with envs := ip1.envs } = ip1 ∧
      (∀ (object2 : Expr) (r2 : Nat),
        evaluate fuel object2 (ip1.bindThis m.closure (.inst r))
          = .ok (.inst r2) (ip1.bindThis m.closure (.inst r)) →
        mapFind (ip1.instAt r2).fields name = none →
        (ip1.instAt r2).klass.findMethod name = some m →
        ∃ ip2, evaluate (fuel + 2) (.GetExpr object2 name) (ip1.bindThis m.closure (.inst r))
            = .ok (.function (m.boundTo (ip1.envs.length + 1))) ip2 ∧
          (m.boundTo ip1.envs.length).closure ≠ (m.boundTo (ip1.envs.length + 1)).closure ∧
          ip2.getPtr (m.boundTo ip1.envs.length).closure "this" = some (.inst r) ∧
          ip2.getPtr (m.boundTo (ip1.envs.length + 1)).closure "this" = some (.inst r2) ∧
          (∀ e, e < ip1.envs.length → ip2.envAt e = ip1.envAt e))) ∧
    (mapFind (ip1.instAt r).fields name = none → (ip1.instAt r).klass.findMethod name = none →
      evaluate (fuel + 2) (.GetExpr object name) ip
        = .throw (.RuntimeError ("Undefined property: " ++ name)) ip1) := by
  refine ⟨?_, ?_, ?_⟩
  · intro v hv
    simp only [evaluate, evalGet, hobj, Res.bind, hv]
  · intro m hf hm
    refine ⟨?_, by simp [bindThis_envs], bindThis_envAt_new _ _ _,
      getPtr_of_defined_here _ _ _ _ (by
        show mapFind ((ip1.bindThis m.closure (.inst r)).envAt ip1.envs.length).values "this" = _
        rw [bindThis_envAt_new]; rfl),
      fun e he => bindThis_envAt_old _ _ _ e he, rfl, ?_⟩
    · simp only [evaluate, evalGet, hobj, Res.bind, hf, hm]
      rfl
    · intro object2 r2 hobj2 hf2 hm2
      have hlen : (ip1.bindThis m.closure (.inst r)).envs.length = ip1.envs.length + 1 := by
        simp [bindThis_envs]
      have hinst : (ip1.bindThis m.closure (.inst r)).instAt r2 = ip1.instAt r2 := rfl
      refine ⟨(ip1.bindThis m.closure (.inst r)).bindThis m.closure (.inst r2), ?_, ?_, ?_, ?_, ?_⟩
      · simp only [evaluate, evalGet, hobj2, Res.bind, hinst, hf2, hm2]
        rw [← hlen]
        rfl
      · simp [Function.boundTo]
      · apply getPtr_of_defined_here
        show mapFind (((ip1.bindThis m.closure (.inst r)).bindThis m.closure (.inst r2)).envAt
          ip1.envs.length).values "this" = _
        rw [bindThis_envAt_old _ _ _ _ (by omega), bindThis_envAt_new]
        rfl
      · apply getPtr_of_defined_here
        show mapFind (((ip1.bindThis m.closure (.inst r)).bindThis m.closure (.inst r2)).envAt
          (ip1.envs.length + 1)).values "this" = _
        rw [← hlen, bindThis_envAt_new]
        rfl
      · intro e he
        rw [bindThis_envAt_old _ _ _ _ (by omega), bindThis_envAt_old _ _ _ _ he]
  · intro hf hm
    simp only [evaluate, evalGet, hobj, Res.bind, hf, hm, throwRT]

/-- Witness for C12: a field shadows the method of the same name, a method read on two
instances sees each instance, and an unknown property fails. -/
theorem C12_property_read_witness :
    evaluate 1 (.VarExpr "a") instA = .ok (.inst 0) instA ∧
    evaluate (1 + 2) (.GetExpr (.VarExpr "a") "x") instA = .ok (.number ⟨1, 1⟩) instA ∧
    evaluate (1 + 2) (.GetExpr (.VarExpr "a") "get") instA
      = .ok (.function (getMethod.boundTo instA.envs.length))
          (instA.bindThis getMethod.closure (.inst 0)) ∧
    evaluate (1 + 2) (.GetExpr (.VarExpr "a") "nope") instA
      = .throw (.RuntimeError ("Undefined property: " ++ "nope")) instA ∧
    vmStdout (runFresh ("class C \x7b func init(x) \x7b this.x = x; \x7d "
        ++ "func get() \x7b return this.x; \x7d \x7d "
        ++ "let a = C(1); let b = C(2); let f = a.get; let g = b.get; "
        ++ "print(g()); print(f()); print(a.x); a.get = 5; print(a.get);")).vm?
      = "2\n1\n1\n5\n" ∧
    vmStderr (runFresh "class C \x7b \x7d let a = C(); print(a.nope);").vm?
      = "Runtime error: Undefined property: nope\n" :=
  ⟨rfl, (C12_property_read 1 instA instA (.VarExpr "a") "x" 0 rfl).1 _ rfl,
    ((C12_property_read 1 instA instA (.VarExpr "a") "get" 0 rfl).2.1 getMethod rfl rfl).1,
    (C12_property_read 1 instA instA (.VarExpr "a") "nope" 0 rfl).2.2 rfl rfl,
    by decide!, by decide!⟩

/-! ## Binding parameters -/

/-- A run of definitions in one environment leaves everything but the environments
as it was. -/
theorem foldl_define_rest (ps : List (String × Value)) (s : Interpreter) (e : Nat) :
    { ps.foldl (fun s pa => s.define e pa.1 pa.2) s with envs := s.envs } = s := by
  induction ps generalizing s with
  | nil => rfl
  | cons p rest ih =>
    simp only [List.foldl_cons]
    have h := ih (s.define e p.1 p.2)
    have h2 := congrArg (fun t : Interpreter => ({ t with envs := s.envs } : Interpreter)) h
    exact h2

theorem foldl_define_length (ps : List (String × Value)) (s : Interpreter) (e : Nat) :
    (ps.foldl (fun s pa => s.define e pa.1 pa.2) s).envs.length = s.envs.length := by
  induction ps generalizing s with
  | nil => rfl
  | cons p rest ih => simp only [List.foldl_cons, ih, define_envs_length]

theorem foldl_define_other (ps : List (String × Value)) (s : Interpreter) (e e1 : Nat)
    (h : e1 ≠ e) : (ps.foldl (fun s pa => s.define e pa.1 pa.2) s).envAt e1 = s.envAt e1 := by
  induction ps generalizing s with
  | nil => rfl
  | cons p rest ih => simp only [List.foldl_cons, ih, envAt_define_other _ _ _ _ _ h]

theorem foldl_define_parent (ps : List (String × Value)) (s : Interpreter) (e e1 : Nat) :
    ((ps.foldl (fun s pa => s.define e pa.1 pa.2) s).envAt e1).parent = (s.envAt e1).parent := by
  induction ps generalizing s with
  | nil => rfl
  | cons p rest ih => simp only [List.foldl_cons, ih, envAt_define_parent]

/-- A run of definitions in one allocated environment does the same run of map
assignments on the names of that environment. -/
theorem foldl_define_values (ps : List (String × Value)) (s : Interpreter) (e : Nat)
    (he : e < s.envs.length) :
    ((ps.foldl (fun s pa => s.define e pa.1 pa.2) s).envAt e).values
      = ps.foldl (fun m pa => mapSet m pa.1 pa.2) (s.envAt e).values := by
  induction ps generalizing s with
  | nil => rfl
  | cons p rest ih =>
    have he1 : e < (s.define e p.1 p.2).envs.length := by rw [define_envs_length]; exact he
    simp only [List.foldl_cons, ih _ he1, envAt_define_same s e p.1 p.2 he]

/-- A name that a run of map assignments does not mention keeps its entry. -/
theorem mapFind_foldl_mapSet_ne (ps : List (String × Value)) (m : List (String × Value))
    (n : String) (h : ∀ pa ∈ ps, pa.1 ≠ n) :
    mapFind (ps.foldl (fun m pa => mapSet m pa.1 pa.2) m) n = mapFind m n := by
  induction ps generalizing m with
  | nil => rfl
  | cons p rest ih =>
    simp only [List.foldl_cons]
    rw [ih _ (fun pa hpa => h pa (List.mem_cons_of_mem _ hpa))]
    exact mapFind_mapSet_ne _ _ _ _ (Ne.symm (h p (List.mem_cons_self _ _)))

/-- After a run of map assignments, the name assigned at position `i` holds the value
assigned there, provided no later position assigns the same name. -/
theorem mapFind_foldl_mapSet_at (ps : List (String × Value)) (m : List (String × Value))
    (i : Nat) (n : String) (v : Value) (hi : ps[i]? = some (n, v))
    (hlast : ∀ j pa, i < j → ps[j]? = some pa → pa.1 ≠ n) :
    mapFind (ps.foldl (fun m pa => mapSet m pa.1 pa.2) m) n = some v := by
  induction ps generalizing m i with
  | nil => simp at hi
  | cons p rest ih =>
    simp only [List.foldl_cons]
    cases i with
    | zero =>
      simp only [List.getElem?_cons_zero, Option.some.injEq] at hi
      subst hi
      rw [mapFind_foldl_mapSet_ne]
      · exact mapFind_mapSet_self _ _ _
      · intro pa hpa
        obtain ⟨j, hj⟩ := List.getElem?_of_mem hpa
        exact hlast (j + 1) pa (by omega) (by simpa using hj)
    | succ k =>
      simp only [List.getElem?_cons_succ] at hi
      exact ih _ k hi fun j pa hj hpa => hlast (j + 1) pa (by omega) (by simpa using hpa)

/-- The names a run of map assignments leaves in a map that was empty are the names it
assigned. -/
theorem mapHas_foldl_mapSet (ps : List (String × Value)) (m : List (String × Value))
    (n : String) :
    mapHas (ps.foldl (fun m pa => mapSet m pa.1 pa.2) m) n = true
      ↔ mapHas m n = true ∨ n ∈ ps.map Prod.fst := by
  induction ps generalizing m with
  | nil => simp
  | cons p rest ih =>
    simp only [List.foldl_cons, ih, mapHas_mapSet, List.map_cons, List.mem_cons, Bool.or_eq_true,
      decide_eq_true_eq]
    tauto

theorem newEnv_envAt_new (ip : Interpreter) (parent : Nat) :
    (ip.newEnv parent).2.envAt ip.envs.length = ⟨some parent, []⟩ := by
  simp [Interpreter.newEnv, Interpreter.envAt, List.getD_eq_getElem?_getD]

theorem newEnv_envAt_old (ip : Interpreter) (parent e : Nat) (he : e < ip.envs.length) :
    (ip.newEnv parent).2.envAt e = ip.envAt e := by
  simp [Interpreter.newEnv, Interpreter.envAt, List.getD_eq_getElem?_getD,
    List.getElem?_append_left he]

theorem newEnv_length (ip : Interpreter) (parent : Nat) :
    (ip.newEnv parent).2.envs.length = ip.envs.length + 1 := by
  simp [Interpreter.newEnv]

theorem bindParams_length (ip : Interpreter) (f : Function) (args : List Value) :
    (ip.bindParams f args).envs.length = ip.envs.length + 1 := by
  rw [Interpreter.bindParams, foldl_define_length, newEnv_length]

theorem bindParams_envAt_old (ip : Interpreter) (f : Function) (args : List Value) (e : Nat)
    (he : e < ip.envs.length) : (ip.bindParams f args).envAt e = ip.envAt e := by
  rw [Interpreter.bindParams, foldl_define_other _ _ _ _ (by omega), newEnv_envAt_old _ _ _ he]

theorem bindParams_parent (ip : Interpreter) (f : Function) (args : List Value) :
    ((ip.bindParams f args).envAt ip.envs.length).parent = some f.closure := by
  rw [Interpreter.bindParams, foldl_define_parent, newEnv_envAt_new]

theorem bindParams_values (ip : Interpreter) (f : Function) (args : List Value) :
    ((ip.bindParams f args).envAt ip.envs.length).values
      = (f.params.zip args).foldl (fun m pa => mapSet m pa.1 pa.2) [] := by
  rw [Interpreter.bindParams, foldl_define_values _ _ _ (by rw [newEnv_length]; omega),
    newEnv_envAt_new]

theorem bindParams_rest (ip : Interpreter) (f : Function) (args : List Value) :
    { ip.bindParams f args with envs := ip.envs } = ip := by
  have h := foldl_define_rest (f.params.zip args) (ip.newEnv f.closure).2 ip.envs.length
  have h2 := congrArg (fun t : Interpreter => ({ t with envs := ip.envs } : Interpreter)) h
  exact h2

/-! ## C14: the arity check -/

/-- Two heaps that agree below `bound`, the first one well-formed there, give the same
search from a scope below `bound`. -/
theorem findEnv_congr (ip ip1 : Interpreter) (name : String) (bound : Nat)
    (hsame : ∀ e, e < bound → ip1.envAt e = ip.envAt e)
    (hwf : ∀ e, e < bound → ∀ p ∈ (ip.envAt e).parent, p < e) (fuel e : Nat) (he : e < bound) :
    ip1.findEnv name fuel e = ip.findEnv name fuel e := by
  induction fuel generalizing e with
  | zero => rfl
  | succ k ih =>
    simp only [Interpreter.findEnv, hsame e he]
    split
    · rfl
    · cases hp : (ip.envAt e).parent with
      | none => rfl
      | some p =>
        have hpe : p < e := hwf e he p (by simp [hp])
        exact ih p (by omega)

/-- On a well-formed heap the search from scope `e` needs no more fuel than `e + 1`. -/
theorem findEnv_fuel (ip : Interpreter) (name : String) (hwf : ip.WellFormed) (fuel fuel1 e : Nat)
    (he : e < fuel) (he1 : e < fuel1) (hlen : e < ip.envs.length) :
    ip.findEnv name fuel e = ip.findEnv name fuel1 e := by
  induction fuel generalizing fuel1 e with
  | zero => omega
  | succ k ih =>
    obtain ⟨k1, hk1⟩ : ∃ k1, fuel1 = k1 + 1 := ⟨fuel1 - 1, by omega⟩
    subst hk1
    simp only [Interpreter.findEnv]
    split
    · rfl
    · cases hp : (ip.envAt e).parent with
      | none => rfl
      | some p =>
        have hpe : p < e := hwf e hlen p (by simp [hp])
        exact ih k1 p (by omega) (by omega) (by omega)

/-- Lookups depend on the environments only. -/
theorem findEnv_of_envs_eq (ip ip1 : Interpreter) (h : ip1.envs = ip.envs) (name : String)
    (fuel e : Nat) : ip1.findEnv name fuel e = ip.findEnv name fuel e := by
  have henv : ∀ e, ip1.envAt e = ip.envAt e := fun e => by simp [Interpreter.envAt, h]
  induction fuel generalizing e with
  | zero => rfl
  | succ k ih =>
    simp only [Interpreter.findEnv, henv]
    split
    · rfl
    · split
      · exact ih _
      · rfl

theorem getPtr_of_envs_eq (ip ip1 : Interpreter) (h : ip1.envs = ip.envs) (name : String)
    (e : Nat) : ip1.getPtr e name = ip.getPtr e name := by
  have henv : ∀ e, ip1.envAt e = ip.envAt e := fun e => by simp [Interpreter.envAt, h]
  simp only [Interpreter.getPtr, findEnv_of_envs_eq ip ip1 h, h, henv]

theorem wellFormed_define (ip : Interpreter) (hwf : ip.WellFormed) (e : Nat) (n : String)
    (v : Value) : (ip.define e n v).WellFormed := by
  intro e1 he1 p hp
  rw [envAt_define_parent] at hp
  rw [define_envs_length] at he1
  exact hwf e1 he1 p hp

/-- In the environment of a call, a name that is not a parameter reads what it reads
from the closure of the function. -/
theorem getPtr_bindParams (ip : Interpreter) (hwf : ip.WellFormed) (f : Function)
    (args : List Value) (x : String) (hx : x ∉ f.params) (hlen : args.length = f.params.length)
    (hS : f.closure < ip.envs.length) (env : Nat) :
    ({ ip.bindParams f args with env := env } : Interpreter).getPtr ip.envs.length x
      = ip.getPtr f.closure x := by
  have hhas : mapHas ((ip.bindParams f args).envAt ip.envs.length).values x = false := by
    rw [bindParams_values]
    cases h : mapHas ((f.params.zip args).foldl (fun m pa => mapSet m pa.1 pa.2) []) x with
    | false => rfl
    | true =>
      rw [mapHas_foldl_mapSet, List.map_fst_zip _ _ (by omega)] at h
      simp [mapHas, mapFind, hx] at h
  have hfind : (ip.bindParams f args).findEnv x (ip.envs.length + 1) ip.envs.length
      = ip.findEnv x ip.envs.length f.closure := by
    simp only [Interpreter.findEnv, hhas, bindParams_parent]
    exact findEnv_congr ip _ x ip.envs.length (fun e he => bindParams_envAt_old ip f args e he)
      hwf _ _ hS
  rw [getPtr_of_envs_eq (ip.bindParams f args) { ip.bindParams f args with env := env } rfl]
  simp only [Interpreter.getPtr, bindParams_length, hfind]
  cases hf : ip.findEnv x ip.envs.length f.closure with
  | none => rfl
  | some e1 =>
    simp only
    rw [bindParams_envAt_old ip f args e1 (findEnv_lt ip x _ _ e1 hf)]

/-- With a matching number of arguments, `Function::call` runs the body as a block in
the environment of the call and then treats the way it ended. -/
theorem callFunction_matching (fuel : Nat) (f : Function) (args : List Value) (ip : Interpreter)
    (h : args.length = f.params.length) :
    callFunction (fuel + 1) f args ip
      = finishCall f ip.envs.length (execBlock fuel f.body ip.envs.length (ip.bindParams f args)) := by
  simp only [callFunction, bne_iff_ne, ne_eq, h, not_true_eq_false, if_false]
  rfl

/-- A call of `func name(params) { return x; }`, `x` not a parameter, yields what `x`
reads from the closure at the time of the call (null when it is undefined there). -/
theorem call_readerOf (fuel : Nat) (ip : Interpreter) (hwf : ip.WellFormed) (name x : String)
    (params : List String) (S : Nat) (args : List Value) (hx : x ∉ params)
    (hlen : args.length = params.length) (hS : S < ip.envs.length) :
    callFunction (fuel + 5) (readerOf name params x S) args ip
      = .ok ((ip.getPtr S x).getD .null) (ip.bindParams (readerOf name params x S) args) := by
  rw [callFunction_matching _ _ _ _ hlen]
  have hget := getPtr_bindParams ip hwf (readerOf name params x S) args x hx hlen hS ip.envs.length
  simp only [readerOf] at hget ⊢
  simp only [execBlock, execStmts, execute, evaluate, hget, Res.bind]
  cases ip.getPtr S x <;> simp only [finishCall, Option.getD] <;> rfl

/-! ## C13: a closure is the environment itself -/

/-- C13: `func name(params) { return x; }` executed in scope `S` defines a function
whose closure is `S` itself.  Whenever it is called later, on a well-formed heap, with
`x` not a parameter, the call yields what `x` reads from `S` at that moment: after
`define(x, v)` in `S` (a `let x = v` executed there) it yields `v`, and after an
`assign(x, v)` started in `S` (an `x = v` executed there) it yields `v`.  In
particular the statements `func name() { return x; } let x = lit;` and
`func name() { return x; } x = lit;` leave `name` bound to a function whose call
yields the value of the literal. -/
theorem C13_closure_is_live (fuel : Nat) (ip : Interpreter) (S : Nat) (name x : String)
    (params : List String) (args : List Value) (hwf : ip.WellFormed) (hS : S < ip.envs.length)
    (hx : x ∉ params) (hlen : args.length = params.length) :
    (ip.env = S →
      execute (fuel + 1) (.FunctionStmt name params [.ReturnStmt (some (.VarExpr x))]) ip
        = .ok () (ip.define S name (.function (readerOf name params x S)))) ∧
    callFunction (fuel + 5) (readerOf name params x S) args ip
      = .ok ((ip.getPtr S x).getD .null) (ip.bindParams (readerOf name params x S) args) ∧
    (∀ v : Value, callFunction (fuel + 5) (readerOf name params x S) args (ip.define S x v)
      = .ok v ((ip.define S x v).bindParams (readerOf name params x S) args)) ∧
    (∀ (v : Value) (ip1 : Interpreter), ip.assign S x v = some ip1 →
      callFunction (fuel + 5) (readerOf name params x S) args ip1
        = .ok v (ip1.bindParams (readerOf name params x S) args)) ∧
    (∀ lit : Literal, ip.env = S → x ≠ name →
      ∃ ip1 ip2,
        execStmts (fuel + 5) [.FunctionStmt name params [.ReturnStmt (some (.VarExpr x))],
          .LetStmt x (.LiteralExpr lit)] ip = .ok () ip1 ∧
        ip1.getPtr ip1.env name = some (.function (readerOf name params x S)) ∧
        callFunction (fuel + 5) (readerOf name params x S) args ip1 = .ok lit.toValue ip2) ∧
    (∀ lit : Literal, ip.env = S → x ≠ name → (ip.getPtr S x).isSome = true →
      ∃ ip1 ip2,
        execStmts (fuel + 5) [.FunctionStmt name params [.ReturnStmt (some (.VarExpr x))],
          .ExprStmt (.AssignExpr x (.LiteralExpr lit))] ip = .ok () ip1 ∧
        ip1.getPtr ip1.env name = some (.function (readerOf name params x S)) ∧
        callFunction (fuel + 5) (readerOf name params x S) args ip1 = .ok lit.toValue ip2) := by
  have hdef : ∀ (s : Interpreter), s.WellFormed → S < s.envs.length → ∀ v : Value,
      callFunction (fuel + 5) (readerOf name params x S) args (s.define S x v)
        = .ok v ((s.define S x v).bindParams (readerOf name params x S) args) := by
    intro s hs hSs v
    rw [call_readerOf fuel _ (wellFormed_define s hs S x v) name x params S args hx hlen
      (by rw [define_envs_length]; exact hSs), getPtr_define_self s S x v hSs]
    rfl
  have hasg : ∀ (s : Interpreter), s.WellFormed → S < s.envs.length → ∀ (v : Value)
      (s1 : Interpreter), s.assign S x v = some s1 →
      callFunction (fuel + 5) (readerOf name params x S) args s1
        = .ok v (s1.bindParams (readerOf name params x S) args) := by
    intro s hs hSs v s1 h
    simp only [Interpreter.assign] at h
    cases hf : s.findEnv x s.envs.length S with
    | none => simp [hf] at h
    | some e1 =>
      simp only [hf, Option.some.injEq] at h
      subst h
      rw [call_readerOf fuel _ (wellFormed_define s hs e1 x v) name x params S args hx hlen
        (by rw [define_envs_length]; exact hSs), getPtr_define_found s x v S e1 hf]
      rfl
  refine ⟨?_, call_readerOf fuel ip hwf name x params S args hx hlen hS, hdef ip hwf hS,
    hasg ip hwf hS, ?_, ?_⟩
  · intro h
    subst h
    rfl
  · intro lit henv hne
    subst henv
    have hS1 : ip.env < (ip.define ip.env name (.function (readerOf name params x ip.env))).envs.length := by
      rw [define_envs_length]; exact hS
    refine ⟨_, _, ?_, ?_, hdef _ (wellFormed_define ip hwf _ _ _) hS1 lit.toValue⟩
    · simp only [execStmts, execute, evaluate, Res.bind]
      rfl
    · show ((ip.define ip.env name _).define ip.env x _).getPtr ip.env name = _
      rw [getPtr_define_ne _ _ _ _ _ _ (Ne.symm hne), getPtr_define_self _ _ _ _ hS]
  · intro lit henv hne hsome
    subst henv
    have hS1 : ip.env < (ip.define ip.env name (.function (readerOf name params x ip.env))).envs.length := by
      rw [define_envs_length]; exact hS
    have hsome1 : ((ip.define ip.env name (.function (readerOf name params x ip.env))).getPtr
        ip.env x).isSome = true := by
      rw [getPtr_define_ne _ _ _ _ _ _ hne]; exact hsome
    obtain ⟨v0, hv0⟩ := Option.isSome_iff_exists.mp hsome1
    obtain ⟨e1, hfind, _⟩ := getPtr_eq_some _ _ _ _ hv0
    refine ⟨_, _, ?_, ?_, hasg _ (wellFormed_define ip hwf _ _ _) hS1 lit.toValue
      ((ip.define ip.env name (.function (readerOf name params x ip.env))).define e1 x lit.toValue)
      (by simp only [Interpreter.assign, hfind])⟩
    · have hcur : (ip.define ip.env name (.function (readerOf name params x ip.env))).env = ip.env := rfl
      simp only [readerOf] at hfind hcur ⊢
      simp only [execStmts, execute, evaluate, Res.bind, Interpreter.assign, hcur, hfind]
    · show ((ip.define ip.env name _).define e1 x _).getPtr ip.env name = _
      rw [getPtr_define_ne _ _ _ _ _ _ (Ne.symm hne), getPtr_define_self _ _ _ _ hS]

/-- Witness for C13: a function that reads `a`, defined in the globals of a fresh VM
where `a` holds a list, called after `a` was redefined; and programs in which the
variable is assigned or redefined after the function was defined, at the top level
and inside a block. -/
theorem C13_closure_is_live_witness :
    listA.WellFormed ∧ globals < listA.envs.length ∧ "a" ∉ ([] : List String) ∧
    callFunction (0 + 5) (readerOf "f" [] "a" globals) [] (listA.define globals "a" (.number ⟨7, 1⟩))
      = .ok (.number ⟨7, 1⟩)
          ((listA.define globals "a" (.number ⟨7, 1⟩)).bindParams (readerOf "f" [] "a" globals) []) ∧
    vmStdout (runFresh ("let x = 1; func f() \x7b return x; \x7d print(f()); x = 2; print(f()); "
        ++ "let x = 3; print(f());")).vm? = "1\n2\n3\n" ∧
    vmStdout (runFresh ("\x7b let x = 1; func f() \x7b return x; \x7d x = 2; print(f()); "
        ++ "let x = 3; print(f()); \x7d")).vm? = "2\n3\n" :=
  ⟨by decide, by decide, by decide,
    (C13_closure_is_live 0 listA globals "f" "a" [] [] (by decide) (by decide) (by decide) rfl).2.2.1
      (.number ⟨7, 1⟩),
    by decide!, by decide!⟩

/-! ## The frame of interpreter code -/

theorem frame_refl (w : Option Nat) (ip : Interpreter) : ip.Frame w ip :=
  ⟨rfl, rfl, Nat.le_refl _, Nat.le_refl _, fun _ _ => rfl, fun _ h => h, fun _ _ => rfl,
    fun _ _ _ h => h, fun _ _ _ _ => rfl, rfl, rfl⟩

theorem frame_trans {w : Option Nat} {a b c : Interpreter} (h1 : a.Frame w b) (h2 : b.Frame w c) :
    a.Frame w c where
  env := h2.env.trans h1.env
  current_dir := h2.current_dir.trans h1.current_dir
  length := Nat.le_trans h1.length h2.length
  instances := Nat.le_trans h1.instances h2.instances
  klass r hr := (h2.klass r (Nat.lt_of_lt_of_le hr h1.instances)).trans (h1.klass r hr)
  loaded p hp := h2.loaded p (h1.loaded p hp)
  parent e he := (h2.parent e (Nat.lt_of_lt_of_le he h1.length)).trans (h1.parent e he)
  mono e n he hn := h2.mono e n (Nat.lt_of_lt_of_le he h1.length) (h1.mono e n he hn)
  fixed e n he hw :=
    (h2.fixed e n (Nat.lt_of_lt_of_le he h1.length) hw).trans (h1.fixed e n he hw)
  builtins_dir := h2.builtins_dir.trans h1.builtins_dir
  files := h2.files.trans h1.files

/-- Code that defines nowhere satisfies the frame condition for every scope. -/
theorem frame_weaken {w : Option Nat} {a b : Interpreter} (h : a.Frame none b) : a.Frame w b where
  env := h.env
  current_dir := h.current_dir
  length := h.length
  instances := h.instances
  klass := h.klass
  loaded := h.loaded
  parent := h.parent
  mono := h.mono
  fixed e n he _ := h.fixed e n he (by simp)
  builtins_dir := h.builtins_dir
  files := h.files

/-- Code that defines only in a scope allocated after `a` defines in no scope of `a`. -/
theorem frame_trans_fresh {w : Option Nat} {a b c : Interpreter} {L : Nat} (h1 : a.Frame w b)
    (h2 : b.Frame (some L) c) (hL : a.envs.length ≤ L) : a.Frame w c where
  env := h2.env.trans h1.env
  current_dir := h2.current_dir.trans h1.current_dir
  length := Nat.le_trans h1.length h2.length
  instances := Nat.le_trans h1.instances h2.instances
  klass r hr := (h2.klass r (Nat.lt_of_lt_of_le hr h1.instances)).trans (h1.klass r hr)
  loaded p hp := h2.loaded p (h1.loaded p hp)
  parent e he := (h2.parent e (Nat.lt_of_lt_of_le he h1.length)).trans (h1.parent e he)
  mono e n he hn := h2.mono e n (Nat.lt_of_lt_of_le he h1.length) (h1.mono e n he hn)
  fixed e n he hw :=
    (h2.fixed e n (Nat.lt_of_lt_of_le he h1.length)
      (by intro h; cases h; omega)).trans (h1.fixed e n he hw)
  builtins_dir := h2.builtins_dir.trans h1.builtins_dir
  files := h2.files.trans h1.files

/-- A step that leaves every existing environment, the pointer, the directory and the
registry as they were, and only adds instances of unchanged class. -/
theorem frame_of_same (ip ip1 : Interpreter) (henv : ip1.env = ip.env)
    (hdir : ip1.current_dir = ip.current_dir) (hloaded : ip1.loaded_files = ip.loaded_files)
    (hlen : ip.envs.length ≤ ip1.envs.length)
    (hinst : ip.instances.length ≤ ip1.instances.length)
    (hklass : ∀ r, r < ip.instances.length → (ip1.instAt r).klass = (ip.instAt r).klass)
    (hold : ∀ e, e < ip.envs.length → ip1.envAt e = ip.envAt e)
    (hbuiltins : ip1.builtins_dir = ip.builtins_dir) (hfiles : ip1.files = ip.files) :
    ip.Frame none ip1 where
  env := henv
  current_dir := hdir
  length := hlen
  instances := hinst
  klass := hklass
  loaded p hp := hloaded ▸ hp
  parent e he := by rw [hold e he]
  mono e n he hn := by rw [hold e he]; exact hn
  fixed e n he _ := by rw [hold e he]
  builtins_dir := hbuiltins
  files := hfiles

theorem frame_define_here (ip : Interpreter) (e : Nat) (n : String) (v : Value) :
    ip.Frame (some e) (ip.define e n v) where
  env := rfl
  current_dir := rfl
  length := by rw [define_envs_length]
  instances := Nat.le_refl _
  klass _ _ := rfl
  loaded _ h := h
  parent e1 _ := envAt_define_parent ip e e1 n v
  mono e1 n1 he1 hn := by
    by_cases h : e1 = e
    · subst h
      rw [envAt_define_same ip e1 n v he1, mapHas_mapSet, hn, Bool.or_true]
    · rw [envAt_define_other ip e e1 n v h]; exact hn
  fixed e1 n1 _ hw := by
    have h : e1 ≠ e := fun h => hw (by rw [h])
    rw [envAt_define_other ip e e1 n v h]
  builtins_dir := rfl
  files := rfl

theorem frame_define_existing (ip : Interpreter) (e : Nat) (n : String) (v : Value)
    (h : mapHas (ip.envAt e).values n = true) : ip.Frame none (ip.define e n v) where
  env := rfl
  current_dir := rfl
  length := by rw [define_envs_length]
  instances := Nat.le_refl _
  klass _ _ := rfl
  loaded _ h := h
  parent e1 _ := envAt_define_parent ip e e1 n v
  mono e1 n1 _ hn := by rw [defines_define_found ip n v e h e1 n1]; exact hn
  fixed e1 n1 _ _ := defines_define_found ip n v e h e1 n1
  builtins_dir := rfl
  files := rfl

/-- Moving the environment pointer, as `execBlock` does around the statements. -/
theorem frame_restore_env {w : Option Nat} {ip ip1 : Interpreter} (e : Nat)
    (h : ({ ip with env := e } : Interpreter).Frame w ip1) :
    ip.Frame w { ip1 with env := ip.env } :=
  ⟨rfl, h.current_dir, h.length, h.instances, h.klass, h.loaded, h.parent, h.mono, h.fixed,
    h.builtins_dir, h.files⟩

/-- Moving the current directory and adding to the registry, as `execImport` does
around the statements of the file. -/
theorem frame_restore_dir {w : Option Nat} {ip ip1 : Interpreter} (d key : String)
    (h : ({ ip with loaded_files := ip.loaded_files ++ [key], current_dir := d } :
      Interpreter).Frame w ip1) :
    ip.Frame w { ip1 with current_dir := ip.current_dir } :=
  ⟨h.env, rfl, h.length, h.instances, h.klass,
    fun p hp => h.loaded p (List.mem_append_left _ hp), h.parent, h.mono, h.fixed,
    h.builtins_dir, h.files⟩

theorem frame_setField (ip : Interpreter) (r : Nat) (n : String) (v : Value) :
    ip.Frame none (ip.setField r n v) := by
  refine frame_of_same ip _ rfl rfl rfl (Nat.le_refl _) (by simp [Interpreter.setField]) ?_
    (fun _ _ => rfl) rfl rfl
  intro r1 hr1
  by_cases h : r1 = r
  · subst h
    simp [Interpreter.setField, Interpreter.instAt, List.getD_eq_getElem?_getD, hr1]
  · have h' : r ≠ r1 := fun x => h x.symm
    simp [Interpreter.setField, Interpreter.instAt, List.getD_eq_getElem?_getD,
      List.getElem?_set, h']

theorem frame_newInstance (ip : Interpreter) (k : Class) : ip.Frame none (ip.newInstance k).2 := by
  refine frame_of_same ip _ rfl rfl rfl (Nat.le_refl _) (by simp [Interpreter.newInstance]) ?_
    (fun _ _ => rfl) rfl rfl
  intro r hr
  simp [Interpreter.newInstance, Interpreter.instAt, List.getD_eq_getElem?_getD,
    List.getElem?_append_left hr]

theorem frame_newEnv (ip : Interpreter) (p : Nat) : ip.Frame none (ip.newEnv p).2 :=
  frame_of_same ip _ rfl rfl rfl (by rw [newEnv_length]; omega) (Nat.le_refl _) (fun _ _ => rfl)
    (fun e he => newEnv_envAt_old ip p e he) rfl rfl

theorem frame_bindThis (ip : Interpreter) (p : Nat) (obj : Value) :
    ip.Frame none (ip.bindThis p obj) :=
  frame_of_same ip _ rfl rfl rfl (by simp [bindThis_envs]) (Nat.le_refl _) (fun _ _ => rfl)
    (fun e he => bindThis_envAt_old ip p obj e he) rfl rfl

theorem frame_bindParams (ip : Interpreter) (f : Function) (args : List Value) :
    ip.Frame none (ip.bindParams f args) := by
  have hrest := bindParams_rest ip f args
  refine frame_of_same ip _ ?_ ?_ ?_ (by rw [bindParams_length]; omega) ?_ ?_
    (fun e he => bindParams_envAt_old ip f args e he) ?_ ?_
  · have h := congrArg Interpreter.env hrest
    exact h
  · have h := congrArg Interpreter.current_dir hrest
    exact h
  · have h := congrArg Interpreter.loaded_files hrest
    exact h
  · have h := congrArg (fun t : Interpreter => t.instances.length) hrest
    exact Nat.le_of_eq h.symm
  · intro r _
    have h := congrArg (fun t : Interpreter => (t.instAt r).klass) hrest
    exact h
  · have h := congrArg Interpreter.builtins_dir hrest
    exact h
  · have h := congrArg Interpreter.files hrest
    exact h

theorem framed_bind {α β : Type} {w : Option Nat} {ip : Interpreter} {r : Res α}
    {f : α → Interpreter → Res β} (hr : r.Framed w ip)
    (hf : ∀ a ip1, ip.Frame w ip1 → (f a ip1).Framed w ip1) : (r.bind f).Framed w ip := by
  cases r with
  | ok a ip1 =>
    have h := hf a ip1 hr
    simp only [Res.bind]
    cases hfa : f a ip1 with
    | ok b ip2 => rw [hfa] at h; exact frame_trans hr h
    | throw e ip2 => rw [hfa] at h; exact frame_trans hr h
    | timeout => trivial
    | unsupported _ => trivial
  | throw e ip1 => exact hr
  | timeout => trivial
  | unsupported _ => trivial

theorem framed_of_frame {α : Type} {w : Option Nat} {ip ip1 : Interpreter} {r : Res α}
    (h : ip.Frame w ip1) (hr : r.Framed w ip1) : r.Framed w ip := by
  cases r with
  | ok a ip2 => exact frame_trans h hr
  | throw e ip2 => exact frame_trans h hr
  | timeout => trivial
  | unsupported _ => trivial

theorem framed_of_frame_fresh {α : Type} {w : Option Nat} {ip ip1 : Interpreter} {r : Res α}
    {L : Nat} (h : ip.Frame w ip1) (hr : r.Framed (some L) ip1) (hL : ip.envs.length ≤ L) :
    r.Framed w ip := by
  cases r with
  | ok a ip2 => exact frame_trans_fresh h hr hL
  | throw e ip2 => exact frame_trans_fresh h hr hL
  | timeout => trivial
  | unsupported _ => trivial

theorem framed_weaken {α : Type} {w : Option Nat} {ip : Interpreter} {r : Res α}
    (hr : r.Framed none ip) : r.Framed w ip := by
  cases r with
  | ok a ip2 => exact frame_weaken hr
  | throw e ip2 => exact frame_weaken hr
  | timeout => trivial
  | unsupported _ => trivial

theorem framed_liftE {α : Type} (w : Option Nat) (ip : Interpreter) (r : Except Thrown α) :
    (liftE r ip).Framed w ip := by
  cases r <;> exact frame_refl w ip

theorem framed_get (w : Option Nat) (ip : Interpreter) (e : Nat) (n : String) :
    (ip.get e n).Framed w ip := by
  simp only [Interpreter.get]
  split <;> exact frame_refl w ip

theorem framed_builtin_range (args : List Value) (ip : Interpreter) :
    (builtin_range args ip).Framed none ip := by
  simp only [builtin_range]
  repeat' split
  all_goals first | exact frame_refl none ip | trivial

/-- The natives of `callBuiltin` touch the streams and the log of host calls only. -/
theorem framed_callBuiltin (f : NativeFn) (args : List Value) (ip : Interpreter) :
    (callBuiltin f args ip).Framed none ip := by
  cases f <;> simp only [callBuiltin]
  all_goals repeat' split
  all_goals first
    | exact frame_refl none ip
    | trivial
    | exact framed_builtin_range args ip
    | exact frame_of_same ip _ rfl rfl rfl (Nat.le_refl _) (Nat.le_refl _) (fun _ _ => rfl)
        (fun _ _ => rfl) rfl rfl

theorem frame_assign (ip ip1 : Interpreter) (e : Nat) (n : String) (v : Value)
    (h : ip.assign e n v = some ip1) : ip.Frame none ip1 := by
  simp only [Interpreter.assign] at h
  cases hf : ip.findEnv n ip.envs.length e with
  | none => simp [hf] at h
  | some e1 =>
    simp only [hf, Option.some.injEq] at h
    subst h
    exact frame_define_existing ip e1 n v (findEnv_defines ip n _ e e1 hf)

theorem frame_setVar (ip : Interpreter) (n : String) (v : Value) :
    ip.Frame (some ip.env) (ip.setVar n v) := by
  simp only [Interpreter.setVar]
  split
  · cases h : ip.assign ip.env n v with
    | none => exact frame_refl _ ip
    | some ip1 => exact frame_weaken (frame_assign ip ip1 ip.env n v h)
  · exact frame_define_here ip ip.env n v

theorem frame_foldl_setVar (ps : List (String × Value)) (ip : Interpreter) :
    ip.Frame (some ip.env) (ps.foldl (fun s nv => s.setVar nv.1 nv.2) ip) := by
  induction ps generalizing ip with
  | nil => exact frame_refl _ ip
  | cons p rest ih =>
    have h1 := frame_setVar ip p.1 p.2
    have h2 := ih (ip.setVar p.1 p.2)
    rw [h1.env] at h2
    exact frame_trans h1 h2

theorem frame_foldl_define_null (ns : List String) (ip : Interpreter) :
    ip.Frame (some ip.env) (ns.foldl (fun s n => s.define s.env n .null) ip) := by
  induction ns generalizing ip with
  | nil => exact frame_refl _ ip
  | cons n rest ih =>
    have h1 := frame_define_here ip ip.env n .null
    have h2 := ih (ip.define ip.env n .null)
    exact frame_trans h1 h2

theorem frame_load (ip : Interpreter) (key : String) :
    ip.Frame none { ip with loaded_files := ip.loaded_files ++ [key] } :=
  ⟨rfl, rfl, Nat.le_refl _, Nat.le_refl _, fun _ _ => rfl, fun _ h => List.mem_append_left _ h,
    fun _ _ => rfl, fun _ _ _ h => h, fun _ _ _ _ => rfl, rfl, rfl⟩

theorem execute_framed {fuel : Nat} (h : FramedAt fuel) (s : Stmt) (ip : Interpreter) :
    (execute (fuel + 1) s ip).Framed (some ip.env) ip := by
  cases s with
  | BlockStmt stmts =>
    simp only [execute]
    exact framed_of_frame_fresh (frame_weaken (frame_newEnv ip ip.env)) (h.execBlock _ _ _)
      (Nat.le_refl _)
  | LetStmt name init =>
    simp only [execute]
    refine framed_bind (framed_weaken (h.evaluate _ _)) ?_
    intro v ip1 hfr
    show ip1.Frame (some ip.env) (ip1.define ip1.env name v)
    rw [hfr.env]
    exact frame_define_here ip1 ip.env name v
  | ExprStmt e =>
    simp only [execute]
    refine framed_bind (framed_weaken (h.evaluate _ _)) ?_
    intro v ip1 _
    exact frame_refl _ ip1
  | IfStmt cond thenB elseB =>
    simp only [execute]
    refine framed_bind (framed_weaken (h.evaluate _ _)) ?_
    intro v ip1 hfr
    have h1 := fun s => h.execute s ip1
    rw [hfr.env] at h1
    split
    · exact h1 _
    · split
      · exact h1 _
      · exact frame_refl _ ip1
  | WhileStmt cond body => simp only [execute]; exact h.whileLoop _ _ _
  | ForStmt x it body => simp only [execute]; exact h.execFor _ _ _ _
  | ReturnStmt value =>
    simp only [execute]
    split
    · refine framed_bind (framed_weaken (h.evaluate _ _)) ?_
      intro v ip1 _
      exact frame_refl _ ip1
    · exact frame_refl _ ip
  | FunctionStmt name params body => exact frame_define_here ip ip.env name _
  | ClassStmt name methods => exact frame_define_here ip ip.env name _
  | StructStmt name members => exact frame_define_here ip ip.env name _
  | UnionStmt name members => exact frame_define_here ip ip.env name _
  | ImportStmt path => simp only [execute]; exact h.execImport _ _
  | MultiAssignStmt names value =>
    simp only [execute]
    refine framed_bind (framed_weaken (h.evaluate _ _)) ?_
    intro v ip1 hfr
    split
    · split
      · exact frame_refl _ ip1
      · have h1 := frame_foldl_setVar (names.zip ‹List Value›) ip1
        rw [hfr.env] at h1
        exact h1
    · exact frame_refl _ ip1
  | MultiLetStmt names => exact frame_foldl_define_null names ip

theorem execStmts_framed {fuel : Nat} (h : FramedAt fuel) (ss : List Stmt) (ip : Interpreter) :
    (execStmts (fuel + 1) ss ip).Framed (some ip.env) ip := by
  cases ss with
  | nil => exact frame_refl _ ip
  | cons s rest =>
    simp only [execStmts]
    refine framed_bind (h.execute _ _) ?_
    intro _ ip1 hfr
    have h1 := h.execStmts rest ip1
    rw [hfr.env] at h1
    exact h1

theorem execBlock_framed {fuel : Nat} (h : FramedAt fuel) (ss : List Stmt) (e : Nat)
    (ip : Interpreter) : (execBlock (fuel + 1) ss e ip).Framed (some e) ip := by
  simp only [execBlock]
  have h1 := h.execStmts ss { ip with env := e }
  cases hr : execStmts fuel ss { ip with env := e } with
  | ok a ip1 => rw [hr] at h1; exact frame_restore_env e h1
  | throw x ip1 => rw [hr] at h1; exact frame_restore_env e h1
  | timeout => trivial
  | unsupported _ => trivial

theorem whileLoop_framed {fuel : Nat} (h : FramedAt fuel) (c : Expr) (b : Stmt)
    (ip : Interpreter) : (whileLoop (fuel + 1) c b ip).Framed (some ip.env) ip := by
  simp only [whileLoop]
  refine framed_bind (framed_weaken (h.evaluate _ _)) ?_
  intro v ip1 hfr
  split
  · have h1 := h.execute b ip1
    rw [hfr.env] at h1
    refine framed_bind h1 ?_
    intro _ ip2 hfr2
    have h2 := h.whileLoop c b ip2
    rw [hfr2.env, hfr.env] at h2
    exact h2
  · exact frame_refl _ ip1

theorem forLoop_framed {fuel : Nat} (h : FramedAt fuel) (x : String) (l : List Value) (b : Stmt)
    (ip : Interpreter) : (forLoop (fuel + 1) x l b ip).Framed (some ip.env) ip := by
  cases l with
  | nil => exact frame_refl _ ip
  | cons v rest =>
    simp only [forLoop]
    have h0 := frame_setVar ip x v
    have h1 := h.execute b (ip.setVar x v)
    rw [h0.env] at h1
    refine framed_of_frame h0 (framed_bind h1 ?_)
    intro _ ip2 hfr2
    have h2 := h.forLoop x rest b ip2
    rw [hfr2.env, h0.env] at h2
    exact h2

theorem execFor_framed {fuel : Nat} (h : FramedAt fuel) (x : String) (it : Expr) (b : Stmt)
    (ip : Interpreter) : (execFor (fuel + 1) x it b ip).Framed (some ip.env) ip := by
  simp only [execFor]
  refine framed_bind (framed_weaken (h.evaluate _ _)) ?_
  intro v ip1 hfr
  have h1 := fun l => h.forLoop x l b ip1
  rw [hfr.env] at h1
  split
  · exact h1 _
  · exact h1 _
  · exact h1 _
  · exact frame_refl _ ip1

theorem execImport_framed {fuel : Nat} (h : FramedAt fuel) (p : String) (ip : Interpreter) :
    (execImport (fuel + 1) p ip).Framed (some ip.env) ip := by
  simp only [execImport]
  split
  · exact frame_refl _ ip
  · split
    · exact frame_weaken (frame_load ip _)
    · split
      · trivial
      · exact frame_weaken (frame_load ip _)
      · exact frame_weaken (frame_load ip _)
      · rename_i stmts _
        generalize resolveImport ip.current_dir ip.builtins_dir p = key
        have h1 := h.execStmts stmts
          { ip with loaded_files := ip.loaded_files ++ [key], current_dir := parentPath key }
        split
        · rename_i hr; rw [hr] at h1; exact frame_restore_dir _ _ h1
        · rename_i hr; rw [hr] at h1; exact frame_restore_dir _ _ h1
        · trivial
        · trivial

theorem evaluate_framed {fuel : Nat} (h : FramedAt fuel) (e : Expr) (ip : Interpreter) :
    (evaluate (fuel + 1) e ip).Framed none ip := by
  cases e with
  | LiteralExpr v => exact frame_refl _ ip
  | VarExpr name =>
    simp only [evaluate]
    split <;> exact frame_refl _ ip
  | AssignExpr name value =>
    simp only [evaluate]
    refine framed_bind (h.evaluate _ _) ?_
    intro v ip1 _
    split
    · rename_i ip2 ha
      exact frame_assign ip1 ip2 ip1.env name v ha
    · exact frame_refl _ ip1
  | GroupingExpr e => simp only [evaluate]; exact h.evaluate _ _
  | UnaryExpr op right =>
    simp only [evaluate]
    refine framed_bind (h.evaluate _ _) ?_
    intro v ip1 _
    exact framed_liftE _ _ _
  | BinaryExpr left op right =>
    simp only [evaluate]
    split
    · refine framed_bind (h.evaluate _ _) ?_
      intro l ip1 _
      split
      · exact frame_refl _ ip1
      · refine framed_bind (h.evaluate _ _) ?_
        intro r ip2 _
        exact framed_liftE _ _ _
    · split
      · refine framed_bind (h.evaluate _ _) ?_
        intro l ip1 _
        split
        · exact frame_refl _ ip1
        · refine framed_bind (h.evaluate _ _) ?_
          intro r ip2 _
          exact framed_liftE _ _ _
      · refine framed_bind (h.evaluate _ _) ?_
        intro l ip1 _
        refine framed_bind (h.evaluate _ _) ?_
        intro r ip2 _
        exact framed_liftE _ _ _
  | CallExpr callee args => simp only [evaluate]; exact h.evalCall _ _ _
  | GetExpr object name => simp only [evaluate]; exact h.evalGet _ _ _
  | SetExpr object name value => simp only [evaluate]; exact h.evalSet _ _ _ _
  | IndexExpr object index => simp only [evaluate]; exact h.evalIndex _ _ _
  | SetIndexExpr object index value => simp only [evaluate]; exact h.evalSetIndex _ _ _ _

theorem evalArgs_framed {fuel : Nat} (h : FramedAt fuel) (es : List Expr) (ip : Interpreter) :
    (evalArgs (fuel + 1) es ip).Framed none ip := by
  cases es with
  | nil => exact frame_refl _ ip
  | cons a rest =>
    simp only [evalArgs]
    refine framed_bind (h.evaluate _ _) ?_
    intro v ip1 _
    refine framed_bind (h.evalArgs _ _) ?_
    intro vs ip2 _
    exact frame_refl _ ip2

theorem evalDict_framed {fuel : Nat} (h : FramedAt fuel) (es : List Expr)
    (d : List (String × Value)) (ip : Interpreter) :
    (evalDict (fuel + 1) es d ip).Framed none ip := by
  match es with
  | [] => exact frame_refl _ ip
  | [_] => trivial
  | k :: v :: rest =>
    simp only [evalDict]
    refine framed_bind (h.evaluate _ _) ?_
    intro kv ip1 _
    refine framed_bind (h.evaluate _ _) ?_
    intro vv ip2 _
    split
    · exact h.evalDict _ _ _
    · exact frame_refl _ ip2

theorem evalCall_framed {fuel : Nat} (h : FramedAt fuel) (c : Expr) (es : List Expr)
    (ip : Interpreter) : (evalCall (fuel + 1) c es ip).Framed none ip := by
  simp only [evalCall]
  split
  · refine framed_bind (h.evalArgs _ _) ?_
    intro l ip1 _
    exact frame_refl _ ip1
  · split
    · exact h.evalDict _ _ _
    · refine framed_bind (h.evaluate _ _) ?_
      intro cal ip1 _
      split
      · refine framed_bind (h.evalArgs _ _) ?_
        intro l ip2 _
        exact h.callNative _ _ _
      · refine framed_bind (h.evalArgs _ _) ?_
        intro l ip2 _
        exact h.callFunction _ _ _
      · refine framed_bind (h.evalArgs _ _) ?_
        intro l ip2 _
        exact h.callClass _ _ _
      · exact frame_refl _ ip1

theorem evalGet_framed {fuel : Nat} (h : FramedAt fuel) (o : Expr) (n : String)
    (ip : Interpreter) : (evalGet (fuel + 1) o n ip).Framed none ip := by
  simp only [evalGet]
  refine framed_bind (h.evaluate _ _) ?_
  intro obj ip1 _
  split
  · split
    · exact frame_refl _ ip1
    · split
      · rename_i m _
        exact frame_bindThis ip1 m.closure _
      · exact frame_refl _ ip1
  · split <;> exact frame_refl _ ip1
  · split <;> exact frame_refl _ ip1
  · exact frame_refl _ ip1

theorem evalSet_framed {fuel : Nat} (h : FramedAt fuel) (o : Expr) (n : String) (v : Expr)
    (ip : Interpreter) : (evalSet (fuel + 1) o n v ip).Framed none ip := by
  simp only [evalSet]
  refine framed_bind (h.evaluate _ _) ?_
  intro obj ip1 _
  refine framed_bind (h.evaluate _ _) ?_
  intro val ip2 _
  split
  · exact frame_setField ip2 _ _ _
  · exact frame_refl _ ip2
  · exact frame_refl _ ip2

theorem evalIndex_framed {fuel : Nat} (h : FramedAt fuel) (o i : Expr) (ip : Interpreter) :
    (evalIndex (fuel + 1) o i ip).Framed none ip := by
  simp only [evalIndex]
  refine framed_bind (h.evaluate _ _) ?_
  intro obj ip1 _
  refine framed_bind (h.evaluate _ _) ?_
  intro idx ip2 _
  repeat' split
  all_goals exact frame_refl _ ip2

theorem setIndexFallback_framed {fuel : Nat} (h : FramedAt fuel) (o : Expr) (i v : Value)
    (ip : Interpreter) : (setIndexFallback (fuel + 1) o i v ip).Framed none ip := by
  simp only [setIndexFallback]
  refine framed_bind (h.evaluate _ _) ?_
  intro obj ip1 _
  split <;> exact frame_refl _ ip1

theorem evalSetIndex_framed {fuel : Nat} (h : FramedAt fuel) (o i v : Expr) (ip : Interpreter) :
    (evalSetIndex (fuel + 1) o i v ip).Framed none ip := by
  simp only [evalSetIndex]
  refine framed_bind (h.evaluate _ _) ?_
  intro idxv ip1 _
  refine framed_bind (h.evaluate _ _) ?_
  intro val ip2 _
  split
  · refine framed_bind (h.evaluate _ _) ?_
    intro base ip3 _
    split
    · split
      · exact frame_trans (frame_setField ip3 _ _ _) (frame_setField _ _ _ _)
      · exact frame_setField ip3 _ _ _
    · split <;> exact frame_refl _ ip3
    · exact h.setIndexFallback _ _ _ _
  · split
    · exact frame_refl _ ip2
    · rename_i e1 hf
      split
      · exact frame_define_existing ip2 e1 _ _ (findEnv_defines ip2 _ _ _ e1 hf)
      · exact frame_refl _ ip2
  · exact h.setIndexFallback _ _ _ _

theorem framed_finishCall {w : Option Nat} (f : Function) (loc : Nat) (ip : Interpreter)
    (r : Res Unit) (hr : r.Framed w ip) : (finishCall f loc r).Framed w ip := by
  cases r with
  | ok a ip1 =>
    simp only [finishCall]
    split
    · exact framed_of_frame hr (framed_get _ _ _ _)
    · exact hr
  | throw e ip1 =>
    cases e with
    | ReturnSignal v =>
      simp only [finishCall]
      split
      · exact framed_of_frame hr (framed_get _ _ _ _)
      · exact hr
    | RuntimeError _ => exact hr
    | StdException _ => exact hr
  | timeout => trivial
  | unsupported _ => trivial

theorem callFunction_framed {fuel : Nat} (h : FramedAt fuel) (f : Function) (args : List Value)
    (ip : Interpreter) : (callFunction (fuel + 1) f args ip).Framed none ip := by
  by_cases hlen : args.length = f.params.length
  · rw [callFunction_matching fuel f args ip hlen]
    exact framed_of_frame_fresh (frame_bindParams ip f args)
      (framed_finishCall f _ _ _ (h.execBlock _ _ _)) (Nat.le_refl _)
  · simp only [callFunction, bne_iff_ne, ne_eq, hlen, not_false_eq_true, if_true]
    exact frame_refl _ ip

theorem callClass_framed {fuel : Nat} (h : FramedAt fuel) (k : Class) (args : List Value)
    (ip : Interpreter) : (callClass (fuel + 1) k args ip).Framed none ip := by
  simp only [callClass]
  split
  · rename_i init _
    have h0 : ip.Frame none ((ip.newInstance k).2.bindThis init.closure (.inst (ip.newInstance k).1)) :=
      frame_trans (frame_newInstance ip k) (frame_bindThis _ _ _)
    split
    · exact h0
    · refine framed_of_frame h0 (framed_bind (h.callFunction _ _ _) ?_)
      intro _ ip3 _
      exact frame_refl _ ip3
  · exact frame_newInstance ip k

theorem callNative_framed {fuel : Nat} (h : FramedAt fuel) (f : NativeFn) (args : List Value)
    (ip : Interpreter) : (callNative (fuel + 1) f args ip).Framed none ip := by
  simp only [callNative]
  split
  · split
    · exact h.mapLoop _ _ _ _
    · exact frame_refl _ ip
    · exact frame_refl _ ip
  · exact framed_callBuiltin _ _ _

theorem mapLoop_framed {fuel : Nat} (h : FramedAt fuel) (f : Value) (l out : List Value)
    (ip : Interpreter) : (mapLoop (fuel + 1) f l out ip).Framed none ip := by
  cases l with
  | nil => exact frame_refl _ ip
  | cons v rest =>
    simp only [mapLoop]
    split
    · refine framed_bind (h.callFunction _ _ _) ?_
      intro _ ip1 _
      exact h.mapLoop _ _ _ _
    · refine framed_bind (h.callNative _ _ _) ?_
      intro _ ip1 _
      exact h.mapLoop _ _ _ _
    · exact frame_refl _ ip

/-- The frame condition holds of every function of the interpreter, for every fuel. -/
theorem framedAt_all (fuel : Nat) : FramedAt fuel := by
  induction fuel with
  | zero =>
    exact ⟨fun _ _ => trivial, fun _ _ => trivial, fun _ _ _ => trivial, fun _ _ _ => trivial,
      fun _ _ _ _ => trivial, fun _ _ _ _ => trivial, fun _ _ => trivial, fun _ _ => trivial,
      fun _ _ => trivial, fun _ _ _ => trivial, fun _ _ _ => trivial, fun _ _ _ => trivial,
      fun _ _ _ _ => trivial, fun _ _ _ => trivial, fun _ _ _ _ => trivial,
      fun _ _ _ _ => trivial, fun _ _ _ => trivial, fun _ _ _ => trivial, fun _ _ _ => trivial,
      fun _ _ _ _ => trivial⟩
  | succ k ih =>
    exact ⟨execute_framed ih, execStmts_framed ih, execBlock_framed ih, whileLoop_framed ih,
      forLoop_framed ih, execFor_framed ih, execImport_framed ih, evaluate_framed ih,
      evalArgs_framed ih, evalDict_framed ih, evalCall_framed ih, evalGet_framed ih,
      evalSet_framed ih, evalIndex_framed ih, setIndexFallback_framed ih, evalSetIndex_framed ih,
      callFunction_framed ih, callClass_framed ih, callNative_framed ih, mapLoop_framed ih⟩

/-- Evaluating an expression that yields a value leaves a framed state. -/
theorem evaluate_frame (fuel : Nat) (e : Expr) (ip ip1 : Interpreter) (v : Value)
    (h : evaluate fuel e ip = .ok v ip1) : ip.Frame none ip1 := by
  have h1 := (framedAt_all fuel).evaluate e ip
  rw [h] at h1
  exact h1

/-! ## C16: `let` defines in the current scope -/

/-- On a well-formed heap the search from a scope ends in that scope or an earlier one. -/
theorem findEnv_le (ip : Interpreter) (name : String) (bound : Nat)
    (hwf : ∀ e, e < bound → ∀ p ∈ (ip.envAt e).parent, p < e) (fuel e e1 : Nat) (he : e < bound)
    (h : ip.findEnv name fuel e = some e1) : e1 ≤ e := by
  induction fuel generalizing e with
  | zero => simp [Interpreter.findEnv] at h
  | succ k ih =>
    simp only [Interpreter.findEnv] at h
    split at h
    · cases h; exact Nat.le_refl _
    · cases hp : (ip.envAt e).parent with
      | none => simp [hp] at h
      | some p =>
        have hpe : p < e := hwf e he p (by simp [hp])
        simp only [hp] at h
        have := ih p (by omega) h
        omega

/-- Two heaps of the same size that agree below `bound`, the first one well-formed
there, read every name alike from a scope below `bound`. -/
theorem getPtr_congr (ip ip1 : Interpreter) (name : String) (bound : Nat)
    (hlen : ip1.envs.length = ip.envs.length)
    (hsame : ∀ e, e < bound → ip1.envAt e = ip.envAt e)
    (hwf : ∀ e, e < bound → ∀ p ∈ (ip.envAt e).parent, p < e) (e : Nat) (he : e < bound) :
    ip1.getPtr e name = ip.getPtr e name := by
  simp only [Interpreter.getPtr, hlen, findEnv_congr ip ip1 name bound hsame hwf _ e he]
  cases hf : ip.findEnv name ip.envs.length e with
  | none => rfl
  | some e1 =>
    have hle := findEnv_le ip name bound hwf _ e e1 he hf
    simp only
    rw [hsame e1 (by omega)]

/-- A heap extended by new environments reads every name from an old scope as the
well-formed heap it extends. -/
theorem getPtr_of_agree (ip ip1 : Interpreter) (hwf : ip.WellFormed)
    (hlen : ip.envs.length ≤ ip1.envs.length)
    (hsame : ∀ e, e < ip.envs.length → ip1.envAt e = ip.envAt e) (e : Nat)
    (he : e < ip.envs.length) (name : String) : ip1.getPtr e name = ip.getPtr e name := by
  simp only [Interpreter.getPtr, findEnv_congr ip ip1 name ip.envs.length hsame hwf _ e he,
    findEnv_fuel ip name hwf ip1.envs.length ip.envs.length e (by omega) he he]
  cases hf : ip.findEnv name ip.envs.length e with
  | none => rfl
  | some e1 =>
    have hle := findEnv_le ip name ip.envs.length hwf _ e e1 he hf
    simp only
    rw [hsame e1 (by omega)]

theorem enterBlock_envAt_old (ip : Interpreter) (e : Nat) (he : e < ip.envs.length) :
    ip.enterBlock.envAt e = ip.envAt e :=
  newEnv_envAt_old ip ip.env e he

/-- C16: `let x = e;` defines `x` in the scope that is current when the statement
starts, with the value of `e`, whatever `x` was before: the name then reads that value
there, and the definition touches no other scope and no other name.  So
`let x = e1; let x = e2;` in one scope leaves `x` bound to the value of `e2`.  Run
inside a block, `let x = e;` defines in the new scope of the block and leaves every
scope that existed before the block as the evaluation of `e` left it, so that, on a
well-formed heap, every name reads from the enclosing scope after the block what it
read when the definition took place, and, for a literal `e`, what it read before the
block. -/
theorem C16_let_defines_in_current_scope (fuel : Nat) (ip : Interpreter) (x : String)
    (henv : ip.env < ip.envs.length) :
    (∀ (e : Expr) (v : Value) (ip1 : Interpreter), evaluate fuel e ip = .ok v ip1 →
      execute (fuel + 1) (.LetStmt x e) ip = .ok () (ip1.define ip.env x v) ∧
      mapFind ((ip1.define ip.env x v).envAt ip.env).values x = some v ∧
      (ip1.define ip.env x v).getPtr ip.env x = some v ∧
      (∀ e0, e0 ≠ ip.env → (ip1.define ip.env x v).envAt e0 = ip1.envAt e0) ∧
      (∀ n, n ≠ x → mapFind ((ip1.define ip.env x v).envAt ip.env).values n
        = mapFind (ip1.envAt ip.env).values n)) ∧
    (∀ (e1 e2 : Expr) (v1 v2 : Value) (ip1 ip2 : Interpreter),
      evaluate (fuel + 1) e1 ip = .ok v1 ip1 →
      evaluate fuel e2 (ip1.define ip.env x v1) = .ok v2 ip2 →
      execStmts (fuel + 3) [.LetStmt x e1, .LetStmt x e2] ip = .ok () (ip2.define ip.env x v2) ∧
      (ip2.define ip.env x v2).getPtr ip.env x = some v2 ∧
      (ip2.define ip.env x v2).env = ip.env) ∧
    (∀ (e : Expr) (v : Value) (ip1 : Interpreter), evaluate fuel e ip.enterBlock = .ok v ip1 →
      execute (fuel + 4) (.BlockStmt [.LetStmt x e]) ip
        = .ok () { ip1.define ip.envs.length x v with env := ip.env } ∧
      (∀ e0, e0 < ip.envs.length →
        ({ ip1.define ip.envs.length x v with env := ip.env } : Interpreter).envAt e0
          = ip1.envAt e0) ∧
      (ip.WellFormed → ∀ n,
        ({ ip1.define ip.envs.length x v with env := ip.env } : Interpreter).getPtr ip.env n
          = ip1.getPtr ip.env n)) ∧
    (∀ lit : Literal, ip.WellFormed →
      ∃ ip2, execute (fuel + 5) (.BlockStmt [.LetStmt x (.LiteralExpr lit)]) ip = .ok () ip2 ∧
        ip2.env = ip.env ∧ ∀ n, ip2.getPtr ip.env n = ip.getPtr ip.env n) := by
  have hblock : ∀ (fuel : Nat) (e : Expr) (v : Value) (ip1 : Interpreter),
      evaluate fuel e ip.enterBlock = .ok v ip1 →
      execute (fuel + 4) (.BlockStmt [.LetStmt x e]) ip
        = .ok () { ip1.define ip.envs.length x v with env := ip.env } := by
    intro fuel e v ip1 hev
    have hfr := evaluate_frame fuel e _ ip1 v hev
    have h1 : ip1.env = ip.envs.length := hfr.env
    have hev1 : evaluate fuel e { (ip.newEnv ip.env).2 with env := (ip.newEnv ip.env).1 }
        = .ok v ip1 := hev
    simp only [execute, execBlock, execStmts, hev1, Res.bind, h1]
    rfl
  have hold : ∀ (v : Value) (ip1 : Interpreter) (e0 : Nat), e0 < ip.envs.length →
      ({ ip1.define ip.envs.length x v with env := ip.env } : Interpreter).envAt e0
        = ip1.envAt e0 := by
    intro v ip1 e0 he0
    exact envAt_define_other ip1 ip.envs.length e0 x v (by omega)
  refine ⟨?_, ?_, ?_, ?_⟩
  · intro e v ip1 hev
    have hfr := evaluate_frame fuel e ip ip1 v hev
    have hlt : ip.env < ip1.envs.length := Nat.lt_of_lt_of_le henv hfr.length
    refine ⟨?_, ?_, getPtr_define_self ip1 ip.env x v hlt,
      fun e0 he0 => envAt_define_other ip1 ip.env e0 x v he0,
      fun n hn => envAt_define_find_ne ip1 ip.env ip.env x n v hn⟩
    · simp only [execute, hev, Res.bind, hfr.env]
    · rw [envAt_define_same ip1 ip.env x v hlt]
      exact mapFind_mapSet_self _ _ _
  · intro e1 e2 v1 v2 ip1 ip2 hev1 hev2
    have hfr1 := evaluate_frame _ e1 ip ip1 v1 hev1
    have hfr2 := evaluate_frame _ e2 _ ip2 v2 hev2
    have henv2 : ip2.env = ip.env := hfr2.env.trans hfr1.env
    have hlt : ip.env < ip2.envs.length := by
      have h1 := hfr1.length
      have h2 := hfr2.length
      rw [define_envs_length] at h2
      omega
    refine ⟨?_, getPtr_define_self ip2 ip.env x v2 hlt, henv2⟩
    have hev2a : evaluate fuel e2 (ip1.define ip1.env x v1) = .ok v2 ip2 := by
      rw [hfr1.env]; exact hev2
    simp only [execStmts, execute, hev1, Res.bind, hev2a, henv2]
  · intro e v ip1 hev
    refine ⟨hblock fuel e v ip1 hev, hold v ip1, ?_⟩
    intro hwf n
    have hfr := evaluate_frame fuel e _ ip1 v hev
    rw [getPtr_of_envs_eq (ip1.define ip.envs.length x v)
      { ip1.define ip.envs.length x v with env := ip.env } rfl]
    refine getPtr_congr ip1 _ n ip.envs.length (define_envs_length _ _ _ _)
      (fun e0 he0 => envAt_define_other ip1 ip.envs.length e0 x v (by omega)) ?_ ip.env henv
    intro e0 he0 p hp
    have hpar := hfr.parent e0 (by
      show e0 < (ip.newEnv ip.env).2.envs.length
      rw [newEnv_length]; omega)
    rw [hpar, enterBlock_envAt_old ip e0 he0] at hp
    exact hwf e0 he0 p hp
  · intro lit hwf
    refine ⟨_, hblock (fuel + 1) (.LiteralExpr lit) lit.toValue ip.enterBlock rfl, rfl, ?_⟩
    · intro n
      rw [getPtr_of_envs_eq (ip.enterBlock.define ip.envs.length x lit.toValue)
        { ip.enterBlock.define ip.envs.length x lit.toValue with env := ip.env } rfl]
      refine getPtr_of_agree ip _ hwf ?_ ?_ ip.env henv n
      · rw [define_envs_length]
        show ip.envs.length ≤ (ip.newEnv ip.env).2.envs.length
        rw [newEnv_length]; omega
      · intro e0 he0
        rw [envAt_define_other _ ip.envs.length e0 x _ (by omega)]
        exact enterBlock_envAt_old ip e0 he0

/-- Witness for C16: `let a = 7;` where the global `a` holds a list, and programs that
define a name twice and that shadow it in a block. -/
theorem C16_let_defines_in_current_scope_witness :
    listA.env < listA.envs.length ∧
    evaluate 1 (.LiteralExpr (.number ⟨7, 1⟩)) listA = .ok (.number ⟨7, 1⟩) listA ∧
    execute (1 + 1) (.LetStmt "a" (.LiteralExpr (.number ⟨7, 1⟩))) listA
      = .ok () (listA.define listA.env "a" (.number ⟨7, 1⟩)) ∧
    (listA.define listA.env "a" (.number ⟨7, 1⟩)).getPtr listA.env "a" = some (.number ⟨7, 1⟩) ∧
    vmStdout (runFresh "let x = 1; let x = 2; print(x);").vm? = "2\n" ∧
    vmStdout (runFresh "let x = 1; \x7b let x = 2; print(x); \x7d print(x);").vm? = "2\n1\n" ∧
    vmStdout (runFresh ("let x = 1; func f() \x7b let x = 5; return x; \x7d "
      ++ "print(f()); print(x);")).vm? = "5\n1\n" :=
  ⟨by decide, rfl,
    ((C16_let_defines_in_current_scope 1 listA "a" (by decide)).1
      (.LiteralExpr (.number ⟨7, 1⟩)) (.number ⟨7, 1⟩) listA rfl).1,
    ((C16_let_defines_in_current_scope 1 listA "a" (by decide)).1
      (.LiteralExpr (.number ⟨7, 1⟩)) (.number ⟨7, 1⟩) listA rfl).2.2.1,
    by decide!, by decide!, by decide!⟩

/-! ## C17: positional unpacking -/

/-- In an allocated current scope both branches of the multi-assign pattern are
`define` in that scope. -/
theorem setVar_eq_define (ip : Interpreter) (n : String) (v : Value)
    (henv : ip.env < ip.envs.length) : ip.setVar n v = ip.define ip.env n v := by
  simp only [Interpreter.setVar]
  split
  · rename_i hhas
    obtain ⟨k, hk⟩ : ∃ k, ip.envs.length = k + 1 := ⟨ip.envs.length - 1, by omega⟩
    simp [Interpreter.assign, hk, Interpreter.findEnv, hhas]
  · rfl

theorem foldl_setVar_eq (ps : List (String × Value)) (ip : Interpreter)
    (henv : ip.env < ip.envs.length) :
    ps.foldl (fun s nv => s.setVar nv.1 nv.2) ip
      = ps.foldl (fun s pa => s.define ip.env pa.1 pa.2) ip := by
  induction ps generalizing ip with
  | nil => rfl
  | cons p rest ih =>
    simp only [List.foldl_cons, setVar_eq_define ip p.1 p.2 henv]
    exact ih (ip.define ip.env p.1 p.2) (by rw [define_envs_length]; exact henv)

/-- Counterexample to C17 as stated: in `let a, a = [1, 2];` the first name is `a` and the
first element is 1, but afterwards `a` is bound to 2. -/
theorem C17_counterexample :
    (frontEnd 100 "let a, a = xs;").yields [unpackTwice] = true ∧
    vmStdout (runFresh "let a, a = [1, 2]; print(a);").vm? = "2\n" ∧ "2\n" ≠ "1\n" ∧
    vmStderr (runFresh "let a, a = [1, 2]; print(a);").vm? = "" :=
  ⟨by decide!, by decide!, by decide, by decide!⟩

/-- C17 as amended: the parser turns `let n1, ..., nk = e;` with `k ≥ 2` into a multi-assign
statement.  Running it evaluates `e`; when the value is a list of exactly `k`
elements it writes `ni := element i` for `i = 1, ..., k` in order in the current scope
and nowhere else, so that every name reads, in the current scope, the element at its
position (at its last position, if it occurs more than once) and every name not in the
list keeps its binding; when the value is not a list, or a list of another length, it
fails in the state that evaluating `e` left, in which every scope has the names it had
before the statement. -/
theorem C17_multi_let_unpacks (fuel : Nat) (ip ip1 : Interpreter) (names : List String)
    (e : Expr) (rv : Value) (henv : ip.env < ip.envs.length)
    (hev : evaluate fuel e ip = .ok rv ip1) :
    (∀ l : List Value, rv = .list l → l.length = names.length →
      ∃ ip2, execute (fuel + 1) (.MultiAssignStmt names e) ip = .ok () ip2 ∧
        ip2.env = ip.env ∧
        (∀ (i : Nat) (n : String) (a : Value), names[i]? = some n → l[i]? = some a →
          (∀ j : Nat, i < j → names[j]? ≠ some n) →
          mapFind (ip2.envAt ip.env).values n = some a ∧ ip2.getPtr ip.env n = some a) ∧
        (∀ e0, e0 ≠ ip.env → ip2.envAt e0 = ip1.envAt e0) ∧
        (∀ n, n ∉ names →
          mapFind (ip2.envAt ip.env).values n = mapFind (ip1.envAt ip.env).values n)) ∧
    (rv.isList = false →
      execute (fuel + 1) (.MultiAssignStmt names e) ip
        = .throw (.RuntimeError "Right-hand side of multi-assign must be a list") ip1) ∧
    (∀ l : List Value, rv = .list l → l.length ≠ names.length →
      execute (fuel + 1) (.MultiAssignStmt names e) ip
        = .throw (.RuntimeError "Multi-assign length mismatch") ip1) ∧
    (∀ (e0 : Nat) (n : String), e0 < ip.envs.length →
      mapHas (ip1.envAt e0).values n = mapHas (ip.envAt e0).values n) ∧
    (∀ (ts : List Token) (depth cur cur1 cur2 cur3 cur4 cur5 : Nat) (t semi : Token)
        (init : Expr),
      Parser.consume ts cur .IDENTIFIER "Expected variable name" = .ok t cur1 →
      Parser.commaNames ts "Expected variable name" ts.length cur1 [t.lexeme] = .ok names cur2 →
      Parser.matchAny ts cur2 [.EQUAL] = some cur3 →
      Parser.expression ts depth cur3 = .ok init cur4 →
      Parser.consume ts cur4 .SEMICOLON "Expected ';'" = .ok semi cur5 →
      names.length ≠ 1 →
      Parser.letDecl ts (depth + 1) cur = .ok (.MultiAssignStmt names init) cur5) := by
  have hfr := evaluate_frame fuel e ip ip1 rv hev
  have hlt : ip.env < ip1.envs.length := Nat.lt_of_lt_of_le henv hfr.length
  have henv1 : ip1.env < ip1.envs.length := by rw [hfr.env]; exact hlt
  refine ⟨?_, ?_, ?_, fun e0 n he0 => hfr.fixed e0 n he0 (by simp), ?_⟩
  · intro l hl hlen
    subst hl
    have hfold := foldl_setVar_eq (names.zip l) ip1 henv1
    rw [hfr.env] at hfold
    refine ⟨(names.zip l).foldl (fun s pa => s.define ip.env pa.1 pa.2) ip1, ?_, ?_, ?_, ?_, ?_⟩
    · simp only [execute, hev, Res.bind, bne_iff_ne, ne_eq, hlen, not_true_eq_false, if_false,
        hfold]
    · have h := congrArg Interpreter.env (foldl_define_rest (names.zip l) ip1 ip.env)
      exact h.trans hfr.env
    · intro i n a hn ha hlast
      have hval : mapFind (((names.zip l).foldl (fun s pa => s.define ip.env pa.1 pa.2)
          ip1).envAt ip.env).values n = some a := by
        rw [foldl_define_values _ _ _ hlt]
        apply mapFind_foldl_mapSet_at _ _ i n a
        · rw [List.getElem?_zip_eq_some]; exact ⟨hn, ha⟩
        · intro j pa hj hpa heq
          rw [List.getElem?_zip_eq_some] at hpa
          exact hlast j hj (heq ▸ hpa.1)
      exact ⟨hval, getPtr_of_defined_here _ _ _ _ hval⟩
    · intro e0 he0
      exact foldl_define_other _ _ _ _ he0
    · intro n hn
      rw [foldl_define_values _ _ _ hlt]
      apply mapFind_foldl_mapSet_ne
      intro pa hpa heq
      obtain ⟨p1, p2⟩ := pa
      exact hn (heq ▸ (List.of_mem_zip hpa).1)
  · intro hl
    cases rv <;> simp [Value.isList] at hl <;> simp only [execute, hev, Res.bind, throwRT]
  · intro l hl hlen
    subst hl
    simp only [execute, hev, Res.bind, bne_iff_ne, ne_eq, hlen, not_false_eq_true, if_true,
      throwRT]
  · intro ts depth cur cur1 cur2 cur3 cur4 cur5 t semi init h1 h2 h3 h4 h5 hk
    simp only [Parser.letDecl, h1, PResult.bind, h2, h3, h4, h5, hk, if_false]

/-- Witness for C17 as amended: unpacking the list `[1, 2]` held by the global `a` into
two names, into three names, and unpacking a number; what the front end makes of
`let a,b,c = xs;`; and the programs of the specification. -/
theorem C17_multi_let_unpacks_witness :
    listA.env < listA.envs.length ∧
    evaluate 1 (.VarExpr "a") listA = .ok (.list [.number ⟨1, 1⟩, .number ⟨2, 1⟩]) listA ∧
    (∃ ip2, execute (1 + 1) (.MultiAssignStmt ["p", "q"] (.VarExpr "a")) listA = .ok () ip2 ∧
      ip2.getPtr listA.env "p" = some (.number ⟨1, 1⟩) ∧
      ip2.getPtr listA.env "q" = some (.number ⟨2, 1⟩)) ∧
    execute (1 + 1) (.MultiAssignStmt ["p", "q", "r"] (.VarExpr "a")) listA
      = .throw (.RuntimeError "Multi-assign length mismatch") listA ∧
    execute (1 + 1) (.MultiAssignStmt ["p", "q"] (.LiteralExpr (.number ⟨5, 1⟩))) listA
      = .throw (.RuntimeError "Right-hand side of multi-assign must be a list") listA ∧
    (frontEnd 100 "let a,b,c = xs;").yields [unpackStmt] = true ∧
    vmStdout (runFresh "let xs = [1,2,3]; let a,b,c = xs; print(a+b+c);").vm? = "6\n" ∧
    vmStdout (runFresh "let xs = [1,2,3]; let a,b,c = xs; print(a); print(b); print(c);").vm?
      = "1\n2\n3\n" ∧
    vmStderr (runFresh "let a, b = 5; print(a);").vm?
      = "Runtime error: Right-hand side of multi-assign must be a list\n" ∧
    vmStderr (runFresh "let a, b = [1, 2, 3]; print(a);").vm?
      = "Runtime error: Multi-assign length mismatch\n" :=
  ⟨by decide, rfl,
    ((C17_multi_let_unpacks 1 listA listA ["p", "q"] (.VarExpr "a") _ (by decide) rfl).1
      [.number ⟨1, 1⟩, .number ⟨2, 1⟩] rfl rfl).imp fun _ h =>
        ⟨h.1,
          (h.2.2.1 0 "p" _ rfl rfl (by
            intro j hj
            match j with
            | 0 => omega
            | 1 => decide
            | j + 2 => simp)).2,
          (h.2.2.1 1 "q" _ rfl rfl (by
            intro j hj
            match j with
            | 0 => omega
            | 1 => omega
            | j + 2 => simp)).2⟩,
    (C17_multi_let_unpacks 1 listA listA ["p", "q", "r"] (.VarExpr "a") _ (by decide) rfl).2.2.1
      [.number ⟨1, 1⟩, .number ⟨2, 1⟩] rfl (by decide),
    (C17_multi_let_unpacks 1 listA listA ["p", "q"] (.LiteralExpr (.number ⟨5, 1⟩)) _ (by decide)
      rfl).2.1 rfl,
    by decide!, by decide!, by decide!, by decide!, by decide!⟩

/-! ## C11: what an initializer returns -/

/-- When the closure of a call defines `this`, `this` is still visible from the
environment of the call after the body has run, whatever the body did. -/
theorem this_visible (s ip1 : Interpreter) (E L : Nat) (hE : E < s.envs.length)
    (hL : L < s.envs.length) (hEL : E ≠ L) (hpar : (s.envAt L).parent = some E)
    (hthis : mapHas (s.envAt E).values "this" = true) (hfr : s.Frame (some L) ip1) :
    ∃ t, ip1.getPtr L "this" = some t := by
  have hpar1 : (ip1.envAt L).parent = some E := (hfr.parent L hL).trans hpar
  have hthis1 : mapHas (ip1.envAt E).values "this" = true := hfr.mono E "this" hE hthis
  have hlen := hfr.length
  obtain ⟨k, hk⟩ : ∃ k, ip1.envs.length = k + 2 := ⟨ip1.envs.length - 2, by omega⟩
  have hfind : ∃ e1, ip1.findEnv "this" ip1.envs.length L = some e1 := by
    rw [hk]
    simp only [Interpreter.findEnv, hpar1, hthis1, if_true]
    split
    · exact ⟨L, rfl⟩
    · exact ⟨E, rfl⟩
  obtain ⟨e1, he1⟩ := hfind
  have hdef := findEnv_defines ip1 "this" _ L e1 he1
  simp only [Interpreter.getPtr, he1]
  simp only [mapHas, Option.isSome_iff_exists] at hdef
  exact hdef

theorem wellFormed_bindThis (ip : Interpreter) (hwf : ip.WellFormed) (c : Nat) (obj : Value)
    (hc : c < ip.envs.length) : (ip.bindThis c obj).WellFormed := by
  intro e he p hp
  have hlen : (ip.bindThis c obj).envs.length = ip.envs.length + 1 := by simp [bindThis_envs]
  by_cases h : e < ip.envs.length
  · rw [bindThis_envAt_old ip c obj e h] at hp
    exact hwf e h p hp
  · have he1 : e = ip.envs.length := by omega
    subst he1
    rw [bindThis_envAt_new] at hp
    simp only [Option.mem_def, Option.some.injEq] at hp
    omega

/-- Counterexample to C11 as stated: an initializer whose body assigns to `this`, called
as a method of an instance, yields the assigned number, not the instance; the class call
still yields the instance. -/
theorem C11_counterexample :
    vmStdout (runFresh ("class A \x7b func init() \x7b return this = 5; \x7d \x7d "
      ++ "let o = A(); print(o); print(o.init());")).vm? = "<instance>\n5\n" ∧
    "<instance>\n5\n" ≠ "<instance>\n<instance>\n" ∧
    vmStderr (runFresh ("class A \x7b func init() \x7b return this = 5; \x7d \x7d "
      ++ "let o = A(); print(o); print(o.init());")).vm? = "" :=
  ⟨by decide!, by decide, by decide!⟩

/-- C11 as amended: an initializer yields what `this` holds when its body has ended.
For a class with an `init` method and a matching argument count, whenever the body of
`init` ends by falling off its end or at a `return`, with or without a value, the class
call yields the newly allocated instance, an instance of that class.  A function
flagged as initializer whose closure defines `this`, called with a matching argument
count, yields, whenever its body ends in one of these ways, the value that `this` reads
in the environment of the call at that moment; the value given to `return` plays no
part.  That value is the instance the method was bound to when the body did not assign
to `this`: so it is for the empty body, for `return;` and for `return lit;`. -/
theorem C11_initializer_yields_this (fuel : Nat) (ip : Interpreter) (args : List Value) :
    (∀ (k : Class) (init : Function) (ip1 : Interpreter), k.findMethod "init" = some init →
      args.length = init.params.length →
      (execBlock fuel init.body (ip.envs.length + 1)
        ((ip.initCall k init).bindParams (init.asInit ip.envs.length) args)).completed = true →
      (execBlock fuel init.body (ip.envs.length + 1)
        ((ip.initCall k init).bindParams (init.asInit ip.envs.length) args)).state? = some ip1 →
      callClass (fuel + 2) k args ip = .ok (.inst ip.instances.length) ip1 ∧
      (ip1.instAt ip.instances.length).klass = k ∧
      ip.instances.length < ip1.instances.length) ∧
    (∀ (g : Function) (ip1 : Interpreter), g.isInit = true → g.closure < ip.envs.length →
      mapHas (ip.envAt g.closure).values "this" = true →
      args.length = g.params.length →
      (execBlock fuel g.body ip.envs.length (ip.bindParams g args)).completed = true →
      (execBlock fuel g.body ip.envs.length (ip.bindParams g args)).state? = some ip1 →
      ∃ t, callFunction (fuel + 1) g args ip = .ok t ip1 ∧
        ip1.getPtr ip.envs.length "this" = some t) ∧
    (∀ (c : Nat) (obj : Value) (lit : Literal), ip.WellFormed → c < ip.envs.length →
      args = [] →
      (∃ ip1, callFunction (fuel + 5) (initOf [] ip.envs.length) args (ip.bindThis c obj)
        = .ok obj ip1) ∧
      (∃ ip1, callFunction (fuel + 5) (initOf [.ReturnStmt none] ip.envs.length) args
        (ip.bindThis c obj) = .ok obj ip1) ∧
      (∃ ip1, callFunction (fuel + 5)
        (initOf [.ReturnStmt (some (.LiteralExpr lit))] ip.envs.length) args
        (ip.bindThis c obj) = .ok obj ip1)) := by
  have hB : ∀ (fuel : Nat) (s : Interpreter) (g : Function) (ip1 : Interpreter),
      g.isInit = true → g.closure < s.envs.length →
      mapHas (s.envAt g.closure).values "this" = true →
      args.length = g.params.length →
      (execBlock fuel g.body s.envs.length (s.bindParams g args)).completed = true →
      (execBlock fuel g.body s.envs.length (s.bindParams g args)).state? = some ip1 →
      ∃ t, callFunction (fuel + 1) g args s = .ok t ip1 ∧
        ip1.getPtr s.envs.length "this" = some t := by
    intro fuel s g ip1 hinit hc hthis hlen hdone hstate
    have hfr := (framedAt_all fuel).execBlock g.body s.envs.length (s.bindParams g args)
    have hvis : ∀ ip2, (s.bindParams g args).Frame (some s.envs.length) ip2 →
        ∃ t, ip2.getPtr s.envs.length "this" = some t := by
      intro ip2 h2
      refine this_visible (s.bindParams g args) ip2 g.closure s.envs.length ?_ ?_ (by omega)
        (bindParams_parent s g args) ?_ h2
      · rw [bindParams_length]; omega
      · rw [bindParams_length]; omega
      · rw [bindParams_envAt_old s g args _ hc]; exact hthis
    rw [callFunction_matching fuel g args s hlen]
    cases hr : execBlock fuel g.body s.envs.length (s.bindParams g args) with
    | ok a ip2 =>
      rw [hr] at hfr hstate
      simp only [Res.state?, Option.some.injEq] at hstate
      subst hstate
      obtain ⟨t, ht⟩ := hvis ip2 hfr
      exact ⟨t, by simp only [finishCall, hinit, if_true, Interpreter.get, ht], ht⟩
    | throw e ip2 =>
      rw [hr] at hfr hstate hdone
      simp only [Res.state?, Option.some.injEq] at hstate
      subst hstate
      obtain ⟨t, ht⟩ := hvis ip2 hfr
      cases e with
      | ReturnSignal v =>
        exact ⟨t, by simp only [finishCall, hinit, if_true, Interpreter.get, ht], ht⟩
      | RuntimeError _ => simp [Res.completed] at hdone
      | StdException _ => simp [Res.completed] at hdone
    | timeout => rw [hr] at hstate; simp [Res.state?] at hstate
    | unsupported _ => rw [hr] at hstate; simp [Res.state?] at hstate
  refine ⟨?_, hB fuel ip, ?_⟩
  · intro k init ip1 hk hlen hdone hstate
    have hlenB : (ip.initCall k init).envs.length = ip.envs.length + 1 := by
      simp [Interpreter.initCall, bindThis_envs, Interpreter.newInstance]
    have hthisB : mapHas ((ip.initCall k init).envAt ip.envs.length).values "this" = true := by
      have h := bindThis_envAt_new (ip.newInstance k).2 init.closure (.inst ip.instances.length)
      have h1 : ((ip.initCall k init).envAt ip.envs.length)
          = ⟨some init.closure, [("this", .inst ip.instances.length)]⟩ := h
      rw [h1]
      rfl
    rw [← hlenB] at hdone hstate
    obtain ⟨t, ht, _⟩ := hB fuel (ip.initCall k init) (init.asInit ip.envs.length) ip1 rfl
      (by rw [hlenB]; exact Nat.lt_succ_self _) hthisB hlen hdone hstate
    have hcall : callClass (fuel + 2) k args ip
        = (callFunction (fuel + 1) (init.asInit ip.envs.length) args (ip.initCall k init)).bind
            fun _ ip3 => .ok (.inst ip.instances.length) ip3 := by
      simp only [callClass, hk, bne_iff_ne, ne_eq, hlen, not_true_eq_false, if_false]
      rfl
    have hfr : (ip.initCall k init).Frame none ip1 := by
      have h := (framedAt_all (fuel + 1)).callFunction (init.asInit ip.envs.length) args
        (ip.initCall k init)
      rw [ht] at h
      exact h
    have hinst : (ip.initCall k init).instances = ip.instances ++ [⟨k, []⟩] := rfl
    have hlt : ip.instances.length < (ip.initCall k init).instances.length := by
      rw [hinst]; simp
    refine ⟨by rw [hcall, ht]; rfl, ?_, Nat.lt_of_lt_of_le hlt hfr.instances⟩
    rw [hfr.klass _ hlt]
    simp [Interpreter.instAt, hinst, List.getD_eq_getElem?_getD]
  · intro c obj lit hwf hc hargs
    subst hargs
    have hwfB := wellFormed_bindThis ip hwf c obj hc
    have hlenB : (ip.bindThis c obj).envs.length = ip.envs.length + 1 := by simp [bindThis_envs]
    have hgetB : (ip.bindThis c obj).getPtr ip.envs.length "this" = some obj :=
      getPtr_of_defined_here _ _ _ _ (by rw [bindThis_envAt_new]; rfl)
    have hthisB : mapHas ((ip.bindThis c obj).envAt ip.envs.length).values "this" = true := by
      rw [bindThis_envAt_new]; rfl
    have key : ∀ body : List Stmt,
        (execBlock (fuel + 4) body (ip.bindThis c obj).envs.length
          ((ip.bindThis c obj).bindParams (initOf body ip.envs.length) [])).completed = true →
        (execBlock (fuel + 4) body (ip.bindThis c obj).envs.length
          ((ip.bindThis c obj).bindParams (initOf body ip.envs.length) [])).state?
          = some ((ip.bindThis c obj).bindParams (initOf body ip.envs.length) []) →
        ∃ ip1, callFunction (fuel + 5) (initOf body ip.envs.length) [] (ip.bindThis c obj)
          = .ok obj ip1 := by
      intro body hdone hstate
      obtain ⟨t, hcall, ht⟩ := hB (fuel + 4) (ip.bindThis c obj) (initOf body ip.envs.length) _
        rfl (by rw [hlenB]; exact Nat.lt_succ_self _) hthisB rfl hdone hstate
      have h := getPtr_bindParams (ip.bindThis c obj) hwfB (initOf body ip.envs.length) [] "this"
        (by simp [initOf]) rfl (by rw [hlenB]; exact Nat.lt_succ_self _)
        ((ip.bindThis c obj).bindParams (initOf body ip.envs.length) []).env
      have h2 : ((ip.bindThis c obj).bindParams (initOf body ip.envs.length) []).getPtr
          (ip.bindThis c obj).envs.length "this" = some obj := h.trans hgetB
      rw [h2] at ht
      cases ht
      exact ⟨_, hcall⟩
    exact ⟨key [] rfl rfl, key [.ReturnStmt none] rfl rfl,
      key [.ReturnStmt (some (.LiteralExpr lit))] rfl rfl⟩

/-- Witness for C11 as amended: an initializer with empty body bound to an instance in a
fresh VM, a class whose `init` executes `return 99;` called as a class and its `init`
called as a bound method, and programs whose `init` returns explicitly. -/
theorem C11_initializer_yields_this_witness :
    freshIp.WellFormed ∧ 0 < freshIp.envs.length ∧
    (∃ ip1, callFunction (0 + 5) (initOf [] freshIp.envs.length) []
      (freshIp.bindThis 0 (.inst 0)) = .ok (.inst 0) ip1) ∧
    (∃ ip1, callClass (4 + 2) returningClass [] freshIp
        = .ok (.inst freshIp.instances.length) ip1 ∧
      (ip1.instAt freshIp.instances.length).klass = returningClass) ∧
    (∃ t ip1, callFunction (4 + 1) (returningInit.boundTo freshIp.envs.length) []
        (freshIp.bindThis returningInit.closure (.inst 0)) = .ok t ip1 ∧
      ip1.getPtr (freshIp.bindThis returningInit.closure (.inst 0)).envs.length "this" = some t) ∧
    vmStdout (runFresh ("class C \x7b func init(x) \x7b this.x = x; return 99; \x7d \x7d "
      ++ "let c = C(7); print(c); print(c.x); print(c.init(8)); print(c.x);")).vm?
      = "<instance>\n7\n<instance>\n8\n" ∧
    vmStdout (runFresh ("class C \x7b func init() \x7b return; \x7d \x7d "
      ++ "let c = C(); print(c); print(c.init());")).vm? = "<instance>\n<instance>\n" :=
  ⟨by decide, by decide,
    ((C11_initializer_yields_this 0 freshIp []).2.2 0 (.inst 0) .null (by decide) (by decide)
      rfl).1,
    ⟨_, ((C11_initializer_yields_this 4 freshIp []).1 returningClass returningInit _ rfl rfl rfl
        rfl).1,
      ((C11_initializer_yields_this 4 freshIp []).1 returningClass returningInit _ rfl rfl rfl
        rfl).2.1⟩,
    ((C11_initializer_yields_this 4 (freshIp.bindThis returningInit.closure (.inst 0)) []).2.1
      (returningInit.boundTo freshIp.envs.length) _ rfl (by decide) (by decide) rfl rfl rfl).imp
      fun _ h => ⟨_, h⟩,
    by decide!, by decide!⟩

theorem num_eq_error_of_not_number (v : Value) (h : v.isNumber = false) :
    num v = .error (.RuntimeError "Expected number") := by
  cases v <;> simp_all [num, Value.isNumber]

theorem numOp_error_of_not_number (l r : Value) (f : Double → Double → Value)
    (h : l.isNumber = false ∨ r.isNumber = false) :
    numOp l r f = .error (.RuntimeError "Expected number") := by
  cases l <;> cases r <;> simp_all [numOp, num, Value.isNumber]

theorem divLike_error_of_not_number (l r : Value) (zeroMsg : String)
    (f : Double → Double → Value) (x : Except Thrown Value)
    (hx : x = match num r with
      | .error e => .error e
      | .ok d =>
        if d.isZero then .error (.RuntimeError zeroMsg)
        else match num l with
          | .error e => .error e
          | .ok a => .ok (f a d))
    (hn : l.isNumber = false ∨ r.isNumber = false) :
    ∃ msg, x = .error (.RuntimeError msg) := by
  subst hx
  cases r with
  | number n =>
    have hl : l.isNumber = false := by simpa [Value.isNumber] using hn
    by_cases hz : n.isZero = true
    · exact ⟨zeroMsg, by simp [num, hz]⟩
    · exact ⟨"Expected number", by
        simp [show num (Value.number n) = Except.ok n from rfl, hz,
          num_eq_error_of_not_number l hl]⟩
  | _ => exact ⟨"Expected number", by simp [num]⟩

/-- C24: dividing a number by zero fails with "Division by zero" and taking it modulo
zero fails with the different message "Modulo by zero"; with a non-zero divisor both
operations return a number; and `-`, `*`, `/`, `%` fail with a runtime error as soon as
one operand is not a number. -/
theorem C24_division_and_modulo_by_zero (op : Token) (a d : Double) (l r : Value)
    (hop : op.type = .MINUS ∨ op.type = .STAR ∨ op.type = .SLASH ∨ op.type = .PERCENT) :
    (d.isZero = true →
      (op.type = .SLASH →
        evalBinary (.number a) op (.number d) = .error (.RuntimeError "Division by zero"))
      ∧ (op.type = .PERCENT →
        evalBinary (.number a) op (.number d) = .error (.RuntimeError "Modulo by zero")))
    ∧ "Division by zero" ≠ "Modulo by zero"
    ∧ (d.isZero = false →
      (op.type = .SLASH → evalBinary (.number a) op (.number d) = .ok (.number (a.div d)))
      ∧ (op.type = .PERCENT → evalBinary (.number a) op (.number d) = .ok (.number (a.fmod d))))
    ∧ (l.isNumber = false ∨ r.isNumber = false →
      ∃ msg, evalBinary l op r = .error (.RuntimeError msg)) := by
  refine ⟨?_, by decide, ?_, ?_⟩
  · intro hz
    constructor <;> intro h <;> simp [evalBinary, h, num, hz]
  · intro hz
    constructor <;> intro h <;> simp [evalBinary, h, num, hz]
  · intro hn
    rcases hop with h | h | h | h
    · exact ⟨_, by simp only [evalBinary, h]; exact numOp_error_of_not_number l r _ hn⟩
    · exact ⟨_, by simp only [evalBinary, h]; exact numOp_error_of_not_number l r _ hn⟩
    · exact divLike_error_of_not_number l r "Division by zero" (fun a d => .number (a.div d)) _
        (by simp only [evalBinary, h] <;> rfl) hn
    · exact divLike_error_of_not_number l r "Modulo by zero" (fun a d => .number (a.fmod d)) _
        (by simp only [evalBinary, h] <;> rfl) hn

theorem C24_division_and_modulo_by_zero_witness :
    (opToken .SLASH "/").type = .SLASH
    ∧ evalBinary (.number ⟨7, 1⟩) (opToken .SLASH "/") (.number ⟨0, 1⟩)
        = .error (.RuntimeError "Division by zero")
    ∧ evalBinary (.number ⟨7, 1⟩) (opToken .SLASH "/") (.number ⟨2, 1⟩)
        = .ok (.number ⟨7, 2⟩)
    ∧ ∃ msg, evalBinary (.string "a") (opToken .SLASH "/") (.number ⟨0, 1⟩)
        = .error (.RuntimeError msg) :=
  have h := C24_division_and_modulo_by_zero (opToken .SLASH "/") ⟨7, 1⟩ ⟨0, 1⟩ (.string "a")
    (.number ⟨0, 1⟩) (Or.inr (Or.inr (Or.inl rfl)))
  have h2 := C24_division_and_modulo_by_zero (opToken .SLASH "/") ⟨7, 1⟩ ⟨2, 1⟩ .null .null
    (Or.inr (Or.inr (Or.inl rfl)))
  ⟨rfl, (h.1 rfl).1 rfl, (h2.2.2.1 rfl).1 rfl, h.2.2.2 (Or.inl rfl)⟩

/-- C25: for two values of different kinds `==` yields false and `!=` yields true, and
`<`, `<=`, `>`, `>=` fail with "Expected number" as soon as one operand is not a
number. -/
theorem C25_mixed_kinds_compare_unequal (a b : Value) (op : Token) :
    (a.typeName ≠ b.typeName →
      (op.type = .EQUAL_EQUAL → evalBinary a op b = .ok (.bool false))
      ∧ (op.type = .BANG_EQUAL → evalBinary a op b = .ok (.bool true)))
    ∧ (a.isNumber = false ∨ b.isNumber = false →
      op.type = .LESS ∨ op.type = .LESS_EQUAL ∨ op.type = .GREATER ∨ op.type = .GREATER_EQUAL →
      evalBinary a op b = .error (.RuntimeError "Expected number")) := by
  constructor
  · intro hk
    have he : equal a b = false := by
      cases a <;> cases b <;> simp_all [equal, Value.typeName]
    constructor <;> intro h <;> simp [evalBinary, h, he]
  · intro hn hop
    rcases hop with h | h | h | h <;> simp only [evalBinary, h] <;>
      exact numOp_error_of_not_number a b _ hn

theorem C25_mixed_kinds_compare_unequal_witness :
    evalBinary (.number ⟨1, 1⟩) (opToken .EQUAL_EQUAL "==") (.string "1") = .ok (.bool false)
    ∧ evalBinary .null (opToken .BANG_EQUAL "!=") (.bool false) = .ok (.bool true)
    ∧ evalBinary (.number ⟨1, 1⟩) (opToken .LESS "<") (.string "1")
        = .error (.RuntimeError "Expected number") :=
  ⟨((C25_mixed_kinds_compare_unequal (.number ⟨1, 1⟩) (.string "1")
      (opToken .EQUAL_EQUAL "==")).1 (by decide)).1 rfl,
   ((C25_mixed_kinds_compare_unequal .null (.bool false)
      (opToken .BANG_EQUAL "!=")).1 (by decide)).2 rfl,
   (C25_mixed_kinds_compare_unequal (.number ⟨1, 1⟩) (.string "1")
      (opToken .LESS "<")).2 (Or.inr rfl) (Or.inl rfl)⟩

/-- C26: `isTruthy` is false on null, the bool itself on a bool, "not zero" on a number
and true on every other value, the empty string, list and dict included; `!v` is the
bool `!isTruthy(v)`; `if` runs its then-branch exactly when the condition is truthy and
`while` runs its body and loops again exactly when the condition is truthy. -/
theorem C26_truthiness (fuel : Nat) (cond : Expr) (thenB body : Stmt) (elseB : Option Stmt)
    (op : Token) (v c : Value) (ip ip1 : Interpreter)
    (hop : op.type = .BANG) (hc : evaluate fuel cond ip = .ok c ip1) :
    isTruthy .null = false
    ∧ (∀ b, isTruthy (.bool b) = b)
    ∧ (∀ n : Double, isTruthy (.number n) = !decide (n.num = 0))
    ∧ (v.typeName ≠ "null" → v.typeName ≠ "bool" → v.typeName ≠ "number" → isTruthy v = true)
    ∧ isTruthy (.string "") = true ∧ isTruthy (.list []) = true ∧ isTruthy (.dict []) = true
    ∧ evalUnary op v = .ok (.bool (!isTruthy v))
    ∧ evaluate (fuel + 1) (.UnaryExpr op cond) ip = .ok (.bool (!isTruthy c)) ip1
    ∧ execute (fuel + 1) (.IfStmt cond thenB elseB) ip
        = (if isTruthy c then execute fuel thenB ip1
           else match elseB with
             | some s => execute fuel s ip1
             | none => .ok () ip1)
    ∧ whileLoop (fuel + 1) cond body ip
        = (if isTruthy c then
             (execute fuel body ip1).bind fun _ ip2 => whileLoop fuel cond body ip2
           else .ok () ip1)
    ∧ vmStdout (runFresh truthyProgram).vm? = "1\n2\n3\ntrue false true\n" := by
  refine ⟨rfl, fun _ => rfl, fun _ => rfl, ?_, rfl, rfl, rfl, ?_, ?_, ?_, ?_, by decide!⟩
  · intro h1 h2 h3
    cases v <;> simp_all [isTruthy, Value.typeName]
  · simp [evalUnary, hop]
  · simp only [evaluate, hc, Res.bind, evalUnary, hop, liftE]
  · simp only [execute, hc, Res.bind] <;> rfl
  · simp only [whileLoop, hc, Res.bind] <;> rfl

theorem C26_truthiness_witness :
    evalUnary (opToken .BANG "!") (.string "") = .ok (.bool false)
    ∧ execute 2 (.IfStmt (.LiteralExpr (.number ⟨0, 1⟩)) (.ReturnStmt none) none) freshIp
        = .ok () freshIp :=
  have h := C26_truthiness 1 (.LiteralExpr (.number ⟨0, 1⟩)) (.ReturnStmt none) (.ReturnStmt none)
    none (opToken .BANG "!") (.string "") (.number ⟨0, 1⟩) freshIp freshIp rfl rfl
  ⟨h.2.2.2.2.2.2.2.1, h.2.2.2.2.2.2.2.2.2.1⟩

/-- C27: `l && r` and `l || r` evaluate `l` first.  When `l` is falsy, `&&` is the bool
false in the state `l` left, whatever `r` is; when `l` is truthy, `||` is the bool true
in that state, whatever `r` is; otherwise `r` is evaluated next and the result is the
bool `isTruthy(l) && isTruthy(r)`, respectively `isTruthy(l) || isTruthy(r)`.  A failure
of `l` is the failure of the whole expression.  The keyword forms behave the same. -/
theorem C27_short_circuit (fuel : Nat) (l r : Expr) (op : Token) (ip ip1 : Interpreter)
    (lv : Value) (hl : evaluate fuel l ip = .ok lv ip1) :
    (op.type = .AND_AND ∨ op.type = .AND_KW →
      (isTruthy lv = false →
        evaluate (fuel + 1) (.BinaryExpr l op r) ip = .ok (.bool false) ip1)
      ∧ (isTruthy lv = true →
        evaluate (fuel + 1) (.BinaryExpr l op r) ip
          = (evaluate fuel r ip1).bind fun rv ip2 =>
              .ok (.bool (isTruthy lv && isTruthy rv)) ip2))
    ∧ (op.type = .OR_OR ∨ op.type = .OR_KW →
      (isTruthy lv = true →
        evaluate (fuel + 1) (.BinaryExpr l op r) ip = .ok (.bool true) ip1)
      ∧ (isTruthy lv = false →
        evaluate (fuel + 1) (.BinaryExpr l op r) ip
          = (evaluate fuel r ip1).bind fun rv ip2 =>
              .ok (.bool (isTruthy lv || isTruthy rv)) ip2))
    ∧ (∀ (e : Thrown) (ip0 ip2 : Interpreter),
        op.type = .AND_AND ∨ op.type = .AND_KW ∨ op.type = .OR_OR ∨ op.type = .OR_KW →
        evaluate fuel l ip0 = .throw e ip2 →
        evaluate (fuel + 1) (.BinaryExpr l op r) ip0 = .throw e ip2)
    ∧ vmStdout (runFresh shortCircuitProgram).vm? = "0 false true\n" := by
  refine ⟨?_, ?_, ?_, by decide!⟩
  · intro hop
    constructor
    · intro ht
      rcases hop with h | h <;> simp [evaluate, h, hl, Res.bind, ht]
    · intro ht
      rcases hop with h | h <;>
        simp [evaluate, h, hl, Res.bind, ht, evalBinary, Parser.normalize, liftE]
  · intro hop
    constructor
    · intro ht
      rcases hop with h | h <;> simp [evaluate, h, hl, Res.bind, ht]
    · intro ht
      rcases hop with h | h <;>
        simp [evaluate, h, hl, Res.bind, ht, evalBinary, Parser.normalize, liftE]
  · intro e ip0 ip2 hop hthrow
    rcases hop with h | h | h | h <;> simp [evaluate, h, hthrow, Res.bind]

theorem C27_short_circuit_witness :
    evaluate 2 (.BinaryExpr (.LiteralExpr (.bool false)) (opToken .AND_AND "&&")
      (.VarExpr "missing")) freshIp = .ok (.bool false) freshIp :=
  ((C27_short_circuit 1 (.LiteralExpr (.bool false)) (.VarExpr "missing")
      (opToken .AND_AND "&&") freshIp freshIp (.bool false) rfl).1 (Or.inl rfl)).1 rfl

theorem range_map_succ (f : Nat → Value) (n : Nat) :
    f 0 :: (List.range n).map (fun k => f (k + 1)) = (List.range (n + 1)).map f := by
  rw [List.range_succ_eq_map]
  simp [List.map_map, Function.comp_def]

theorem mem_dictKeys (d : List (String × Value)) (k : String) :
    Value.string k ∈ dictKeys d ↔ mapHas d k = true := by
  induction d with
  | nil => simp [dictKeys, mapHas, mapFind]
  | cons kv rest ih =>
    obtain ⟨k1, v1⟩ := kv
    by_cases h : k1 = k
    · simp [dictKeys, mapHas, mapFind, h]
    · have ih1 : Value.string k ∈ List.map (fun kv => Value.string kv.1) rest
          ↔ (mapFind rest k).isSome = true := ih
      simp only [dictKeys, List.map_cons, List.mem_cons, Value.string.injEq, mapHas, mapFind, h,
        if_false, ih1]
      constructor
      · rintro (h1 | h1)
        · exact absurd h1.symm h
        · exact h1
      · intro h1; exact Or.inr h1

theorem dictKeys_nodup (d : List (String × Value)) (h : (d.map Prod.fst).Nodup) :
    (dictKeys d).Nodup := by
  have : dictKeys d = (d.map Prod.fst).map Value.string := by
    simp [dictKeys, List.map_map, Function.comp_def]
  rw [this]
  exact List.Nodup.map (fun a b hab => by injection hab) h

theorem mapSet_keys {α : Type} (m : List (String × α)) (k : String) (v : α) :
    (mapSet m k v).map Prod.fst
      = if k ∈ m.map Prod.fst then m.map Prod.fst else m.map Prod.fst ++ [k] := by
  induction m with
  | nil => simp [mapSet]
  | cons kv rest ih =>
    obtain ⟨k1, v1⟩ := kv
    by_cases h : k1 = k
    · simp [mapSet, h]
    · have h' : ¬ k = k1 := fun x => h x.symm
      simp only [mapSet, h, if_false, List.map_cons, ih, List.mem_cons, h', false_or]
      split <;> simp

/-- Writing a key keeps the keys of a map distinct. -/
theorem mapSet_keys_nodup {α : Type} (m : List (String × α)) (k : String) (v : α)
    (h : (m.map Prod.fst).Nodup) : ((mapSet m k v).map Prod.fst).Nodup := by
  rw [mapSet_keys]
  split
  · exact h
  · rename_i hk
    exact List.Nodup.append h (List.nodup_singleton k) (by simpa using hk)

theorem write_getPtr (s : Interpreter) (text : String) (e : Nat) (name : String) :
    (s.write text).getPtr e name = s.getPtr e name :=
  getPtr_of_envs_eq s (s.write text) rfl name e

/-- An import of a registered file does nothing. -/
theorem execImport_loaded (k : Nat) (q : String) (s : Interpreter)
    (h : resolveImport s.current_dir s.builtins_dir q ∈ s.loaded_files) :
    execImport (k + 1) q s = .ok () s := by
  have hc : s.loaded_files.contains (resolveImport s.current_dir s.builtins_dir q) = true := by
    simpa using h
  simp only [execImport, hc, if_true]

theorem execImport_fresh (k : Nat) (p : String) (ip : Interpreter) (src : String)
    (stmts : List Stmt)
    (hnew : resolveImport ip.current_dir ip.builtins_dir p ∉ ip.loaded_files)
    (hfile : mapFind ip.files (resolveImport ip.current_dir ip.builtins_dir p) = some src)
    (hparse : frontEnd k src = .ok stmts) :
    execImport (k + 1) p ip
      = restoreDir ip.current_dir
          (execStmts k stmts (ip.importing (resolveImport ip.current_dir ip.builtins_dir p))) := by
  have hc : ip.loaded_files.contains (resolveImport ip.current_dir ip.builtins_dir p) = false := by
    cases h : ip.loaded_files.contains (resolveImport ip.current_dir ip.builtins_dir p) with
    | false => rfl
    | true => exact absurd (by simpa using h) hnew
  simp only [execImport, hc, hfile, hparse, Interpreter.importing]
  cases execStmts k stmts _ <;> rfl

theorem framed_of_endedIn {α : Type} {w : Option Nat} {ip ip1 : Interpreter} {r : Res α}
    (h : r.Framed w ip) (he : r.endedIn ip1) : ip.Frame w ip1 := by
  cases r with
  | ok a s => simp only [Res.endedIn] at he; subst he; exact h
  | throw e s => simp only [Res.endedIn] at he; subst he; exact h
  | timeout => exact absurd he (by simp [Res.endedIn])
  | unsupported w => exact absurd he (by simp [Res.endedIn])

namespace Parser

theorem matchAny_eq (ts : List Token) (c : Nat) (O : List TokenType) :
    matchAny ts c O
      = if (peek ts c).type ∈ O ∧ (peek ts c).type ≠ .END_OF_FILE then some (c + 1) else none := by
  induction O with
  | nil => simp [matchAny]
  | cons t rest ih =>
    simp only [matchAny, check, isAtEnd, advance, ih, List.mem_cons]
    by_cases hE : (peek ts c).type = .END_OF_FILE
    · simp [hE]
    · by_cases ht : (peek ts c).type = t
      · subst ht
        simp [hE]
      · simp [hE, ht]

theorem matchAny_continues (ts : List Token) (l c : Nat) (h : continues ts l c) :
    matchAny ts c (levelOps l) = some (c + 1) := by
  simp only [continues] at h
  rw [matchAny_eq, if_pos h]

theorem matchAny_stops (ts : List Token) (l c : Nat) (h : ¬ continues ts l c) :
    matchAny ts c (levelOps l) = none := by
  simp only [continues] at h
  rw [matchAny_eq, if_neg h]

theorem previous_succ (ts : List Token) (c : Nat) : previous ts (c + 1) = peek ts c := by
  simp [previous, peek]

/-- At a NUMBER token `primary` hands the lexeme to `std::stod`. -/
theorem primary_at_number (ts : List Token) (k c : Nat) (hty : (peek ts c).type = .NUMBER) :
    primary ts (k + 1) c
      = match stod (peek ts c).lexeme with
        | some d => .ok (.LiteralExpr (.number d)) (c + 1)
        | none => .stdException "stod" := by
  have hm : matchAny ts c [.NUMBER] = some (c + 1) := by
    rw [matchAny_eq, if_pos]
    rw [hty]
    exact ⟨by decide, by decide⟩
  have hF : matchAny ts c [.FALSE] = none := by
    rw [matchAny_eq, if_neg]; rw [hty]; decide
  have hT : matchAny ts c [.TRUE] = none := by
    rw [matchAny_eq, if_neg]; rw [hty]; decide
  have hN : matchAny ts c [.NULL_T] = none := by
    rw [matchAny_eq, if_neg]; rw [hty]; decide
  have hH : matchAny ts c [.THIS] = none := by
    rw [matchAny_eq, if_neg]; rw [hty]; decide
  simp only [primary, hF, hT, hN, hH, hm, previous_succ]

theorem primary_number (ts : List Token) (k c : Nat) (d : Double)
    (hty : (peek ts c).type = .NUMBER) (hs : stod (peek ts c).lexeme = some d) :
    primary ts (k + 1) c = .ok (.LiteralExpr (.number d)) (c + 1) := by
  rw [primary_at_number ts k c hty, hs]

theorem primary_out_of_range (ts : List Token) (k c : Nat)
    (hty : (peek ts c).type = .NUMBER) (hs : stod (peek ts c).lexeme = none) :
    primary ts (k + 1) c = .stdException "stod" := by
  rw [primary_at_number ts k c hty, hs]

theorem level_succ (ts : List Token) (i k cur : Nat) (hi : i < 6) :
    level ts (i + 1) (k + 1) cur
      = (level ts i k cur).bind fun e c => levelLoop ts (i + 1) k c e := by
  match i, hi with
  | 0, _ => simp only [level, levelLoop, factor]
  | 1, _ => simp only [level, levelLoop, term]
  | 2, _ => simp only [level, levelLoop, comparison]
  | 3, _ => simp only [level, levelLoop, equality]
  | 4, _ => simp only [level, levelLoop, andExpr]
  | 5, _ => simp only [level, levelLoop, orExpr]

theorem levelLoop_stop (ts : List Token) (i k c : Nat) (e : Expr) (hi : i < 6)
    (h : ¬ continues ts (i + 1) c) : levelLoop ts (i + 1) (k + 1) c e = .ok e c := by
  have hm := matchAny_stops ts (i + 1) c h
  match i, hi with
  | 0, _ => simp only [levelOps] at hm; simp only [levelLoop, factorLoop, hm]
  | 1, _ => simp only [levelOps] at hm; simp only [levelLoop, termLoop, hm]
  | 2, _ => simp only [levelOps] at hm; simp only [levelLoop, comparisonLoop, hm]
  | 3, _ => simp only [levelOps] at hm; simp only [levelLoop, equalityLoop, hm]
  | 4, _ => simp only [levelOps] at hm; simp only [levelLoop, andLoop, hm]
  | 5, _ => simp only [levelOps] at hm; simp only [levelLoop, orLoop, hm]

theorem levelLoop_step (ts : List Token) (i k c : Nat) (e : Expr) (hi : i < 6)
    (h : continues ts (i + 1) c) :
    levelLoop ts (i + 1) (k + 1) c e
      = (level ts i k (c + 1)).bind fun r c2 =>
          levelLoop ts (i + 1) k c2 (.BinaryExpr e (astOp (peek ts c)) r) := by
  have hm := matchAny_continues ts (i + 1) c h
  have hmem := h.1
  match i, hi with
  | 0, _ =>
    simp only [levelOps] at hm hmem
    have ha : astOp (peek ts c) = peek ts c := by
      simp only [List.mem_cons, List.mem_singleton, List.not_mem_nil, or_false] at hmem
      rcases hmem with h1 | h1 | h1 <;> simp [astOp, h1]
    simp only [levelLoop, level, factorLoop, hm, previous_succ, ha]
  | 1, _ =>
    simp only [levelOps] at hm hmem
    have ha : astOp (peek ts c) = peek ts c := by
      simp only [List.mem_cons, List.mem_singleton, List.not_mem_nil, or_false] at hmem
      rcases hmem with h1 | h1 <;> simp [astOp, h1]
    simp only [levelLoop, level, termLoop, hm, previous_succ, ha]
  | 2, _ =>
    simp only [levelOps] at hm hmem
    have ha : astOp (peek ts c) = peek ts c := by
      simp only [List.mem_cons, List.mem_singleton, List.not_mem_nil, or_false] at hmem
      rcases hmem with h1 | h1 | h1 | h1 <;> simp [astOp, h1]
    simp only [levelLoop, level, comparisonLoop, hm, previous_succ, ha]
  | 3, _ =>
    simp only [levelOps] at hm hmem
    have ha : astOp (peek ts c)
        = if (peek ts c).type = .EQUALS_KW then normalize (peek ts c) .EQUAL_EQUAL
          else peek ts c := by
      simp only [List.mem_cons, List.mem_singleton, List.not_mem_nil, or_false] at hmem
      rcases hmem with h1 | h1 | h1 <;> simp [astOp, h1]
    simp only [levelLoop, level, equalityLoop, hm, previous_succ, ha]
  | 4, _ =>
    simp only [levelOps] at hm hmem
    have ha : astOp (peek ts c)
        = if (peek ts c).type = .AND_KW then normalize (peek ts c) .AND_AND
          else peek ts c := by
      simp only [List.mem_cons, List.mem_singleton, List.not_mem_nil, or_false] at hmem
      rcases hmem with h1 | h1 <;> simp [astOp, h1]
    simp only [levelLoop, level, andLoop, hm, previous_succ, ha]
  | 5, _ =>
    simp only [levelOps] at hm hmem
    have ha : astOp (peek ts c)
        = if (peek ts c).type = .OR_KW then normalize (peek ts c) .OR_OR
          else peek ts c := by
      simp only [List.mem_cons, List.mem_singleton, List.not_mem_nil, or_false] at hmem
      rcases hmem with h1 | h1 <;> simp [astOp, h1]
    simp only [levelLoop, level, orLoop, hm, previous_succ, ha]

/-- An expression of one level followed by no operator of the next is an expression of
the next level. -/
theorem level_pass (ts : List Token) (i K cur c : Nat) (e : Expr) (hi : i < 6)
    (he : ∀ k, K ≤ k → level ts i k cur = .ok e c) (hstop : ¬ continues ts (i + 1) c) :
    ∀ k, K + 2 ≤ k → level ts (i + 1) k cur = .ok e c := by
  intro k hk
  obtain ⟨j, rfl⟩ : ∃ j, k = (j + 1) + 1 := ⟨k - 2, by omega⟩
  rw [level_succ ts i (j + 1) cur hi, he (j + 1) (by omega)]
  simp only [PResult.bind]
  exact levelLoop_stop ts i j c e hi hstop

/-- Two operands around one operator of a level, followed by no operator of that level. -/
theorem level_binary (ts : List Token) (i K cur c c1 : Nat) (e1 e2 : Expr) (hi : i < 6)
    (h1 : ∀ k, K ≤ k → level ts i k cur = .ok e1 c) (hop : continues ts (i + 1) c)
    (h2 : ∀ k, K ≤ k → level ts i k (c + 1) = .ok e2 c1) (hstop : ¬ continues ts (i + 1) c1) :
    ∀ k, K + 3 ≤ k →
      level ts (i + 1) k cur = .ok (.BinaryExpr e1 (astOp (peek ts c)) e2) c1 := by
  intro k hk
  obtain ⟨j, rfl⟩ : ∃ j, k = ((j + 1) + 1) + 1 := ⟨k - 3, by omega⟩
  rw [level_succ ts i (j + 1 + 1) cur hi, h1 (j + 1 + 1) (by omega)]
  simp only [PResult.bind]
  rw [levelLoop_step ts i (j + 1) c e1 hi hop, h2 (j + 1) (by omega)]
  simp only [PResult.bind]
  exact levelLoop_stop ts i j c1 _ hi hstop

/-- Three operands around two operators of one level: the loop nests to the left. -/
theorem level_binary_twice (ts : List Token) (i K cur c c1 c2 : Nat) (e1 e2 e3 : Expr)
    (hi : i < 6)
    (h1 : ∀ k, K ≤ k → level ts i k cur = .ok e1 c) (hop1 : continues ts (i + 1) c)
    (h2 : ∀ k, K ≤ k → level ts i k (c + 1) = .ok e2 c1) (hop2 : continues ts (i + 1) c1)
    (h3 : ∀ k, K ≤ k → level ts i k (c1 + 1) = .ok e3 c2)
    (hstop : ¬ continues ts (i + 1) c2) :
    ∀ k, K + 4 ≤ k →
      level ts (i + 1) k cur
        = .ok (.BinaryExpr (.BinaryExpr e1 (astOp (peek ts c)) e2) (astOp (peek ts c1)) e3) c2 := by
  intro k hk
  obtain ⟨j, rfl⟩ : ∃ j, k = (((j + 1) + 1) + 1) + 1 := ⟨k - 4, by omega⟩
  rw [level_succ ts i (j + 1 + 1 + 1) cur hi, h1 (j + 1 + 1 + 1) (by omega)]
  simp only [PResult.bind]
  rw [levelLoop_step ts i (j + 1 + 1) c e1 hi hop1, h2 (j + 1 + 1) (by omega)]
  simp only [PResult.bind]
  rw [levelLoop_step ts i (j + 1) c1 _ hi hop2, h3 (j + 1) (by omega)]
  simp only [PResult.bind]
  exact levelLoop_stop ts i j c2 _ hi hstop

/-- An expression of level `i` followed by no operator of the levels up to `i + n` is an
expression of level `i + n`. -/
theorem level_pass_range (ts : List Token) (i K cur c : Nat) (e : Expr) (n : Nat) :
    i + n ≤ 6 → (∀ k, K ≤ k → level ts i k cur = .ok e c) →
    (∀ l, i < l → l ≤ i + n → ¬ continues ts l c) →
    ∀ k, K + 2 * n ≤ k → level ts (i + n) k cur = .ok e c := by
  induction n with
  | zero =>
    intro _ he _ k hk
    exact he k (by omega)
  | succ n ih =>
    intro hle he hstop k hk
    have h1 := ih (by omega) he (fun l h1 h2 => hstop l h1 (by omega))
    have h2 := level_pass ts (i + n) (K + 2 * n) cur c e (by omega) h1
      (hstop (i + n + 1) (by omega) (by omega))
    exact h2 k (by omega)

theorem mem_levelOps (t : TokenType) (l : Nat) (h1 : 1 ≤ l) (h6 : l ≤ 6) :
    t ∈ levelOps l ↔ precedence t = some (7 - l) := by
  match l, h1, h6 with
  | 1, _, _ => cases t <;> simp [levelOps, precedence]
  | 2, _, _ => cases t <;> simp [levelOps, precedence]
  | 3, _, _ => cases t <;> simp [levelOps, precedence]
  | 4, _, _ => cases t <;> simp [levelOps, precedence]
  | 5, _, _ => cases t <;> simp [levelOps, precedence]
  | 6, _, _ => cases t <;> simp [levelOps, precedence]

theorem precedence_range (t : TokenType) (p : Nat) (h : precedence t = some p) :
    1 ≤ p ∧ p ≤ 6 ∧ t ≠ .END_OF_FILE := by
  cases t <;> simp [precedence] at h <;> subst h <;> simp

/-- An operator of precedence `p` continues the loop of level `7 - p`. -/
theorem continues_of_precedence (ts : List Token) (c p : Nat)
    (h : precedence (peek ts c).type = some p) : continues ts (7 - p) c := by
  obtain ⟨h1, h6, hE⟩ := precedence_range _ p h
  refine ⟨(mem_levelOps _ (7 - p) (by omega) (by omega)).mpr ?_, hE⟩
  rw [h]
  congr 1
  omega

/-- An operator of precedence `p` stops the loop of every other level. -/
theorem stops_of_precedence (ts : List Token) (c p l : Nat)
    (h : precedence (peek ts c).type = some p) (hl : l ≠ 7 - p) : ¬ continues ts l c := by
  obtain ⟨h1, h6, _⟩ := precedence_range _ p h
  intro hc
  by_cases hr : 1 ≤ l ∧ l ≤ 6
  · have := (mem_levelOps _ l hr.1 hr.2).mp hc.1
    rw [h] at this
    simp only [Option.some.injEq] at this
    omega
  · have hnil : levelOps l = [] := by
      match l with
      | 0 => rfl
      | 1 | 2 | 3 | 4 | 5 | 6 => omega
      | l + 7 => rfl
    rw [continues, hnil] at hc
    exact absurd hc.1 (List.not_mem_nil _)

/-- A token that is no binary operator stops the loop of every level. -/
theorem stops_of_no_precedence (ts : List Token) (c l : Nat)
    (h : precedence (peek ts c).type = none) : ¬ continues ts l c := by
  intro hc
  by_cases hr : 1 ≤ l ∧ l ≤ 6
  · have := (mem_levelOps _ l hr.1 hr.2).mp hc.1
    rw [h] at this
    exact absurd this (by simp)
  · have hnil : levelOps l = [] := by
      match l with
      | 0 => rfl
      | 1 | 2 | 3 | 4 | 5 | 6 => omega
      | l + 7 => rfl
    rw [continues, hnil] at hc
    exact absurd hc.1 (List.not_mem_nil _)

/-- A primary expression does not start with a prefix operator. -/
theorem primary_not_prefix (ts : List Token) (k cur c : Nat) (e : Expr)
    (h : primary ts k cur = .ok e c) : matchAny ts cur [.BANG, .MINUS, .NOT_KW] = none := by
  cases k with
  | zero => simp [primary] at h
  | succ k =>
    rw [matchAny_eq]
    split
    · rename_i hm
      exfalso
      obtain ⟨hmem, hE⟩ := hm
      simp only [List.mem_cons, List.mem_singleton, List.not_mem_nil, or_false] at hmem
      rcases hmem with h1 | h1 | h1 <;>
        simp [primary, matchAny_eq, h1] at h
    · rfl

/-- A primary expression followed by a token that opens no call, property access or
index is an operand of the binary operators. -/
theorem unary_of_primary (ts : List Token) (K cur c : Nat) (e : Expr)
    (he : ∀ k, K ≤ k → primary ts k cur = .ok e c)
    (hpost : (peek ts c).type ≠ .LEFT_PAREN ∧ (peek ts c).type ≠ .DOT
      ∧ (peek ts c).type ≠ .LEFT_BRACKET) :
    ∀ k, K + 2 ≤ k → level ts 0 k cur = .ok e c := by
  intro k hk
  obtain ⟨j, rfl⟩ : ∃ j, k = (j + 1) + 1 := ⟨k - 2, by omega⟩
  have hK : 1 ≤ K := by
    cases K with
    | zero => have := he 0 (Nat.le_refl 0); simp [primary] at this
    | succ K => omega
  obtain ⟨j1, rfl⟩ : ∃ j1, j = j1 + 1 := ⟨j - 1, by omega⟩
  have hp := he (j1 + 1) (by omega)
  have hn := primary_not_prefix ts (j1 + 1) cur c e hp
  simp only [level, unary, hn, call, hp, PResult.bind]
  simp [callLoop, matchAny_eq, hpost.1, hpost.2.1, hpost.2.2]

theorem level_raise (ts : List Token) (K s c : Nat) (e : Expr) (i j : Nat) (hij : i ≤ j)
    (hj : j ≤ 6) (he : ∀ k, K ≤ k → level ts i k s = .ok e c)
    (hstop : ∀ l, i < l → l ≤ j → ¬ continues ts l c) :
    ∀ k, K + 12 ≤ k → level ts j k s = .ok e c := by
  intro k hk
  have h := level_pass_range ts i K s c e (j - i) (by omega) he
    (fun l h1 h2 => hstop l h1 (by omega)) k (by omega)
  have hcast : i + (j - i) = j := by omega
  rw [hcast] at h
  exact h

/-- Two operands around an operator of precedence `p`, followed by no operator of that
precedence, form an expression of level `7 - p`. -/
theorem level_binary_at (ts : List Token) (K s c c1 p : Nat) (e1 e2 : Expr)
    (hp : precedence (peek ts c).type = some p)
    (h1 : ∀ k, K ≤ k → level ts (6 - p) k s = .ok e1 c)
    (h2 : ∀ k, K ≤ k → level ts (6 - p) k (c + 1) = .ok e2 c1)
    (hstop : ¬ continues ts (7 - p) c1) :
    ∀ k, K + 3 ≤ k → level ts (7 - p) k s = .ok (.BinaryExpr e1 (astOp (peek ts c)) e2) c1 := by
  obtain ⟨hp1, hp6, _⟩ := precedence_range _ p hp
  have hcast : 6 - p + 1 = 7 - p := by omega
  have hcont := continues_of_precedence ts c p hp
  rw [← hcast] at hcont hstop ⊢
  exact level_binary ts (6 - p) K s c c1 e1 e2 (by omega) h1 hcont h2 hstop

/-- Three operands around two binary operators, followed by a token that is no binary
operator: the operator of the higher precedence takes the middle operand, and two
operators of the same precedence nest to the left. -/
theorem orExpr_three (ts : List Token) (K cur c1 c2 c3 p1 p2 : Nat) (a b c : Expr)
    (ha : ∀ k, K ≤ k → level ts 0 k cur = .ok a c1)
    (hb : ∀ k, K ≤ k → level ts 0 k (c1 + 1) = .ok b c2)
    (hc : ∀ k, K ≤ k → level ts 0 k (c2 + 1) = .ok c c3)
    (h1 : precedence (peek ts c1).type = some p1)
    (h2 : precedence (peek ts c2).type = some p2)
    (hend : precedence (peek ts c3).type = none) :
    ∀ k, K + 42 ≤ k →
      orExpr ts k cur
        = .ok (if p1 < p2 then
                .BinaryExpr a (astOp (peek ts c1)) (.BinaryExpr b (astOp (peek ts c2)) c)
               else .BinaryExpr (.BinaryExpr a (astOp (peek ts c1)) b) (astOp (peek ts c2)) c)
            c3 := by
  obtain ⟨hp1, hp1', _⟩ := precedence_range _ p1 h1
  obtain ⟨hp2, hp2', _⟩ := precedence_range _ p2 h2
  have hE : ∀ l, ¬ continues ts l c3 := fun l => stops_of_no_precedence ts c3 l hend
  have h6 : level ts 6 = orExpr ts := rfl
  rw [← h6]
  by_cases hlt : p1 < p2
  · simp only [hlt, if_true]
    have a1 := level_raise ts K cur c1 a 0 (6 - p1) (by omega) (by omega) ha
      (fun l _ hl => stops_of_precedence ts c1 p1 l h1 (by omega))
    have b1 := level_raise ts K (c1 + 1) c2 b 0 (6 - p2) (by omega) (by omega) hb
      (fun l _ hl => stops_of_precedence ts c2 p2 l h2 (by omega))
    have c1' := level_raise ts K (c2 + 1) c3 c 0 (6 - p2) (by omega) (by omega) hc
      (fun l _ _ => hE l)
    have bc := level_binary_at ts (K + 12) (c1 + 1) c2 c3 p2 b c h2 b1 c1' (hE _)
    have bc1 := level_raise ts (K + 12 + 3) (c1 + 1) c3 _ (7 - p2) (6 - p1) (by omega)
      (by omega) bc (fun l _ _ => hE l)
    have abc := level_binary_at ts (K + 12 + 3 + 12) cur c1 c3 p1 a _ h1
      (fun k hk => a1 k (by omega)) bc1 (hE _)
    exact fun k hk => level_raise ts (K + 12 + 3 + 12 + 3) cur c3 _ (7 - p1) 6 (by omega)
      (by omega) abc (fun l _ _ => hE l) k (by omega)
  · simp only [hlt, if_false]
    by_cases heq : p1 = p2
    · subst heq
      have a1 := level_raise ts K cur c1 a 0 (6 - p1) (by omega) (by omega) ha
        (fun l _ hl => stops_of_precedence ts c1 p1 l h1 (by omega))
      have b1 := level_raise ts K (c1 + 1) c2 b 0 (6 - p1) (by omega) (by omega) hb
        (fun l _ hl => stops_of_precedence ts c2 p1 l h2 (by omega))
      have c1' := level_raise ts K (c2 + 1) c3 c 0 (6 - p1) (by omega) (by omega) hc
        (fun l _ _ => hE l)
      have hcast : 6 - p1 + 1 = 7 - p1 := by omega
      have hco1 := continues_of_precedence ts c1 p1 h1
      have hco2 := continues_of_precedence ts c2 p1 h2
      rw [← hcast] at hco1 hco2
      have abc := level_binary_twice ts (6 - p1) (K + 12) cur c1 c2 c3 a b c (by omega) a1 hco1
        b1 hco2 c1' (hE _)
      exact fun k hk => level_raise ts (K + 12 + 4) cur c3 _ (6 - p1 + 1) 6 (by omega)
        (by omega) abc (fun l _ _ => hE l) k (by omega)
    · have hgt : p2 < p1 := by omega
      have a1 := level_raise ts K cur c1 a 0 (6 - p1) (by omega) (by omega) ha
        (fun l _ hl => stops_of_precedence ts c1 p1 l h1 (by omega))
      have b1 := level_raise ts K (c1 + 1) c2 b 0 (6 - p1) (by omega) (by omega) hb
        (fun l _ hl => stops_of_precedence ts c2 p2 l h2 (by omega))
      have ab := level_binary_at ts (K + 12) cur c1 c2 p1 a b h1 a1 b1
        (stops_of_precedence ts c2 p2 _ h2 (by omega))
      have ab1 := level_raise ts (K + 12 + 3) cur c2 _ (7 - p1) (6 - p2) (by omega) (by omega)
        ab (fun l hl1 hl2 => stops_of_precedence ts c2 p2 l h2 (by omega))
      have c1' := level_raise ts K (c2 + 1) c3 c 0 (6 - p2) (by omega) (by omega) hc
        (fun l _ _ => hE l)
      have abc := level_binary_at ts (K + 12 + 3 + 12) cur c2 c3 p2 _ c h2 ab1
        (fun k hk => c1' k (by omega)) (hE _)
      exact fun k hk => level_raise ts (K + 12 + 3 + 12 + 3) cur c3 _ (7 - p2) 6 (by omega)
        (by omega) abc (fun l _ _ => hE l) k (by omega)

/-- Two operands around one binary operator, followed by a token that is no binary
operator. -/
theorem orExpr_two (ts : List Token) (K s c2 c3 p2 : Nat) (b c : Expr)
    (hb : ∀ k, K ≤ k → level ts 0 k s = .ok b c2)
    (hc : ∀ k, K ≤ k → level ts 0 k (c2 + 1) = .ok c c3)
    (h2 : precedence (peek ts c2).type = some p2)
    (hend : precedence (peek ts c3).type = none) :
    ∀ k, K + 27 ≤ k → orExpr ts k s = .ok (.BinaryExpr b (astOp (peek ts c2)) c) c3 := by
  obtain ⟨hp2, hp2', _⟩ := precedence_range _ p2 h2
  have hE : ∀ l, ¬ continues ts l c3 := fun l => stops_of_no_precedence ts c3 l hend
  have h6 : level ts 6 = orExpr ts := rfl
  rw [← h6]
  have b1 := level_raise ts K s c2 b 0 (6 - p2) (by omega) (by omega) hb
    (fun l _ hl => stops_of_precedence ts c2 p2 l h2 (by omega))
  have c1' := level_raise ts K (c2 + 1) c3 c 0 (6 - p2) (by omega) (by omega) hc
    (fun l _ _ => hE l)
  have bc := level_binary_at ts (K + 12) s c2 c3 p2 b c h2 b1 c1' (hE _)
  exact fun k hk => level_raise ts (K + 12 + 3) s c3 _ (7 - p2) 6 (by omega)
    (by omega) bc (fun l _ _ => hE l) k (by omega)

/-- An expression of the loosest binary level followed by no `=` is an expression. -/
theorem expression_of_orExpr (ts : List Token) (K cur c : Nat) (e : Expr)
    (he : ∀ k, K ≤ k → orExpr ts k cur = .ok e c) (hne : (peek ts c).type ≠ .EQUAL) :
    ∀ k, K + 2 ≤ k → expression ts k cur = .ok e c := by
  intro k hk
  obtain ⟨j, rfl⟩ : ∃ j, k = (j + 1) + 1 := ⟨k - 2, by omega⟩
  simp only [expression, assignment, he j (by omega), PResult.bind, matchAny_eq,
    List.mem_singleton, hne, false_and, if_false]

/-- A variable, `=` and an expression of the loosest binary level form an assignment. -/
theorem expression_assign (ts : List Token) (K cur c1 c3 : Nat) (name : String) (e : Expr)
    (ha : ∀ k, K ≤ k → orExpr ts k cur = .ok (.VarExpr name) c1)
    (heq : (peek ts c1).type = .EQUAL)
    (he : ∀ k, K ≤ k → orExpr ts k (c1 + 1) = .ok e c3) (hne : (peek ts c3).type ≠ .EQUAL) :
    ∀ k, K + 3 ≤ k → expression ts k cur = .ok (.AssignExpr name e) c3 := by
  intro k hk
  obtain ⟨j, rfl⟩ : ∃ j, k = ((j + 1) + 1) + 1 := ⟨k - 3, by omega⟩
  have hin : assignment ts (j + 1) (c1 + 1) = .ok e c3 := by
    simp only [assignment, he j (by omega), PResult.bind, matchAny_eq, List.mem_singleton, hne,
      false_and, if_false]
  simp only [expression]
  rw [assignment, ha (j + 1) (by omega)]
  simp only [PResult.bind, matchAny_eq, List.mem_singleton, heq, true_and]
  have hE : (TokenType.EQUAL ≠ TokenType.END_OF_FILE) := by decide
  simp only [hE, ne_eq, not_false_eq_true, if_true, hin]

end Parser

theorem endsExpression_spec (t : TokenType) (h : endsExpression t = true) :
    precedence t = none ∧ t ≠ .EQUAL ∧ t ≠ .LEFT_PAREN ∧ t ≠ .DOT ∧ t ≠ .LEFT_BRACKET := by
  cases t <;> simp [endsExpression, precedence] at h ⊢

theorem not_postfix_of_precedence (t : TokenType) (p : Nat) (h : precedence t = some p) :
    t ≠ .EQUAL ∧ t ≠ .LEFT_PAREN ∧ t ≠ .DOT ∧ t ≠ .LEFT_BRACKET := by
  cases t <;> simp [precedence] at h ⊢

/-- C28: for primary expressions `a`, `b`, `c` separated by two binary operators and
followed by a token that ends the expression, `expression` returns, given enough fuel,
the tree in which the operator of the higher level (multiplicative above additive above
comparison above equality above logical-and above logical-or) holds the middle operand,
and the left one when the levels are equal.  So `a + b * c` is `Binary(+, a,
Binary(*, b, c))` and `a * b + c` is `Binary(+, Binary(*, a, b), c)`; behind a variable
and `=` the whole binary expression is the assigned value; and `let x = 2 + 3 * 4;`
binds `x` to 14. -/
theorem C28_parser_precedence (ts : List Token) (K cur c1 c2 c3 : Nat) (a b c : Expr)
    (ha : ∀ k, K ≤ k → Parser.primary ts k cur = .ok a c1)
    (hb : ∀ k, K ≤ k → Parser.primary ts k (c1 + 1) = .ok b c2)
    (hc : ∀ k, K ≤ k → Parser.primary ts k (c2 + 1) = .ok c c3)
    (hend : endsExpression (Parser.peek ts c3).type = true) :
    (∀ p1 p2 : Nat, precedence (Parser.peek ts c1).type = some p1 →
      precedence (Parser.peek ts c2).type = some p2 →
      ∀ k, K + 50 ≤ k →
        Parser.expression ts k cur
          = .ok (if p1 < p2 then
                  .BinaryExpr a (astOp (Parser.peek ts c1))
                    (.BinaryExpr b (astOp (Parser.peek ts c2)) c)
                 else
                  .BinaryExpr (.BinaryExpr a (astOp (Parser.peek ts c1)) b)
                    (astOp (Parser.peek ts c2)) c) c3)
    ∧ ((Parser.peek ts c1).type = .PLUS → (Parser.peek ts c2).type = .STAR →
      ∀ k, K + 50 ≤ k →
        Parser.expression ts k cur
          = .ok (.BinaryExpr a (Parser.peek ts c1) (.BinaryExpr b (Parser.peek ts c2) c)) c3)
    ∧ ((Parser.peek ts c1).type = .STAR → (Parser.peek ts c2).type = .PLUS →
      ∀ k, K + 50 ≤ k →
        Parser.expression ts k cur
          = .ok (.BinaryExpr (.BinaryExpr a (Parser.peek ts c1) b) (Parser.peek ts c2) c) c3)
    ∧ (∀ (name : String) (p2 : Nat), a = .VarExpr name → (Parser.peek ts c1).type = .EQUAL →
      precedence (Parser.peek ts c2).type = some p2 →
      ∀ k, K + 50 ≤ k →
        Parser.expression ts k cur
          = .ok (.AssignExpr name (.BinaryExpr b (astOp (Parser.peek ts c2)) c)) c3)
    ∧ vmStdout (runFresh precedenceProgram).vm? = "14\n" := by
  obtain ⟨hE1, hE2, hE3, hE4, hE5⟩ := endsExpression_spec _ hend
  have hc0 := Parser.unary_of_primary ts K (c2 + 1) c3 c hc ⟨hE3, hE4, hE5⟩
  have general : ∀ p1 p2 : Nat, precedence (Parser.peek ts c1).type = some p1 →
      precedence (Parser.peek ts c2).type = some p2 →
      ∀ k, K + 50 ≤ k →
        Parser.expression ts k cur
          = .ok (if p1 < p2 then
                  .BinaryExpr a (astOp (Parser.peek ts c1))
                    (.BinaryExpr b (astOp (Parser.peek ts c2)) c)
                 else
                  .BinaryExpr (.BinaryExpr a (astOp (Parser.peek ts c1)) b)
                    (astOp (Parser.peek ts c2)) c) c3 := by
    intro p1 p2 h1 h2 k hk
    obtain ⟨_, n1, n2, n3⟩ := not_postfix_of_precedence _ p1 h1
    obtain ⟨_, m1, m2, m3⟩ := not_postfix_of_precedence _ p2 h2
    have ha0 := Parser.unary_of_primary ts K cur c1 a ha ⟨n1, n2, n3⟩
    have hb0 := Parser.unary_of_primary ts K (c1 + 1) c2 b hb ⟨m1, m2, m3⟩
    have h3 := Parser.orExpr_three ts (K + 2) cur c1 c2 c3 p1 p2 a b c ha0 hb0 hc0 h1 h2 hE1
    exact Parser.expression_of_orExpr ts (K + 2 + 42) cur c3 _ h3 hE2 k (by omega)
  refine ⟨general, ?_, ?_, ?_, by decide!⟩
  · intro h1 h2 k hk
    have h := general 5 6 (by rw [h1]; rfl) (by rw [h2]; rfl) k hk
    simpa [astOp, h1, h2] using h
  · intro h1 h2 k hk
    have h := general 6 5 (by rw [h1]; rfl) (by rw [h2]; rfl) k hk
    simpa [astOp, h1, h2] using h
  · intro name p2 hname heq h2 k hk
    subst hname
    obtain ⟨_, m1, m2, m3⟩ := not_postfix_of_precedence _ p2 h2
    have hnone : precedence (Parser.peek ts c1).type = none := by rw [heq]; rfl
    have ha0 := Parser.unary_of_primary ts K cur c1 _ ha
      ⟨by rw [heq]; decide, by rw [heq]; decide, by rw [heq]; decide⟩
    have hb0 := Parser.unary_of_primary ts K (c1 + 1) c2 b hb ⟨m1, m2, m3⟩
    have ha6 : ∀ k, K + 2 + 12 ≤ k → Parser.orExpr ts k cur = .ok (.VarExpr name) c1 :=
      Parser.level_raise ts (K + 2) cur c1 _ 0 6 (by omega) (by omega) ha0
        (fun l _ _ => Parser.stops_of_no_precedence ts c1 l hnone)
    have hbc := Parser.orExpr_two ts (K + 2) (c1 + 1) c2 c3 p2 b c hb0 hc0 h2 hE1
    exact Parser.expression_assign ts (K + 2 + 27) cur c1 c3 name _
      (fun k hk => ha6 k (by omega)) heq hbc hE2 k (by omega)

theorem C28_parser_precedence_witness :
    Parser.expression sumProductTokens 51 0
      = .ok (.BinaryExpr (.LiteralExpr (.number (Double.ofNat 1)))
              (Parser.peek sumProductTokens 1)
              (.BinaryExpr (.LiteralExpr (.number (Double.ofNat 2)))
                (Parser.peek sumProductTokens 3)
                (.LiteralExpr (.number (Double.ofNat 3))))) 5 :=
  (C28_parser_precedence sumProductTokens 1 0 1 3 5
    (.LiteralExpr (.number (Double.ofNat 1))) (.LiteralExpr (.number (Double.ofNat 2)))
    (.LiteralExpr (.number (Double.ofNat 3)))
    (fun k hk => by
      obtain ⟨j, rfl⟩ : ∃ j, k = j + 1 := ⟨k - 1, by omega⟩
      exact Parser.primary_number sumProductTokens j 0 _ rfl (by decide!))
    (fun k hk => by
      obtain ⟨j, rfl⟩ : ∃ j, k = j + 1 := ⟨k - 1, by omega⟩
      exact Parser.primary_number sumProductTokens j 2 _ rfl (by decide!))
    (fun k hk => by
      obtain ⟨j, rfl⟩ : ∃ j, k = j + 1 := ⟨k - 1, by omega⟩
      exact Parser.primary_number sumProductTokens j 4 _ rfl (by decide!))
    rfl).2.1 rfl rfl 51 (by decide)

theorem norm_den_one (x : Int) : Double.norm x 1 = ⟨x, 1⟩ := by
  simp [Double.norm]

theorem ofNat_lt_two (n : Nat) : (Double.ofNat n).lt ⟨2, 1⟩ = decide (n < 2) := by
  simp only [Double.lt, Double.ofNat, Nat.cast_one, mul_one]
  congr 1
  apply propext
  constructor <;> intro h <;> omega

theorem extends_refl (ip : Interpreter) : ip.Extends ip := ⟨[], by simp⟩

theorem extends_trans {a b c : Interpreter} (h1 : a.Extends b) (h2 : b.Extends c) :
    a.Extends c := by
  obtain ⟨e1, rfl⟩ := h1
  obtain ⟨e2, rfl⟩ := h2
  exact ⟨e1 ++ e2, by simp⟩

theorem extends_env {a b : Interpreter} (h : a.Extends b) : b.env = a.env := by
  obtain ⟨e1, rfl⟩ := h
  rfl

theorem extends_length {a b : Interpreter} (h : a.Extends b) :
    a.envs.length ≤ b.envs.length := by
  obtain ⟨e1, rfl⟩ := h
  simp

theorem extends_envAt {a b : Interpreter} (h : a.Extends b) (e : Nat)
    (he : e < a.envs.length) : b.envAt e = a.envAt e := by
  obtain ⟨e1, rfl⟩ := h
  simp [Interpreter.envAt, List.getD_eq_getElem?_getD, List.getElem?_append_left he]

theorem extends_getPtr {a b : Interpreter} (h : a.Extends b) (hwf : a.WellFormed) (e : Nat)
    (he : e < a.envs.length) (name : String) : b.getPtr e name = a.getPtr e name :=
  getPtr_of_agree a b hwf (extends_length h) (fun e1 h1 => extends_envAt h e1 h1) e he name

/-- Entering the call: the state in which the body runs extends the caller's state by the
environment of the call, apart from the environment pointer. -/
theorem bindParams_fib (ip : Interpreter) (S : Nat) (v : Value) :
    ip.bindParams (fibFunction S) [v]
      = { ip with envs := ip.envs ++ [⟨some S, [("n", v)]⟩] } := by
  simp [Interpreter.bindParams, fibFunction, Interpreter.newEnv, Interpreter.define,
    Interpreter.envAt, List.getD_eq_getElem?_getD, mapSet]

theorem wellFormed_append (ip : Interpreter) (hwf : ip.WellFormed) (S : Nat)
    (vals : List (String × Value)) (hS : S < ip.envs.length) (s : Interpreter)
    (hs : s.envs = ip.envs ++ [⟨some S, vals⟩]) : s.WellFormed := by
  intro e he p hp
  rw [hs] at he
  simp only [List.length_append, List.length_singleton] at he
  by_cases h : e < ip.envs.length
  · have : s.envAt e = ip.envAt e := by
      simp [Interpreter.envAt, hs, List.getD_eq_getElem?_getD, List.getElem?_append_left h]
    rw [this] at hp
    exact hwf e h p hp
  · have he' : e = ip.envs.length := by omega
    subst he'
    have : s.envAt ip.envs.length = ⟨some S, vals⟩ := by
      simp [Interpreter.envAt, hs, List.getD_eq_getElem?_getD]
    rw [this] at hp
    simp only [Option.mem_def, Option.some.injEq] at hp
    omega

theorem execStmts_cons (k : Nat) (st : Stmt) (rest : List Stmt) (s : Interpreter) :
    execStmts (k + 1) (st :: rest) s
      = (execute k st s).bind fun _ s1 => execStmts k rest s1 := by
  simp only [execStmts]

theorem execute_ReturnStmt (k : Nat) (e : Expr) (s : Interpreter) :
    execute (k + 1) (.ReturnStmt (some e)) s
      = (evaluate k e s).bind fun v s1 => .throw (.ReturnSignal v) s1 := by
  simp only [execute]

theorem execute_IfStmt_none (k : Nat) (c : Expr) (t : Stmt) (s : Interpreter) :
    execute (k + 1) (.IfStmt c t none) s
      = (evaluate k c s).bind fun cv s1 => if isTruthy cv then execute k t s1 else .ok () s1 := by
  simp only [execute]

theorem evaluate_BinaryExpr_plain (k : Nat) (l r : Expr) (op : Token) (s : Interpreter)
    (h1 : op.type ≠ .AND_AND) (h2 : op.type ≠ .AND_KW) (h3 : op.type ≠ .OR_OR)
    (h4 : op.type ≠ .OR_KW) :
    evaluate (k + 1) (.BinaryExpr l op r) s
      = (evaluate k l s).bind fun lv s1 =>
          (evaluate k r s1).bind fun rv s2 => liftE (evalBinary lv op rv) s2 := by
  simp [evaluate, h1, h2, h3, h4]

/-- The test `n < 2` of the body. -/
theorem fib_test (k n : Nat) (s : Interpreter) (hn : s.getPtr s.env "n" = some (natValue n)) :
    evaluate (k + 2) (.BinaryExpr (.VarExpr "n") ⟨.LESS, "<", 1, 17⟩
      (.LiteralExpr (.number ⟨2, 1⟩))) s = .ok (.bool (decide (n < 2))) s := by
  rw [evaluate_BinaryExpr_plain _ _ _ _ _ (by decide) (by decide) (by decide) (by decide),
    evaluate_VarExpr, hn]
  simp only [Option.getD, Res.bind, evaluate, Literal.toValue, natValue, evalBinary, numOp, num,
    liftE, ofNat_lt_two]

/-- The test `n < 2` and the early return, when `n` is below 2. -/
theorem fibBody_small (k n : Nat) (s : Interpreter) (hlt : n < 2)
    (hn : s.getPtr s.env "n" = some (natValue n)) :
    execStmts (k + 5) fibBody s = .throw (.ReturnSignal (natValue n)) s := by
  rw [fibBody, execStmts_cons, execute_IfStmt_none, fib_test (k + 1) n s hn]
  simp only [Res.bind, isTruthy, hlt, decide_True, if_true]
  rw [execute_ReturnStmt, evaluate_VarExpr, hn]
  rfl

/-! ## Decimal digits -/

theorem toDigitsCore_fuel (n : Nat) :
    ∀ (fuel : Nat) (ds : List Char), n < fuel →
      Nat.toDigitsCore 10 fuel n ds = Nat.toDigitsCore 10 (n + 1) n [] ++ ds := by
  induction n using Nat.strong_induction_on with
  | _ n ih =>
    intro fuel ds hf
    obtain ⟨f, rfl⟩ : ∃ f, fuel = f + 1 := ⟨fuel - 1, by omega⟩
    by_cases h : n / 10 = 0
    · simp [Nat.toDigitsCore, h]
    · have hlt : n / 10 < n := by omega
      have h1 := ih (n / 10) hlt f (Nat.digitChar (n % 10) :: ds) (by omega)
      have h2 := ih (n / 10) hlt n [Nat.digitChar (n % 10)] hlt
      simp only [Nat.toDigitsCore, h, if_false, h1, h2, List.append_assoc, List.singleton_append]

theorem natDigits_small (n : Nat) (h : n < 10) : natDigits n = [Nat.digitChar n] := by
  have h0 : n / 10 = 0 := by omega
  have h1 : n % 10 = n := by omega
  simp [natDigits, Nat.toDigits, Nat.toDigitsCore, h0, h1]

theorem natDigits_step (n : Nat) (h : 10 ≤ n) :
    natDigits n = natDigits (n / 10) ++ [Nat.digitChar (n % 10)] := by
  have h0 : ¬ n / 10 = 0 := by omega
  have h1 := toDigitsCore_fuel (n / 10) n [Nat.digitChar (n % 10)] (by omega)
  simp only [natDigits, Nat.toDigits, Nat.toDigitsCore, h0, if_false, h1]

theorem isDigit_digitChar (k : Nat) (h : k < 10) : isDigit (Nat.digitChar k) = true := by
  interval_cases k <;> decide

theorem digitChar_value (k : Nat) (h : k < 10) : (Nat.digitChar k).toNat - 48 = k := by
  interval_cases k <;> decide

theorem foldl_digits_acc (b : List Char) :
    ∀ acc : Nat, b.foldl (fun acc c => acc * 10 + (c.toNat - 48)) acc
      = acc * 10 ^ b.length + b.foldl (fun acc c => acc * 10 + (c.toNat - 48)) 0 := by
  induction b with
  | nil => intro acc; simp
  | cons c b ih =>
    intro acc
    simp only [List.foldl_cons, List.length_cons]
    rw [ih (acc * 10 + (c.toNat - 48)), ih (0 * 10 + (c.toNat - 48))]
    ring

theorem digitsValue_append (a b : List Char) :
    digitsValue (a ++ b) = digitsValue a * 10 ^ b.length + digitsValue b := by
  simp only [digitsValue, List.foldl_append]
  exact foldl_digits_acc b _

theorem digitsValue_natDigits (n : Nat) : digitsValue (natDigits n) = n := by
  induction n using Nat.strong_induction_on with
  | _ n ih =>
    by_cases h : n < 10
    · rw [natDigits_small n h]
      simp [digitsValue, digitChar_value n h]
    · rw [natDigits_step n (by omega), digitsValue_append, ih (n / 10) (by omega)]
      simp only [List.length_singleton, pow_one, digitsValue, List.foldl_cons, List.foldl_nil,
        zero_mul, zero_add, digitChar_value (n % 10) (by omega)]
      omega

theorem allDigits_natDigits (n : Nat) : allDigits (natDigits n) = true := by
  induction n using Nat.strong_induction_on with
  | _ n ih =>
    by_cases h : n < 10
    · rw [natDigits_small n h]
      simp [allDigits, isDigit_digitChar n h]
    · rw [natDigits_step n (by omega)]
      have := ih (n / 10) (by omega)
      simp only [allDigits, List.all_append, List.all_cons, List.all_nil, Bool.and_true,
        Bool.and_eq_true] at this ⊢
      exact ⟨this, isDigit_digitChar (n % 10) (by omega)⟩

theorem natDigits_length (k : Nat) :
    ∀ n, 10 ^ k ≤ n → n < 10 ^ (k + 1) → (natDigits n).length = k + 1 := by
  induction k with
  | zero =>
    intro n h1 h2
    rw [natDigits_small n (by simpa using h2)]
    rfl
  | succ k ih =>
    intro n h1 h2
    have hp : 0 < 10 ^ k := Nat.pow_pos (by decide)
    rw [pow_succ] at h1
    rw [pow_succ, pow_succ] at h2
    have hn : 10 ≤ n := by omega
    rw [natDigits_step n hn, List.length_append, List.length_singleton,
      ih (n / 10) (by omega) (by rw [pow_succ]; omega)]

theorem natDigits_length_ge (k : Nat) : ∀ n, 10 ^ k ≤ n → k + 1 ≤ (natDigits n).length := by
  induction k with
  | zero =>
    intro n _
    by_cases h : n < 10
    · rw [natDigits_small n h]; simp
    · rw [natDigits_step n (by omega)]; simp
  | succ k ih =>
    intro n h1
    have hp : 0 < 10 ^ k := Nat.pow_pos (by decide)
    rw [pow_succ] at h1
    rw [natDigits_step n (by omega), List.length_append, List.length_singleton]
    have := ih (n / 10) (by omega)
    omega

theorem digitsValue_zeros (z : Nat) : digitsValue (List.replicate z '0') = 0 := by
  induction z with
  | zero => rfl
  | succ z ih =>
    rw [List.replicate_succ']
    rw [digitsValue_append, ih]
    rfl

/-- Dropping trailing zeros removes a block of zeros from the end. -/
theorem stripZeros_spec (l : List Char) : ∃ z, l = stripZeros l ++ List.replicate z '0' := by
  have h := List.takeWhile_append_dropWhile (fun c => c == '0') l.reverse
  have hz : ∀ c ∈ List.takeWhile (fun c => c == '0') l.reverse, c = '0' := by
    intro c hc
    have := List.mem_takeWhile_imp hc
    simpa using this
  have hrep : List.takeWhile (fun c => c == '0') l.reverse
      = List.replicate (List.takeWhile (fun c => c == '0') l.reverse).length '0' :=
    List.eq_replicate_of_mem hz
  refine ⟨(List.takeWhile (fun c => c == '0') l.reverse).length, ?_⟩
  have h2 := congrArg List.reverse h
  rw [List.reverse_append, List.reverse_reverse] at h2
  have hT : (List.takeWhile (fun c => c == '0') l.reverse).reverse
      = List.replicate (List.takeWhile (fun c => c == '0') l.reverse).length '0' := by
    conv_lhs => rw [hrep]
    simp
  rw [hT] at h2
  exact h2.symm

theorem allDigits_stripZeros (l : List Char) (h : allDigits l = true) :
    allDigits (stripZeros l) = true := by
  obtain ⟨z, hz⟩ := stripZeros_spec l
  rw [hz] at h
  simp only [allDigits, List.all_append, Bool.and_eq_true] at h ⊢
  exact h.1

theorem digitsValue_stripZeros (l : List Char) :
    ∃ z, z ≤ l.length ∧ (stripZeros l).length + z = l.length
      ∧ digitsValue l = digitsValue (stripZeros l) * 10 ^ z := by
  obtain ⟨z, hz⟩ := stripZeros_spec l
  have hlen : (stripZeros l).length + z = l.length := by
    have := congrArg List.length hz
    simp only [List.length_append, List.length_replicate] at this
    omega
  refine ⟨z, by omega, hlen, ?_⟩
  conv_lhs => rw [hz]
  rw [digitsValue_append, digitsValue_zeros, List.length_replicate, add_zero]

/-! ## The exponent and the mantissa of `%g` -/

theorem expUp_eq (n d target : Nat) (hlt : n < d * 10 ^ (target + 1))
    (hge : d * 10 ^ target ≤ n) :
    ∀ (fuel k : Nat), k ≤ target → target - k ≤ fuel → Double.expUp n d fuel k = target := by
  intro fuel
  induction fuel with
  | zero => intro k h1 h2; simp only [Double.expUp]; omega
  | succ fuel ih =>
    intro k h1 h2
    by_cases hk : k = target
    · subst hk
      simp only [Double.expUp]
      rw [if_neg (by omega)]
    · have hk1 : k + 1 ≤ target := by omega
      have hpow : 10 ^ (k + 1) ≤ 10 ^ target := Nat.pow_le_pow_right (by decide) hk1
      have : d * 10 ^ (k + 1) ≤ n := Nat.le_trans (Nat.mul_le_mul_left d hpow) hge
      simp only [Double.expUp]
      rw [if_pos this]
      exact ih (k + 1) hk1 (by omega)

theorem expDown_eq (n d target : Nat) (hge : d ≤ n * 10 ^ target)
    (hlt : ∀ j, j < target → ¬ d ≤ n * 10 ^ j) :
    ∀ (fuel k : Nat), k ≤ target → target - k ≤ fuel → Double.expDown n d fuel k = target := by
  intro fuel
  induction fuel with
  | zero => intro k h1 h2; simp only [Double.expDown]; omega
  | succ fuel ih =>
    intro k h1 h2
    by_cases hk : k = target
    · subst hk
      simp only [Double.expDown]
      rw [if_pos hge]
    · simp only [Double.expDown]
      rw [if_neg (hlt k (by omega))]
      exact ih (k + 1) (by omega) (by omega)

theorem roundHalfEven_exact (m d : Nat) (hd : 0 < d) : roundHalfEven (m * d) d = m := by
  simp only [roundHalfEven, Nat.mul_mod_left, Nat.mul_div_cancel _ hd, mul_zero]
  rw [if_pos hd]

/-- The fraction in lowest terms is determined by cross-multiplication. -/
theorem norm_eq_of_cross (a b : Int) (p q : Nat) (hp : p ≠ 0) (hq : q ≠ 0)
    (h : a * (q : Int) = b * (p : Int)) : Double.norm a p = Double.norm b q := by
  have hr := (Rat.normalize_eq_iff hp hq).mpr h
  have e1 : ∀ (x : Int) (y : Nat) (hy : y ≠ 0),
      Double.norm x y = ⟨(Rat.normalize x y hy).num, (Rat.normalize x y hy).den⟩ := by
    intro x y hy
    have hg : Nat.gcd x.natAbs y ≠ 0 := fun h0 => hy (Nat.eq_zero_of_gcd_eq_zero_right h0)
    simp only [Double.norm, hg, if_false, Rat.normalize_eq]
  rw [e1 a p hp, e1 b q hq, hr]

theorem takeWhile_digits (I rest : List Char) (h : allDigits I = true) :
    (I ++ rest).takeWhile isDigit = I ++ rest.takeWhile isDigit := by
  induction I with
  | nil => rfl
  | cons c I ih =>
    simp only [allDigits, List.all_cons, Bool.and_eq_true] at h
    simp only [List.cons_append, List.takeWhile_cons, h.1, if_true]
    rw [ih (by simpa [allDigits] using h.2)]

theorem dropWhile_digits (I rest : List Char) (h : allDigits I = true) :
    (I ++ rest).dropWhile isDigit = rest.dropWhile isDigit := by
  induction I with
  | nil => rfl
  | cons c I ih =>
    simp only [allDigits, List.all_cons, Bool.and_eq_true] at h
    simp only [List.cons_append, List.dropWhile_cons, h.1, if_true]
    rw [ih (by simpa [allDigits] using h.2)]

/-- The value `std::stod` reads from digits, optionally followed by a dot and digits. -/
theorem stodLexeme_digits (I F : List Char) (hI : allDigits I = true) (hF : allDigits F = true) :
    stodLexeme (String.mk (I ++ (if F.isEmpty then [] else '.' :: F)))
      = Double.norm ((digitsValue I * 10 ^ F.length + digitsValue F : Nat) : Int)
          (10 ^ F.length) := by
  have hF0 := takeWhile_digits F [] hF
  simp only [List.append_nil, List.takeWhile_nil] at hF0
  cases F with
  | nil =>
    have h1 := takeWhile_digits I [] hI
    have h2 := dropWhile_digits I [] hI
    simp only [List.append_nil, List.takeWhile_nil, List.dropWhile_nil] at h1 h2
    simp [stodLexeme, h1, h2, digitsValue]
  | cons c F =>
    have h1 := takeWhile_digits I ('.' :: c :: F) hI
    have h2 := dropWhile_digits I ('.' :: c :: F) hI
    have hdot : isDigit '.' = false := by decide
    simp only [List.takeWhile_cons, List.dropWhile_cons, hdot, Bool.false_eq_true, if_false,
      List.append_nil] at h1 h2
    simp only [stodLexeme, List.isEmpty_cons, Bool.false_eq_true, if_false, h1, h2,
      List.drop_succ_cons, List.drop_zero, hF0]

/-- The mantissa and exponent of a fraction `n / d` which, scaled by `10 ^ t`, lies between
`10 ^ 5` and `10 ^ 6` and rounds to `M`. -/
theorem sig6_of_bounds (n d M t : Nat) (hdpos : 0 < d) (hM2 : M < 1000000) (ht : t ≤ 9)
    (hb1 : d * 100000 ≤ n * 10 ^ t) (hb2 : n * 10 ^ t < d * 1000000)
    (hround : roundHalfEven (n * 10 ^ t) d = M) :
    Double.sig6 n d = (M, (5 : Int) - (t : Int)) := by
  by_cases ht5 : t ≤ 5
  · have hup : ∀ fuel, 5 - t ≤ fuel → Double.expUp n d fuel 0 = 5 - t := by
      intro fuel hf
      apply expUp_eq n d (5 - t) _ _ fuel 0 (by omega) (by omega)
      · interval_cases t <;> simp at hb1 hb2 ⊢ <;> omega
      · interval_cases t <;> simp at hb1 hb2 ⊢ <;> omega
    have hdn : d ≤ n := by
      interval_cases t <;> simp at hb1 hb2 ⊢ <;> omega
    have hlen : 6 - t ≤ (natDigits n).length := by
      have h10 : 10 ^ (5 - t) ≤ n := by
        interval_cases t <;> simp at hb1 hb2 ⊢ <;> omega
      have := natDigits_length_ge (5 - t) n h10
      omega
    have hx : (5 : Int) - ((5 - t : Nat) : Int) = (t : Int) := by omega
    simp only [Double.sig6, hdn, if_true, hup ((natDigits n).length + (natDigits d).length + 1) (by omega)]
    have hx5 : ((5 - t : Nat) : Int) ≤ 5 := by omega
    simp only [hx5, if_true, hx, Int.toNat_ofNat, hround]
    rw [if_neg (by omega)]
    congr 1
    omega
  · have ht6 : 6 ≤ t := by omega
    have hdn : ¬ d ≤ n := by
      interval_cases t <;> simp at hb1 hb2 ⊢ <;> omega
    have hdown : ∀ fuel, t - 6 ≤ fuel → Double.expDown n d fuel 1 = t - 5 := by
      intro fuel hf
      apply expDown_eq n d (t - 5) _ _ fuel 1 (by omega) (by omega)
      · interval_cases t <;> simp at hb1 hb2 ⊢ <;> omega
      · intro j hj
        interval_cases t <;> interval_cases j <;> simp at hb1 hb2 ⊢ <;> omega
    have hlen : t - 5 ≤ (natDigits d).length := by
      have h10 : 10 ^ (t - 6) ≤ d := by
        interval_cases t <;> simp at hb1 hb2 ⊢ <;> omega
      have := natDigits_length_ge (t - 6) d h10
      omega
    have hx : (5 : Int) - (-((t - 5 : Nat) : Int)) = (t : Int) := by omega
    simp only [Double.sig6, hdn, if_false, hdown ((natDigits n).length + (natDigits d).length + 1) (by omega)]
    have hx5 : -((t - 5 : Nat) : Int) ≤ 5 := by omega
    simp only [hx5, if_true, hx, Int.toNat_ofNat, hround]
    rw [if_neg (by omega)]
    congr 1
    omega

/-- The text `%g` prints for a positive number whose six significant digits are those of
the six-digit `M`, with decimal exponent `5 - t` and `t ≤ 9`: digits, with a dot and more
digits when `M / 10 ^ t` is not whole; read exactly, the text denotes `M / 10 ^ t`. -/
theorem fmtNum_of_sig6 (v : Double) (M t : Nat) (hM1 : 100000 ≤ M) (hM2 : M < 1000000)
    (ht : t ≤ 9) (hpos : 0 < v.num)
    (hsig : Double.sig6 v.num.natAbs v.den = (M, (5 : Int) - (t : Int))) :
    ∃ I F : List Char, I ≠ [] ∧ allDigits I = true ∧ allDigits F = true
      ∧ fmtNum v = String.mk (I ++ (if F.isEmpty then [] else '.' :: F))
      ∧ Double.norm ((digitsValue I * 10 ^ F.length + digitsValue F : Nat) : Int)
          (10 ^ F.length) = Double.norm (M : Int) (10 ^ t) := by
  have hne : ¬ v.num = 0 := by omega
  have hnn : ¬ v.num < 0 := by omega
  have hlen : (natDigits M).length = 6 := natDigits_length 5 M (by simpa using hM1) (by simpa using hM2)
  have hall := allDigits_natDigits M
  have hval := digitsValue_natDigits M
  have hpowt : (10 : Nat) ^ t ≠ 0 := by positivity
  by_cases ht5 : t ≤ 5
  · have hc1 : ¬ ((5 : Int) - (t : Int) < -4 ∨ (6 : Int) ≤ 5 - (t : Int)) := by omega
    have hc2 : (0 : Int) ≤ 5 - (t : Int) := by omega
    have hk : ((5 : Int) - (t : Int)).toNat + 1 = 6 - t := by omega
    obtain ⟨z, hz1, hz2, hz3⟩ := digitsValue_stripZeros ((natDigits M).drop (6 - t))
    have hsplit : natDigits M = (natDigits M).take (6 - t) ++ (natDigits M).drop (6 - t) :=
      (List.take_append_drop _ _).symm
    have hdroplen : ((natDigits M).drop (6 - t)).length = t := by
      rw [List.length_drop, hlen]; omega
    have hallsplit := hall
    rw [hsplit] at hallsplit
    simp only [allDigits, List.all_append, Bool.and_eq_true] at hallsplit
    refine ⟨(natDigits M).take (6 - t), stripZeros ((natDigits M).drop (6 - t)), ?_, ?_, ?_, ?_, ?_⟩
    · intro h
      have := congrArg List.length h
      rw [List.length_take, hlen] at this
      simp at this
      omega
    · exact hallsplit.1
    · exact allDigits_stripZeros _ hallsplit.2
    · simp only [fmtNum, hne, hnn, if_false, hsig, Bool.or_eq_true, decide_eq_true_eq, hc1, hc2,
        if_true, hk]
      cases stripZeros ((natDigits M).drop (6 - t)) <;> simp [String.ext_iff]
    · have hM : M = digitsValue ((natDigits M).take (6 - t)) * 10 ^ t
          + digitsValue (stripZeros ((natDigits M).drop (6 - t))) * 10 ^ z := by
        conv_lhs => rw [← hval, hsplit, digitsValue_append, hdroplen, hz3]
      have htz : t = (stripZeros ((natDigits M).drop (6 - t))).length + z := by omega
      apply norm_eq_of_cross _ _ _ _ (by positivity) hpowt
      generalize (stripZeros ((natDigits M).drop (6 - t))).length = fl at htz ⊢
      generalize digitsValue (stripZeros ((natDigits M).drop (6 - t))) = dF at hM ⊢
      generalize digitsValue ((natDigits M).take (6 - t)) = dI at hM ⊢
      subst htz
      rw [hM]
      push_cast
      ring
  · have ht6 : 6 ≤ t := by omega
    have hc1 : ¬ ((5 : Int) - (t : Int) < -4 ∨ (6 : Int) ≤ 5 - (t : Int)) := by omega
    have hc2 : ¬ (0 : Int) ≤ 5 - (t : Int) := by omega
    have hk : (-((5 : Int) - (t : Int))).toNat - 1 = t - 6 := by omega
    obtain ⟨z, hz1, hz2, hz3⟩ := digitsValue_stripZeros (natDigits M)
    have hSne : stripZeros (natDigits M) ≠ [] := by
      intro h
      rw [h] at hz3
      simp only [digitsValue, List.foldl_nil, zero_mul] at hz3
      have : digitsValue (natDigits M) = 0 := hz3
      rw [hval] at this
      omega
    refine ⟨['0'], List.replicate (t - 6) '0' ++ stripZeros (natDigits M), by simp, by decide,
      ?_, ?_, ?_⟩
    · simp only [allDigits, List.all_append, Bool.and_eq_true]
      refine ⟨?_, allDigits_stripZeros _ hall⟩
      simp only [List.all_eq_true]
      intro c hc
      rw [List.eq_of_mem_replicate hc]
      decide
    · have hFne : (List.replicate (t - 6) '0' ++ stripZeros (natDigits M)).isEmpty = false := by
        cases h : stripZeros (natDigits M) with
        | nil => exact absurd h hSne
        | cons c cs => simp
      simp only [fmtNum, hne, hnn, if_false, hsig, Bool.or_eq_true, decide_eq_true_eq, hc1, hc2,
        hk, hFne]
      simp [String.ext_iff]
    · have hM : M = digitsValue (stripZeros (natDigits M)) * 10 ^ z := by
        conv_lhs => rw [← hval, hz3]
      have hFlen : (List.replicate (t - 6) '0' ++ stripZeros (natDigits M)).length + z = t := by
        simp only [List.length_append, List.length_replicate]
        omega
      have hFval : digitsValue (List.replicate (t - 6) '0' ++ stripZeros (natDigits M))
          = digitsValue (stripZeros (natDigits M)) := by
        rw [digitsValue_append, digitsValue_zeros, zero_mul, zero_add]
      rw [hFval]
      apply norm_eq_of_cross _ _ _ _ (by positivity) hpowt
      generalize (List.replicate (t - 6) '0' ++ stripZeros (natDigits M)).length = fl at hFlen ⊢
      generalize digitsValue (stripZeros (natDigits M)) = dS at hM ⊢
      subst hFlen
      rw [hM]
      simp only [digitsValue, List.foldl_cons, List.foldl_nil]
      push_cast
      ring

/-! ## The lexer on a numeral and on a quoted text -/

theorem advance_fields (lx : Lexer) :
    lx.advance.2.src = lx.src ∧ lx.advance.2.start = lx.start
      ∧ lx.advance.2.current = lx.current + 1 ∧ lx.advance.2.tokens = lx.tokens := by
  simp only [Lexer.advance]
  split <;> exact ⟨rfl, rfl, rfl, rfl⟩

theorem getD_append_cons (pre : List Char) (c : Char) (rest : List Char) (d : Char) :
    (pre ++ c :: rest).getD pre.length d = c := by
  induction pre with
  | nil => rfl
  | cons a pre ih => simpa using ih

/-- A run of characters that satisfy `p`, ending at the end of the input or before a
character that does not, is what `advanceWhile p` consumes. -/
theorem advanceWhile_run (p : Char → Bool) (post : List Char)
    (hpost : ∀ c rest, post = c :: rest → p c = false) :
    ∀ (run pre : List Char) (fuel : Nat) (lx : Lexer), lx.src = pre ++ run ++ post →
      lx.current = pre.length → (∀ c ∈ run, p c = true) → run.length ≤ fuel →
      (Lexer.advanceWhile p fuel lx).src = lx.src
        ∧ (Lexer.advanceWhile p fuel lx).start = lx.start
        ∧ (Lexer.advanceWhile p fuel lx).current = pre.length + run.length
        ∧ (Lexer.advanceWhile p fuel lx).tokens = lx.tokens := by
  intro run
  induction run with
  | nil =>
    intro pre fuel lx hsrc hcur _ _
    cases fuel with
    | zero => exact ⟨rfl, rfl, by simpa [Lexer.advanceWhile] using hcur, rfl⟩
    | succ f =>
      have hstop : (!lx.isAtEnd && p lx.peek) = false := by
        cases post with
        | nil =>
          have : lx.isAtEnd = true := by
            simp [Lexer.isAtEnd, hsrc, hcur]
          simp [this]
        | cons c rest =>
          have hend : lx.isAtEnd = false := by
            simp [Lexer.isAtEnd, hsrc, hcur]
          have hpeek : lx.peek = c := by
            simp only [Lexer.peek, hend, Bool.false_eq_true, if_false, hsrc, hcur,
              List.append_nil]
            exact getD_append_cons pre c rest NUL
          simp [hend, hpeek, hpost c rest rfl]
      have hres : Lexer.advanceWhile p (f + 1) lx = lx := by
        simp only [Lexer.advanceWhile, hstop, Bool.false_eq_true, if_false]
      rw [hres]
      exact ⟨rfl, rfl, by simpa using hcur, rfl⟩
  | cons c run ih =>
    intro pre fuel lx hsrc hcur hall hfuel
    obtain ⟨f, rfl⟩ : ∃ f, fuel = f + 1 := ⟨fuel - 1, by simp at hfuel; omega⟩
    have hend : lx.isAtEnd = false := by
      simp [Lexer.isAtEnd, hsrc, hcur]
    have hpeek : lx.peek = c := by
      simp only [Lexer.peek, hend, Bool.false_eq_true, if_false, hsrc, hcur,
        List.cons_append, List.append_assoc]
      exact getD_append_cons pre c (run ++ post) NUL
    have hpc : p c = true := hall c (List.mem_cons_self _ _)
    obtain ⟨a1, a2, a3, a4⟩ := advance_fields lx
    have h := ih (pre ++ [c]) f lx.advance.2 (by rw [a1, hsrc]; simp) (by rw [a3, hcur]; simp)
      (fun c1 h1 => hall c1 (List.mem_cons_of_mem _ h1)) (by simp at hfuel; omega)
    have hres : Lexer.advanceWhile p (f + 1) lx = Lexer.advanceWhile p f lx.advance.2 := by
      simp only [Lexer.advanceWhile, hend, hpeek, hpc, Bool.not_false, Bool.and_self, if_true]
    rw [hres]
    obtain ⟨h1, h2, h3, h4⟩ := h
    have hlen : (pre ++ [c]).length + run.length = pre.length + (c :: run).length := by
      rw [List.length_append, List.length_singleton, List.length_cons]
      exact Nat.add_assoc _ _ _ |>.trans (by rw [Nat.add_comm 1])
    exact ⟨h1.trans a1, h2.trans a2, h3.trans hlen, h4.trans a4⟩

theorem digit_ne (c d : Char) (hc : isDigit c = true) (hd : isDigit d = false) : c ≠ d := by
  intro h
  rw [h, hd] at hc
  exact absurd hc (by decide)

/-- On a digit `scanStep` runs `number`. -/
theorem scanStep_digit (lx0 : Lexer)
    (h : isDigit (({ lx0 with start := lx0.current } : Lexer).advance.1) = true) :
    lx0.scanStep = .ok (({ lx0 with start := lx0.current } : Lexer).advance.2).number := by
  simp only [Lexer.scanStep]
  generalize ({ lx0 with start := lx0.current } : Lexer).advance.1 = c at h
  have n1 := digit_ne c '(' h (by decide)
  have n2 := digit_ne c ')' h (by decide)
  have n3 := digit_ne c LBRACE h (by decide)
  have n4 := digit_ne c RBRACE h (by decide)
  have n5 := digit_ne c '[' h (by decide)
  have n6 := digit_ne c ']' h (by decide)
  have n7 := digit_ne c ',' h (by decide)
  have n8 := digit_ne c '.' h (by decide)
  have n9 := digit_ne c ';' h (by decide)
  have n10 := digit_ne c ':' h (by decide)
  have n11 := digit_ne c '+' h (by decide)
  have n12 := digit_ne c '-' h (by decide)
  have n13 := digit_ne c '*' h (by decide)
  have n14 := digit_ne c '%' h (by decide)
  have n15 := digit_ne c '!' h (by decide)
  have n16 := digit_ne c '=' h (by decide)
  have n17 := digit_ne c '<' h (by decide)
  have n18 := digit_ne c '>' h (by decide)
  have n19 := digit_ne c '/' h (by decide)
  have n20 := digit_ne c '&' h (by decide)
  have n21 := digit_ne c '|' h (by decide)
  have n22 := digit_ne c ' ' h (by decide)
  have n23 := digit_ne c (Char.ofNat 13) h (by decide)
  have n24 := digit_ne c (Char.ofNat 9) h (by decide)
  have n25 := digit_ne c NEWLINE h (by decide)
  have n26 := digit_ne c DQUOTE h (by decide)
  simp only [n1, n2, n3, n4, n5, n6, n7, n8, n9, n10, n11, n12, n13, n14, n15, n16, n17, n18,
    n19, n20, n21, n22, n23, n24, n25, n26, if_false, decide_False, Bool.or_self,
    Bool.false_eq_true, h, if_true]

theorem scanLoop_atEnd (n : Nat) (lx : Lexer) (h : lx.isAtEnd = true) :
    Lexer.scanLoop n lx = some (.ok lx) := by
  cases n <;> simp [Lexer.scanLoop, h]

/-- The method `number` on digits, optionally followed by a dot and digits, that reach
the end of the input: one NUMBER token whose lexeme is the text from `start`. -/
theorem number_numeral (c0 : Char) (I F : List Char) (hI : allDigits I = true)
    (hF : allDigits F = true) (lx : Lexer)
    (hsrc : lx.src = c0 :: I ++ (if F.isEmpty then [] else '.' :: F))
    (hstart : lx.start = 0) (hcur : lx.current = 1) :
    ∃ line col, lx.number.src = lx.src ∧ lx.number.current = lx.src.length
      ∧ lx.number.tokens = lx.tokens ++ [⟨.NUMBER, String.mk lx.src, line, col⟩] := by
  have hall : ∀ l : List Char, allDigits l = true → ∀ c ∈ l, isDigit c = true := by
    intro l hl c hc
    simp only [allDigits, List.all_eq_true] at hl
    exact hl c hc
  have hpost : ∀ c rest, (if F.isEmpty then [] else '.' :: F) = c :: rest → isDigit c = false := by
    intro c rest h
    cases F with
    | nil => simp at h
    | cons f F =>
      simp only [List.isEmpty_cons, Bool.false_eq_true, if_false, List.cons.injEq] at h
      rw [← h.1]
      decide
  have h1 := advanceWhile_run isDigit _ hpost I [c0] lx.remaining lx (by rw [hsrc]; rfl)
    (by rw [hcur]; rfl) (hall I hI)
    (by simp only [Lexer.remaining, hsrc, hcur, List.length_append, List.length_cons]; omega)
  generalize hlx1 : Lexer.advanceWhile isDigit lx.remaining lx = lx1 at h1
  obtain ⟨s1, s2, s3, s4⟩ := h1
  simp only [List.length_singleton] at s3
  have hsub : ∀ l : List Char, substr l 0 (l.length - 0) = String.mk l := by
    intro l; simp [substr]
  cases F with
  | nil =>
    simp only [List.isEmpty_nil, if_true, List.append_nil] at hsrc
    have hend : lx1.isAtEnd = true := by
      simp [Lexer.isAtEnd, s1, s3, hsrc] <;> omega
    have hpeek : lx1.peek = NUL := by simp [Lexer.peek, hend]
    have hcond : (decide (lx1.peek = '.') && isDigit lx1.peekNext) = false := by
      rw [hpeek]; rfl
    refine ⟨lx1.line, lx1.col, ?_, ?_, ?_⟩
    · simp only [Lexer.number, hlx1, hcond, Bool.false_eq_true, if_false, Lexer.push, s1]
    · simp only [Lexer.number, hlx1, hcond, Bool.false_eq_true, if_false, Lexer.push, s3, hsrc,
        List.length_cons]
      omega
    · have hcurlen : lx1.current = lx1.src.length := by
        rw [s3, s1, hsrc, List.length_cons]; omega
      simp only [Lexer.number, hlx1, hcond, Bool.false_eq_true, if_false, Lexer.push, s4, s2, hstart,
        hcurlen, hsub, s1]
  | cons f F =>
    simp only [List.isEmpty_cons, Bool.false_eq_true, if_false] at hsrc
    have hf : isDigit f = true := hall (f :: F) hF f (List.mem_cons_self _ _)
    have hend : lx1.isAtEnd = false := by
      simp [Lexer.isAtEnd, s1, s3, hsrc] <;> omega
    have hsrc1 : lx1.src = (c0 :: I) ++ '.' :: (f :: F) := by rw [s1, hsrc]
    have hcur1 : lx1.current = (c0 :: I).length := by rw [s3, List.length_cons]; omega
    have hpeek : lx1.peek = '.' := by
      simp only [Lexer.peek, hend, Bool.false_eq_true, if_false, hsrc1, hcur1]
      exact getD_append_cons (c0 :: I) '.' (f :: F) NUL
    have hsrc2 : lx1.src = ((c0 :: I) ++ ['.']) ++ f :: F := by rw [hsrc1]; simp
    have hcur2 : lx1.current + 1 = ((c0 :: I) ++ ['.']).length := by
      rw [hcur1]; simp
    have hnext : lx1.peekNext = f := by
      have hlt : ¬ lx1.src.length ≤ lx1.current + 1 := by
        rw [hsrc2, hcur2]; simp
      have hpn : lx1.peekNext = lx1.src.getD (lx1.current + 1) NUL := by
        simp only [Lexer.peekNext, hlt, if_false]
      rw [hpn, hcur2, hsrc2]
      exact getD_append_cons ((c0 :: I) ++ ['.']) f F NUL
    have hcond : (decide (lx1.peek = '.') && isDigit lx1.peekNext) = true := by
      rw [hpeek, hnext, hf]; rfl
    obtain ⟨a1, a2, a3, a4⟩ := advance_fields lx1
    have h2 := advanceWhile_run isDigit [] (by intro c rest h; cases h) (f :: F)
      ((c0 :: I) ++ ['.']) lx1.advance.2.remaining lx1.advance.2
      (by rw [a1, hsrc2]; simp) (by rw [a3, hcur2]) (hall (f :: F) hF)
      (by
        simp only [Lexer.remaining, a1, a3, hsrc2, hcur2, List.length_append, List.length_cons,
          List.length_singleton, List.length_nil]
        omega)
    generalize hlx2 : Lexer.advanceWhile isDigit lx1.advance.2.remaining lx1.advance.2 = lx2 at h2
    obtain ⟨t1, t2, t3, t4⟩ := h2
    have hsrcall : lx2.src = lx.src := by rw [t1, a1, s1]
    have hcurlen : lx2.current = lx2.src.length := by
      rw [t3, t1, a1, hsrc2]
      simp only [List.length_append, List.length_cons, List.length_singleton, List.length_nil]
    refine ⟨lx2.line, lx2.col, ?_, ?_, ?_⟩
    · simp only [Lexer.number, hlx1, hcond, if_true, hlx2, Lexer.push, hsrcall]
    · simp only [Lexer.number, hlx1, hcond, if_true, hlx2, Lexer.push, hcurlen, hsrcall]
    · simp only [Lexer.number, hlx1, hcond, if_true, hlx2, Lexer.push, t4, a4, s4, t2, a2, s2, hstart,
        hcurlen, hsub, hsrcall]

/-- On a double quote `scanStep` runs `string`. -/
theorem scanStep_quote (lx0 : Lexer)
    (h : ({ lx0 with start := lx0.current } : Lexer).advance.1 = DQUOTE) :
    lx0.scanStep = (({ lx0 with start := lx0.current } : Lexer).advance.2).string := by
  simp only [Lexer.scanStep]
  generalize ({ lx0 with start := lx0.current } : Lexer).advance.1 = c at h
  subst h
  simp only [show DQUOTE ≠ '(' by decide, show DQUOTE ≠ ')' by decide,
    show DQUOTE ≠ LBRACE by decide, show DQUOTE ≠ RBRACE by decide,
    show DQUOTE ≠ '[' by decide, show DQUOTE ≠ ']' by decide, show DQUOTE ≠ ',' by decide,
    show DQUOTE ≠ '.' by decide, show DQUOTE ≠ ';' by decide, show DQUOTE ≠ ':' by decide,
    show DQUOTE ≠ '+' by decide, show DQUOTE ≠ '-' by decide, show DQUOTE ≠ '*' by decide,
    show DQUOTE ≠ '%' by decide, show DQUOTE ≠ '!' by decide, show DQUOTE ≠ '=' by decide,
    show DQUOTE ≠ '<' by decide, show DQUOTE ≠ '>' by decide, show DQUOTE ≠ '/' by decide,
    show DQUOTE ≠ '&' by decide, show DQUOTE ≠ '|' by decide, show DQUOTE ≠ ' ' by decide,
    show DQUOTE ≠ Char.ofNat 13 by decide, show DQUOTE ≠ Char.ofNat 9 by decide,
    show DQUOTE ≠ NEWLINE by decide, if_false, decide_False, Bool.or_self, Bool.false_eq_true,
    if_true]

/-- A text without a double quote, put between double quotes, lexes to a single STRING
token and is read back as itself. -/
theorem reparseString_text (text : String) (h : DQUOTE ∉ text.data) :
    reparseString text = some text := by
  generalize hcs : (DQUOTE :: text.data ++ [DQUOTE]) = cs
  have hlen : cs.length = text.data.length + 2 := by
    rw [← hcs]; simp
  have hget : cs[0]?.getD NUL = DQUOTE := by rw [← hcs]; simp
  have hstep : (Lexer.new (String.mk cs)).scanStep
      = (({ (Lexer.new (String.mk cs)) with start := (Lexer.new (String.mk cs)).current }
          : Lexer).advance.2).string := by
    apply scanStep_quote
    simp only [Lexer.new, Lexer.advance]
    split <;> simpa using hget
  obtain ⟨b1, b2, b3, b4⟩ := advance_fields
    ({ (Lexer.new (String.mk cs)) with start := (Lexer.new (String.mk cs)).current } : Lexer)
  generalize (({ (Lexer.new (String.mk cs)) with start := (Lexer.new (String.mk cs)).current }
    : Lexer).advance.2) = lxA at hstep b1 b2 b3 b4
  have hsrcA : lxA.src = cs := b1
  have hstartA : lxA.start = 0 := b2
  have hcurA : lxA.current = 1 := b3
  have htokA : lxA.tokens = [] := b4
  have h1 := advanceWhile_run (fun c => c != DQUOTE) [DQUOTE]
    (by intro c rest hc; simp only [List.cons.injEq] at hc; rw [← hc.1]; simp)
    text.data [DQUOTE] lxA.remaining lxA (by rw [hsrcA, ← hcs]; simp) (by rw [hcurA]; rfl)
    (by
      intro c hc
      have : c ≠ DQUOTE := fun e => h (e ▸ hc)
      simpa using this)
    (by simp only [Lexer.remaining, hsrcA, hcurA, hlen]; omega)
  generalize hlx1 : Lexer.advanceWhile (fun c => c != DQUOTE) lxA.remaining lxA = lx1 at h1
  obtain ⟨s1, s2, s3, s4⟩ := h1
  simp only [List.length_singleton] at s3
  have hend1 : lx1.isAtEnd = false := by
    simp [Lexer.isAtEnd, s1, s3, hsrcA, hlen]
    omega
  obtain ⟨a1, a2, a3, a4⟩ := advance_fields lx1
  have hvalue : substr lx1.advance.2.src (lx1.advance.2.start + 1)
      ((lx1.advance.2.current - 1) - (lx1.advance.2.start + 1)) = text := by
    rw [a1, a2, a3, s1, s2, s3, hsrcA, hstartA, ← hcs]
    have : 1 + text.data.length + 1 - 1 - (0 + 1) = text.data.length := by omega
    rw [this]
    simp [substr]
  have hstring : lxA.string
      = .ok (lx1.advance.2.push ⟨.STRING, text, lx1.advance.2.line, lx1.advance.2.col⟩) := by
    simp only [Lexer.string, hlx1, hend1, Bool.false_eq_true, if_false, hvalue]
  have hendN : (lx1.advance.2.push
      ⟨.STRING, text, lx1.advance.2.line, lx1.advance.2.col⟩).isAtEnd = true := by
    simp [Lexer.isAtEnd, Lexer.push, a1, a3, s1, s3, hsrcA, hlen]
    omega
  have hnotend : (Lexer.new (String.mk cs)).isAtEnd = false := by
    simp [Lexer.isAtEnd, Lexer.new, hlen]
  have hscan : (Lexer.new (String.mk cs)).scan
      = .ok [⟨.STRING, text, lx1.advance.2.line, lx1.advance.2.col⟩,
          ⟨.END_OF_FILE, "", lx1.advance.2.line, lx1.advance.2.col⟩] := by
    have hsl : (Lexer.new (String.mk cs)).src.length = (cs.length - 1) + 1 := by
      simp only [Lexer.new]; omega
    simp only [Lexer.scan]
    rw [hsl]
    simp only [Lexer.scanLoop, hnotend, Bool.false_eq_true, if_false, hstep, hstring,
      scanLoop_atEnd _ _ hendN]
    simp only [Lexer.push, a4, s4, htokA]
    rfl
  simp only [reparseString, lex, hcs, hscan, if_true]

/-- C32: when `execute` finishes, normally or with an exception of any kind in flight
(a runtime error, a return signal, a standard exception), the environment pointer is
what it was when the statement started.  The same holds of `execBlock`, whatever
environment the block is run in, of a function call and of the evaluation of an
expression.  A block whose statements raise an exception part-way raises it with the
pointer put back. -/
theorem C32_environment_pointer_restored (fuel : Nat) (stmt : Stmt) (ip ip1 : Interpreter)
    (h : (execute fuel stmt ip).endedIn ip1) :
    ip1.env = ip.env
    ∧ (∀ (stmts : List Stmt) (e : Nat) (s s1 : Interpreter),
        (execBlock fuel stmts e s).endedIn s1 → s1.env = s.env)
    ∧ (∀ (stmts : List Stmt) (s s1 : Interpreter),
        (execStmts fuel stmts s).endedIn s1 → s1.env = s.env)
    ∧ (∀ (f : Function) (args : List Value) (s s1 : Interpreter),
        (callFunction fuel f args s).endedIn s1 → s1.env = s.env)
    ∧ (∀ (e : Expr) (s s1 : Interpreter), (evaluate fuel e s).endedIn s1 → s1.env = s.env)
    ∧ (∀ (k : Nat) (stmts : List Stmt) (s s2 : Interpreter) (t : Thrown),
        execStmts k stmts s.enterBlock = .throw t s2 →
        execute (k + 2) (.BlockStmt stmts) s = .throw t { s2 with env := s.env })
    ∧ (∀ (k : Nat) (stmts : List Stmt) (s s2 : Interpreter),
        execStmts k stmts s.enterBlock = .ok () s2 →
        execute (k + 2) (.BlockStmt stmts) s = .ok () { s2 with env := s.env })
    ∧ vmStdout afterBlockExit = "3\n1\n"
    ∧ vmStderr afterBlockExit = "Runtime error: Division by zero\n"
    ∧ vmStdout (AdaScript_Eval 200 afterBlockExit (some "print(x);") none).vm? = "3\n1\n1\n" := by
  refine ⟨(framed_of_endedIn ((framedAt_all fuel).execute stmt ip) h).env, ?_, ?_, ?_, ?_, ?_, ?_,
    by decide!, by decide!, by decide!⟩
  · intro stmts e s s1 hs
    exact (framed_of_endedIn ((framedAt_all fuel).execBlock stmts e s) hs).env
  · intro stmts s s1 hs
    exact (framed_of_endedIn ((framedAt_all fuel).execStmts stmts s) hs).env
  · intro f args s s1 hs
    exact (framed_of_endedIn ((framedAt_all fuel).callFunction f args s) hs).env
  · intro e s s1 hs
    exact (framed_of_endedIn ((framedAt_all fuel).evaluate e s) hs).env
  · intro k stmts s s2 t hs
    have hs1 : execStmts k stmts { (s.newEnv s.env).2 with env := (s.newEnv s.env).1 }
        = .throw t s2 := hs
    simp only [execute, execBlock, hs1]
    rfl
  · intro k stmts s s2 hs
    have hs1 : execStmts k stmts { (s.newEnv s.env).2 with env := (s.newEnv s.env).1 }
        = .ok () s2 := hs
    simp only [execute, execBlock, hs1]
    rfl

theorem C32_environment_pointer_restored_witness :
    (execute 4 (.BlockStmt [.ReturnStmt none]) freshIp).endedIn (freshIp.newEnv freshIp.env).2
    ∧ (freshIp.newEnv freshIp.env).2.env = freshIp.env
    ∧ execute (2 + 2) (.BlockStmt [.ReturnStmt none]) freshIp
        = .throw (.ReturnSignal .null) { freshIp.enterBlock with env := freshIp.env } :=
  have h0 : (execute 4 (.BlockStmt [.ReturnStmt none]) freshIp).endedIn
      (freshIp.newEnv freshIp.env).2 := rfl
  have h := C32_environment_pointer_restored 4 (.BlockStmt [.ReturnStmt none]) freshIp
    (freshIp.newEnv freshIp.env).2 h0
  ⟨h0, h.1, h.2.2.2.2.2.1 2 [.ReturnStmt none] freshIp freshIp.enterBlock (.ReturnSignal .null) rfl⟩

/-- C36: an import that resolves to a path which is not registered and cannot be opened
fails with `import: cannot open` in a state that differs from the one before only by
the path, now registered.  In that state, and in any state that differs from it by the
files that can be opened, the same import completes at once, changing nothing: no
error, and no statement of the file is run. -/
theorem C36_failed_import_is_recorded (fuel k : Nat) (p : String) (ip : Interpreter)
    (files2 : List (String × String))
    (hnew : resolveImport ip.current_dir ip.builtins_dir p ∉ ip.loaded_files)
    (hfile : mapFind ip.files (resolveImport ip.current_dir ip.builtins_dir p) = none) :
    execImport (fuel + 1) p ip
      = .throw (.RuntimeError
          ("import: cannot open " ++ resolveImport ip.current_dir ip.builtins_dir p))
          (ip.register (resolveImport ip.current_dir ip.builtins_dir p))
    ∧ execute (fuel + 2) (.ImportStmt p) ip
      = .throw (.RuntimeError
          ("import: cannot open " ++ resolveImport ip.current_dir ip.builtins_dir p))
          (ip.register (resolveImport ip.current_dir ip.builtins_dir p))
    ∧ resolveImport ip.current_dir ip.builtins_dir p
        ∈ (ip.register (resolveImport ip.current_dir ip.builtins_dir p)).loaded_files
    ∧ execImport (k + 1) p (ip.register (resolveImport ip.current_dir ip.builtins_dir p))
      = .ok () (ip.register (resolveImport ip.current_dir ip.builtins_dir p))
    ∧ execImport (k + 1) p
        ((ip.register (resolveImport ip.current_dir ip.builtins_dir p)).withFiles files2)
      = .ok () ((ip.register (resolveImport ip.current_dir ip.builtins_dir p)).withFiles files2)
    ∧ execute (k + 2) (.ImportStmt p)
        ((ip.register (resolveImport ip.current_dir ip.builtins_dir p)).withFiles files2)
      = .ok () ((ip.register (resolveImport ip.current_dir ip.builtins_dir p)).withFiles files2)
    ∧ vmStderr afterFailedImport = "Runtime error: import: cannot open /w/m.ad\n"
    ∧ vmStdout afterFailedImport = ""
    ∧ vmStdout (AdaScript_Eval 200 fileAppears (some "import \"m\"; print(\"second\");")
        none).vm? = "second\n"
    ∧ vmStderr (AdaScript_Eval 200 fileAppears (some "import \"m\"; print(\"second\");")
        none).vm? = "Runtime error: import: cannot open /w/m.ad\n"
    ∧ vmStdout importPresent.vm? = "m\nsecond\n" := by
  have hc : ip.loaded_files.contains (resolveImport ip.current_dir ip.builtins_dir p) = false := by
    cases h : ip.loaded_files.contains (resolveImport ip.current_dir ip.builtins_dir p) with
    | false => rfl
    | true => exact absurd (by simpa using h) hnew
  have h1 : execImport (fuel + 1) p ip
      = .throw (.RuntimeError
          ("import: cannot open " ++ resolveImport ip.current_dir ip.builtins_dir p))
          (ip.register (resolveImport ip.current_dir ip.builtins_dir p)) := by
    simp only [execImport, hc, hfile, throwRT, Interpreter.register]
    rfl
  have hmem : resolveImport ip.current_dir ip.builtins_dir p
      ∈ (ip.register (resolveImport ip.current_dir ip.builtins_dir p)).loaded_files := by
    simp [Interpreter.register]
  have h2 : ∀ j, execImport (j + 1) p
        ((ip.register (resolveImport ip.current_dir ip.builtins_dir p)).withFiles files2)
      = .ok () ((ip.register (resolveImport ip.current_dir ip.builtins_dir p)).withFiles files2) :=
    fun j => execImport_loaded j p _ hmem
  refine ⟨h1, ?_, hmem, execImport_loaded k p _ hmem, h2 k, ?_, by decide!, by decide!,
    by decide!, by decide!, by decide!⟩
  · simp only [execute, h1]
  · simp only [execute, h2 k]

theorem C36_failed_import_is_recorded_witness :
    execImport (0 + 1) "m" (Interpreter.new "/w" missingWorld)
      = .throw (.RuntimeError "import: cannot open /w/m.ad")
          ((Interpreter.new "/w" missingWorld).register "/w/m.ad")
    ∧ execImport (7 + 1) "m"
        (((Interpreter.new "/w" missingWorld).register "/w/m.ad").withFiles
          [("/w/m.ad", "print(\"m\");")])
      = .ok () (((Interpreter.new "/w" missingWorld).register "/w/m.ad").withFiles
          [("/w/m.ad", "print(\"m\");")]) :=
  have hk : resolveImport (Interpreter.new "/w" missingWorld).current_dir
      (Interpreter.new "/w" missingWorld).builtins_dir "m" = "/w/m.ad" := by decide
  have h := C36_failed_import_is_recorded 0 7 "m" (Interpreter.new "/w" missingWorld)
    [("/w/m.ad", "print(\"m\");")] (by decide) (by decide)
  ⟨by simpa only [hk] using h.1, by simpa only [hk] using h.2.2.2.2.1⟩

/-- C37: when the statements of a source text end with a return signal in flight, that
is, a `return` was executed outside any function call, `interpret` lets the signal
pass, and so do the handlers of `AdaScript_Eval` and of `AdaScript_RunFile`: the call
does not return, so there is neither a return code nor a message.  The statements that
follow a `return` in a statement list are not executed, and an import whose file
returns at its top level raises the same signal in the importing code. -/
theorem C37_top_level_return (fuel : Nat) (ip ip1 : Interpreter) (src : String)
    (filename : Option String) (stmts : List Stmt) (v : Value)
    (hparse : frontEnd fuel (cstr src) = .ok stmts)
    (hrun : execStmts fuel stmts (evalDir ip filename) = .throw (.ReturnSignal v) ip1) :
    interpret fuel stmts (evalDir ip filename) = .throw (.ReturnSignal v) ip1
    ∧ AdaScript_Eval fuel (some ip) (some src) filename = .terminate
    ∧ (AdaScript_Eval fuel (some ip) (some src) filename).value? = none
    ∧ (AdaScript_Eval fuel (some ip) (some src) filename).message? = none
    ∧ (∀ (path fsrc : String) (fstmts : List Stmt) (w : Value) (s1 : Interpreter),
        mapFind ip.files (cstr path) = some fsrc → frontEnd fuel fsrc = .ok fstmts →
        execStmts fuel fstmts { ip with current_dir := parentPath (cstr path) }
          = .throw (.ReturnSignal w) s1 →
        AdaScript_RunFile fuel (some ip) (some path) = .terminate)
    ∧ (∀ (k : Nat) (e : Expr) (rest : List Stmt) (s s1 : Interpreter) (w : Value),
        evaluate k e s = .ok w s1 →
        execStmts (k + 2) (.ReturnStmt (some e) :: rest) s = .throw (.ReturnSignal w) s1)
    ∧ (∀ (k : Nat) (rest : List Stmt) (s : Interpreter),
        execStmts (k + 2) (.ReturnStmt none :: rest) s = .throw (.ReturnSignal .null) s)
    ∧ (∀ (k : Nat) (p fsrc : String) (fstmts : List Stmt) (s s1 : Interpreter) (w : Value),
        resolveImport s.current_dir s.builtins_dir p ∉ s.loaded_files →
        mapFind s.files (resolveImport s.current_dir s.builtins_dir p) = some fsrc →
        frontEnd k fsrc = .ok fstmts →
        execStmts k fstmts (s.importing (resolveImport s.current_dir s.builtins_dir p))
          = .throw (.ReturnSignal w) s1 →
        execImport (k + 1) p s = .throw (.ReturnSignal w) { s1 with current_dir := s.current_dir })
    ∧ (runFresh returnProgram).isTerminate = true
    ∧ (interpretFresh returnProgram).returnSignal?.map value_to_string = some "7"
    ∧ (interpretFresh returnProgram).stdout? = some "1\n"
    ∧ (AdaScript_RunFile 200 (AdaScript_Create none returnWorld) (some "/w/main.ad")).isTerminate
        = true := by
  have hi : interpret fuel stmts (evalDir ip filename) = .throw (.ReturnSignal v) ip1 := by
    simp only [interpret, hrun]
  have he : AdaScript_Eval fuel (some ip) (some src) filename = .terminate := by
    simp only [AdaScript_Eval, hparse, hi, evalHandlers]
  refine ⟨hi, he, by rw [he]; rfl, by rw [he]; rfl, ?_, ?_, ?_, ?_, by decide!, by decide!,
    by decide!, by decide!⟩
  · intro path fsrc fstmts w s1 hf hp hr
    simp only [AdaScript_RunFile, hf, hp, interpret, hr, evalHandlers]
  · intro k e rest s s1 w hev
    simp only [execStmts, execute, hev, Res.bind]
  · intro k rest s
    simp only [execStmts, execute, Res.bind]
  · intro k p fsrc fstmts s s1 w hnew hfile hparse1 hr
    rw [execImport_fresh k p s fsrc fstmts hnew hfile hparse1, hr]
    rfl

theorem C37_top_level_return_witness :
    frontEnd 200 (cstr "return;") = .ok [.ReturnStmt none]
    ∧ AdaScript_Eval 200 (some freshIp) (some "return;") none = .terminate :=
  have hp : frontEnd 200 (cstr "return;") = .ok [.ReturnStmt none] :=
    parseResult_eq_of_yields _ _ (by decide!)
  ⟨hp, (C37_top_level_return 200 freshIp freshIp "return;" none [.ReturnStmt none] .null hp
    rfl).2.1⟩

theorem evalArgs_length : ∀ (fuel : Nat) (args : List Expr) (ip ip2 : Interpreter)
    (vs : List Value), evalArgs fuel args ip = .ok vs ip2 → vs.length = args.length := by
  intro fuel
  induction fuel with
  | zero => intro args ip ip2 vs h; simp [evalArgs] at h
  | succ k ih =>
    intro args ip ip2 vs h
    cases args with
    | nil =>
      simp only [evalArgs] at h
      cases h
      rfl
    | cons a rest =>
      simp only [evalArgs] at h
      cases h1 : evaluate k a ip with
      | ok v ip1 =>
        simp only [h1, Res.bind] at h
        cases h2 : evalArgs k rest ip1 with
        | ok vs1 ip3 =>
          simp only [h2] at h
          cases h
          simp [ih rest ip1 _ vs1 h2]
        | throw e s => simp [h2] at h
        | timeout => simp [h2] at h
        | unsupported w => simp [h2] at h
      | throw e s => simp [h1, Res.bind] at h
      | timeout => simp [h1, Res.bind] at h
      | unsupported w => simp [h1, Res.bind] at h

/-- C39: when the callee of a call evaluates to a native function, `evalCall` evaluates
the arguments, all of them and from left to right, and invokes the callback with the
values; the declared arity of the function plays no part, so two native functions that
differ only in it are called alike.  The same holds of a call through `AdaScript_Call`.
The wrapper of a host function hands every argument it is given to the host function,
and `AdaScript_RegisterNativeStringFn` stores the same wrapper whatever the arity.  An
arity failure of a builtin is raised by the builtin itself. -/
theorem C39_native_arity_unchecked (fuel : Nat) (callee : Expr) (args : List Expr)
    (ip ip1 : Interpreter) (nf : NativeFunction)
    (hl : isMarker callee "__list_literal__" = false)
    (hd : isMarker callee "__dict_literal__" = false)
    (hc : evaluate fuel callee ip = .ok (.native nf) ip1) :
    evalCall (fuel + 1) callee args ip
      = ((evalArgs fuel args ip1).bind fun evaluated ip2 => callNative fuel nf.fn evaluated ip2)
    ∧ (∀ (vs : List Value) (ip2 : Interpreter), evalArgs fuel args ip1 = .ok vs ip2 →
        vs.length = args.length
        ∧ evalCall (fuel + 1) callee args ip = callNative fuel nf.fn vs ip2)
    ∧ (∀ (k : Nat) (a : Expr) (rest : List Expr) (s : Interpreter),
        evalArgs (k + 1) (a :: rest) s
          = ((evaluate k a s).bind fun v s1 =>
              (evalArgs k rest s1).bind fun vs s2 => .ok (v :: vs) s2))
    ∧ (∀ (arity : Int) (callee2 : Expr) (s : Interpreter),
        isMarker callee2 "__list_literal__" = false →
        isMarker callee2 "__dict_literal__" = false →
        evaluate fuel callee2 s = .ok (.native ⟨nf.name, arity, nf.fn⟩) ip1 →
        evalCall (fuel + 1) callee2 args s = evalCall (fuel + 1) callee args ip)
    ∧ (∀ (av : List Value) (s : Interpreter),
        callTarget fuel (.native nf) av s = callNative fuel nf.fn av s)
    ∧ (∀ (k n : Nat) (fn : HostFn) (vs : List Value) (s : Interpreter),
        s.hostFns.get? n = some fn →
        ∃ out, callNative (k + 1) (.thunk n) vs s
          = .ok (.string out)
              { s with hostCalls := s.hostCalls ++ [(n, (vs.map value_to_string).map cstr)] })
    ∧ (∀ (arity : Int) (s : Interpreter) (name : String) (fn : HostFn),
        AdaScript_RegisterNativeStringFn (some s) (some name) arity (some fn)
          = (0, some ({ s with hostFns := s.hostFns ++ [fn] }.define globals (cstr name)
              (.native ⟨cstr name, arity, .thunk s.hostFns.length⟩))))
    ∧ vmStdout (AdaScript_Eval 200 concatArityZero (some "print(c_concat(\"a\", \"b\", 3));")
        none).vm? = "ab3\n"
    ∧ vmHostCalls (AdaScript_Eval 200 concatArityZero (some "print(c_concat(\"a\", \"b\", 3));")
        none).vm? = [(0, ["a", "b", "3"])]
    ∧ (AdaScript_Call 200 concatArityZero (some "c_concat") [some "x", some "y"]).value?
        = some (some "xy")
    ∧ vmStderr (runFresh "len(1, 2); print(0);").vm? = "Runtime error: len expects 1 arg\n"
    ∧ vmStdout (runFresh "print(abs(0 - 2), str(1));").vm? = "2 1\n" := by
  have h1 : evalCall (fuel + 1) callee args ip
      = (evalArgs fuel args ip1).bind fun evaluated ip2 => callNative fuel nf.fn evaluated ip2 := by
    simp only [evalCall, hl, hd, hc, Res.bind]
    simp
  refine ⟨h1, ?_, ?_, ?_, ?_, ?_, ?_, by decide!, by decide!, by decide!, by decide!, by decide!⟩
  · intro vs ip2 hvs
    exact ⟨evalArgs_length fuel args ip1 ip2 vs hvs, by rw [h1, hvs]; rfl⟩
  · intro k a rest s
    simp only [evalArgs]
  · intro arity callee2 s hl2 hd2 hc2
    rw [h1]
    simp only [evalCall, hl2, hd2, hc2, Res.bind]
    simp
  · intro av s
    rfl
  · intro k n fn vs s hfn
    simp only [callNative, callBuiltin, hfn]
    exact ⟨_, rfl⟩
  · intro arity s name fn
    rfl

theorem C39_native_arity_unchecked_witness :
    evaluate 1 (.VarExpr "len") freshIp = .ok (.native ⟨"len", 1, .len⟩) freshIp
    ∧ evalCall (1 + 1) (.VarExpr "len") [] freshIp
        = ((evalArgs 1 [] freshIp).bind fun evaluated ip2 => callNative 1 .len evaluated ip2) :=
  have hc : evaluate 1 (.VarExpr "len") freshIp = .ok (.native ⟨"len", 1, .len⟩) freshIp := rfl
  ⟨hc, (C39_native_arity_unchecked 1 (.VarExpr "len") [] freshIp freshIp ⟨"len", 1, .len⟩
    (by decide) (by decide) hc).1⟩

theorem foldl_define_has (ps : List (String × Value)) (s : Interpreter) (e : Nat)
    (he : e < s.envs.length) (n : String) (hn : n ∈ ps.map Prod.fst) :
    mapHas ((ps.foldl (fun s pa => s.define e pa.1 pa.2) s).envAt e).values n = true := by
  rw [foldl_define_values _ _ _ he, mapHas_foldl_mapSet]
  exact Or.inr hn

/-- C31, what the code does: a multi-assign whose right-hand side evaluates to a list of
the right length writes every name in the scope that is current, whether or not an
enclosing scope defines the name: afterwards the current scope defines every name of
the statement, every other scope is as the evaluation of the right-hand side left it,
and on a well-formed heap every name reads from every older scope, the enclosing ones
among them, what it read before the writes.  Run as the only statement of a block, the
statement leaves every name reading, from the scope around the block, what it read
when the right-hand side had been evaluated. -/
theorem C31_multi_assign_writes_current_scope (fuel : Nat) (ip ip1 : Interpreter)
    (names : List String) (e : Expr) (l : List Value) (henv : ip.env < ip.envs.length)
    (hev : evaluate fuel e ip = .ok (.list l) ip1) (hlen : l.length = names.length) :
    (∃ ip2, execute (fuel + 1) (.MultiAssignStmt names e) ip = .ok () ip2
      ∧ ip2.env = ip.env
      ∧ (∀ n, n ∈ names → mapHas (ip2.envAt ip.env).values n = true)
      ∧ (∀ e0, e0 ≠ ip.env → ip2.envAt e0 = ip1.envAt e0)
      ∧ (ip1.WellFormed → ∀ (e0 : Nat) (n : String), e0 < ip.env →
          ip2.getPtr e0 n = ip1.getPtr e0 n)
      ∧ (ip1.WellFormed → ∀ (p : Nat) (n : String), (ip1.envAt ip.env).parent = some p →
          ip2.getPtr p n = ip1.getPtr p n))
    ∧ (∀ (k : Nat) (s s1 : Interpreter) (vs : List Value), s.env < s.envs.length →
        s.WellFormed → evaluate k e s.enterBlock = .ok (.list vs) s1 →
        vs.length = names.length →
        ∃ s2, execute (k + 4) (.BlockStmt [.MultiAssignStmt names e]) s = .ok () s2
          ∧ s2.env = s.env
          ∧ (∀ e0, e0 < s.envs.length → s2.envAt e0 = s1.envAt e0)
          ∧ (∀ n, s2.getPtr s.env n = s1.getPtr s.env n))
    ∧ (frontEnd 100 "a, b = xs;").yields [pairAssign] = true
    ∧ vmStdout (runFresh shadowProgram).vm? = "2 1\n1 2\n"
    ∧ vmStdout (runFresh sameScopeProgram).vm? = "2 1\n"
    ∧ vmStdout (runFresh assignProgram).vm? = "5\n" := by
  have main : ∀ (fuel : Nat) (ip ip1 : Interpreter) (l : List Value),
      ip.env < ip.envs.length → evaluate fuel e ip = .ok (.list l) ip1 →
      l.length = names.length →
      execute (fuel + 1) (.MultiAssignStmt names e) ip
        = .ok () ((names.zip l).foldl (fun s pa => s.define ip.env pa.1 pa.2) ip1) := by
    intro fuel ip ip1 l henv hev hlen
    have hfr := evaluate_frame fuel e ip ip1 _ hev
    have henv1 : ip1.env < ip1.envs.length := by
      rw [hfr.env]; exact Nat.lt_of_lt_of_le henv hfr.length
    have hfold := foldl_setVar_eq (names.zip l) ip1 henv1
    rw [hfr.env] at hfold
    simp only [execute, hev, Res.bind, bne_iff_ne, ne_eq, hlen, not_true_eq_false, if_false,
      hfold]
  refine ⟨?_, ?_, by decide!, by decide!, by decide!, by decide!⟩
  · have hfr := evaluate_frame fuel e ip ip1 _ hev
    have hlt : ip.env < ip1.envs.length := Nat.lt_of_lt_of_le henv hfr.length
    have hold : ∀ (e0 : Nat) (n : String), ip1.WellFormed → e0 < ip.env →
        ((names.zip l).foldl (fun s pa => s.define ip.env pa.1 pa.2) ip1).getPtr e0 n
          = ip1.getPtr e0 n := by
      intro e0 n hwf he0
      refine getPtr_congr ip1 _ n ip.env (foldl_define_length _ _ _)
        (fun e1 he1 => foldl_define_other _ _ _ _ (by omega)) ?_ e0 he0
      intro e1 he1 p hp
      exact hwf e1 (by omega) p hp
    refine ⟨_, main fuel ip ip1 l henv hev hlen, ?_, ?_, ?_, ?_, ?_⟩
    · have h := congrArg Interpreter.env (foldl_define_rest (names.zip l) ip1 ip.env)
      exact h.trans hfr.env
    · intro n hn
      apply foldl_define_has _ _ _ hlt
      rw [List.map_fst_zip _ _ (by omega)]
      exact hn
    · intro e0 he0
      exact foldl_define_other _ _ _ _ he0
    · intro hwf e0 n he0
      exact hold e0 n hwf he0
    · intro hwf p n hp
      exact hold p n hwf (hwf ip.env hlt p (by simp [hp]))
  · intro k s s1 vs hsenv hwf hevs hvlen
    have hfr := evaluate_frame k e _ s1 _ hevs
    have h1 : s1.env = s.envs.length := hfr.env
    have hlen1 : s.envs.length < s1.envs.length := by
      have h2 := hfr.length
      have h3 : s.enterBlock.envs.length = s.envs.length + 1 := by
        show (s.newEnv s.env).2.envs.length = _
        rw [newEnv_length]
      omega
    have hex := main k s.enterBlock s1 vs (by
      show s.envs.length < (s.newEnv s.env).2.envs.length
      rw [newEnv_length]; omega) hevs hvlen
    have hex1 : execute (k + 1) (.MultiAssignStmt names e)
        { (s.newEnv s.env).2 with env := (s.newEnv s.env).1 }
          = .ok () ((names.zip vs).foldl (fun t pa => t.define s.envs.length pa.1 pa.2) s1) := hex
    have hold : ∀ e0, e0 < s.envs.length →
        ((names.zip vs).foldl (fun t pa => t.define s.envs.length pa.1 pa.2) s1).envAt e0
          = s1.envAt e0 := fun e0 he0 => foldl_define_other _ _ _ _ (by omega)
    refine ⟨{ (names.zip vs).foldl (fun t pa => t.define s.envs.length pa.1 pa.2) s1 with
      env := s.env }, ?_, rfl, hold, ?_⟩
    · rw [show execute (k + 4) (.BlockStmt [.MultiAssignStmt names e]) s
          = execBlock (k + 3) [.MultiAssignStmt names e] (s.newEnv s.env).1 (s.newEnv s.env).2
          from rfl]
      simp only [execBlock, execStmts, hex1, Res.bind]
      rfl
    · intro n
      rw [getPtr_of_envs_eq ((names.zip vs).foldl (fun t pa => t.define s.envs.length pa.1 pa.2) s1)
        { (names.zip vs).foldl (fun t pa => t.define s.envs.length pa.1 pa.2) s1 with
          env := s.env } rfl]
      refine getPtr_congr s1 _ n s.envs.length (foldl_define_length _ _ _) hold ?_ s.env hsenv
      intro e0 he0 p hp
      have hpar := hfr.parent e0 (by
        show e0 < (s.newEnv s.env).2.envs.length
        rw [newEnv_length]; omega)
      rw [hpar, enterBlock_envAt_old s e0 he0] at hp
      exact hwf e0 he0 p hp

theorem C31_multi_assign_writes_current_scope_witness :
    listA.env < listA.envs.length
    ∧ evaluate 1 (.VarExpr "a") listA = .ok (.list [.number ⟨1, 1⟩, .number ⟨2, 1⟩]) listA
    ∧ (∃ ip2, execute (1 + 1) (.MultiAssignStmt ["p", "q"] (.VarExpr "a")) listA = .ok () ip2
        ∧ ip2.env = listA.env
        ∧ mapHas (ip2.envAt listA.env).values "q" = true) :=
  ⟨by decide, rfl,
    (C31_multi_assign_writes_current_scope 1 listA listA ["p", "q"] (.VarExpr "a")
      [.number ⟨1, 1⟩, .number ⟨2, 1⟩] (by decide) rfl rfl).1.imp fun _ h =>
        ⟨h.1, h.2.1, h.2.2.1 "q" (by simp)⟩⟩

namespace Parser

/-- An expression of the loosest binary level followed by no `=` is an assignment
expression. -/
theorem assignment_of_orExpr (ts : List Token) (K cur c : Nat) (e : Expr)
    (he : ∀ k, K ≤ k → orExpr ts k cur = .ok e c) (hne : (peek ts c).type ≠ .EQUAL) :
    ∀ k, K + 1 ≤ k → assignment ts k cur = .ok e c := by
  intro k hk
  obtain ⟨j, rfl⟩ : ∃ j, k = j + 1 := ⟨k - 1, by omega⟩
  simp only [assignment, he j (by omega), PResult.bind, matchAny_eq, List.mem_singleton, hne,
    false_and, if_false]

/-- A variable, `=` and an assignment expression form an assignment to the variable. -/
theorem assignment_chain (ts : List Token) (K cur c1 c3 : Nat) (name : String) (value : Expr)
    (ha : ∀ k, K ≤ k → orExpr ts k cur = .ok (.VarExpr name) c1)
    (heq : (peek ts c1).type = .EQUAL)
    (hv : ∀ k, K ≤ k → assignment ts k (c1 + 1) = .ok value c3) :
    ∀ k, K + 1 ≤ k → assignment ts k cur = .ok (.AssignExpr name value) c3 := by
  intro k hk
  obtain ⟨j, rfl⟩ : ∃ j, k = j + 1 := ⟨k - 1, by omega⟩
  rw [assignment, ha j (by omega)]
  simp only [PResult.bind, matchAny_eq, List.mem_singleton, heq, true_and]
  have hE : (TokenType.EQUAL ≠ TokenType.END_OF_FILE) := by decide
  simp only [hE, ne_eq, not_false_eq_true, if_true, hv j (by omega)]

end Parser

theorem evaluate_AssignExpr (k : Nat) (name : String) (value : Expr) (ip : Interpreter) :
    evaluate (k + 1) (.AssignExpr name value) ip
      = ((evaluate k value ip).bind fun v ip1 =>
          match ip1.assign ip1.env name v with
          | some ip2 => .ok v ip2
          | none => throwRT ("Undefined variable: " ++ name) ip1) := by
  simp only [evaluate] <;> rfl

/-- C40: for primary expressions `a`, `b`, `c` separated by two binary operators of one
level and followed by a token that ends the expression, `expression` returns, given
enough fuel, the tree that nests to the left, `Binary(Binary(a, b), c)`; so it does for
`a - b - c` and for `a / b / c`.  For variables `x` and `y`, `x = y = c` is
`Assign(x, Assign(y, c))`, and evaluating such a tree, when both variables are
defined, assigns the value of the innermost expression to `y` and then to `x` and
yields that value. -/
theorem C40_associativity (ts : List Token) (K cur c1 c2 c3 : Nat) (a b c : Expr)
    (ha : ∀ k, K ≤ k → Parser.primary ts k cur = .ok a c1)
    (hb : ∀ k, K ≤ k → Parser.primary ts k (c1 + 1) = .ok b c2)
    (hc : ∀ k, K ≤ k → Parser.primary ts k (c2 + 1) = .ok c c3)
    (hend : endsExpression (Parser.peek ts c3).type = true) :
    (∀ p : Nat, precedence (Parser.peek ts c1).type = some p →
      precedence (Parser.peek ts c2).type = some p →
      ∀ k, K + 50 ≤ k →
        Parser.expression ts k cur
          = .ok (.BinaryExpr (.BinaryExpr a (astOp (Parser.peek ts c1)) b)
                  (astOp (Parser.peek ts c2)) c) c3)
    ∧ ((Parser.peek ts c1).type = .MINUS → (Parser.peek ts c2).type = .MINUS →
      ∀ k, K + 50 ≤ k →
        Parser.expression ts k cur
          = .ok (.BinaryExpr (.BinaryExpr a (Parser.peek ts c1) b) (Parser.peek ts c2) c) c3)
    ∧ ((Parser.peek ts c1).type = .SLASH → (Parser.peek ts c2).type = .SLASH →
      ∀ k, K + 50 ≤ k →
        Parser.expression ts k cur
          = .ok (.BinaryExpr (.BinaryExpr a (Parser.peek ts c1) b) (Parser.peek ts c2) c) c3)
    ∧ (∀ x y : String, a = .VarExpr x → b = .VarExpr y →
      (Parser.peek ts c1).type = .EQUAL → (Parser.peek ts c2).type = .EQUAL →
      ∀ k, K + 50 ≤ k →
        Parser.expression ts k cur = .ok (.AssignExpr x (.AssignExpr y c)) c3)
    ∧ (∀ (fuel : Nat) (x y : String) (e : Expr) (ip ip1 : Interpreter) (v : Value)
        (ex ey : Nat), evaluate fuel e ip = .ok v ip1 →
      ip1.findEnv x ip1.envs.length ip1.env = some ex →
      ip1.findEnv y ip1.envs.length ip1.env = some ey →
      evaluate (fuel + 2) (.AssignExpr x (.AssignExpr y e)) ip
        = .ok v ((ip1.define ey y v).define ex x v)
      ∧ ((ip1.define ey y v).define ex x v).getPtr ip1.env x = some v
      ∧ ((ip1.define ey y v).define ex x v).getPtr ip1.env y = some v)
    ∧ vmStdout (runFresh "print(10 - 3 - 2); print(8 / 4 / 2); print(7 % 4 % 2);").vm?
        = "5\n1\n1\n"
    ∧ vmStdout (runFresh chainProgram).vm? = "7 7 7\n" := by
  obtain ⟨hE1, hE2, hE3, hE4, hE5⟩ := endsExpression_spec _ hend
  have hc0 := Parser.unary_of_primary ts K (c2 + 1) c3 c hc ⟨hE3, hE4, hE5⟩
  have general : ∀ p : Nat, precedence (Parser.peek ts c1).type = some p →
      precedence (Parser.peek ts c2).type = some p →
      ∀ k, K + 50 ≤ k →
        Parser.expression ts k cur
          = .ok (.BinaryExpr (.BinaryExpr a (astOp (Parser.peek ts c1)) b)
                  (astOp (Parser.peek ts c2)) c) c3 := by
    intro p h1 h2 k hk
    obtain ⟨_, n1, n2, n3⟩ := not_postfix_of_precedence _ p h1
    obtain ⟨_, m1, m2, m3⟩ := not_postfix_of_precedence _ p h2
    have ha0 := Parser.unary_of_primary ts K cur c1 a ha ⟨n1, n2, n3⟩
    have hb0 := Parser.unary_of_primary ts K (c1 + 1) c2 b hb ⟨m1, m2, m3⟩
    have h3 := Parser.orExpr_three ts (K + 2) cur c1 c2 c3 p p a b c ha0 hb0 hc0 h1 h2 hE1
    simp only [Nat.lt_irrefl, if_false] at h3
    exact Parser.expression_of_orExpr ts (K + 2 + 42) cur c3 _ h3 hE2 k (by omega)
  refine ⟨general, ?_, ?_, ?_, ?_, by decide!, by decide!⟩
  · intro h1 h2 k hk
    have h := general 5 (by rw [h1]; rfl) (by rw [h2]; rfl) k hk
    simpa [astOp, h1, h2] using h
  · intro h1 h2 k hk
    have h := general 6 (by rw [h1]; rfl) (by rw [h2]; rfl) k hk
    simpa [astOp, h1, h2] using h
  · intro x y hx hy h1 h2 k hk
    subst hx hy
    have hn1 : precedence (Parser.peek ts c1).type = none := by rw [h1]; rfl
    have hn2 : precedence (Parser.peek ts c2).type = none := by rw [h2]; rfl
    have ha0 := Parser.unary_of_primary ts K cur c1 _ ha
      ⟨by rw [h1]; decide, by rw [h1]; decide, by rw [h1]; decide⟩
    have hb0 := Parser.unary_of_primary ts K (c1 + 1) c2 _ hb
      ⟨by rw [h2]; decide, by rw [h2]; decide, by rw [h2]; decide⟩
    have ha6 : ∀ k, K + 2 + 12 ≤ k → Parser.orExpr ts k cur = .ok (.VarExpr x) c1 :=
      Parser.level_raise ts (K + 2) cur c1 _ 0 6 (by omega) (by omega) ha0
        (fun l _ _ => Parser.stops_of_no_precedence ts c1 l hn1)
    have hb6 : ∀ k, K + 2 + 12 ≤ k → Parser.orExpr ts k (c1 + 1) = .ok (.VarExpr y) c2 :=
      Parser.level_raise ts (K + 2) (c1 + 1) c2 _ 0 6 (by omega) (by omega) hb0
        (fun l _ _ => Parser.stops_of_no_precedence ts c2 l hn2)
    have hc6 : ∀ k, K + 2 + 12 ≤ k → Parser.orExpr ts k (c2 + 1) = .ok c c3 :=
      Parser.level_raise ts (K + 2) (c2 + 1) c3 _ 0 6 (by omega) (by omega) hc0
        (fun l _ _ => Parser.stops_of_no_precedence ts c3 l hE1)
    have hcA := Parser.assignment_of_orExpr ts (K + 14) (c2 + 1) c3 c hc6 hE2
    have hbA := Parser.assignment_chain ts (K + 15) (c1 + 1) c2 c3 y c
      (fun k hk => hb6 k (by omega)) h2 hcA
    have haA := Parser.assignment_chain ts (K + 16) cur c1 c3 x _
      (fun k hk => ha6 k (by omega)) h1 hbA
    obtain ⟨j, rfl⟩ : ∃ j, k = j + 1 := ⟨k - 1, by omega⟩
    simp only [Parser.expression]
    exact haA j (by omega)
  · intro fuel x y e ip ip1 v ex ey hev hx hy
    have hin : evaluate (fuel + 1) (.AssignExpr y e) ip = .ok v (ip1.define ey y v) := by
      rw [evaluate_AssignExpr, hev]
      simp only [Res.bind, Interpreter.assign, hy]
    have hx2 : (ip1.define ey y v).findEnv x (ip1.define ey y v).envs.length
        (ip1.define ey y v).env = some ex := by
      rw [define_envs_length]
      show (ip1.define ey y v).findEnv x ip1.envs.length ip1.env = some ex
      by_cases hxy : x = y
      · subst hxy
        have : ex = ey := by rw [hx] at hy; exact Option.some.inj hy
        subst this
        exact findEnv_define_found ip1 x v _ _ _ hx
      · rw [findEnv_define_ne ip1 ey y x v hxy]
        exact hx
    have hy2 : (ip1.define ey y v).getPtr ip1.env y = some v :=
      getPtr_define_found ip1 y v ip1.env ey hy
    refine ⟨?_, ?_, ?_⟩
    · rw [evaluate_AssignExpr, hin]
      simp only [Res.bind, Interpreter.assign, hx2]
    · exact getPtr_define_found (ip1.define ey y v) x v ip1.env ex hx2
    · by_cases hxy : x = y
      · subst hxy
        exact getPtr_define_found (ip1.define ey x v) x v ip1.env ex hx2
      · rw [getPtr_define_ne _ ex ip1.env x y v (fun h => hxy h.symm)]
        exact hy2

theorem C40_associativity_witness :
    Parser.expression differenceTokens 51 0
      = .ok (.BinaryExpr
              (.BinaryExpr (.LiteralExpr (.number (Double.ofNat 10)))
                (Parser.peek differenceTokens 1) (.LiteralExpr (.number (Double.ofNat 3))))
              (Parser.peek differenceTokens 3)
              (.LiteralExpr (.number (Double.ofNat 2)))) 5 :=
  (C40_associativity differenceTokens 1 0 1 3 5
    (.LiteralExpr (.number (Double.ofNat 10))) (.LiteralExpr (.number (Double.ofNat 3)))
    (.LiteralExpr (.number (Double.ofNat 2)))
    (fun k hk => by
      obtain ⟨j, rfl⟩ : ∃ j, k = j + 1 := ⟨k - 1, by omega⟩
      exact Parser.primary_number differenceTokens j 0 _ rfl (by decide!))
    (fun k hk => by
      obtain ⟨j, rfl⟩ : ∃ j, k = j + 1 := ⟨k - 1, by omega⟩
      exact Parser.primary_number differenceTokens j 2 _ rfl (by decide!))
    (fun k hk => by
      obtain ⟨j, rfl⟩ : ∃ j, k = j + 1 := ⟨k - 1, by omega⟩
      exact Parser.primary_number differenceTokens j 4 _ rfl (by decide!))
    rfl).2.1 rfl rfl 51 (by decide)

theorem startsWith_iff (pre s : List Char) : startsWith pre s = true ↔ pre <+: s := by
  induction pre generalizing s with
  | nil => simp [startsWith]
  | cons a pre ih =>
    cases s with
    | nil => simp [startsWith]
    | cons b s =>
      simp only [startsWith, Bool.and_eq_true, beq_iff_eq, ih, List.cons_prefix_cons]

theorem splitOn_skip (sep : List Char) : ∀ (cs : List Char) (k : Nat) (acc : List Char),
    splitOn sep cs k acc = splitOn sep (cs.drop k) 0 acc := by
  intro cs
  induction cs with
  | nil =>
    intro k acc
    cases k <;> simp [splitOn]
  | cons c cs ih =>
    intro k acc
    cases k with
    | zero => rfl
    | succ k =>
      rw [splitOn, List.drop_succ_cons]
      exact ih k acc

theorem intercalate_go_data (sep : String) : ∀ (l : List String) (acc : String),
    (String.intercalate.go acc sep l).data = acc.data ++ tailData sep.data l := by
  intro l
  induction l with
  | nil => intro acc; simp [String.intercalate.go, tailData]
  | cons a as ih =>
    intro acc
    rw [String.intercalate.go, ih]
    simp [tailData, String.data_append, List.append_assoc]

theorem intercalate_data (sep : String) (l : List String) :
    (sep.intercalate l).data = joinData sep.data l := by
  cases l with
  | nil => rfl
  | cons p ps =>
    rw [String.intercalate, intercalate_go_data]
    rfl

theorem not_infix_of_noneStarts (sep acc cs : List Char) (hsep : sep ≠ [])
    (h : NoneStarts sep acc cs) : ¬ sep <:+: acc.reverse := by
  rintro ⟨u, w, huw⟩
  have h1 := h u (sep ++ w) (by rw [← huw, List.append_assoc]) (by simp [hsep])
  have h2 : startsWith sep (sep ++ w ++ cs) = true := by
    rw [startsWith_iff, List.append_assoc]
    exact List.prefix_append _ _
  rw [h1] at h2
  exact absurd h2 (by simp)

theorem splitOn_spec (sep : List Char) (hsep : sep ≠ []) :
    ∀ (n : Nat) (cs acc : List Char), cs.length ≤ n →
      (∃ p ps, splitOn sep cs 0 acc = p :: ps)
      ∧ joinData sep (splitOn sep cs 0 acc) = acc.reverse ++ cs
      ∧ (∀ fuel, cs.length ≤ fuel →
          (splitOn sep cs 0 acc).length = 1 + countOccurrences sep fuel cs)
      ∧ (NoneStarts sep acc cs → ∀ p ∈ splitOn sep cs 0 acc, ¬ sep <:+: p.data) := by
  intro n
  induction n with
  | zero =>
    intro cs acc hlen
    have hcs : cs = [] := List.length_eq_zero.mp (by omega)
    subst hcs
    refine ⟨⟨_, _, rfl⟩, by simp [splitOn, joinData, tailData], ?_, ?_⟩
    · intro fuel _
      cases fuel <;> simp [splitOn, countOccurrences]
    · intro hinv p hp
      simp only [splitOn, List.mem_singleton] at hp
      subst hp
      exact not_infix_of_noneStarts sep acc [] hsep hinv
  | succ n ih =>
    intro cs acc hlen
    cases cs with
    | nil =>
      refine ⟨⟨_, _, rfl⟩, by simp [splitOn, joinData, tailData], ?_, ?_⟩
      · intro fuel _
        cases fuel <;> simp [splitOn, countOccurrences]
      · intro hinv p hp
        simp only [splitOn, List.mem_singleton] at hp
        subst hp
        exact not_infix_of_noneStarts sep acc [] hsep hinv
    | cons c cs =>
      by_cases hst : startsWith sep (c :: cs) = true
      · have hpre : sep <+: c :: cs := (startsWith_iff _ _).mp hst
        obtain ⟨rest, hrest⟩ := hpre
        have hseplen : 1 ≤ sep.length := by
          cases sep with
          | nil => exact absurd rfl hsep
          | cons a s => simp
        have hdrop : (c :: cs).drop sep.length = rest := by
          rw [← hrest]; simp
        have hdrop1 : cs.drop (sep.length - 1) = rest := by
          rw [← hdrop]
          obtain ⟨m, hm⟩ : ∃ m, sep.length = m + 1 := ⟨sep.length - 1, by omega⟩
          rw [hm]; simp
        have hlen2 : cs.length + 1 = sep.length + rest.length := by
          have : (c :: cs).length = sep.length + rest.length := by rw [← hrest]; simp
          simpa using this
        have hrlen : rest.length ≤ n := by
          simp only [List.length_cons] at hlen
          omega
        have hout : splitOn sep (c :: cs) 0 acc
            = String.mk acc.reverse :: splitOn sep rest 0 [] := by
          rw [splitOn, if_pos hst, splitOn_skip, hdrop1]
        obtain ⟨⟨q, qs, hq⟩, hjoin, hcount, hno⟩ := ih rest [] hrlen
        rw [hout]
        refine ⟨⟨_, _, rfl⟩, ?_, ?_, ?_⟩
        · rw [hq] at hjoin
          rw [hq]
          simp only [joinData, tailData] at hjoin ⊢
          have hj : q.data ++ tailData sep qs = rest := by simpa using hjoin
          rw [List.append_assoc, hj, hrest]
        · intro fuel hfuel
          obtain ⟨f, rfl⟩ : ∃ f, fuel = f + 1 := ⟨fuel - 1, by simp at hfuel; omega⟩
          rw [countOccurrences, if_pos hst, hdrop, List.length_cons,
            hcount f (by simp at hfuel; omega)]
          omega
        · intro hinv p hp
          rcases List.mem_cons.mp hp with h | h
          · subst h
            exact not_infix_of_noneStarts sep acc (c :: cs) hsep hinv
          · exact hno (by intro u v huv hv; simp at huv; exact absurd huv.2 hv) p h
      · have hst' : startsWith sep (c :: cs) = false := by
          cases h : startsWith sep (c :: cs) with
          | false => rfl
          | true => exact absurd h hst
        have hout : splitOn sep (c :: cs) 0 acc = splitOn sep cs 0 (c :: acc) := by
          rw [splitOn, if_neg hst]
        obtain ⟨hne, hjoin, hcount, hno⟩ := ih cs (c :: acc) (by simp at hlen; omega)
        rw [hout]
        refine ⟨hne, ?_, ?_, ?_⟩
        · rw [hjoin]; simp
        · intro fuel hfuel
          obtain ⟨f, rfl⟩ : ∃ f, fuel = f + 1 := ⟨fuel - 1, by simp at hfuel; omega⟩
          rw [countOccurrences, if_neg hst]
          exact hcount f (by simp at hfuel; omega)
        · intro hinv
          apply hno
          intro u v huv hv
          rw [List.reverse_cons] at huv
          rcases List.eq_nil_or_concat v with h | ⟨v0, d, h⟩
          · exact absurd h hv
          · subst h
            have h2 : acc.reverse ++ [c] = (u ++ v0) ++ [d] := by
              rw [huv]; simp
            have h3 := List.append_inj' h2 rfl
            have hd : c = d := by simpa using h3.2
            subst hd
            by_cases hv0 : v0 = []
            · subst hv0
              simpa using hst'
            · have := hinv u v0 h3.1 hv0
              simpa [List.append_assoc] using this

/-- C35: for a separator that is not empty, `split(s, sep)` returns a list of strings
that is not empty, in which no string contains `sep`, and whose length is one more than
the number of occurrences of `sep` in `s` counted from left to right without overlap;
joining these strings with `sep`, as `join` does, gives `s` back. -/
theorem C35_join_undoes_split (s sep : String) (ip : Interpreter) (hsep : sep ≠ "") :
    ∃ pieces : List String,
      callBuiltin .split [.string s, .string sep] ip = .ok (.list (pieces.map Value.string)) ip
      ∧ pieces ≠ []
      ∧ (∀ p ∈ pieces, ¬ sep.data <:+: p.data)
      ∧ pieces.length = 1 + countOccurrences sep.data s.length s.data
      ∧ sep.intercalate pieces = s
      ∧ callBuiltin .join [.list (pieces.map Value.string), .string sep] ip = .ok (.string s) ip
      ∧ vmStdout (runFresh splitJoinProgram).vm? = "4\na,b,,c\n2\n[\"\", \"a\"]\naaa\n1\n" := by
  have hd : sep.data ≠ [] := by
    intro h
    apply hsep
    cases sep
    simp_all
  have he : sep.data.isEmpty = false := by
    cases h : sep.data with
    | nil => exact absurd h hd
    | cons a b => rfl
  obtain ⟨⟨p, ps, hp⟩, hjoin, hcount, hno⟩ := splitOn_spec sep.data hd s.data.length s.data []
    (Nat.le_refl _)
  have hint : sep.intercalate (splitOn sep.data s.data 0 []) = s := by
    apply String.ext
    rw [intercalate_data, hjoin]
    simp
  have hjs : ∀ l : List String, joinStrings (l.map Value.string) = some l := by
    intro l
    induction l with
    | nil => rfl
    | cons a as ih => simp [joinStrings, ih]
  refine ⟨splitOn sep.data s.data 0 [], ?_, ?_, ?_, ?_, hint, ?_, by decide!⟩
  · simp only [callBuiltin, splitString, he]
    rfl
  · rw [hp]; simp
  · exact hno (by intro u v huv hv; simp at huv; exact absurd huv.2 hv)
  · exact hcount s.data.length (Nat.le_refl _)
  · simp only [callBuiltin, hjs, hint]

theorem C35_join_undoes_split_witness :
    ∃ pieces : List String,
      callBuiltin .split [.string "a,b", .string ","] freshIp
        = .ok (.list (pieces.map Value.string)) freshIp
      ∧ pieces.length = 1 + countOccurrences ",".data "a,b".length "a,b".data
      ∧ ",".intercalate pieces = "a,b" :=
  (C35_join_undoes_split "a,b" "," freshIp (by decide)).imp fun _ h => ⟨h.1, h.2.2.2.1, h.2.2.2.2.1⟩

theorem within_advance (lx0 : Lexer) (h : lx0.current < lx0.src.length) :
    lx0.Within (({ lx0 with start := lx0.current } : Lexer).advance.2) := by
  obtain ⟨a1, a2, a3, a4⟩ := advance_fields ({ lx0 with start := lx0.current } : Lexer)
  refine ⟨a1, a2, a4, ?_, ?_⟩
  · rw [a3]; exact Nat.lt_succ_self _
  · rw [a3, a1]; exact h

theorem within_step (lx0 lx : Lexer) (h : lx0.Within lx) (hend : lx.isAtEnd = false) :
    lx0.Within lx.advance.2 := by
  obtain ⟨a1, a2, a3, a4⟩ := advance_fields lx
  obtain ⟨h1, h2, h3, h4, h5⟩ := h
  have hlt : lx.current < lx.src.length := by
    simpa [Lexer.isAtEnd] using hend
  refine ⟨a1.trans h1, a2.trans h2, a4.trans h3, ?_, ?_⟩
  · rw [a3]; omega
  · rw [a3, a1]; omega

theorem within_matchChar (lx0 lx : Lexer) (c : Char) (h : lx0.Within lx) :
    lx0.Within (lx.matchChar c).2 := by
  obtain ⟨h1, h2, h3, h4, h5⟩ := h
  simp only [Lexer.matchChar]
  split
  · exact ⟨h1, h2, h3, h4, h5⟩
  · rename_i hc
    have hlt : lx.current < lx.src.length := by
      simp only [Bool.or_eq_true, not_or, Bool.not_eq_true] at hc
      simpa [Lexer.isAtEnd] using hc.1
    exact ⟨h1, h2, h3, by show lx0.current < lx.current + 1; omega,
      by show lx.current + 1 ≤ lx.src.length; omega⟩

theorem within_advanceWhile (p : Char → Bool) (lx0 : Lexer) :
    ∀ (n : Nat) (lx : Lexer), lx0.Within lx → lx0.Within (Lexer.advanceWhile p n lx) := by
  intro n
  induction n with
  | zero => intro lx h; exact h
  | succ n ih =>
    intro lx h
    simp only [Lexer.advanceWhile]
    split
    · rename_i hc
      simp only [Bool.and_eq_true, Bool.not_eq_true'] at hc
      exact ih _ (within_step lx0 lx h hc.1)
    · exact h

theorem stepOK_of_within (lx0 lx : Lexer) (h : lx0.Within lx) : lx0.StepOK lx :=
  ⟨h.1, h.2.2.2.1, h.2.2.2.2, Or.inl h.2.2.1⟩

theorem stepOK_push (lx0 lx : Lexer) (T : TokenType) (line col : Nat)
    (hE : T ≠ .END_OF_FILE) (hS : T ≠ .STRING) (h : lx0.Within lx) :
    lx0.StepOK (lx.push ⟨T, substr lx.src lx.start (lx.current - lx.start), line, col⟩) := by
  obtain ⟨h1, h2, h3, h4, h5⟩ := h
  refine ⟨h1, h4, h5,
    Or.inr ⟨⟨T, substr lx.src lx.start (lx.current - lx.start), line, col⟩, ?_, hE, ?_, ?_⟩⟩
  · show lx.tokens ++ _ = _
    rw [h3]
  · intro _
    show substr lx.src lx.start (lx.current - lx.start) = substr lx0.src lx0.current _
    rw [h1, h2]
    rfl
  · intro hs
    exact absurd hs hS

theorem stepOK_add (lx0 lx : Lexer) (T : TokenType) (hE : T ≠ .END_OF_FILE) (hS : T ≠ .STRING)
    (h : lx0.Within lx) : lx0.StepOK (lx.add T) :=
  stepOK_push lx0 lx T lx.line lx.col hE hS h

theorem stepOK_addTwo (lx0 lx : Lexer) (c : Char) (T2 T1 : TokenType)
    (h2E : T2 ≠ .END_OF_FILE) (h2S : T2 ≠ .STRING) (h1E : T1 ≠ .END_OF_FILE)
    (h1S : T1 ≠ .STRING) (h : lx0.Within lx) : lx0.StepOK (lx.addTwo c T2 T1) := by
  simp only [Lexer.addTwo]
  split
  · exact stepOK_add lx0 _ T2 h2E h2S (within_matchChar lx0 lx c h)
  · exact stepOK_add lx0 _ T1 h1E h1S (within_matchChar lx0 lx c h)

theorem stepOK_string (lx0 lx lx1 : Lexer) (h : lx0.Within lx) (hs : lx.string = .ok lx1) :
    lx0.StepOK lx1 := by
  unfold Lexer.string at hs
  dsimp only at hs
  by_cases hend : (Lexer.advanceWhile (fun c => c != DQUOTE) lx.remaining lx).isAtEnd = true
  · rw [if_pos hend] at hs
    cases hs
  · rw [if_neg hend] at hs
    have hend' : (Lexer.advanceWhile (fun c => c != DQUOTE) lx.remaining lx).isAtEnd = false := by
      simpa using hend
    have hw := within_step lx0 _ (within_advanceWhile _ lx0 _ lx h) hend'
    injection hs with hs
    subst hs
    generalize (Lexer.advanceWhile (fun c => c != DQUOTE) lx.remaining lx).advance.2 = lx2 at hw
    obtain ⟨h1, h2, h3, h4, h5⟩ := hw
    refine ⟨h1, h4, h5, Or.inr ⟨⟨.STRING,
      substr lx2.src (lx2.start + 1) ((lx2.current - 1) - (lx2.start + 1)), lx2.line, lx2.col⟩,
      ?_, by simp, ?_, ?_⟩⟩
    · show lx2.tokens ++ _ = _
      rw [h3]
    · intro hn
      exact absurd rfl hn
    · intro _
      show substr lx2.src _ _ = _
      rw [h1, h2]
      rfl

theorem stepOK_number (lx0 lx : Lexer) (h : lx0.Within lx) : lx0.StepOK lx.number := by
  simp only [Lexer.number]
  split
  · rename_i hc
    have hend : (Lexer.advanceWhile isDigit lx.remaining lx).isAtEnd = false := by
      simp only [Bool.and_eq_true, decide_eq_true_eq] at hc
      cases he : (Lexer.advanceWhile isDigit lx.remaining lx).isAtEnd with
      | false => rfl
      | true =>
        have := hc.1
        simp [Lexer.peek, he] at this
        exact absurd this (by decide)
    exact stepOK_push lx0 _ .NUMBER _ _ (by decide) (by decide)
      (within_advanceWhile _ lx0 _ _
        (within_step lx0 _ (within_advanceWhile _ lx0 _ lx h) hend))
  · exact stepOK_push lx0 _ .NUMBER _ _ (by decide) (by decide)
      (within_advanceWhile _ lx0 _ lx h)

theorem keyword_type (text : String) (t : TokenType) (h : keyword text = some t) :
    t ≠ .END_OF_FILE ∧ t ≠ .STRING := by
  unfold keyword at h
  by_cases hk : text = "let"
  · rw [if_pos hk] at h; injection h with h; subst h; exact ⟨by decide, by decide⟩
  rw [if_neg hk] at h
  clear hk
  by_cases hk : text = "func"
  · rw [if_pos hk] at h; injection h with h; subst h; exact ⟨by decide, by decide⟩
  rw [if_neg hk] at h
  clear hk
  by_cases hk : text = "class"
  · rw [if_pos hk] at h; injection h with h; subst h; exact ⟨by decide, by decide⟩
  rw [if_neg hk] at h
  clear hk
  by_cases hk : text = "return"
  · rw [if_pos hk] at h; injection h with h; subst h; exact ⟨by decide, by decide⟩
  rw [if_neg hk] at h
  clear hk
  by_cases hk : text = "if"
  · rw [if_pos hk] at h; injection h with h; subst h; exact ⟨by decide, by decide⟩
  rw [if_neg hk] at h
  clear hk
  by_cases hk : text = "else"
  · rw [if_pos hk] at h; injection h with h; subst h; exact ⟨by decide, by decide⟩
  rw [if_neg hk] at h
  clear hk
  by_cases hk : text = "while"
  · rw [if_pos hk] at h; injection h with h; subst h; exact ⟨by decide, by decide⟩
  rw [if_neg hk] at h
  clear hk
  by_cases hk : text = "for"
  · rw [if_pos hk] at h; injection h with h; subst h; exact ⟨by decide, by decide⟩
  rw [if_neg hk] at h
  clear hk
  by_cases hk : text = "true"
  · rw [if_pos hk] at h; injection h with h; subst h; exact ⟨by decide, by decide⟩
  rw [if_neg hk] at h
  clear hk
  by_cases hk : text = "false"
  · rw [if_pos hk] at h; injection h with h; subst h; exact ⟨by decide, by decide⟩
  rw [if_neg hk] at h
  clear hk
  by_cases hk : text = "null"
  · rw [if_pos hk] at h; injection h with h; subst h; exact ⟨by decide, by decide⟩
  rw [if_neg hk] at h
  clear hk
  by_cases hk : text = "this"
  · rw [if_pos hk] at h; injection h with h; subst h; exact ⟨by decide, by decide⟩
  rw [if_neg hk] at h
  clear hk
  by_cases hk : text = "struct"
  · rw [if_pos hk] at h; injection h with h; subst h; exact ⟨by decide, by decide⟩
  rw [if_neg hk] at h
  clear hk
  by_cases hk : text = "union"
  · rw [if_pos hk] at h; injection h with h; subst h; exact ⟨by decide, by decide⟩
  rw [if_neg hk] at h
  clear hk
  by_cases hk : text = "new"
  · rw [if_pos hk] at h; injection h with h; subst h; exact ⟨by decide, by decide⟩
  rw [if_neg hk] at h
  clear hk
  by_cases hk : text = "import"
  · rw [if_pos hk] at h; injection h with h; subst h; exact ⟨by decide, by decide⟩
  rw [if_neg hk] at h
  clear hk
  by_cases hk : text = "in"
  · rw [if_pos hk] at h; injection h with h; subst h; exact ⟨by decide, by decide⟩
  rw [if_neg hk] at h
  clear hk
  by_cases hk : text = "not"
  · rw [if_pos hk] at h; injection h with h; subst h; exact ⟨by decide, by decide⟩
  rw [if_neg hk] at h
  clear hk
  by_cases hk : text = "and"
  · rw [if_pos hk] at h; injection h with h; subst h; exact ⟨by decide, by decide⟩
  rw [if_neg hk] at h
  clear hk
  by_cases hk : text = "or"
  · rw [if_pos hk] at h; injection h with h; subst h; exact ⟨by decide, by decide⟩
  rw [if_neg hk] at h
  clear hk
  by_cases hk : text = "equals"
  · rw [if_pos hk] at h; injection h with h; subst h; exact ⟨by decide, by decide⟩
  rw [if_neg hk] at h
  clear hk
  cases h

theorem stepOK_identifier (lx0 lx : Lexer) (h : lx0.Within lx) : lx0.StepOK lx.identifier := by
  simp only [Lexer.identifier]
  split
  · rename_i t ht
    obtain ⟨hE, hS⟩ := keyword_type _ t ht
    exact stepOK_push lx0 _ t _ _ hE hS (within_advanceWhile _ lx0 _ lx h)
  · exact stepOK_push lx0 _ .IDENTIFIER _ _ (by decide) (by decide)
      (within_advanceWhile _ lx0 _ lx h)

/-- A round of `scan` that succeeds consumes at least one character and adds at most
one token, scanned from the characters consumed. -/
theorem scanStep_stepOK (lx0 lx1 : Lexer) (h : lx0.current < lx0.src.length)
    (hs : lx0.scanStep = .ok lx1) : lx0.StepOK lx1 := by
  have hW := within_advance lx0 h
  unfold Lexer.scanStep at hs
  dsimp only at hs
  generalize (({ lx0 with start := lx0.current } : Lexer).advance.2) = lxA at hs hW
  generalize (({ lx0 with start := lx0.current } : Lexer).advance.1) = c at hs
  by_cases h1 : c = '('
  · rw [if_pos h1] at hs; injection hs with hs; subst hs
    exact stepOK_add lx0 lxA _ (by decide) (by decide) hW
  rw [if_neg h1] at hs
  clear h1
  by_cases h1 : c = ')'
  · rw [if_pos h1] at hs; injection hs with hs; subst hs
    exact stepOK_add lx0 lxA _ (by decide) (by decide) hW
  rw [if_neg h1] at hs
  clear h1
  by_cases h1 : c = LBRACE
  · rw [if_pos h1] at hs; injection hs with hs; subst hs
    exact stepOK_add lx0 lxA _ (by decide) (by decide) hW
  rw [if_neg h1] at hs
  clear h1
  by_cases h1 : c = RBRACE
  · rw [if_pos h1] at hs; injection hs with hs; subst hs
    exact stepOK_add lx0 lxA _ (by decide) (by decide) hW
  rw [if_neg h1] at hs
  clear h1
  by_cases h1 : c = '['
  · rw [if_pos h1] at hs; injection hs with hs; subst hs
    exact stepOK_add lx0 lxA _ (by decide) (by decide) hW
  rw [if_neg h1] at hs
  clear h1
  by_cases h1 : c = ']'
  · rw [if_pos h1] at hs; injection hs with hs; subst hs
    exact stepOK_add lx0 lxA _ (by decide) (by decide) hW
  rw [if_neg h1] at hs
  clear h1
  by_cases h1 : c = ','
  · rw [if_pos h1] at hs; injection hs with hs; subst hs
    exact stepOK_add lx0 lxA _ (by decide) (by decide) hW
  rw [if_neg h1] at hs
  clear h1
  by_cases h1 : c = '.'
  · rw [if_pos h1] at hs; injection hs with hs; subst hs
    exact stepOK_add lx0 lxA _ (by decide) (by decide) hW
  rw [if_neg h1] at hs
  clear h1
  by_cases h1 : c = ';'
  · rw [if_pos h1] at hs; injection hs with hs; subst hs
    exact stepOK_add lx0 lxA _ (by decide) (by decide) hW
  rw [if_neg h1] at hs
  clear h1
  by_cases h1 : c = ':'
  · rw [if_pos h1] at hs; injection hs with hs; subst hs
    exact stepOK_add lx0 lxA _ (by decide) (by decide) hW
  rw [if_neg h1] at hs
  clear h1
  by_cases h1 : c = '+'
  · rw [if_pos h1] at hs; injection hs with hs; subst hs
    exact stepOK_add lx0 lxA _ (by decide) (by decide) hW
  rw [if_neg h1] at hs
  clear h1
  by_cases h1 : c = '-'
  · rw [if_pos h1] at hs; injection hs with hs; subst hs
    exact stepOK_add lx0 lxA _ (by decide) (by decide) hW
  rw [if_neg h1] at hs
  clear h1
  by_cases h1 : c = '*'
  · rw [if_pos h1] at hs; injection hs with hs; subst hs
    exact stepOK_add lx0 lxA _ (by decide) (by decide) hW
  rw [if_neg h1] at hs
  clear h1
  by_cases h1 : c = '%'
  · rw [if_pos h1] at hs; injection hs with hs; subst hs
    exact stepOK_add lx0 lxA _ (by decide) (by decide) hW
  rw [if_neg h1] at hs
  clear h1
  by_cases h1 : c = '!'
  · rw [if_pos h1] at hs; injection hs with hs; subst hs
    exact stepOK_addTwo lx0 lxA _ _ _ (by decide) (by decide) (by decide) (by decide) hW
  rw [if_neg h1] at hs
  clear h1
  by_cases h1 : c = '='
  · rw [if_pos h1] at hs; injection hs with hs; subst hs
    exact stepOK_addTwo lx0 lxA _ _ _ (by decide) (by decide) (by decide) (by decide) hW
  rw [if_neg h1] at hs
  clear h1
  by_cases h1 : c = '<'
  · rw [if_pos h1] at hs; injection hs with hs; subst hs
    exact stepOK_addTwo lx0 lxA _ _ _ (by decide) (by decide) (by decide) (by decide) hW
  rw [if_neg h1] at hs
  clear h1
  by_cases h1 : c = '>'
  · rw [if_pos h1] at hs; injection hs with hs; subst hs
    exact stepOK_addTwo lx0 lxA _ _ _ (by decide) (by decide) (by decide) (by decide) hW
  rw [if_neg h1] at hs
  clear h1
  by_cases h1 : c = '/'
  · rw [if_pos h1] at hs
    by_cases h2 : (lxA.matchChar '/').1 = true
    · rw [if_pos h2] at hs; injection hs with hs; subst hs
      exact stepOK_of_within lx0 _
        (within_advanceWhile _ lx0 _ _ (within_matchChar lx0 lxA _ hW))
    · rw [if_neg h2] at hs; injection hs with hs; subst hs
      exact stepOK_add lx0 _ _ (by decide) (by decide) (within_matchChar lx0 lxA _ hW)
  rw [if_neg h1] at hs
  clear h1
  by_cases h1 : c = '&'
  · rw [if_pos h1] at hs
    by_cases h2 : (lxA.matchChar '&').1 = true
    · rw [if_pos h2] at hs; injection hs with hs; subst hs
      exact stepOK_add lx0 _ _ (by decide) (by decide) (within_matchChar lx0 lxA _ hW)
    · rw [if_neg h2] at hs; cases hs
  rw [if_neg h1] at hs
  clear h1
  by_cases h1 : c = '|'
  · rw [if_pos h1] at hs
    by_cases h2 : (lxA.matchChar '|').1 = true
    · rw [if_pos h2] at hs; injection hs with hs; subst hs
      exact stepOK_add lx0 _ _ (by decide) (by decide) (within_matchChar lx0 lxA _ hW)
    · rw [if_neg h2] at hs; cases hs
  rw [if_neg h1] at hs
  clear h1
  by_cases h1 : (decide (c = ' ') || decide (c = Char.ofNat 13) || decide (c = Char.ofNat 9)) = true
  · rw [if_pos h1] at hs; injection hs with hs; subst hs
    exact stepOK_of_within lx0 lxA hW
  rw [if_neg h1] at hs
  clear h1
  by_cases h1 : c = NEWLINE
  · rw [if_pos h1] at hs; injection hs with hs; subst hs
    exact stepOK_of_within lx0 lxA hW
  rw [if_neg h1] at hs
  clear h1
  by_cases h1 : c = DQUOTE
  · rw [if_pos h1] at hs
    exact stepOK_string lx0 lxA lx1 hW hs
  rw [if_neg h1] at hs
  clear h1
  by_cases h1 : isDigit c = true
  · rw [if_pos h1] at hs; injection hs with hs; subst hs
    exact stepOK_number lx0 lxA hW
  rw [if_neg h1] at hs
  clear h1
  by_cases h1 : isAlpha c = true
  · rw [if_pos h1] at hs; injection hs with hs; subst hs
    exact stepOK_identifier lx0 lxA hW
  rw [if_neg h1] at hs
  cases hs

theorem spanned_mono (src : List Char) : ∀ (toks : List Token) (lo hi hi2 : Nat),
    Spanned src lo toks hi → hi ≤ hi2 → Spanned src lo toks hi2 := by
  intro toks
  induction toks with
  | nil => intro lo hi hi2 h hle; simp only [Spanned] at h ⊢; omega
  | cons t rest ih =>
    intro lo hi hi2 h hle
    obtain ⟨a, b, h1, h2, h3, h4⟩ := h
    exact ⟨a, b, h1, h2, h3, ih b hi hi2 h4 hle⟩

theorem spanned_append (src : List Char) (t : Token) (a b : Nat) (hab : a < b)
    (ht : TokenAt src a b t) : ∀ (toks : List Token) (lo mid : Nat),
    Spanned src lo toks mid → mid ≤ a → Spanned src lo (toks ++ [t]) b := by
  intro toks
  induction toks with
  | nil =>
    intro lo mid h hle
    simp only [Spanned] at h
    exact ⟨a, b, by omega, hab, ht, Nat.le_refl b⟩
  | cons t1 rest ih =>
    intro lo mid h hle
    obtain ⟨a1, b1, h1, h2, h3, h4⟩ := h
    exact ⟨a1, b1, h1, h2, h3, ih b1 mid h4 hle⟩

theorem spanned_types (src : List Char) : ∀ (toks : List Token) (lo hi : Nat),
    Spanned src lo toks hi → ∀ t ∈ toks, t.type ≠ .END_OF_FILE := by
  intro toks
  induction toks with
  | nil => intro lo hi _ t ht; simp at ht
  | cons t1 rest ih =>
    intro lo hi h t ht
    obtain ⟨a1, b1, _, _, h3, h4⟩ := h
    rcases List.mem_cons.mp ht with h | h
    · subst h; exact h3.1
    · exact ih b1 hi h4 t h

/-- The loop of `scan` ends within as many rounds as there are characters left, with an
error or with the whole input consumed. -/
theorem scanLoop_total : ∀ (n : Nat) (lx : Lexer), lx.src.length - lx.current ≤ n →
    lx.current ≤ lx.src.length → Spanned lx.src 0 lx.tokens lx.current →
    (∃ e, Lexer.scanLoop n lx = some (.error e))
    ∨ (∃ lx1, Lexer.scanLoop n lx = some (.ok lx1) ∧ lx1.src = lx.src
        ∧ Spanned lx.src 0 lx1.tokens lx.src.length) := by
  intro n
  induction n with
  | zero =>
    intro lx hn hle hsp
    have hend : lx.isAtEnd = true := by simp [Lexer.isAtEnd]; omega
    exact Or.inr ⟨lx, by simp [Lexer.scanLoop, hend], rfl, spanned_mono _ _ _ _ _ hsp hle⟩
  | succ n ih =>
    intro lx hn hle hsp
    by_cases hend : lx.isAtEnd = true
    · exact Or.inr ⟨lx, by simp [Lexer.scanLoop, hend], rfl, spanned_mono _ _ _ _ _ hsp hle⟩
    · have hlt : lx.current < lx.src.length := by simpa [Lexer.isAtEnd] using hend
      cases hs : lx.scanStep with
      | error e => exact Or.inl ⟨e, by simp [Lexer.scanLoop, hend, hs]⟩
      | ok lx1 =>
        obtain ⟨s1, s2, s3, s4⟩ := scanStep_stepOK lx lx1 hlt hs
        have hsp1 : Spanned lx1.src 0 lx1.tokens lx1.current := by
          rw [s1]
          rcases s4 with h | ⟨t, h, ht⟩
          · rw [h]; exact spanned_mono _ _ _ _ _ hsp (by omega)
          · rw [h]; exact spanned_append _ t _ _ s2 ht _ _ _ hsp (Nat.le_refl _)
        have hloop : Lexer.scanLoop (n + 1) lx = Lexer.scanLoop n lx1 := by
          simp [Lexer.scanLoop, hend, hs]
        rw [hloop]
        rcases ih lx1 (by rw [s1]; omega) s3 hsp1 with ⟨e, he⟩ | ⟨lx2, h2, h3, h4⟩
        · exact Or.inl ⟨e, he⟩
        · exact Or.inr ⟨lx2, h2, h3.trans s1, by rw [← s1]; exact h4⟩

/-- C38: on every input `scan` ends, within the rounds its loop is given, either with a
lexical error or with a list of tokens.  The last token of the list is END_OF_FILE, with
an empty lexeme, and no other token is; the other tokens were scanned, in the order of
the list, from stretches of the input that follow one another without overlap, and the
lexeme of each of them is its stretch, for a STRING token the stretch between its two
quotes. -/
theorem C38_scan_total (s : String) :
    lex s ≠ .timeout
    ∧ ((∃ e, lex s = .error e)
      ∨ (∃ toks eof, lex s = .ok (toks ++ [eof]) ∧ eof.type = .END_OF_FILE ∧ eof.lexeme = ""
          ∧ (∀ t ∈ toks, t.type ≠ .END_OF_FILE) ∧ Spanned s.data 0 toks s.data.length))
    ∧ tokenTexts "let x1 = 3.25; // note\nprint(\"a b\" + x1);"
        = [(.LET, "let"), (.IDENTIFIER, "x1"), (.EQUAL, "="), (.NUMBER, "3.25"),
           (.SEMICOLON, ";"), (.IDENTIFIER, "print"), (.LEFT_PAREN, "("), (.STRING, "a b"),
           (.PLUS, "+"), (.IDENTIFIER, "x1"), (.RIGHT_PAREN, ")"), (.SEMICOLON, ";"),
           (.END_OF_FILE, "")]
    ∧ tokenTexts "" = [(.END_OF_FILE, "")]
    ∧ lex "let x = #;" = .error "Unexpected character" := by
  have h := scanLoop_total s.data.length (Lexer.new s) (by simp [Lexer.new]) (by simp [Lexer.new])
    (by simp [Lexer.new, Spanned])
  have hsrc : (Lexer.new s).src = s.data := rfl
  rw [hsrc] at h
  refine ⟨?_, ?_, by decide!, by decide!, by decide!⟩
  · rcases h with ⟨e, he⟩ | ⟨lx1, h1, _, _⟩
    · simp only [lex, Lexer.scan, hsrc, he]
      exact fun h => LexResult.noConfusion h
    · simp only [lex, Lexer.scan, hsrc, h1]
      exact fun h => LexResult.noConfusion h
  · rcases h with ⟨e, he⟩ | ⟨lx1, h1, h2, h3⟩
    · exact Or.inl ⟨e, by simp only [lex, Lexer.scan, hsrc, he]⟩
    · exact Or.inr ⟨lx1.tokens, ⟨.END_OF_FILE, "", lx1.line, lx1.col⟩,
        by simp only [lex, Lexer.scan, hsrc, h1], rfl, rfl, spanned_types _ _ _ _ h3, h3⟩

/-- On `!` the lexer looks for a following `=`. -/
theorem scanStep_bang (lx0 : Lexer) (h : lx0.begin.1 = '!') :
    lx0.scanStep = .ok (lx0.begin.2.addTwo '=' .BANG_EQUAL .BANG) := by
  unfold Lexer.begin at h
  unfold Lexer.scanStep Lexer.begin
  dsimp only
  rw [h]
  rw [if_neg (show ¬ ('!' = '(') by decide)]
  rw [if_neg (show ¬ ('!' = ')') by decide)]
  rw [if_neg (show ¬ ('!' = LBRACE) by decide)]
  rw [if_neg (show ¬ ('!' = RBRACE) by decide)]
  rw [if_neg (show ¬ ('!' = '[') by decide)]
  rw [if_neg (show ¬ ('!' = ']') by decide)]
  rw [if_neg (show ¬ ('!' = ',') by decide)]
  rw [if_neg (show ¬ ('!' = '.') by decide)]
  rw [if_neg (show ¬ ('!' = ';') by decide)]
  rw [if_neg (show ¬ ('!' = ':') by decide)]
  rw [if_neg (show ¬ ('!' = '+') by decide)]
  rw [if_neg (show ¬ ('!' = '-') by decide)]
  rw [if_neg (show ¬ ('!' = '*') by decide)]
  rw [if_neg (show ¬ ('!' = '%') by decide)]
  rw [if_pos rfl]

/-- On `=` the lexer looks for a following `=`. -/
theorem scanStep_equal (lx0 : Lexer) (h : lx0.begin.1 = '=') :
    lx0.scanStep = .ok (lx0.begin.2.addTwo '=' .EQUAL_EQUAL .EQUAL) := by
  unfold Lexer.begin at h
  unfold Lexer.scanStep Lexer.begin
  dsimp only
  rw [h]
  rw [if_neg (show ¬ ('=' = '(') by decide)]
  rw [if_neg (show ¬ ('=' = ')') by decide)]
  rw [if_neg (show ¬ ('=' = LBRACE) by decide)]
  rw [if_neg (show ¬ ('=' = RBRACE) by decide)]
  rw [if_neg (show ¬ ('=' = '[') by decide)]
  rw [if_neg (show ¬ ('=' = ']') by decide)]
  rw [if_neg (show ¬ ('=' = ',') by decide)]
  rw [if_neg (show ¬ ('=' = '.') by decide)]
  rw [if_neg (show ¬ ('=' = ';') by decide)]
  rw [if_neg (show ¬ ('=' = ':') by decide)]
  rw [if_neg (show ¬ ('=' = '+') by decide)]
  rw [if_neg (show ¬ ('=' = '-') by decide)]
  rw [if_neg (show ¬ ('=' = '*') by decide)]
  rw [if_neg (show ¬ ('=' = '%') by decide)]
  rw [if_neg (show ¬ ('=' = '!') by decide)]
  rw [if_pos rfl]

/-- On `<` the lexer looks for a following `=`. -/
theorem scanStep_less (lx0 : Lexer) (h : lx0.begin.1 = '<') :
    lx0.scanStep = .ok (lx0.begin.2.addTwo '=' .LESS_EQUAL .LESS) := by
  unfold Lexer.begin at h
  unfold Lexer.scanStep Lexer.begin
  dsimp only
  rw [h]
  rw [if_neg (show ¬ ('<' = '(') by decide)]
  rw [if_neg (show ¬ ('<' = ')') by decide)]
  rw [if_neg (show ¬ ('<' = LBRACE) by decide)]
  rw [if_neg (show ¬ ('<' = RBRACE) by decide)]
  rw [if_neg (show ¬ ('<' = '[') by decide)]
  rw [if_neg (show ¬ ('<' = ']') by decide)]
  rw [if_neg (show ¬ ('<' = ',') by decide)]
  rw [if_neg (show ¬ ('<' = '.') by decide)]
  rw [if_neg (show ¬ ('<' = ';') by decide)]
  rw [if_neg (show ¬ ('<' = ':') by decide)]
  rw [if_neg (show ¬ ('<' = '+') by decide)]
  rw [if_neg (show ¬ ('<' = '-') by decide)]
  rw [if_neg (show ¬ ('<' = '*') by decide)]
  rw [if_neg (show ¬ ('<' = '%') by decide)]
  rw [if_neg (show ¬ ('<' = '!') by decide)]
  rw [if_neg (show ¬ ('<' = '=') by decide)]
  rw [if_pos rfl]

/-- On `>` the lexer looks for a following `=`. -/
theorem scanStep_greater (lx0 : Lexer) (h : lx0.begin.1 = '>') :
    lx0.scanStep = .ok (lx0.begin.2.addTwo '=' .GREATER_EQUAL .GREATER) := by
  unfold Lexer.begin at h
  unfold Lexer.scanStep Lexer.begin
  dsimp only
  rw [h]
  rw [if_neg (show ¬ ('>' = '(') by decide)]
  rw [if_neg (show ¬ ('>' = ')') by decide)]
  rw [if_neg (show ¬ ('>' = LBRACE) by decide)]
  rw [if_neg (show ¬ ('>' = RBRACE) by decide)]
  rw [if_neg (show ¬ ('>' = '[') by decide)]
  rw [if_neg (show ¬ ('>' = ']') by decide)]
  rw [if_neg (show ¬ ('>' = ',') by decide)]
  rw [if_neg (show ¬ ('>' = '.') by decide)]
  rw [if_neg (show ¬ ('>' = ';') by decide)]
  rw [if_neg (show ¬ ('>' = ':') by decide)]
  rw [if_neg (show ¬ ('>' = '+') by decide)]
  rw [if_neg (show ¬ ('>' = '-') by decide)]
  rw [if_neg (show ¬ ('>' = '*') by decide)]
  rw [if_neg (show ¬ ('>' = '%') by decide)]
  rw [if_neg (show ¬ ('>' = '!') by decide)]
  rw [if_neg (show ¬ ('>' = '=') by decide)]
  rw [if_neg (show ¬ ('>' = '<') by decide)]
  rw [if_pos rfl]

/-- On `/` the lexer looks for a second `/`, which starts a comment. -/
theorem scanStep_slash (lx0 : Lexer) (h : lx0.begin.1 = '/') :
    lx0.scanStep = (if (lx0.begin.2.matchChar '/').1 = true then
        .ok (Lexer.advanceWhile (fun d => d != NEWLINE) (lx0.begin.2.matchChar '/').2.remaining
          (lx0.begin.2.matchChar '/').2)
      else .ok ((lx0.begin.2.matchChar '/').2.add .SLASH)) := by
  unfold Lexer.begin at h
  unfold Lexer.scanStep Lexer.begin
  dsimp only
  rw [h]
  rw [if_neg (show ¬ ('/' = '(') by decide)]
  rw [if_neg (show ¬ ('/' = ')') by decide)]
  rw [if_neg (show ¬ ('/' = LBRACE) by decide)]
  rw [if_neg (show ¬ ('/' = RBRACE) by decide)]
  rw [if_neg (show ¬ ('/' = '[') by decide)]
  rw [if_neg (show ¬ ('/' = ']') by decide)]
  rw [if_neg (show ¬ ('/' = ',') by decide)]
  rw [if_neg (show ¬ ('/' = '.') by decide)]
  rw [if_neg (show ¬ ('/' = ';') by decide)]
  rw [if_neg (show ¬ ('/' = ':') by decide)]
  rw [if_neg (show ¬ ('/' = '+') by decide)]
  rw [if_neg (show ¬ ('/' = '-') by decide)]
  rw [if_neg (show ¬ ('/' = '*') by decide)]
  rw [if_neg (show ¬ ('/' = '%') by decide)]
  rw [if_neg (show ¬ ('/' = '!') by decide)]
  rw [if_neg (show ¬ ('/' = '=') by decide)]
  rw [if_neg (show ¬ ('/' = '<') by decide)]
  rw [if_neg (show ¬ ('/' = '>') by decide)]
  rw [if_pos rfl]

/-- On `&` the lexer requires a second `&`. -/
theorem scanStep_amp (lx0 : Lexer) (h : lx0.begin.1 = '&') :
    lx0.scanStep = (if (lx0.begin.2.matchChar '&').1 = true then .ok ((lx0.begin.2.matchChar '&').2.add .AND_AND)
      else .error "Unexpected '&'") := by
  unfold Lexer.begin at h
  unfold Lexer.scanStep Lexer.begin
  dsimp only
  rw [h]
  rw [if_neg (show ¬ ('&' = '(') by decide)]
  rw [if_neg (show ¬ ('&' = ')') by decide)]
  rw [if_neg (show ¬ ('&' = LBRACE) by decide)]
  rw [if_neg (show ¬ ('&' = RBRACE) by decide)]
  rw [if_neg (show ¬ ('&' = '[') by decide)]
  rw [if_neg (show ¬ ('&' = ']') by decide)]
  rw [if_neg (show ¬ ('&' = ',') by decide)]
  rw [if_neg (show ¬ ('&' = '.') by decide)]
  rw [if_neg (show ¬ ('&' = ';') by decide)]
  rw [if_neg (show ¬ ('&' = ':') by decide)]
  rw [if_neg (show ¬ ('&' = '+') by decide)]
  rw [if_neg (show ¬ ('&' = '-') by decide)]
  rw [if_neg (show ¬ ('&' = '*') by decide)]
  rw [if_neg (show ¬ ('&' = '%') by decide)]
  rw [if_neg (show ¬ ('&' = '!') by decide)]
  rw [if_neg (show ¬ ('&' = '=') by decide)]
  rw [if_neg (show ¬ ('&' = '<') by decide)]
  rw [if_neg (show ¬ ('&' = '>') by decide)]
  rw [if_neg (show ¬ ('&' = '/') by decide)]
  rw [if_pos rfl]

/-- On `|` the lexer requires a second `|`. -/
theorem scanStep_pipe (lx0 : Lexer) (h : lx0.begin.1 = '|') :
    lx0.scanStep = (if (lx0.begin.2.matchChar '|').1 = true then .ok ((lx0.begin.2.matchChar '|').2.add .OR_OR)
      else .error "Unexpected '|'") := by
  unfold Lexer.begin at h
  unfold Lexer.scanStep Lexer.begin
  dsimp only
  rw [h]
  rw [if_neg (show ¬ ('|' = '(') by decide)]
  rw [if_neg (show ¬ ('|' = ')') by decide)]
  rw [if_neg (show ¬ ('|' = LBRACE) by decide)]
  rw [if_neg (show ¬ ('|' = RBRACE) by decide)]
  rw [if_neg (show ¬ ('|' = '[') by decide)]
  rw [if_neg (show ¬ ('|' = ']') by decide)]
  rw [if_neg (show ¬ ('|' = ',') by decide)]
  rw [if_neg (show ¬ ('|' = '.') by decide)]
  rw [if_neg (show ¬ ('|' = ';') by decide)]
  rw [if_neg (show ¬ ('|' = ':') by decide)]
  rw [if_neg (show ¬ ('|' = '+') by decide)]
  rw [if_neg (show ¬ ('|' = '-') by decide)]
  rw [if_neg (show ¬ ('|' = '*') by decide)]
  rw [if_neg (show ¬ ('|' = '%') by decide)]
  rw [if_neg (show ¬ ('|' = '!') by decide)]
  rw [if_neg (show ¬ ('|' = '=') by decide)]
  rw [if_neg (show ¬ ('|' = '<') by decide)]
  rw [if_neg (show ¬ ('|' = '>') by decide)]
  rw [if_neg (show ¬ ('|' = '/') by decide)]
  rw [if_neg (show ¬ ('|' = '&') by decide)]
  rw [if_pos rfl]

/-- On a blank, a carriage return, a tab or a newline the lexer adds no token. -/
theorem scanStep_blank (lx0 : Lexer)
    (h : lx0.begin.1 = ' ' ∨ lx0.begin.1 = Char.ofNat 13 ∨ lx0.begin.1 = Char.ofNat 9
      ∨ lx0.begin.1 = NEWLINE) :
    lx0.scanStep = .ok lx0.begin.2 := by
  unfold Lexer.begin at h
  unfold Lexer.scanStep Lexer.begin
  dsimp only
  rcases h with h | h | h | h
  · rw [h]
    rw [if_neg (show ¬ (' ' = '(') by decide)]
    rw [if_neg (show ¬ (' ' = ')') by decide)]
    rw [if_neg (show ¬ (' ' = LBRACE) by decide)]
    rw [if_neg (show ¬ (' ' = RBRACE) by decide)]
    rw [if_neg (show ¬ (' ' = '[') by decide)]
    rw [if_neg (show ¬ (' ' = ']') by decide)]
    rw [if_neg (show ¬ (' ' = ',') by decide)]
    rw [if_neg (show ¬ (' ' = '.') by decide)]
    rw [if_neg (show ¬ (' ' = ';') by decide)]
    rw [if_neg (show ¬ (' ' = ':') by decide)]
    rw [if_neg (show ¬ (' ' = '+') by decide)]
    rw [if_neg (show ¬ (' ' = '-') by decide)]
    rw [if_neg (show ¬ (' ' = '*') by decide)]
    rw [if_neg (show ¬ (' ' = '%') by decide)]
    rw [if_neg (show ¬ (' ' = '!') by decide)]
    rw [if_neg (show ¬ (' ' = '=') by decide)]
    rw [if_neg (show ¬ (' ' = '<') by decide)]
    rw [if_neg (show ¬ (' ' = '>') by decide)]
    rw [if_neg (show ¬ (' ' = '/') by decide)]
    rw [if_neg (show ¬ (' ' = '&') by decide)]
    rw [if_neg (show ¬ (' ' = '|') by decide)]
    rw [if_pos (show (decide (' ' = ' ') || decide (' ' = Char.ofNat 13) || decide (' ' = Char.ofNat 9)) = true by decide)]
  · rw [h]
    rw [if_neg (show ¬ (Char.ofNat 13 = '(') by decide)]
    rw [if_neg (show ¬ (Char.ofNat 13 = ')') by decide)]
    rw [if_neg (show ¬ (Char.ofNat 13 = LBRACE) by decide)]
    rw [if_neg (show ¬ (Char.ofNat 13 = RBRACE) by decide)]
    rw [if_neg (show ¬ (Char.ofNat 13 = '[') by decide)]
    rw [if_neg (show ¬ (Char.ofNat 13 = ']') by decide)]
    rw [if_neg (show ¬ (Char.ofNat 13 = ',') by decide)]
    rw [if_neg (show ¬ (Char.ofNat 13 = '.') by decide)]
    rw [if_neg (show ¬ (Char.ofNat 13 = ';') by decide)]
    rw [if_neg (show ¬ (Char.ofNat 13 = ':') by decide)]
    rw [if_neg (show ¬ (Char.ofNat 13 = '+') by decide)]
    rw [if_neg (show ¬ (Char.ofNat 13 = '-') by decide)]
    rw [if_neg (show ¬ (Char.ofNat 13 = '*') by decide)]
    rw [if_neg (show ¬ (Char.ofNat 13 = '%') by decide)]
    rw [if_neg (show ¬ (Char.ofNat 13 = '!') by decide)]
    rw [if_neg (show ¬ (Char.ofNat 13 = '=') by decide)]
    rw [if_neg (show ¬ (Char.ofNat 13 = '<') by decide)]
    rw [if_neg (show ¬ (Char.ofNat 13 = '>') by decide)]
    rw [if_neg (show ¬ (Char.ofNat 13 = '/') by decide)]
    rw [if_neg (show ¬ (Char.ofNat 13 = '&') by decide)]
    rw [if_neg (show ¬ (Char.ofNat 13 = '|') by decide)]
    rw [if_pos (show (decide (Char.ofNat 13 = ' ') || decide (Char.ofNat 13 = Char.ofNat 13) || decide (Char.ofNat 13 = Char.ofNat 9)) = true by decide)]
  · rw [h]
    rw [if_neg (show ¬ (Char.ofNat 9 = '(') by decide)]
    rw [if_neg (show ¬ (Char.ofNat 9 = ')') by decide)]
    rw [if_neg (show ¬ (Char.ofNat 9 = LBRACE) by decide)]
    rw [if_neg (show ¬ (Char.ofNat 9 = RBRACE) by decide)]
    rw [if_neg (show ¬ (Char.ofNat 9 = '[') by decide)]
    rw [if_neg (show ¬ (Char.ofNat 9 = ']') by decide)]
    rw [if_neg (show ¬ (Char.ofNat 9 = ',') by decide)]
    rw [if_neg (show ¬ (Char.ofNat 9 = '.') by decide)]
    rw [if_neg (show ¬ (Char.ofNat 9 = ';') by decide)]
    rw [if_neg (show ¬ (Char.ofNat 9 = ':') by decide)]
    rw [if_neg (show ¬ (Char.ofNat 9 = '+') by decide)]
    rw [if_neg (show ¬ (Char.ofNat 9 = '-') by decide)]
    rw [if_neg (show ¬ (Char.ofNat 9 = '*') by decide)]
    rw [if_neg (show ¬ (Char.ofNat 9 = '%') by decide)]
    rw [if_neg (show ¬ (Char.ofNat 9 = '!') by decide)]
    rw [if_neg (show ¬ (Char.ofNat 9 = '=') by decide)]
    rw [if_neg (show ¬ (Char.ofNat 9 = '<') by decide)]
    rw [if_neg (show ¬ (Char.ofNat 9 = '>') by decide)]
    rw [if_neg (show ¬ (Char.ofNat 9 = '/') by decide)]
    rw [if_neg (show ¬ (Char.ofNat 9 = '&') by decide)]
    rw [if_neg (show ¬ (Char.ofNat 9 = '|') by decide)]
    rw [if_pos (show (decide (Char.ofNat 9 = ' ') || decide (Char.ofNat 9 = Char.ofNat 13) || decide (Char.ofNat 9 = Char.ofNat 9)) = true by decide)]
  · rw [h]
    rw [if_neg (show ¬ (NEWLINE = '(') by decide)]
    rw [if_neg (show ¬ (NEWLINE = ')') by decide)]
    rw [if_neg (show ¬ (NEWLINE = LBRACE) by decide)]
    rw [if_neg (show ¬ (NEWLINE = RBRACE) by decide)]
    rw [if_neg (show ¬ (NEWLINE = '[') by decide)]
    rw [if_neg (show ¬ (NEWLINE = ']') by decide)]
    rw [if_neg (show ¬ (NEWLINE = ',') by decide)]
    rw [if_neg (show ¬ (NEWLINE = '.') by decide)]
    rw [if_neg (show ¬ (NEWLINE = ';') by decide)]
    rw [if_neg (show ¬ (NEWLINE = ':') by decide)]
    rw [if_neg (show ¬ (NEWLINE = '+') by decide)]
    rw [if_neg (show ¬ (NEWLINE = '-') by decide)]
    rw [if_neg (show ¬ (NEWLINE = '*') by decide)]
    rw [if_neg (show ¬ (NEWLINE = '%') by decide)]
    rw [if_neg (show ¬ (NEWLINE = '!') by decide)]
    rw [if_neg (show ¬ (NEWLINE = '=') by decide)]
    rw [if_neg (show ¬ (NEWLINE = '<') by decide)]
    rw [if_neg (show ¬ (NEWLINE = '>') by decide)]
    rw [if_neg (show ¬ (NEWLINE = '/') by decide)]
    rw [if_neg (show ¬ (NEWLINE = '&') by decide)]
    rw [if_neg (show ¬ (NEWLINE = '|') by decide)]
    rw [if_neg (show ¬ ((decide (NEWLINE = ' ') || decide (NEWLINE = Char.ofNat 13) || decide (NEWLINE = Char.ofNat 9)) = true) by decide)]
    rw [if_pos rfl]

theorem begin_at (lx0 : Lexer) (pre : List Char) (c : Char) (rest : List Char)
    (hsrc : lx0.src = pre ++ c :: rest) (hcur : lx0.current = pre.length) :
    lx0.begin.1 = c ∧ lx0.begin.2.src = lx0.src ∧ lx0.begin.2.start = pre.length
      ∧ lx0.begin.2.current = pre.length + 1 ∧ lx0.begin.2.tokens = lx0.tokens
      ∧ lx0.isAtEnd = false := by
  obtain ⟨a1, a2, a3, a4⟩ := advance_fields ({ lx0 with start := lx0.current } : Lexer)
  have hget : lx0.src.getD lx0.current NUL = c := by
    rw [hsrc, hcur]; exact getD_append_cons pre c rest NUL
  refine ⟨?_, a1, a2.trans hcur, by rw [← hcur]; exact a3, a4, ?_⟩
  · simp only [Lexer.begin, Lexer.advance, hget]
    split <;> rfl
  · simp [Lexer.isAtEnd, hsrc, hcur]

theorem matchChar_hit (lx : Lexer) (pre : List Char) (c : Char) (rest : List Char)
    (hsrc : lx.src = pre ++ c :: rest) (hcur : lx.current = pre.length) :
    (lx.matchChar c).1 = true ∧ (lx.matchChar c).2.src = lx.src
      ∧ (lx.matchChar c).2.start = lx.start ∧ (lx.matchChar c).2.current = lx.current + 1
      ∧ (lx.matchChar c).2.tokens = lx.tokens := by
  have hend : lx.isAtEnd = false := by simp [Lexer.isAtEnd, hsrc, hcur]
  have hget : lx.src.getD lx.current NUL = c := by
    rw [hsrc, hcur]; exact getD_append_cons pre c rest NUL
  have h : lx.matchChar c
      = (true, { lx with current := lx.current + 1, col := lx.col + 1 }) := by
    simp only [Lexer.matchChar, hend, hget, bne_self_eq_false, Bool.or_self, Bool.false_eq_true,
      if_false]
  rw [h]
  exact ⟨rfl, rfl, rfl, rfl, rfl⟩

theorem matchChar_miss (lx : Lexer) (c : Char) (pre post : List Char)
    (hsrc : lx.src = pre ++ post) (hcur : lx.current = pre.length)
    (hpost : ∀ rest, post ≠ c :: rest) : lx.matchChar c = (false, lx) := by
  cases post with
  | nil =>
    have hend : lx.isAtEnd = true := by simp [Lexer.isAtEnd, hsrc, hcur]
    simp only [Lexer.matchChar, hend, Bool.true_or, if_true]
  | cons d r =>
    have hget : lx.src.getD lx.current NUL = d := by
      rw [hsrc, hcur]; exact getD_append_cons pre d r NUL
    have hd : d ≠ c := fun e => hpost r (by rw [e])
    have hne : (d != c) = true := by simpa using hd
    simp only [Lexer.matchChar, hget, hne, Bool.or_true, if_true]

theorem substr_mid (pre mid post : List Char) :
    substr (pre ++ mid ++ post) pre.length mid.length = String.mk mid := by
  simp [substr]

theorem add_at (lx : Lexer) (pre mid post : List Char) (T : TokenType)
    (hsrc : lx.src = pre ++ mid ++ post) (hstart : lx.start = pre.length)
    (hcur : lx.current = pre.length + mid.length) :
    (lx.add T).src = lx.src ∧ (lx.add T).current = lx.current
      ∧ (lx.add T).tokens = lx.tokens ++ [⟨T, String.mk mid, lx.line, lx.col⟩] := by
  refine ⟨rfl, rfl, ?_⟩
  have hlen : lx.current - pre.length = mid.length := by omega
  simp only [Lexer.add, Lexer.push, hsrc, hstart, hlen, substr_mid]

theorem scanLoop_error (lx0 : Lexer) (msg : String) (n : Nat) (hend : lx0.isAtEnd = false)
    (h : lx0.scanStep = .error msg) : Lexer.scanLoop (n + 1) lx0 = some (.error msg) := by
  simp [Lexer.scanLoop, hend, h]

/-- Two characters that form an operator give one token. -/
theorem emits_two (lx0 : Lexer) (pre post : List Char) (c1 c2 : Char) (T : TokenType)
    (hmem : (c1, c2, T) ∈ twoCharOps) (hsrc : lx0.src = pre ++ c1 :: c2 :: post)
    (hcur : lx0.current = pre.length) : lx0.emits T [c1, c2] 2 := by
  obtain ⟨b1, b2, b3, b4, b5, b6⟩ := begin_at lx0 pre c1 (c2 :: post) hsrc hcur
  obtain ⟨m1, m2, m3, m4, m5⟩ := matchChar_hit lx0.begin.2 (pre ++ [c1]) c2 post
    (by rw [b2, hsrc]; simp) (by rw [b4]; simp)
  obtain ⟨d1, d2, d3⟩ := add_at (lx0.begin.2.matchChar c2).2 pre [c1, c2] post T
    (by rw [m2, b2, hsrc]; simp) (by rw [m3, b3]) (by rw [m4, b4]; rfl)
  have hres : lx0.scanStep = .ok ((lx0.begin.2.matchChar c2).2.add T) := by
    simp only [twoCharOps, List.mem_cons, Prod.mk.injEq, List.mem_singleton, List.not_mem_nil,
      or_false] at hmem
    rcases hmem with ⟨h1, h2, h3⟩ | ⟨h1, h2, h3⟩ | ⟨h1, h2, h3⟩ | ⟨h1, h2, h3⟩ | ⟨h1, h2, h3⟩
      | ⟨h1, h2, h3⟩ <;> subst h1 h2 h3
    · rw [scanStep_bang lx0 b1, Lexer.addTwo]; simp only [m1, if_true]
    · rw [scanStep_equal lx0 b1, Lexer.addTwo]; simp only [m1, if_true]
    · rw [scanStep_less lx0 b1, Lexer.addTwo]; simp only [m1, if_true]
    · rw [scanStep_greater lx0 b1, Lexer.addTwo]; simp only [m1, if_true]
    · rw [scanStep_amp lx0 b1, if_pos m1]
    · rw [scanStep_pipe lx0 b1, if_pos m1]
  refine ⟨_, (lx0.begin.2.matchChar c2).2.line, (lx0.begin.2.matchChar c2).2.col, hres, ?_, ?_,
    ?_⟩
  · rw [d1, m2, b2]
  · rw [d2, m4, b4, hcur]
  · rw [d3, m5, b5]

/-- A single `&` or `|` is an error. -/
theorem fails_single (lx0 : Lexer) (pre post : List Char) (c : Char) (hc : c = '&' ∨ c = '|')
    (hsrc : lx0.src = pre ++ c :: post) (hcur : lx0.current = pre.length)
    (hpost : ∀ rest, post ≠ c :: rest) :
    lx0.fails (String.mk ("Unexpected '".data ++ [c] ++ "'".data)) := by
  obtain ⟨b1, b2, b3, b4, b5, b6⟩ := begin_at lx0 pre c post hsrc hcur
  have hm : lx0.begin.2.matchChar c = (false, lx0.begin.2) :=
    matchChar_miss lx0.begin.2 c (pre ++ [c]) post (by rw [b2, hsrc]; simp) (by rw [b4]; simp)
      hpost
  have hres : lx0.scanStep = .error (String.mk ("Unexpected '".data ++ [c] ++ "'".data)) := by
    rcases hc with h | h <;> subst h
    · rw [scanStep_amp lx0 b1, hm]; rfl
    · rw [scanStep_pipe lx0 b1, hm]; rfl
  exact ⟨hres, fun n => scanLoop_error lx0 _ n b6 hres⟩

/-- A quote, a text without a quote and a quote give one STRING token whose lexeme is the
text. -/
theorem emits_string (lx0 : Lexer) (pre body post : List Char) (hbody : DQUOTE ∉ body)
    (hsrc : lx0.src = pre ++ DQUOTE :: body ++ DQUOTE :: post)
    (hcur : lx0.current = pre.length) : lx0.emits .STRING body (body.length + 2) := by
  obtain ⟨b1, b2, b3, b4, b5, b6⟩ := begin_at lx0 pre DQUOTE (body ++ DQUOTE :: post)
    (by rw [hsrc]; simp) hcur
  have hlen : lx0.src.length = pre.length + body.length + 2 + post.length := by
    rw [hsrc]; simp; omega
  have h1 := advanceWhile_run (fun c => c != DQUOTE) (DQUOTE :: post)
    (by intro c rest hc; simp only [List.cons.injEq] at hc; rw [← hc.1]; simp)
    body (pre ++ [DQUOTE]) lx0.begin.2.remaining lx0.begin.2 (by rw [b2, hsrc]; simp)
    (by rw [b4]; simp)
    (by
      intro c hc
      have : c ≠ DQUOTE := fun e => hbody (e ▸ hc)
      simpa using this)
    (by simp only [Lexer.remaining, b2, b4, hlen]; omega)
  generalize hlx1 : Lexer.advanceWhile (fun c => c != DQUOTE) lx0.begin.2.remaining lx0.begin.2
    = lx1 at h1
  obtain ⟨s1, s2, s3, s4⟩ := h1
  simp only [List.length_append, List.length_singleton] at s3
  have hend1 : lx1.isAtEnd = false := by
    simp [Lexer.isAtEnd, s1, s3, b2, hlen]
    omega
  obtain ⟨a1, a2, a3, a4⟩ := advance_fields lx1
  have hvalue : substr lx1.advance.2.src (lx1.advance.2.start + 1)
      ((lx1.advance.2.current - 1) - (lx1.advance.2.start + 1)) = String.mk body := by
    rw [a1, a2, a3, s1, s2, s3, b2, b3, hsrc]
    have e1 : pre.length + 1 + body.length + 1 - 1 - (pre.length + 1) = body.length := by omega
    have e2 : pre ++ DQUOTE :: body ++ DQUOTE :: post = (pre ++ [DQUOTE]) ++ body ++ DQUOTE :: post := by
      simp
    have e3 : pre.length + 1 = (pre ++ [DQUOTE]).length := by simp
    rw [e1, e2, e3]
    exact substr_mid _ _ _
  have hstring : lx0.begin.2.string
      = .ok (lx1.advance.2.push ⟨.STRING, String.mk body, lx1.advance.2.line,
          lx1.advance.2.col⟩) := by
    simp only [Lexer.string, hlx1, hend1, Bool.false_eq_true, if_false, hvalue]
  refine ⟨_, lx1.advance.2.line, lx1.advance.2.col, (scanStep_quote lx0 b1).trans hstring, ?_,
    ?_, ?_⟩
  · show lx1.advance.2.src = _
    rw [a1, s1, b2]
  · show lx1.advance.2.current = _
    rw [a3, s3, hcur]; omega
  · show lx1.advance.2.tokens ++ _ = _
    rw [a4, s4, b5]

/-- A quote that is not followed by another one is an error. -/
theorem fails_string (lx0 : Lexer) (pre body : List Char) (hbody : DQUOTE ∉ body)
    (hsrc : lx0.src = pre ++ DQUOTE :: body) (hcur : lx0.current = pre.length) :
    lx0.fails "Unterminated string" := by
  obtain ⟨b1, b2, b3, b4, b5, b6⟩ := begin_at lx0 pre DQUOTE body hsrc hcur
  have hlen : lx0.src.length = pre.length + body.length + 1 := by
    rw [hsrc]; simp; omega
  have h1 := advanceWhile_run (fun c => c != DQUOTE) []
    (by intro c rest hc; cases hc)
    body (pre ++ [DQUOTE]) lx0.begin.2.remaining lx0.begin.2 (by rw [b2, hsrc]; simp)
    (by rw [b4]; simp)
    (by
      intro c hc
      have : c ≠ DQUOTE := fun e => hbody (e ▸ hc)
      simpa using this)
    (by simp only [Lexer.remaining, b2, b4, hlen]; omega)
  generalize hlx1 : Lexer.advanceWhile (fun c => c != DQUOTE) lx0.begin.2.remaining lx0.begin.2
    = lx1 at h1
  obtain ⟨s1, s2, s3, s4⟩ := h1
  simp only [List.length_append, List.length_singleton] at s3
  have hend1 : lx1.isAtEnd = true := by
    simp [Lexer.isAtEnd, s1, s3, b2, hlen]
    omega
  have hstring : lx0.begin.2.string = .error "Unterminated string" := by
    simp only [Lexer.string, hlx1, hend1, if_true]
  have hres := (scanStep_quote lx0 b1).trans hstring
  exact ⟨hres, fun n => scanLoop_error lx0 _ n b6 hres⟩

theorem all_digits (l : List Char) (h : allDigits l = true) : ∀ c ∈ l, isDigit c = true := by
  intro c hc
  simp only [allDigits, List.all_eq_true] at h
  exact h c hc

/-- The state after `number` has read the digits before a possible dot. -/
theorem number_integer_part (lx0 : Lexer) (pre I post : List Char) (c0 : Char)
    (hI : allDigits (c0 :: I) = true) (hpost : stopsAt isDigit post)
    (hsrc : lx0.src = pre ++ (c0 :: I) ++ post) (hcur : lx0.current = pre.length) :
    lx0.scanStep = .ok lx0.begin.2.number
    ∧ (Lexer.advanceWhile isDigit lx0.begin.2.remaining lx0.begin.2).src = lx0.src
    ∧ (Lexer.advanceWhile isDigit lx0.begin.2.remaining lx0.begin.2).start = pre.length
    ∧ (Lexer.advanceWhile isDigit lx0.begin.2.remaining lx0.begin.2).current
        = pre.length + (c0 :: I).length
    ∧ (Lexer.advanceWhile isDigit lx0.begin.2.remaining lx0.begin.2).tokens = lx0.tokens := by
  obtain ⟨b1, b2, b3, b4, b5, b6⟩ := begin_at lx0 pre c0 (I ++ post) (by rw [hsrc]; simp) hcur
  have hc0 : isDigit c0 = true := all_digits _ hI c0 (List.mem_cons_self _ _)
  have hstep : lx0.scanStep = .ok lx0.begin.2.number :=
    scanStep_digit lx0 (by rw [← b1] at hc0; exact hc0)
  have hlen : lx0.src.length = pre.length + (I.length + 1) + post.length := by
    rw [hsrc]; simp only [List.length_append, List.length_cons]
  have h1 := advanceWhile_run isDigit post hpost I (pre ++ [c0]) lx0.begin.2.remaining lx0.begin.2
    (by rw [b2, hsrc]; simp) (by rw [b4]; simp)
    (fun c hc => all_digits _ hI c (List.mem_cons_of_mem _ hc))
    (by simp only [Lexer.remaining, b2, b4, hlen]; omega)
  obtain ⟨s1, s2, s3, s4⟩ := h1
  refine ⟨hstep, s1.trans b2, s2.trans b3, ?_, s4.trans b5⟩
  rw [s3]; simp; omega

/-- Digits that are not followed by a dot and a digit give one NUMBER token. -/
theorem emits_integer (lx0 : Lexer) (pre I post : List Char) (hne : I ≠ [])
    (hI : allDigits I = true) (hpost : stopsAt isDigit post)
    (hdot : ∀ d rest, post = '.' :: d :: rest → isDigit d = false)
    (hsrc : lx0.src = pre ++ I ++ post) (hcur : lx0.current = pre.length) :
    lx0.emits .NUMBER I I.length := by
  cases I with
  | nil => exact absurd rfl hne
  | cons c0 I =>
    obtain ⟨hstep, s1, s2, s3, s4⟩ := number_integer_part lx0 pre I post c0 hI hpost hsrc hcur
    generalize hlx1 : Lexer.advanceWhile isDigit lx0.begin.2.remaining lx0.begin.2 = lx1
      at s1 s2 s3 s4
    have hcond : (decide (lx1.peek = '.') && isDigit lx1.peekNext) = false := by
      cases post with
      | nil =>
        have hend : lx1.isAtEnd = true := by
          simp [Lexer.isAtEnd, s1, s3, hsrc]
        have hpeek : lx1.peek = NUL := by simp [Lexer.peek, hend]
        rw [hpeek]; rfl
      | cons p post1 =>
        have hend : lx1.isAtEnd = false := by
          simp [Lexer.isAtEnd, s1, s3, hsrc]
        have hpeek : lx1.peek = p := by
          simp only [Lexer.peek, hend, Bool.false_eq_true, if_false, s1, s3, hsrc]
          have := getD_append_cons (pre ++ c0 :: I) p post1 NUL
          simpa using this
        by_cases hp : p = '.'
        · subst hp
          have hcur2 : lx1.current + 1 = (pre ++ c0 :: I ++ ['.']).length := by
            rw [s3]
            simp only [List.length_append, List.length_cons, List.length_nil]
          cases post1 with
          | nil =>
            have hle : lx1.src.length ≤ lx1.current + 1 :=
              Nat.le_of_eq (by rw [hcur2, s1, hsrc])
            have hpn : lx1.peekNext = NUL := by
              simp only [Lexer.peekNext, hle, if_true]
            rw [hpeek, hpn]; rfl
          | cons d post2 =>
            have hsrc2 : lx1.src = (pre ++ c0 :: I ++ ['.']) ++ d :: post2 := by
              rw [s1, hsrc]; simp
            have hlt : ¬ lx1.src.length ≤ lx1.current + 1 := by
              rw [hsrc2, hcur2]; simp
            have hpn : lx1.peekNext = d := by
              have hpn1 : lx1.peekNext = lx1.src.getD (lx1.current + 1) NUL := by
                simp only [Lexer.peekNext, hlt, if_false]
              rw [hpn1, hcur2, hsrc2]
              exact getD_append_cons _ d _ NUL
            rw [hpeek, hpn, hdot d post2 rfl]; rfl
        · rw [hpeek]; simp [hp]
    have hnum : lx0.begin.2.number
        = lx1.push ⟨.NUMBER, substr lx1.src lx1.start (lx1.current - lx1.start), lx1.line,
            lx1.col⟩ := by
      simp only [Lexer.number, hlx1, hcond, Bool.false_eq_true, if_false]
    have hsub : substr lx1.src lx1.start (lx1.current - lx1.start) = String.mk (c0 :: I) := by
      rw [s1, s2, s3, hsrc]
      have : pre.length + (c0 :: I).length - pre.length = (c0 :: I).length := by omega
      rw [this]
      exact substr_mid _ _ _
    refine ⟨lx1.push ⟨.NUMBER, String.mk (c0 :: I), lx1.line, lx1.col⟩, lx1.line, lx1.col,
      hstep.trans (by rw [hnum, hsub]), s1, by rw [hcur]; exact s3, ?_⟩
    show lx1.tokens ++ _ = _
    rw [s4]

/-- Digits, a dot and digits give one NUMBER token, which ends where the second run of
digits ends. -/
theorem emits_decimal (lx0 : Lexer) (pre I F post : List Char) (hne : I ≠ []) (hF0 : F ≠ [])
    (hI : allDigits I = true) (hF : allDigits F = true) (hpost : stopsAt isDigit post)
    (hsrc : lx0.src = pre ++ I ++ '.' :: F ++ post) (hcur : lx0.current = pre.length) :
    lx0.emits .NUMBER (I ++ '.' :: F) (I.length + 1 + F.length) := by
  cases I with
  | nil => exact absurd rfl hne
  | cons c0 I =>
  cases F with
  | nil => exact absurd rfl hF0
  | cons f F =>
    obtain ⟨hstep, s1, s2, s3, s4⟩ := number_integer_part lx0 pre I ('.' :: (f :: F) ++ post) c0 hI
      (by intro c rest hc; simp only [List.cons_append, List.cons.injEq] at hc; rw [← hc.1]; decide)
      (by rw [hsrc]; simp) hcur
    generalize hlx1 : Lexer.advanceWhile isDigit lx0.begin.2.remaining lx0.begin.2 = lx1
      at s1 s2 s3 s4
    have hf : isDigit f = true := all_digits _ hF f (List.mem_cons_self _ _)
    have hlen : lx0.src.length = pre.length + (I.length + 1) + 1 + (F.length + 1) + post.length := by
      rw [hsrc]; simp; omega
    have hend : lx1.isAtEnd = false := by
      simp [Lexer.isAtEnd, s1, s3, hlen]
      omega
    have hsrc1 : lx1.src = (pre ++ c0 :: I) ++ '.' :: (f :: F ++ post) := by
      rw [s1, hsrc]; simp
    have hcur1 : lx1.current = (pre ++ c0 :: I).length := by rw [s3]; simp
    have hpeek : lx1.peek = '.' := by
      simp only [Lexer.peek, hend, Bool.false_eq_true, if_false, hsrc1, hcur1]
      exact getD_append_cons _ '.' _ NUL
    have hsrc2 : lx1.src = (pre ++ c0 :: I ++ ['.']) ++ f :: (F ++ post) := by
      rw [hsrc1]; simp
    have hcur2 : lx1.current + 1 = (pre ++ c0 :: I ++ ['.']).length := by
      rw [s3]
      simp only [List.length_append, List.length_cons, List.length_nil]
    have hnext : lx1.peekNext = f := by
      have hlt : ¬ lx1.src.length ≤ lx1.current + 1 := by
        rw [hsrc2, hcur2]; simp
      have hpn : lx1.peekNext = lx1.src.getD (lx1.current + 1) NUL := by
        simp only [Lexer.peekNext, hlt, if_false]
      rw [hpn, hcur2, hsrc2]
      exact getD_append_cons _ f _ NUL
    have hcond : (decide (lx1.peek = '.') && isDigit lx1.peekNext) = true := by
      rw [hpeek, hnext, hf]; rfl
    obtain ⟨a1, a2, a3, a4⟩ := advance_fields lx1
    have h2 := advanceWhile_run isDigit post hpost (f :: F) (pre ++ c0 :: I ++ ['.'])
      lx1.advance.2.remaining lx1.advance.2
      (by rw [a1, hsrc2]; simp) (by rw [a3, hcur2]) (all_digits _ hF)
      (by
        simp only [Lexer.remaining, a1, a3, s1, s3, hlen, List.length_cons]
        omega)
    generalize hlx2 : Lexer.advanceWhile isDigit lx1.advance.2.remaining lx1.advance.2 = lx2 at h2
    obtain ⟨t1, t2, t3, t4⟩ := h2
    have hnum : lx0.begin.2.number
        = lx2.push ⟨.NUMBER, substr lx2.src lx2.start (lx2.current - lx2.start), lx2.line,
            lx2.col⟩ := by
      simp only [Lexer.number, hlx1, hcond, if_true, hlx2]
    have hsub : substr lx2.src lx2.start (lx2.current - lx2.start)
        = String.mk ((c0 :: I) ++ '.' :: (f :: F)) := by
      rw [t1, a1, s1, t2, a2, s2, t3, hsrc]
      have e1 : (pre ++ c0 :: I ++ ['.']).length + (f :: F).length - pre.length
          = ((c0 :: I) ++ '.' :: (f :: F)).length := by
        simp; omega
      have e2 : pre ++ (c0 :: I) ++ '.' :: (f :: F) ++ post
          = pre ++ ((c0 :: I) ++ '.' :: (f :: F)) ++ post := by simp
      rw [e1, e2]
      exact substr_mid _ _ _
    refine ⟨lx2.push ⟨.NUMBER, String.mk ((c0 :: I) ++ '.' :: (f :: F)), lx2.line, lx2.col⟩,
      lx2.line, lx2.col, hstep.trans (by rw [hnum, hsub]), ?_, ?_, ?_⟩
    · show lx2.src = _
      rw [t1, a1, s1]
    · show lx2.current = _
      rw [t3, hcur]; simp; omega
    · show lx2.tokens ++ _ = _
      rw [t4, a4, s4]

/-- Two slashes and the rest of the line give no token. -/
theorem skips_comment (lx0 : Lexer) (pre body post : List Char) (hbody : NEWLINE ∉ body)
    (hpost : post = [] ∨ ∃ rest, post = NEWLINE :: rest)
    (hsrc : lx0.src = pre ++ '/' :: '/' :: body ++ post) (hcur : lx0.current = pre.length) :
    lx0.skips (2 + body.length) := by
  obtain ⟨b1, b2, b3, b4, b5, b6⟩ := begin_at lx0 pre '/' ('/' :: body ++ post)
    (by rw [hsrc]; simp) hcur
  obtain ⟨m1, m2, m3, m4, m5⟩ := matchChar_hit lx0.begin.2 (pre ++ ['/']) '/' (body ++ post)
    (by rw [b2, hsrc]; simp) (by rw [b4]; simp)
  have hlen : lx0.src.length = pre.length + 2 + body.length + post.length := by
    rw [hsrc]; simp; omega
  have h1 := advanceWhile_run (fun d => d != NEWLINE) post
    (by
      intro c rest hc
      rcases hpost with h | ⟨r, h⟩
      · rw [h] at hc; cases hc
      · rw [h] at hc
        simp only [List.cons.injEq] at hc
        rw [← hc.1]; simp)
    body (pre ++ ['/', '/']) (lx0.begin.2.matchChar '/').2.remaining (lx0.begin.2.matchChar '/').2
    (by rw [m2, b2, hsrc]; simp) (by rw [m4, b4]; simp)
    (by
      intro c hc
      have : c ≠ NEWLINE := fun e => hbody (e ▸ hc)
      simpa using this)
    (by simp only [Lexer.remaining, m2, m4, b2, b4, hlen]; omega)
  obtain ⟨s1, s2, s3, s4⟩ := h1
  refine ⟨_, (scanStep_slash lx0 b1).trans (if_pos m1), ?_, ?_, ?_⟩
  · rw [s1, m2, b2]
  · rw [s3, hcur]; simp; omega
  · rw [s4, m5, b5]

/-- A blank, a carriage return, a tab or a newline gives no token. -/
theorem skips_blank (lx0 : Lexer) (pre post : List Char) (c : Char) (hc : c ∈ blanks)
    (hsrc : lx0.src = pre ++ c :: post) (hcur : lx0.current = pre.length) : lx0.skips 1 := by
  obtain ⟨b1, b2, b3, b4, b5, b6⟩ := begin_at lx0 pre c post hsrc hcur
  have hc' : lx0.begin.1 = ' ' ∨ lx0.begin.1 = Char.ofNat 13 ∨ lx0.begin.1 = Char.ofNat 9
      ∨ lx0.begin.1 = NEWLINE := by
    rw [b1]
    simpa [blanks] using hc
  exact ⟨_, scanStep_blank lx0 hc', b2, by rw [b4, hcur], b5⟩

/-- C33: in a round of `scan` that starts at a given offset of the input, each of `!=`,
`==`, `<=`, `>=`, `&&`, `||` gives one token of two characters; an `&` or a `|` that is
not followed by a second one is an error; a quote followed by a text without a quote and
a second quote gives a STRING token whose lexeme is that text, character for character
(a backslash is a character like any other), and a quote with no second quote behind it
is the error `Unterminated string`; a run of digits up to the first character that is
no digit gives a NUMBER token, which goes on through a dot and a second run of digits
exactly when a digit follows the dot, and stops before a second dot; two slashes with
the rest of the line, and a blank, a tab, a carriage return or a newline, give no
token. -/
theorem C33_lexer_rules (lx0 : Lexer) (pre : List Char) (hcur : lx0.current = pre.length) :
    (∀ (c1 c2 : Char) (T : TokenType) (post : List Char), (c1, c2, T) ∈ twoCharOps →
      lx0.src = pre ++ c1 :: c2 :: post → lx0.emits T [c1, c2] 2)
    ∧ (∀ (c : Char) (post : List Char), c = '&' ∨ c = '|' → (∀ rest, post ≠ c :: rest) →
      lx0.src = pre ++ c :: post →
      lx0.fails (String.mk ("Unexpected '".data ++ [c] ++ "'".data)))
    ∧ (∀ body post : List Char, DQUOTE ∉ body →
      lx0.src = pre ++ DQUOTE :: body ++ DQUOTE :: post →
      lx0.emits .STRING body (body.length + 2))
    ∧ (∀ body : List Char, DQUOTE ∉ body → lx0.src = pre ++ DQUOTE :: body →
      lx0.fails "Unterminated string")
    ∧ (∀ I post : List Char, I ≠ [] → allDigits I = true → stopsAt isDigit post →
      (∀ d rest, post = '.' :: d :: rest → isDigit d = false) →
      lx0.src = pre ++ I ++ post → lx0.emits .NUMBER I I.length)
    ∧ (∀ I F post : List Char, I ≠ [] → F ≠ [] → allDigits I = true → allDigits F = true →
      stopsAt isDigit post → lx0.src = pre ++ I ++ '.' :: F ++ post →
      lx0.emits .NUMBER (I ++ '.' :: F) (I.length + 1 + F.length))
    ∧ (∀ body post : List Char, NEWLINE ∉ body → (post = [] ∨ ∃ rest, post = NEWLINE :: rest) →
      lx0.src = pre ++ '/' :: '/' :: body ++ post → lx0.skips (2 + body.length))
    ∧ (∀ (c : Char) (post : List Char), c ∈ blanks → lx0.src = pre ++ c :: post → lx0.skips 1)
    ∧ tokenTexts "a != b == c <= d >= e && f || g"
        = [(.IDENTIFIER, "a"), (.BANG_EQUAL, "!="), (.IDENTIFIER, "b"), (.EQUAL_EQUAL, "=="),
            (.IDENTIFIER, "c"), (.LESS_EQUAL, "<="), (.IDENTIFIER, "d"), (.GREATER_EQUAL, ">="),
            (.IDENTIFIER, "e"), (.AND_AND, "&&"), (.IDENTIFIER, "f"), (.OR_OR, "||"),
            (.IDENTIFIER, "g"), (.END_OF_FILE, "")]
    ∧ tokenTexts "1." = [(.NUMBER, "1"), (.DOT, "."), (.END_OF_FILE, "")]
    ∧ tokenTexts "1.5.2" = [(.NUMBER, "1.5"), (.DOT, "."), (.NUMBER, "2"), (.END_OF_FILE, "")]
    ∧ lexError "a & b" = some "Unexpected '&'"
    ∧ lexError "a | b" = some "Unexpected '|'"
    ∧ lexError "x = \"abc" = some "Unterminated string"
    ∧ tokenTexts "\"a\\n\" // c d\n\t 7"
        = [(.STRING, "a\\n"), (.NUMBER, "7"), (.END_OF_FILE, "")] := by
  refine ⟨?_, ?_, ?_, ?_, ?_, ?_, ?_, ?_, by decide!, by decide!, by decide!, by decide!,
    by decide!, by decide!, by decide!⟩
  · intro c1 c2 T post hmem hsrc
    exact emits_two lx0 pre post c1 c2 T hmem hsrc hcur
  · intro c post hc hpost hsrc
    exact fails_single lx0 pre post c hc hsrc hcur hpost
  · intro body post hbody hsrc
    exact emits_string lx0 pre body post hbody hsrc hcur
  · intro body hbody hsrc
    exact fails_string lx0 pre body hbody hsrc hcur
  · intro I post hne hI hpost hdot hsrc
    exact emits_integer lx0 pre I post hne hI hpost hdot hsrc hcur
  · intro I F post hne hF0 hI hF hpost hsrc
    exact emits_decimal lx0 pre I F post hne hF0 hI hF hpost hsrc hcur
  · intro body post hbody hpost hsrc
    exact skips_comment lx0 pre body post hbody hpost hsrc hcur
  · intro c post hc hsrc
    exact skips_blank lx0 pre post c hc hsrc hcur

theorem C33_lexer_rules_witness :
    (Lexer.new "<= 1").current = ([] : List Char).length
    ∧ (Lexer.new "<= 1").emits .LESS_EQUAL ['<', '='] 2
    ∧ (Lexer.new "1.5.2").emits .NUMBER ("1".data ++ '.' :: "5".data) (1 + 1 + 1)
    ∧ (Lexer.new "& x").fails "Unexpected '&'" :=
  ⟨rfl,
    (C33_lexer_rules (Lexer.new "<= 1") [] rfl).1 '<' '=' .LESS_EQUAL " 1".data (by decide) rfl,
    (C33_lexer_rules (Lexer.new "1.5.2") [] rfl).2.2.2.2.2.1 "1".data "5".data ".2".data
      (by decide) (by decide) (by decide) (by decide)
      (by intro c rest h; cases h; decide) rfl,
    (C33_lexer_rules (Lexer.new "& x") [] rfl).2.1 '&' " x".data (Or.inl rfl)
      (by intro rest h; cases h) rfl⟩

theorem evalBinary_type (l r : Value) (op1 op2 : Token) (h : op1.type = op2.type) :
    evalBinary l op1 r = evalBinary l op2 r := by
  simp only [evalBinary, h]

theorem evalUnary_type (r : Value) (op1 op2 : Token) (h : op1.type = op2.type) :
    evalUnary op1 r = evalUnary op2 r := by
  simp only [evalUnary, h]

theorem isMarker_shape (c : Expr) (name : String) :
    isMarker (Expr.shape c) name = isMarker c name := by
  cases c <;> rfl

theorem shapeAt_zero : ShapeAt 0 :=
  ⟨fun _ _ => rfl, fun _ _ => rfl, fun _ _ _ => rfl, fun _ _ _ => rfl, fun _ _ _ => rfl,
    fun _ _ _ _ => rfl, fun _ _ _ => rfl, fun _ _ _ _ => rfl, fun _ _ _ _ => rfl⟩

theorem shapeAt_succ (k : Nat) (ih : ShapeAt k) : ShapeAt (k + 1) := by
  refine ⟨?_, ?_, ?_, ?_, ?_, ?_, ?_, ?_, ?_⟩
  · intro e ip
    cases e with
    | LiteralExpr v => rfl
    | VarExpr n => rfl
    | AssignExpr n v => simp only [Expr.shape, evaluate, ih.evaluate]
    | GroupingExpr e => simp only [Expr.shape, evaluate, ih.evaluate]
    | UnaryExpr op r =>
      simp only [Expr.shape, evaluate, ih.evaluate, evalUnary_type _ op.kind op rfl]
    | BinaryExpr l op r =>
      have h1 : ∀ a b, evalBinary a
          (if op.kind.type = .AND_KW then Parser.normalize op.kind .AND_AND else op.kind) b
          = evalBinary a (if op.type = .AND_KW then Parser.normalize op .AND_AND else op) b := by
        intro a b
        apply evalBinary_type
        show (if op.type = .AND_KW then _ else _ : Token).type = _
        split <;> rfl
      have h2 : ∀ a b, evalBinary a
          (if op.kind.type = .OR_KW then Parser.normalize op.kind .OR_OR else op.kind) b
          = evalBinary a (if op.type = .OR_KW then Parser.normalize op .OR_OR else op) b := by
        intro a b
        apply evalBinary_type
        show (if op.type = .OR_KW then _ else _ : Token).type = _
        split <;> rfl
      have h3 : op.kind.type = op.type := rfl
      simp only [Expr.shape, evaluate, ih.evaluate, h1, h2, evalBinary_type _ _ op.kind op rfl]
      simp only [h3]
    | CallExpr c args => simp only [Expr.shape, evaluate, ih.evalCall]
    | GetExpr o n => simp only [Expr.shape, evaluate, ih.evalGet]
    | SetExpr o n v => simp only [Expr.shape, evaluate, ih.evalSet]
    | IndexExpr o i => simp only [Expr.shape, evaluate, ih.evalIndex]
    | SetIndexExpr o i v => simp only [Expr.shape, evaluate, ih.evalSetIndex]
  · intro es ip
    cases es with
    | nil => rfl
    | cons a rest => simp only [Expr.shapes, evalArgs, ih.evaluate, ih.evalArgs]
  · intro es d ip
    match es with
    | [] => rfl
    | [_] => rfl
    | a :: b :: rest => simp only [Expr.shapes, evalDict, ih.evaluate, ih.evalDict]
  · intro c es ip
    simp only [evalCall, isMarker_shape, ih.evaluate, ih.evalArgs, ih.evalDict]
  · intro o n ip
    simp only [evalGet, ih.evaluate]
  · intro o n v ip
    simp only [evalSet, ih.evaluate]
  · intro o i ip
    simp only [evalIndex, ih.evaluate]
  · intro o i v ip
    simp only [setIndexFallback, ih.evaluate]
  · intro o i v ip
    have hs := ih.setIndexFallback o
    cases o <;> simp only [Expr.shape] at hs ⊢ <;> simp only [evalSetIndex, ih.evaluate, hs]

theorem shapeAt_all : ∀ fuel, ShapeAt fuel
  | 0 => shapeAt_zero
  | k + 1 => shapeAt_succ k (shapeAt_all k)


theorem sim_bind {α β : Type} {R : α → α → Prop} {S : β → β → Prop} {r1 r : PResult α}
    {f1 f : α → Nat → PResult β} (hr : PResult.Sim R r1 r)
    (hf : ∀ a b c, R a b → PResult.Sim S (f1 a c) (f b c)) :
    PResult.Sim S (r1.bind f1) (r.bind f) := by
  cases r1 <;> cases r <;> simp only [PResult.Sim] at hr
  · obtain ⟨h1, h2⟩ := hr
    subst h2
    exact hf _ _ _ h1
  · trivial
  · exact hr
  · trivial

theorem sim_symm {α : Type} {R : α → α → Prop} (hR : ∀ a b, R a b → R b a)
    {r1 r : PResult α} (h : PResult.Sim R r1 r) : PResult.Sim R r r1 := by
  cases r1 <;> cases r <;> simp only [PResult.Sim] at h ⊢
  · exact ⟨hR _ _ h.1, h.2.symm⟩
  · exact h.symm

theorem sim_trans {α : Type} {R : α → α → Prop} (hR : ∀ a b c, R a b → R b c → R a c)
    {r1 r2 r3 : PResult α} (h1 : PResult.Sim R r1 r2) (h2 : PResult.Sim R r2 r3) :
    PResult.Sim R r1 r3 := by
  cases r1 <;> cases r2 <;> simp only [PResult.Sim] at h1 <;> cases r3 <;>
    simp only [PResult.Sim] at h2 ⊢
  · exact ⟨hR _ _ _ h1.1 h2.1, h1.2.trans h2.2⟩
  · exact h1.trans h2

theorem shapes_append (a b : List Expr) :
    Expr.shapes (a ++ b) = Expr.shapes a ++ Expr.shapes b := by
  induction a with
  | nil => rfl
  | cons x xs ih =>
    show Expr.shapes (x :: (xs ++ b)) = Expr.shapes (x :: xs) ++ Expr.shapes b
    simp only [Expr.shapes, ih, List.cons_append]

namespace Parser

theorem peek_canon (ts : List Token) (c : Nat) :
    peek (ts.map Token.canon) c = (peek ts c).canon := by
  simp only [peek]
  induction ts generalizing c with
  | nil => rfl
  | cons t rest ih =>
    cases c with
    | zero => rfl
    | succ c => simpa using ih c

theorem previous_canon (ts : List Token) (c : Nat) :
    previous (ts.map Token.canon) c = (previous ts c).canon :=
  peek_canon ts (c - 1)

theorem symbol_eof (u : TokenType) : u.symbol = .END_OF_FILE ↔ u = .END_OF_FILE := by
  cases u <;> decide

theorem isAtEnd_canon (ts : List Token) (c : Nat) :
    isAtEnd (ts.map Token.canon) c = isAtEnd ts c := by
  simp only [isAtEnd, peek_canon]
  have h := symbol_eof (peek ts c).type
  show ((peek ts c).type.symbol == TokenType.END_OF_FILE) = _
  cases h1 : (peek ts c).type <;> rfl

theorem advance_canon (ts : List Token) (c : Nat) :
    advance (ts.map Token.canon) c = advance ts c := by
  simp only [advance, isAtEnd_canon]

theorem matchAny_canon (ts : List Token) (c : Nat) (O : List TokenType)
    (hO : ∀ u : TokenType, u.symbol ∈ O ↔ u ∈ O) :
    matchAny (ts.map Token.canon) c O = matchAny ts c O := by
  rw [matchAny_eq, matchAny_eq, peek_canon]
  have h1 : (peek ts c).canon.type = (peek ts c).type.symbol := rfl
  simp only [h1, hO, ne_eq, symbol_eof]

theorem check_canon (ts : List Token) (c : Nat) (t : TokenType)
    (ht : ∀ u : TokenType, u.symbol = t ↔ u = t) :
    check (ts.map Token.canon) c t = check ts c t := by
  simp only [check, isAtEnd_canon, peek_canon]
  have h1 : (peek ts c).canon.type = (peek ts c).type.symbol := rfl
  rw [h1]
  congr 1
  have := ht (peek ts c).type
  by_cases h2 : (peek ts c).type = t
  · rw [this.mpr h2, h2]
  · have h3 : ¬ (peek ts c).type.symbol = t := fun h => h2 (this.mp h)
    simp [h2, h3]

theorem matchAny_some (ts : List Token) (c c1 : Nat) (O : List TokenType)
    (h : matchAny ts c O = some c1) : c1 = c + 1 ∧ (peek ts c).type ∈ O := by
  rw [matchAny_eq] at h
  split at h
  · rename_i hp
    exact ⟨(Option.some.inj h).symm, hp.1⟩
  · cases h

theorem consume_canon (ts : List Token) (c : Nat) (t : TokenType) (msg : String)
    (ht : ∀ u : TokenType, u.symbol = t ↔ u = t) :
    PResult.Sim (fun a b => a = b.canon ∧ b.type = t)
      (consume (ts.map Token.canon) c t msg) (consume ts c t msg) := by
  simp only [consume, check_canon ts c t ht, advance_canon, previous_canon]
  by_cases hc : check ts c t = true
  · simp only [hc, if_true, PResult.Sim]
    refine ⟨?_, trivial⟩
    simp only [check, Bool.and_eq_true, Bool.not_eq_true', beq_iff_eq] at hc
    have hadv : advance ts c = c + 1 := by simp [advance, hc.1]
    rw [hadv, previous_succ]
    exact ⟨trivial, hc.2⟩
  · simp only [hc, Bool.false_eq_true, if_false, PResult.Sim]

end Parser

theorem canon_lexeme (t : Token)
    (h : t.type = .IDENTIFIER ∨ t.type = .NUMBER ∨ t.type = .STRING) :
    t.canon.lexeme = t.lexeme := by
  simp only [Token.canon, h, if_true]

theorem levelOps_closed (l : Nat) (u : TokenType) :
    u.symbol ∈ Parser.levelOps l ↔ u ∈ Parser.levelOps l := by
  match l with
  | 0 => simp [Parser.levelOps]
  | 1 => cases u <;> decide
  | 2 => cases u <;> decide
  | 3 => cases u <;> decide
  | 4 => cases u <;> decide
  | 5 => cases u <;> decide
  | 6 => cases u <;> decide
  | l + 7 => simp [Parser.levelOps]

theorem continues_canon (ts : List Token) (l c : Nat) :
    Parser.continues (ts.map Token.canon) l c ↔ Parser.continues ts l c := by
  simp only [Parser.continues, Parser.peek_canon]
  have h1 : (Parser.peek ts c).canon.type = (Parser.peek ts c).type.symbol := rfl
  rw [h1, levelOps_closed, ne_eq, Parser.symbol_eof]

theorem astOp_canon_type (t : Token) (h : t.type ≠ .NOT_KW) :
    (astOp t.canon).type = (astOp t).type := by
  obtain ⟨ty, lx, ln, cl⟩ := t
  cases ty <;> first | exact absurd rfl h | rfl

theorem mem_levelOps_ne_not (l : Nat) (u : TokenType) (h : u ∈ Parser.levelOps l) :
    u ≠ .NOT_KW := by
  intro hu
  subst hu
  match l with
  | 0 => simp [Parser.levelOps] at h
  | 1 | 2 | 3 | 4 | 5 | 6 => simp [Parser.levelOps] at h
  | l + 7 => simp [Parser.levelOps] at h

theorem kind_eq_of_type (a b : Token) (h : a.type = b.type) : a.kind = b.kind := by
  simp only [Token.kind, h]

theorem shape_assign_target (e1 e : Expr) (v1 v : Expr) (c : Nat) :
    sameShape e1 e → sameShape v1 v → PResult.Sim sameShape
      (match e1 with
        | .VarExpr name => PResult.ok (.AssignExpr name v1) c
        | .GetExpr object name => .ok (.SetExpr object name v1) c
        | .IndexExpr object index => .ok (.SetIndexExpr object index v1) c
        | _ => .error "Invalid assignment target")
      (match e with
        | .VarExpr name => PResult.ok (.AssignExpr name v) c
        | .GetExpr object name => .ok (.SetExpr object name v) c
        | .IndexExpr object index => .ok (.SetIndexExpr object index v) c
        | _ => .error "Invalid assignment target") := by
  intro h hv
  simp only [sameShape] at h hv
  cases e1 <;> cases e <;> simp only [Expr.shape, reduceCtorEq] at h <;>
    simp only [PResult.Sim, sameShape, Expr.shape, hv] <;>
    first
      | trivial
      | (injection h with h1 h2; simp only [h1, h2, and_self])
      | (injection h with h1; simp only [h1, and_self])

theorem parseShapeAt_zero (ts : List Token) : ParseShapeAt ts 0 := by
  refine ⟨?_, ?_, ?_, ?_, ?_, ?_, ?_, ?_, ?_⟩
  · intro c; simp only [Parser.expression, PResult.Sim]
  · intro c; simp only [Parser.assignment, PResult.Sim]
  · intro i c
    match i with
    | 0 => simp only [Parser.level, Parser.unary, PResult.Sim]
    | 1 => simp only [Parser.level, Parser.factor, PResult.Sim]
    | 2 => simp only [Parser.level, Parser.term, PResult.Sim]
    | 3 => simp only [Parser.level, Parser.comparison, PResult.Sim]
    | 4 => simp only [Parser.level, Parser.equality, PResult.Sim]
    | 5 => simp only [Parser.level, Parser.andExpr, PResult.Sim]
    | i + 6 => simp only [Parser.level, Parser.orExpr, PResult.Sim]
  · intro i c e1 e hi _
    match i, hi with
    | 0, _ => simp only [Parser.levelLoop, Parser.factorLoop, PResult.Sim]
    | 1, _ => simp only [Parser.levelLoop, Parser.termLoop, PResult.Sim]
    | 2, _ => simp only [Parser.levelLoop, Parser.comparisonLoop, PResult.Sim]
    | 3, _ => simp only [Parser.levelLoop, Parser.equalityLoop, PResult.Sim]
    | 4, _ => simp only [Parser.levelLoop, Parser.andLoop, PResult.Sim]
    | 5, _ => simp only [Parser.levelLoop, Parser.orLoop, PResult.Sim]
  · intro c a1 a _; simp only [Parser.exprList, PResult.Sim]
  · intro c e1 e _; simp only [Parser.callLoop, PResult.Sim]
  · intro c; simp only [Parser.call, PResult.Sim]
  · intro c a1 a _; simp only [Parser.dictEntries, PResult.Sim]
  · intro c; simp only [Parser.primary, PResult.Sim]


theorem sim_ok {α : Type} {R : α → α → Prop} {a b : α} (c : Nat) (h : R a b) :
    PResult.Sim R (.ok a c) (.ok b c) := ⟨h, rfl⟩

theorem sim_args (ts : List Token) (k c : Nat) (t : TokenType)
    (ht : ∀ u : TokenType, u.symbol = t ↔ u = t)
    (ih : ∀ c acc1 acc, sameShapes acc1 acc →
      PResult.Sim sameShapes (Parser.exprList (ts.map Token.canon) k c acc1)
        (Parser.exprList ts k c acc)) :
    PResult.Sim sameShapes
      (if !Parser.check (ts.map Token.canon) c t then
        Parser.exprList (ts.map Token.canon) k c [] else .ok [] c)
      (if !Parser.check ts c t then Parser.exprList ts k c [] else .ok [] c) := by
  rw [Parser.check_canon ts c t ht]
  by_cases h : Parser.check ts c t = true
  · simp only [h, Bool.not_true, Bool.false_eq_true, if_false]
    exact sim_ok c rfl
  · simp only [h, Bool.not_false, Bool.not_eq_true] at h ⊢
    simp only [h, Bool.not_false, if_true]
    exact ih c [] [] rfl

theorem sim_entries (ts : List Token) (k c : Nat) (t : TokenType)
    (ht : ∀ u : TokenType, u.symbol = t ↔ u = t)
    (ih : ∀ c acc1 acc, sameShapes acc1 acc →
      PResult.Sim sameShapes (Parser.dictEntries (ts.map Token.canon) k c acc1)
        (Parser.dictEntries ts k c acc)) :
    PResult.Sim sameShapes
      (if !Parser.check (ts.map Token.canon) c t then
        Parser.dictEntries (ts.map Token.canon) k c [] else .ok [] c)
      (if !Parser.check ts c t then Parser.dictEntries ts k c [] else .ok [] c) := by
  rw [Parser.check_canon ts c t ht]
  by_cases h : Parser.check ts c t = true
  · simp only [h, Bool.not_true, Bool.false_eq_true, if_false]
    exact sim_ok c rfl
  · simp only [h, Bool.not_false, Bool.not_eq_true] at h ⊢
    simp only [h, Bool.not_false, if_true]
    exact ih c [] [] rfl

theorem unary_op_kind (t : Token) (h : t.type ∈ [TokenType.BANG, .MINUS, .NOT_KW]) :
    (if t.canon.type = .NOT_KW then Parser.normalize t.canon .BANG else t.canon).kind
      = (if t.type = .NOT_KW then Parser.normalize t .BANG else t).kind := by
  obtain ⟨ty, lx, ln, cl⟩ := t
  simp only [List.mem_cons, List.mem_singleton, List.not_mem_nil, or_false] at h
  rcases h with h | h | h <;> subst h <;> rfl

theorem parseShapeAt_succ (ts : List Token) (k : Nat) (ih : ParseShapeAt ts k) :
    ParseShapeAt ts (k + 1) := by
  have mEQUAL := fun c => Parser.matchAny_canon ts c [.EQUAL] (by intro u; cases u <;> decide)
  have mCOMMA := fun c => Parser.matchAny_canon ts c [.COMMA] (by intro u; cases u <;> decide)
  have mUN := fun c => Parser.matchAny_canon ts c [.BANG, .MINUS, .NOT_KW]
    (by intro u; cases u <;> decide)
  have mLP := fun c => Parser.matchAny_canon ts c [.LEFT_PAREN] (by intro u; cases u <;> decide)
  have mDOT := fun c => Parser.matchAny_canon ts c [.DOT] (by intro u; cases u <;> decide)
  have mLB := fun c => Parser.matchAny_canon ts c [.LEFT_BRACKET]
    (by intro u; cases u <;> decide)
  have mLC := fun c => Parser.matchAny_canon ts c [.LEFT_BRACE] (by intro u; cases u <;> decide)
  have mF := fun c => Parser.matchAny_canon ts c [.FALSE] (by intro u; cases u <;> decide)
  have mT := fun c => Parser.matchAny_canon ts c [.TRUE] (by intro u; cases u <;> decide)
  have mN := fun c => Parser.matchAny_canon ts c [.NULL_T] (by intro u; cases u <;> decide)
  have mTH := fun c => Parser.matchAny_canon ts c [.THIS] (by intro u; cases u <;> decide)
  have mNUM := fun c => Parser.matchAny_canon ts c [.NUMBER] (by intro u; cases u <;> decide)
  have mSTR := fun c => Parser.matchAny_canon ts c [.STRING] (by intro u; cases u <;> decide)
  have mID := fun c => Parser.matchAny_canon ts c [.IDENTIFIER] (by intro u; cases u <;> decide)
  have sRP : ∀ u : TokenType, u.symbol = .RIGHT_PAREN ↔ u = .RIGHT_PAREN := by
    intro u; cases u <;> decide
  have sRB : ∀ u : TokenType, u.symbol = .RIGHT_BRACKET ↔ u = .RIGHT_BRACKET := by
    intro u; cases u <;> decide
  have sRC : ∀ u : TokenType, u.symbol = .RIGHT_BRACE ↔ u = .RIGHT_BRACE := by
    intro u; cases u <;> decide
  have sID : ∀ u : TokenType, u.symbol = .IDENTIFIER ↔ u = .IDENTIFIER := by
    intro u; cases u <;> decide
  have sSTR : ∀ u : TokenType, u.symbol = .STRING ↔ u = .STRING := by
    intro u; cases u <;> decide
  have sCOL : ∀ u : TokenType, u.symbol = .COLON ↔ u = .COLON := by
    intro u; cases u <;> decide
  refine ⟨?_, ?_, ?_, ?_, ?_, ?_, ?_, ?_, ?_⟩
  · -- expression
    intro c
    simp only [Parser.expression]
    exact ih.assignment c
  · -- assignment
    intro c
    simp only [Parser.assignment, mEQUAL]
    refine sim_bind (ih.level 6 c) ?_
    intro e1 e c1 he
    cases hm : Parser.matchAny ts c1 [.EQUAL] with
    | none => exact sim_ok c1 he
    | some c2 =>
      refine sim_bind (ih.assignment c2) ?_
      intro v1 v c3 hv
      exact shape_assign_target e1 e v1 v c3 he hv
  · -- the levels
    intro i c
    match i with
    | 0 =>
      simp only [Parser.level, Parser.unary, mUN]
      cases hm : Parser.matchAny ts c [.BANG, .MINUS, .NOT_KW] with
      | none => exact ih.call c
      | some c1 =>
        obtain ⟨hc1, hmem⟩ := Parser.matchAny_some ts c c1 _ hm
        subst hc1
        refine sim_bind (ih.level 0 (c + 1)) ?_
        intro r1 r c2 hr
        refine sim_ok c2 ?_
        simp only [sameShape, Expr.shape, Parser.previous_succ, Parser.peek_canon] at hr ⊢
        rw [hr, unary_op_kind _ hmem]
    | 1 => rw [Parser.level_succ _ 0 _ _ (by decide), Parser.level_succ _ 0 _ _ (by decide)]
           exact sim_bind (ih.level 0 c) fun e1 e c1 he => ih.levelLoop 0 c1 e1 e (by decide) he
    | 2 => rw [Parser.level_succ _ 1 _ _ (by decide), Parser.level_succ _ 1 _ _ (by decide)]
           exact sim_bind (ih.level 1 c) fun e1 e c1 he => ih.levelLoop 1 c1 e1 e (by decide) he
    | 3 => rw [Parser.level_succ _ 2 _ _ (by decide), Parser.level_succ _ 2 _ _ (by decide)]
           exact sim_bind (ih.level 2 c) fun e1 e c1 he => ih.levelLoop 2 c1 e1 e (by decide) he
    | 4 => rw [Parser.level_succ _ 3 _ _ (by decide), Parser.level_succ _ 3 _ _ (by decide)]
           exact sim_bind (ih.level 3 c) fun e1 e c1 he => ih.levelLoop 3 c1 e1 e (by decide) he
    | 5 => rw [Parser.level_succ _ 4 _ _ (by decide), Parser.level_succ _ 4 _ _ (by decide)]
           exact sim_bind (ih.level 4 c) fun e1 e c1 he => ih.levelLoop 4 c1 e1 e (by decide) he
    | j + 6 =>
      have h1 : ∀ (us : List Token) (n : Nat), Parser.level us (j + 6) n = Parser.level us 6 n :=
        fun _ _ => rfl
      rw [h1, h1, Parser.level_succ _ 5 _ _ (by decide), Parser.level_succ _ 5 _ _ (by decide)]
      exact sim_bind (ih.level 5 c) fun e1 e c1 he => ih.levelLoop 5 c1 e1 e (by decide) he
  · -- the loops of the levels
    intro i c e1 e hi he
    by_cases hcont : Parser.continues ts (i + 1) c
    · rw [Parser.levelLoop_step _ i k c e1 hi ((continues_canon ts (i + 1) c).mpr hcont),
        Parser.levelLoop_step _ i k c e hi hcont]
      refine sim_bind (ih.level i (c + 1)) ?_
      intro r1 r c2 hr
      refine ih.levelLoop i c2 _ _ hi ?_
      simp only [sameShape, Expr.shape, Parser.peek_canon] at he hr ⊢
      rw [he, hr, kind_eq_of_type _ _ (astOp_canon_type _
        (mem_levelOps_ne_not (i + 1) _ hcont.1))]
    · rw [Parser.levelLoop_stop _ i k c e1 hi (fun h => hcont ((continues_canon ts (i + 1) c).mp h)),
        Parser.levelLoop_stop _ i k c e hi hcont]
      exact sim_ok c he
  · -- exprList
    intro c acc1 acc hacc
    simp only [Parser.exprList, mCOMMA]
    refine sim_bind (ih.expression c) ?_
    intro e1 e c1 he
    have h2 : sameShapes (acc1 ++ [e1]) (acc ++ [e]) := by
      simp only [sameShapes, sameShape, shapes_append, Expr.shapes] at hacc he ⊢
      rw [hacc, he]
    cases hm : Parser.matchAny ts c1 [.COMMA] with
    | none => exact sim_ok c1 h2
    | some c2 => exact ih.exprList c2 _ _ h2
  · -- callLoop
    intro c e1 e he
    simp only [Parser.callLoop, mLP, mDOT, mLB]
    cases hm1 : Parser.matchAny ts c [.LEFT_PAREN] with
    | some c1 =>
      refine sim_bind (sim_args ts k c1 .RIGHT_PAREN sRP ih.exprList) ?_
      intro a1 a c2 ha
      refine sim_bind (Parser.consume_canon ts c2 .RIGHT_PAREN _ sRP) ?_
      intro _ _ c3 _
      refine ih.callLoop c3 _ _ ?_
      simp only [sameShape, sameShapes, Expr.shape] at he ha ⊢
      rw [he, ha]
    | none =>
      cases hm2 : Parser.matchAny ts c [.DOT] with
      | some c1 =>
        refine sim_bind (Parser.consume_canon ts c1 .IDENTIFIER _ sID) ?_
        intro n1 n c2 hn
        refine ih.callLoop c2 _ _ ?_
        simp only [sameShape, Expr.shape] at he ⊢
        rw [he, hn.1, canon_lexeme n (Or.inl hn.2)]
      | none =>
        cases hm3 : Parser.matchAny ts c [.LEFT_BRACKET] with
        | some c1 =>
          refine sim_bind (ih.expression c1) ?_
          intro x1 x c2 hx
          refine sim_bind (Parser.consume_canon ts c2 .RIGHT_BRACKET _ sRB) ?_
          intro _ _ c3 _
          refine ih.callLoop c3 _ _ ?_
          simp only [sameShape, Expr.shape] at he hx ⊢
          rw [he, hx]
        | none => exact sim_ok c he
  · -- call
    intro c
    simp only [Parser.call]
    exact sim_bind (ih.primary c) fun e1 e c1 he => ih.callLoop c1 e1 e he
  · -- dictEntries
    intro c acc1 acc hacc
    simp only [Parser.dictEntries, mCOMMA]
    refine sim_bind (Parser.consume_canon ts c .STRING _ sSTR) ?_
    intro n1 n c1 hn
    refine sim_bind (Parser.consume_canon ts c1 .COLON _ sCOL) ?_
    intro _ _ c2 _
    refine sim_bind (ih.expression c2) ?_
    intro v1 v c3 hv
    have h2 : sameShapes (acc1 ++ [.LiteralExpr (.string n1.lexeme), v1])
        (acc ++ [.LiteralExpr (.string n.lexeme), v]) := by
      simp only [sameShapes, sameShape, shapes_append, Expr.shapes, Expr.shape] at hacc hv ⊢
      rw [hacc, hv, hn.1, canon_lexeme n (Or.inr (Or.inr hn.2))]
    cases hm : Parser.matchAny ts c3 [.COMMA] with
    | none => exact sim_ok c3 h2
    | some c4 => exact ih.dictEntries c4 _ _ h2
  · -- primary
    intro c
    simp only [Parser.primary, mF, mT, mN, mTH, mNUM, mSTR, mLP, mLB, mLC, mID]
    cases hm1 : Parser.matchAny ts c [.FALSE] with
    | some c1 => exact sim_ok c1 rfl
    | none =>
    cases hm2 : Parser.matchAny ts c [.TRUE] with
    | some c1 => exact sim_ok c1 rfl
    | none =>
    cases hm3 : Parser.matchAny ts c [.NULL_T] with
    | some c1 => exact sim_ok c1 rfl
    | none =>
    cases hm4 : Parser.matchAny ts c [.THIS] with
    | some c1 => exact sim_ok c1 rfl
    | none =>
    cases hm5 : Parser.matchAny ts c [.NUMBER] with
    | some c1 =>
      obtain ⟨hc1, hmem⟩ := Parser.matchAny_some ts c c1 _ hm5
      subst hc1
      simp only [List.mem_singleton] at hmem
      simp only [Parser.previous_succ, Parser.peek_canon, canon_lexeme _ (Or.inr (Or.inl hmem))]
      cases stod (Parser.peek ts c).lexeme with
      | some d => exact sim_ok _ rfl
      | none => exact rfl
    | none =>
    cases hm6 : Parser.matchAny ts c [.STRING] with
    | some c1 =>
      obtain ⟨hc1, hmem⟩ := Parser.matchAny_some ts c c1 _ hm6
      subst hc1
      refine sim_ok _ ?_
      simp only [List.mem_singleton] at hmem
      simp only [sameShape, Parser.previous_succ, Parser.peek_canon,
        canon_lexeme _ (Or.inr (Or.inr hmem))]
    | none =>
    cases hm7 : Parser.matchAny ts c [.LEFT_PAREN] with
    | some c1 =>
      refine sim_bind (ih.expression c1) ?_
      intro x1 x c2 hx
      refine sim_bind (Parser.consume_canon ts c2 .RIGHT_PAREN _ sRP) ?_
      intro _ _ c3 _
      refine sim_ok c3 ?_
      simp only [sameShape, Expr.shape] at hx ⊢
      rw [hx]
    | none =>
    cases hm8 : Parser.matchAny ts c [.LEFT_BRACKET] with
    | some c1 =>
      refine sim_bind (sim_args ts k c1 .RIGHT_BRACKET sRB ih.exprList) ?_
      intro a1 a c2 ha
      refine sim_bind (Parser.consume_canon ts c2 .RIGHT_BRACKET _ sRB) ?_
      intro _ _ c3 _
      refine sim_ok c3 ?_
      simp only [sameShape, sameShapes, Expr.shape] at ha ⊢
      rw [ha]
    | none =>
    cases hm9 : Parser.matchAny ts c [.LEFT_BRACE] with
    | some c1 =>
      refine sim_bind (sim_entries ts k c1 .RIGHT_BRACE sRC ih.dictEntries) ?_
      intro a1 a c2 ha
      refine sim_bind (Parser.consume_canon ts c2 .RIGHT_BRACE _ sRC) ?_
      intro _ _ c3 _
      refine sim_ok c3 ?_
      simp only [sameShape, sameShapes, Expr.shape] at ha ⊢
      rw [ha]
    | none =>
    cases hm10 : Parser.matchAny ts c [.IDENTIFIER] with
    | some c1 =>
      obtain ⟨hc1, hmem⟩ := Parser.matchAny_some ts c c1 _ hm10
      subst hc1
      refine sim_ok _ ?_
      simp only [List.mem_singleton] at hmem
      simp only [sameShape, Parser.previous_succ, Parser.peek_canon,
        canon_lexeme _ (Or.inl hmem)]
    | none => trivial

theorem parseShapeAt_all (ts : List Token) : ∀ k, ParseShapeAt ts k
  | 0 => parseShapeAt_zero ts
  | k + 1 => parseShapeAt_succ ts k (parseShapeAt_all ts k)


theorem alpha_ne (c d : Char) (hc : isAlpha c = true) (hd : isAlpha d = false) : c ≠ d := by
  intro h
  rw [h, hd] at hc
  exact absurd hc (by decide)

theorem alpha_not_digit (c : Char) (h : isAlpha c = true) : isDigit c = false := by
  simp only [isAlpha, isDigit, Bool.or_eq_true, Bool.and_eq_true, decide_eq_true_eq,
    beq_iff_eq] at h
  simp only [isDigit, Bool.and_eq_false_iff, decide_eq_false_iff_not]
  rcases h with (h | h) | h
  · right; omega
  · right; omega
  · subst h; right; decide

/-- On a letter or an underscore `scanStep` runs `identifier`. -/
theorem scanStep_alpha (lx0 : Lexer) (h : isAlpha lx0.begin.1 = true) :
    lx0.scanStep = .ok lx0.begin.2.identifier := by
  unfold Lexer.begin at h ⊢
  simp only [Lexer.scanStep]
  generalize ({ lx0 with start := lx0.current } : Lexer).advance.1 = c at h
  have hd := alpha_not_digit c h
  have n1 := alpha_ne c '(' h (by decide)
  have n2 := alpha_ne c ')' h (by decide)
  have n3 := alpha_ne c LBRACE h (by decide)
  have n4 := alpha_ne c RBRACE h (by decide)
  have n5 := alpha_ne c '[' h (by decide)
  have n6 := alpha_ne c ']' h (by decide)
  have n7 := alpha_ne c ',' h (by decide)
  have n8 := alpha_ne c '.' h (by decide)
  have n9 := alpha_ne c ';' h (by decide)
  have n10 := alpha_ne c ':' h (by decide)
  have n11 := alpha_ne c '+' h (by decide)
  have n12 := alpha_ne c '-' h (by decide)
  have n13 := alpha_ne c '*' h (by decide)
  have n14 := alpha_ne c '%' h (by decide)
  have n15 := alpha_ne c '!' h (by decide)
  have n16 := alpha_ne c '=' h (by decide)
  have n17 := alpha_ne c '<' h (by decide)
  have n18 := alpha_ne c '>' h (by decide)
  have n19 := alpha_ne c '/' h (by decide)
  have n20 := alpha_ne c '&' h (by decide)
  have n21 := alpha_ne c '|' h (by decide)
  have n22 := alpha_ne c ' ' h (by decide)
  have n23 := alpha_ne c (Char.ofNat 13) h (by decide)
  have n24 := alpha_ne c (Char.ofNat 9) h (by decide)
  have n25 := alpha_ne c NEWLINE h (by decide)
  have n26 := alpha_ne c DQUOTE h (by decide)
  simp only [n1, n2, n3, n4, n5, n6, n7, n8, n9, n10, n11, n12, n13, n14, n15, n16, n17, n18,
    n19, n20, n21, n22, n23, n24, n25, n26, if_false, decide_False, Bool.or_self,
    Bool.false_eq_true, h, hd, if_true]

/-- A word, up to the first character that is no letter, digit or underscore, gives one
token: of the type `keyword` has for the word, or else an IDENTIFIER. -/
theorem emits_word (lx0 : Lexer) (pre post : List Char) (c0 : Char) (I : List Char)
    (hc0 : isAlpha c0 = true) (hI : ∀ c ∈ I, isAlnum c = true) (hpost : stopsAt isAlnum post)
    (hsrc : lx0.src = pre ++ (c0 :: I) ++ post) (hcur : lx0.current = pre.length) :
    lx0.emits ((keyword (String.mk (c0 :: I))).getD .IDENTIFIER) (c0 :: I) (c0 :: I).length := by
  obtain ⟨b1, b2, b3, b4, b5, b6⟩ := begin_at lx0 pre c0 (I ++ post) (by rw [hsrc]; simp) hcur
  have hstep : lx0.scanStep = .ok lx0.begin.2.identifier :=
    scanStep_alpha lx0 (by rw [b1]; exact hc0)
  have hlen : lx0.src.length = pre.length + (I.length + 1) + post.length := by
    rw [hsrc]; simp only [List.length_append, List.length_cons]
  obtain ⟨s1, s2, s3, s4⟩ := advanceWhile_run isAlnum post hpost I (pre ++ [c0])
    lx0.begin.2.remaining lx0.begin.2 (by rw [b2, hsrc]; simp) (by rw [b4]; simp) hI
    (by simp only [Lexer.remaining, b2, b4, hlen]; omega)
  generalize hlx1 : Lexer.advanceWhile isAlnum lx0.begin.2.remaining lx0.begin.2 = lx1
    at s1 s2 s3 s4
  have htext : substr lx1.src lx1.start (lx1.current - lx1.start) = String.mk (c0 :: I) := by
    have hl : lx1.current - lx1.start = (c0 :: I).length := by
      rw [s3, s2, b3]
      simp only [List.length_append, List.length_cons, List.length_nil]
      omega
    rw [hl, s1, b2, hsrc, s2, b3]
    exact substr_mid pre (c0 :: I) post
  have hid : lx0.begin.2.identifier
      = lx1.push ⟨(keyword (String.mk (c0 :: I))).getD .IDENTIFIER, String.mk (c0 :: I),
          lx1.line, lx1.col⟩ := by
    simp only [Lexer.identifier, hlx1, htext]
    cases keyword (String.mk (c0 :: I)) <;> rfl
  refine ⟨_, lx1.line, lx1.col, hstep.trans (by rw [hid]), ?_, ?_, ?_⟩
  · simp only [Lexer.push, s1, b2]
  · simp only [Lexer.push, s3, hcur]
    simp only [List.length_append, List.length_cons, List.length_nil]
    omega
  · simp only [Lexer.push, s4, b5]

theorem emits_operator_word (lx0 : Lexer) (pre post w : List Char) (T : TokenType)
    (hw : (w, T) ∈ operatorWords) (hpost : stopsAt isAlnum post)
    (hsrc : lx0.src = pre ++ w ++ post) (hcur : lx0.current = pre.length) :
    lx0.emits T w w.length := by
  simp only [operatorWords, List.mem_cons, Prod.mk.injEq, List.mem_singleton, List.not_mem_nil,
    or_false] at hw
  rcases hw with ⟨h1, h2⟩ | ⟨h1, h2⟩ | ⟨h1, h2⟩ | ⟨h1, h2⟩ <;> subst h1 <;> subst h2
  · have h := emits_word lx0 pre post 'a' ['n', 'd'] (by decide) (by decide) hpost hsrc hcur
    have hk : keyword (String.mk ['a', 'n', 'd']) = some .AND_KW := by decide!
    rw [hk] at h
    exact h
  · have h := emits_word lx0 pre post 'o' ['r'] (by decide) (by decide) hpost hsrc hcur
    have hk : keyword (String.mk ['o', 'r']) = some .OR_KW := by decide!
    rw [hk] at h
    exact h
  · have h := emits_word lx0 pre post 'e' ['q', 'u', 'a', 'l', 's'] (by decide) (by decide)
      hpost hsrc hcur
    have hk : keyword (String.mk ['e', 'q', 'u', 'a', 'l', 's']) = some .EQUALS_KW := by decide!
    rw [hk] at h
    exact h
  · have h := emits_word lx0 pre post 'n' ['o', 't'] (by decide) (by decide) hpost hsrc hcur
    have hk : keyword (String.mk ['n', 'o', 't']) = some .NOT_KW := by decide!
    rw [hk] at h
    exact h


theorem sameShape_symm (a b : Expr) (h : sameShape a b) : sameShape b a := Eq.symm h

theorem sameShape_trans (a b c : Expr) (h1 : sameShape a b) (h2 : sameShape b c) :
    sameShape a c := Eq.trans h1 h2

theorem expression_canon (ts1 ts2 : List Token) (k c : Nat)
    (h : ts1.map Token.canon = ts2.map Token.canon) :
    PResult.Sim sameShape (Parser.expression ts1 k c) (Parser.expression ts2 k c) := by
  have h1 := (parseShapeAt_all ts1 k).expression c
  have h2 := (parseShapeAt_all ts2 k).expression c
  rw [h] at h1
  exact sim_trans sameShape_trans (sim_symm sameShape_symm h1) h2

theorem evaluate_of_shape (e1 e2 : Expr) (h : Expr.shape e1 = Expr.shape e2) (fuel : Nat)
    (ip : Interpreter) : evaluate fuel e1 ip = evaluate fuel e2 ip := by
  rw [← (shapeAt_all fuel).evaluate e1 ip, ← (shapeAt_all fuel).evaluate e2 ip, h]

theorem canon_of_alias (t1 t2 : Token) (h : (t1.type, t2.type) ∈ operatorAliases) :
    t1.canon = t2.canon := by
  obtain ⟨ty1, lx1, ln1, cl1⟩ := t1
  obtain ⟨ty2, lx2, ln2, cl2⟩ := t2
  simp only [operatorAliases, List.mem_cons, List.mem_singleton, List.not_mem_nil, or_false,
    Prod.mk.injEq] at h
  rcases h with ⟨h1, h2⟩ | ⟨h1, h2⟩ | ⟨h1, h2⟩ | ⟨h1, h2⟩ <;> subst h1 <;> subst h2 <;> rfl

theorem symbol_not_keyword (u : TokenType) :
    u.symbol ∉ [TokenType.AND_KW, .OR_KW, .EQUALS_KW, .NOT_KW] := by
  cases u <;> decide

/-- C34: the expression grammar reads a keyword operator as its symbol.  For two token
lists that agree once every keyword operator is taken for its symbol and positions and
operator spellings are left out, `expression` succeeds on both or on neither, stops at
the same token, and returns trees of the same shape whose operators have the same types;
two such trees evaluate to the same result in the same final state, whatever the state
and the budget.  In particular replacing a token `and`, `or`, `equals` or `not` by `&&`,
`||`, `==` or `!` anywhere in a token list changes neither.  The node built for a keyword
operator carries the type of the symbol (`AND_AND`, `OR_OR`, `EQUAL_EQUAL`, `BANG`); a
round of `scan` that starts at one of the four words, when no letter, digit or
underscore follows it, gives the token of its keyword type; two sample programs print
the same. -/
theorem C34_textual_operators_are_aliases (ts1 ts2 : List Token) (k c : Nat)
    (h : ts1.map Token.canon = ts2.map Token.canon) :
    PResult.Sim sameShape (Parser.expression ts1 k c) (Parser.expression ts2 k c)
    ∧ (∀ e1 c1, Parser.expression ts1 k c = .ok e1 c1 →
        ∃ e2, Parser.expression ts2 k c = .ok e2 c1 ∧ Expr.shape e1 = Expr.shape e2
          ∧ ∀ fuel ip, evaluate fuel e1 ip = evaluate fuel e2 ip)
    ∧ (∀ msg, Parser.expression ts1 k c = .error msg →
        ∃ msg2, Parser.expression ts2 k c = .error msg2)
    ∧ (∀ e1 e2 : Expr, Expr.shape e1 = Expr.shape e2 →
        ∀ fuel ip, evaluate fuel e1 ip = evaluate fuel e2 ip)
    ∧ (∀ (A1 A2 B1 B2 : List Token) (t1 t2 : Token) (n d : Nat),
        A1.map Token.canon = A2.map Token.canon → B1.map Token.canon = B2.map Token.canon →
        (t1.type, t2.type) ∈ operatorAliases →
        PResult.Sim sameShape (Parser.expression (A1 ++ t1 :: B1) n d)
          (Parser.expression (A2 ++ t2 :: B2) n d))
    ∧ (∀ (ts : List Token) (i n d : Nat) (e : Expr), i < 6 → Parser.continues ts (i + 1) d →
        Parser.levelLoop ts (i + 1) (n + 1) d e
            = ((Parser.level ts i n (d + 1)).bind fun r c2 =>
                Parser.levelLoop ts (i + 1) n c2 (.BinaryExpr e (astOp (Parser.peek ts d)) r))
          ∧ (astOp (Parser.peek ts d)).type = (Parser.peek ts d).type.symbol
          ∧ (astOp (Parser.peek ts d)).type ∉ [TokenType.AND_KW, .OR_KW, .EQUALS_KW, .NOT_KW])
    ∧ (∀ (ts : List Token) (n d : Nat), (Parser.peek ts d).type = .NOT_KW →
        Parser.unary ts (n + 1) d
          = (Parser.unary ts n (d + 1)).bind fun r c2 =>
              .ok (.UnaryExpr (Parser.normalize (Parser.peek ts d) .BANG) r) c2)
    ∧ (∀ (l r : Value) (op1 op2 : Token), op1.type = op2.type →
        evalBinary l op1 r = evalBinary l op2 r)
    ∧ (∀ (r : Value) (op1 op2 : Token), op1.type = op2.type →
        evalUnary op1 r = evalUnary op2 r)
    ∧ (∀ (lx0 : Lexer) (pre post w : List Char) (T : TokenType), (w, T) ∈ operatorWords →
        stopsAt isAlnum post → lx0.src = pre ++ w ++ post → lx0.current = pre.length →
        lx0.emits T w w.length
          ∧ ∃ S, (T, S) ∈ operatorAliases ∧ T.symbol = S)
    ∧ keyword "and" = some .AND_KW ∧ keyword "or" = some .OR_KW
    ∧ keyword "equals" = some .EQUALS_KW ∧ keyword "not" = some .NOT_KW
    ∧ tokenTexts "a and b or c equals not d"
        = [(.IDENTIFIER, "a"), (.AND_KW, "and"), (.IDENTIFIER, "b"), (.OR_KW, "or"),
           (.IDENTIFIER, "c"), (.EQUALS_KW, "equals"), (.NOT_KW, "not"), (.IDENTIFIER, "d"),
           (.END_OF_FILE, "")]
    ∧ (tokensOf "f(x) and not y.z or w[0] equals \"s\" + 1;").map Token.canon
        = (tokensOf "f(x) && !y.z || w[0] == \"s\" + 1;").map Token.canon
    ∧ (frontEnd 100 "a and b;").yields
        [.ExprStmt (.BinaryExpr (.VarExpr "a") ⟨.AND_AND, "and", 1, 6⟩ (.VarExpr "b"))] = true
    ∧ (frontEnd 100 "a && b;").yields
        [.ExprStmt (.BinaryExpr (.VarExpr "a") ⟨.AND_AND, "&&", 1, 5⟩ (.VarExpr "b"))] = true
    ∧ (frontEnd 100 "not a;").yields
        [.ExprStmt (.UnaryExpr ⟨.BANG, "not", 1, 4⟩ (.VarExpr "a"))] = true
    ∧ (frontEnd 100 "!a;").yields
        [.ExprStmt (.UnaryExpr ⟨.BANG, "!", 1, 2⟩ (.VarExpr "a"))] = true
    ∧ vmStdout (runFresh wordProgram).vm? = "1\nfalse\ntrue\n2\n0\n5\ntrue\n"
    ∧ vmStdout (runFresh symbolProgram).vm? = "1\nfalse\ntrue\n2\n0\n5\ntrue\n" := by
  have hsim := expression_canon ts1 ts2 k c h
  refine ⟨hsim, ?_, ?_, evaluate_of_shape, ?_, ?_, ?_, evalBinary_type, evalUnary_type, ?_,
    by decide!, by decide!, by decide!, by decide!, by decide!, by decide!, by decide!,
    by decide!, by decide!, by decide!, by decide!, by decide!⟩
  · intro e1 c1 h1
    rw [h1] at hsim
    cases h2 : Parser.expression ts2 k c with
    | ok e2 c2 =>
      rw [h2] at hsim
      obtain ⟨hs, hc⟩ := hsim
      subst hc
      exact ⟨e2, rfl, hs, evaluate_of_shape e1 e2 hs⟩
    | error m => rw [h2] at hsim; exact hsim.elim
    | stdException w => rw [h2] at hsim; exact hsim.elim
    | timeout => rw [h2] at hsim; exact hsim.elim
  · intro msg h1
    rw [h1] at hsim
    cases h2 : Parser.expression ts2 k c with
    | ok e2 c2 => rw [h2] at hsim; exact hsim.elim
    | error m => exact ⟨m, rfl⟩
    | stdException w => rw [h2] at hsim; exact hsim.elim
    | timeout => rw [h2] at hsim; exact hsim.elim
  · intro A1 A2 B1 B2 t1 t2 n d hA hB ht
    refine expression_canon _ _ n d ?_
    simp only [List.map_append, List.map_cons, hA, hB, canon_of_alias t1 t2 ht]
  · intro ts i n d e hi hcont
    have hsym : (astOp (Parser.peek ts d)).type = (Parser.peek ts d).type.symbol := by
      have hne := mem_levelOps_ne_not (i + 1) _ hcont.1
      revert hne
      generalize Parser.peek ts d = t
      obtain ⟨ty, lx, ln, cl⟩ := t
      intro hne
      cases ty <;> first | exact absurd rfl hne | rfl
    refine ⟨Parser.levelLoop_step ts i n d e hi hcont, hsym, ?_⟩
    rw [hsym]
    exact symbol_not_keyword _
  · intro ts n d hty
    have hm : Parser.matchAny ts d [.BANG, .MINUS, .NOT_KW] = some (d + 1) := by
      rw [Parser.matchAny_eq, if_pos]
      rw [hty]
      exact ⟨by decide, by decide⟩
    simp only [Parser.unary, hm, Parser.previous_succ, hty, if_true]
  · intro lx0 pre post w T hw hpost hsrc hcur
    refine ⟨emits_operator_word lx0 pre post w T hw hpost hsrc hcur, T.symbol, ?_, rfl⟩
    simp only [operatorWords, List.mem_cons, Prod.mk.injEq, List.mem_singleton,
      List.not_mem_nil, or_false] at hw
    rcases hw with ⟨_, h2⟩ | ⟨_, h2⟩ | ⟨_, h2⟩ | ⟨_, h2⟩ <;> subst h2 <;> decide

theorem C34_textual_operators_are_aliases_witness :
    wordTokens.map Token.canon = symbolTokens.map Token.canon
    ∧ ∀ e1 c1, Parser.expression wordTokens 20 0 = .ok e1 c1 →
        ∃ e2, Parser.expression symbolTokens 20 0 = .ok e2 c1 ∧ Expr.shape e1 = Expr.shape e2
          ∧ ∀ fuel ip, evaluate fuel e1 ip = evaluate fuel e2 ip :=
  ⟨by decide, (C34_textual_operators_are_aliases wordTokens symbolTokens 20 0 (by decide)).2.1⟩

/-! ## C2: a source text that does not lex or parse -/

/-- C2: when the source text fails to lex or to parse, `AdaScript_Eval` returns a
non-zero code, stores the message of the failure, and hands back the VM exactly as it
received it: no environment, no registry entry and no directory has changed.  The code
is 2 when the lexer or the parser threw a `RuntimeError` (an unexpected character, an
unterminated string, a missing token, an invalid assignment target) and 3 when
`std::stod` threw inside the parser, which it does on a number literal outside the
range of `double`; the parser reads the literal before it looks at what follows. -/
theorem C2_eval_front_end_failure (fuel : Nat) (ip : Interpreter) (src : String)
    (filename : Option String) (e : String)
    (h : (frontEnd fuel (cstr src)).error? = some e
      ∨ (frontEnd fuel (cstr src)).stdException? = some e) :
    AdaScript_Eval fuel (some ip) (some src) filename
      = .returned (if (frontEnd fuel (cstr src)).error?.isSome then 2 else 3)
          (some (cstr e)) (some ip)
    ∧ (if (frontEnd fuel (cstr src)).error?.isSome then (2 : Int) else 3) ≠ 0
    ∧ (∀ (ts : List Token) (k c : Nat), (Parser.peek ts c).type = .NUMBER →
        stod (Parser.peek ts c).lexeme = none →
        Parser.primary ts (k + 1) c = .stdException "stod")
    ∧ (∀ (ts : List Token) (k c : Nat) (d : Double), (Parser.peek ts c).type = .NUMBER →
        stod (Parser.peek ts c).lexeme = some d →
        Parser.primary ts (k + 1) c = .ok (.LiteralExpr (.number d)) (c + 1))
    ∧ stod hugeLiteral = none
    ∧ stod tinyLiteral = none
    ∧ stod "9007199254740993" = some (Double.ofNat 9007199254740992)
    ∧ stod "0.1" = some ⟨3602879701896397, 36028797018963968⟩
    ∧ (frontEnd 100 (hugeLiteral ++ ";")).stdException? = some "stod" := by
  refine ⟨?_, by split <;> decide, ?_, ?_, by decide!, by decide!, by decide!, by decide!,
    by decide!⟩
  · cases hfront : frontEnd fuel (cstr src) with
    | error e1 =>
      have he : e1 = e := by
        rcases h with h | h
        · simpa [hfront, ParseResult.error?] using h
        · simp [hfront, ParseResult.stdException?] at h
      subst he
      simp [AdaScript_Eval, hfront, ParseResult.error?]
    | stdException w =>
      have he : w = e := by
        rcases h with h | h
        · simp [hfront, ParseResult.error?] at h
        · simpa [hfront, ParseResult.stdException?] using h
      subst he
      simp [AdaScript_Eval, hfront, ParseResult.error?]
    | timeout => simp [hfront, ParseResult.error?, ParseResult.stdException?] at h
    | ok stmts => simp [hfront, ParseResult.error?, ParseResult.stdException?] at h
  · intro ts k c hty hs
    exact Parser.primary_out_of_range ts k c hty hs
  · intro ts k c d hty hs
    exact Parser.primary_number ts k c d hty hs

/-- Witness for C2: an unexpected character, an unterminated string, a missing token,
an invalid assignment target, and a number literal beyond the range of `double`,
alone and in front of `=`. -/
theorem C2_eval_front_end_failure_witness :
    AdaScript_Eval 100 (some freshIp) (some "let x = 1 @ 2;") none
        = .returned 2 (some (cstr "Unexpected character")) (some freshIp)
    ∧ AdaScript_Eval 100 (some freshIp) (some "let s = \"abc;") none
        = .returned 2 (some (cstr "Unterminated string")) (some freshIp)
    ∧ AdaScript_Eval 100 (some freshIp) (some "let x = 1") none
        = .returned 2 (some (cstr "Expected ';' at line 1, col 10")) (some freshIp)
    ∧ AdaScript_Eval 100 (some freshIp) (some "1 = 2;") none
        = .returned 2 (some (cstr "Invalid assignment target")) (some freshIp)
    ∧ AdaScript_Eval 100 (some freshIp) (some (hugeLiteral ++ " = 2;")) none
        = .returned 3 (some (cstr "stod")) (some freshIp)
    ∧ AdaScript_Eval 100 (some freshIp) (some ("print(1); print(" ++ tinyLiteral ++ ");")) none
        = .returned 3 (some (cstr "stod")) (some freshIp) :=
  have h1 := (C2_eval_front_end_failure 100 freshIp "let x = 1 @ 2;" none
    "Unexpected character" (Or.inl (by decide!))).1
  have h2 := (C2_eval_front_end_failure 100 freshIp "let s = \"abc;" none
    "Unterminated string" (Or.inl (by decide!))).1
  have h3 := (C2_eval_front_end_failure 100 freshIp "let x = 1" none
    "Expected ';' at line 1, col 10" (Or.inl (by decide!))).1
  have h4 := (C2_eval_front_end_failure 100 freshIp "1 = 2;" none
    "Invalid assignment target" (Or.inl (by decide!))).1
  have h5 := (C2_eval_front_end_failure 100 freshIp (hugeLiteral ++ " = 2;") none
    "stod" (Or.inr (by decide!))).1
  have h6 := (C2_eval_front_end_failure 100 freshIp
    ("print(1); print(" ++ tinyLiteral ++ ");") none "stod" (Or.inr (by decide!))).1
  have c1 : (frontEnd 100 (cstr "let x = 1 @ 2;")).error?.isSome = true := by decide!
  have c2 : (frontEnd 100 (cstr "let s = \"abc;")).error?.isSome = true := by decide!
  have c3 : (frontEnd 100 (cstr "let x = 1")).error?.isSome = true := by decide!
  have c4 : (frontEnd 100 (cstr "1 = 2;")).error?.isSome = true := by decide!
  have c5 : (frontEnd 100 (cstr (hugeLiteral ++ " = 2;"))).error?.isSome = false := by decide!
  have c6 : (frontEnd 100 (cstr ("print(1); print(" ++ tinyLiteral ++ ");"))).error?.isSome
      = false := by decide!
  ⟨by rw [h1, c1]; rfl, by rw [h2, c2]; rfl, by rw [h3, c3]; rfl, by rw [h4, c4]; rfl,
    by rw [h5, c5]; rfl, by rw [h6, c6]; rfl⟩

/-! ## Rounding to the nearest double -/

theorem binUp_eq (n d target : Nat) (hlt : n < d * 2 ^ (target + 1))
    (hge : d * 2 ^ target ≤ n) :
    ∀ (fuel k : Nat), k ≤ target → target - k ≤ fuel → Double.binUp n d fuel k = target := by
  intro fuel
  induction fuel with
  | zero => intro k h1 h2; simp only [Double.binUp]; omega
  | succ fuel ih =>
    intro k h1 h2
    by_cases hk : k = target
    · subst hk
      simp only [Double.binUp]
      rw [if_neg (by omega)]
    · have hk1 : k + 1 ≤ target := by omega
      have hpow : 2 ^ (k + 1) ≤ 2 ^ target := Nat.pow_le_pow_right (by decide) hk1
      have : d * 2 ^ (k + 1) ≤ n := Nat.le_trans (Nat.mul_le_mul_left d hpow) hge
      simp only [Double.binUp]
      rw [if_pos this]
      exact ih (k + 1) hk1 (by omega)

theorem binDown_eq (n d target : Nat) (hge : d ≤ n * 2 ^ target)
    (hlt : ∀ j, j < target → ¬ d ≤ n * 2 ^ j) :
    ∀ (fuel k : Nat), k ≤ target → target - k ≤ fuel → Double.binDown n d fuel k = target := by
  intro fuel
  induction fuel with
  | zero => intro k h1 h2; simp only [Double.binDown]; omega
  | succ fuel ih =>
    intro k h1 h2
    by_cases hk : k = target
    · subst hk
      simp only [Double.binDown]
      rw [if_pos hge]
    · simp only [Double.binDown]
      rw [if_neg (hlt k (by omega))]
      exact ih (k + 1) (by omega) (by omega)

theorem lt_two_pow_self (k : Nat) : k < 2 ^ k := Nat.lt_two_pow k

/-- The exponent of a fraction that is at least one. -/
theorem exponent_up (n d t : Nat) (hd : 0 < d) (hge : d * 2 ^ t ≤ n)
    (hlt : n < d * 2 ^ (t + 1)) : Double.exponent n d = (t : Int) := by
  have hdn : d ≤ n := by
    have : d * 1 ≤ d * 2 ^ t := Nat.mul_le_mul_left d (Nat.one_le_two_pow)
    omega
  have ht : t ≤ n := by
    have h1 : t < 2 ^ t := Nat.lt_two_pow t
    have h2 : 2 ^ t ≤ d * 2 ^ t := Nat.le_mul_of_pos_left _ hd
    omega
  simp only [Double.exponent, hdn, if_true]
  rw [binUp_eq n d t hlt hge n 0 (Nat.zero_le _) (by omega)]

/-- The exponent of a fraction below one. -/
theorem exponent_down (n d j : Nat) (hn : 0 < n) (hj : 1 ≤ j) (hge : d ≤ n * 2 ^ j)
    (hlt : n * 2 ^ (j - 1) < d) : Double.exponent n d = -(j : Int) := by
  have hnd : ¬ d ≤ n := by
    intro h
    have : n * 1 ≤ n * 2 ^ (j - 1) := Nat.mul_le_mul_left n (Nat.one_le_two_pow)
    omega
  have hmono : ∀ i, i < j → ¬ d ≤ n * 2 ^ i := by
    intro i hi h
    have : n * 2 ^ i ≤ n * 2 ^ (j - 1) :=
      Nat.mul_le_mul_left n (Nat.pow_le_pow_right (by decide) (by omega))
    omega
  have hjd : j ≤ d := by
    by_contra hc
    have hc' : d ≤ j - 1 := by omega
    have h1 : j - 1 < 2 ^ (j - 1) := Nat.lt_two_pow _
    have h2 : 2 ^ (j - 1) ≤ n * 2 ^ (j - 1) := Nat.le_mul_of_pos_left _ hn
    omega
  simp only [Double.exponent, hnd, if_false]
  rw [binDown_eq n d j hge hmono d 1 hj (by omega)]

theorem exponent_nat (n : Nat) (hn : 0 < n) : Double.exponent n 1 = (Nat.log2 n : Int) := by
  apply exponent_up n 1 (Nat.log2 n) (by decide)
  · rw [Nat.one_mul]
    exact Nat.log2_self_le (by omega)
  · rw [Nat.one_mul]
    exact Nat.lt_log2_self

theorem norm_pow_cancel (n k : Nat) : Double.norm ((n * 2 ^ k : Nat) : Int) (2 ^ k) = ⟨(n : Int), 1⟩ := by
  rw [← norm_den_one (n : Int)]
  apply norm_eq_of_cross
  · positivity
  · decide
  · push_cast
    ring

/-- A natural number up to `2 ^ 53` is a double. -/
theorem rnd_ofNat (n : Nat) (h : n ≤ 2 ^ 53) : (Double.ofNat n).rnd = Double.ofNat n := by
  rcases Nat.eq_zero_or_pos n with h0 | hpos
  · subst h0; rfl
  · rcases Nat.lt_or_ge n (2 ^ 53) with hlt | hge
    · have he : Nat.log2 n < 53 := (Nat.log2_lt (by omega)).mpr hlt
      have hnum : ¬ ((n : Int) = 0) := by omega
      have hnpos : (0 : Int) < (n : Int) := by omega
      simp only [Double.rnd, Double.ofNat, hnum, if_false, Int.natAbs_ofNat, exponent_nat n hpos,
        hnpos, if_true]
      have hmax : max (Nat.log2 n : Int) (-1022) - 52 = -((52 - Nat.log2 n : Nat) : Int) := by
        omega
      rw [hmax]
      simp only [Double.rndAt, Int.neg_neg, Int.toNat_ofNat, Int.toNat_neg_nat, pow_zero,
        Nat.mul_one, Nat.one_mul]
      rw [show roundHalfEven (n * 2 ^ (52 - Nat.log2 n)) 1 = n * 2 ^ (52 - Nat.log2 n) from by
        simpa using roundHalfEven_exact (n * 2 ^ (52 - Nat.log2 n)) 1 (by decide)]
      exact norm_pow_cancel n _
    · have : n = 2 ^ 53 := by omega
      subst this
      decide!

theorem rnd_ofInt (i : Int) (h : i.natAbs ≤ 2 ^ 53) : (Double.ofInt i).rnd = Double.ofInt i := by
  rcases Int.natAbs_eq i with hi | hi
  · have := rnd_ofNat i.natAbs h
    rw [Double.ofNat] at this
    rw [Double.ofInt, hi]
    exact this
  · rcases Nat.eq_zero_or_pos i.natAbs with h0 | hpos
    · have : i = 0 := by omega
      subst this; rfl
    · have hr := rnd_ofNat i.natAbs h
      have hneg : ¬ (0 < i) := by omega
      have hne : ¬ (i = 0) := by omega
      have hp : (0 : Int) < (i.natAbs : Int) := by omega
      have hne2 : ¬ ((i.natAbs : Int) = 0) := by omega
      simp only [Double.rnd, Double.ofNat, hne2, if_false, hp, if_true, Int.natAbs_ofNat] at hr
      simp only [Double.rnd, Double.ofInt, hne, if_false, hneg, hr]
      congr 1
      omega

theorem ofNat_add (a b : Nat) (h : a + b ≤ 2 ^ 53) :
    (Double.ofNat a).add (Double.ofNat b) = Double.ofNat (a + b) := by
  have h1 : (Double.ofNat a).exactAdd (Double.ofNat b) = Double.ofNat (a + b) := by
    simp [Double.exactAdd, Double.ofNat, norm_den_one]
  rw [Double.add, h1, rnd_ofNat _ h]

theorem ofNat_sub (n j : Nat) (h : j ≤ n) (hn : n ≤ 2 ^ 53) :
    (Double.ofNat n).sub ⟨(j : Int), 1⟩ = Double.ofNat (n - j) := by
  have h1 : (Double.ofNat n).exactAdd (Double.neg ⟨(j : Int), 1⟩) = Double.ofNat (n - j) := by
    simp only [Double.exactAdd, Double.neg, Double.ofNat, Nat.cast_one, mul_one,
      Nat.mul_one, norm_den_one]
    congr 1
    omega
  rw [Double.sub, Double.add, h1, rnd_ofNat _ (by omega)]

theorem ofLongLong_small (i : Int) (h : i.natAbs ≤ 2 ^ 53) :
    Double.ofLongLong i = Double.ofInt i := rnd_ofInt i h

/-! ## C22: range -/

theorem toLongLong_ofInt (i : Int) (h1 : -(2 : Int) ^ 63 ≤ i) (h2 : i < (2 : Int) ^ 63) :
    (Double.ofInt i).toLongLong = some i := by
  simp only [Double.toLongLong, trunc_ofInt, h1, h2, and_self, if_true]

theorem rangeUp_eq (stop step : Int) (hstep : 0 < step) (hstop : stop ≤ 2 ^ 53)
    (hs : step ≤ 2 ^ 53) :
    ∀ (fuel : Nat) (i : Int), (stop - i).toNat ≤ fuel → -(2 : Int) ^ 53 ≤ i →
      ∃ len : Nat,
        rangeUp stop step fuel i
          = some ((List.range len).map (fun (k : Nat) => intValue (i + (k : Int) * step)))
        ∧ (∀ k : Nat, k < len → i + (k : Int) * step < stop)
        ∧ ¬ (i + (len : Int) * step < stop) := by
  intro fuel
  induction fuel with
  | zero =>
    intro i h _
    exact ⟨0, by simp [rangeUp], by simp, by simp; omega⟩
  | succ fuel ih =>
    intro i h hlo
    by_cases hi : i < stop
    · obtain ⟨len, h1, h2, h3⟩ := ih (i + step) (by omega) (by omega)
      have hll : isLongLong (i + step) = true := by
        simp only [isLongLong, decide_eq_true_eq]
        constructor <;> omega
      have hex : Double.ofLongLong i = Double.ofInt i := ofLongLong_small i (by omega)
      refine ⟨len + 1, ?_, ?_, ?_⟩
      · rw [← range_map_succ]
        simp only [rangeUp, hi, if_true, h1, intValue, hll, hex, Option.map_some']
        simp only [Nat.cast_zero, zero_mul, add_zero, Nat.cast_add, Nat.cast_one, List.cons.injEq,
          true_and, Option.some.injEq]
        apply List.map_congr_left
        intro k _
        congr 2
        ring
      · intro k hk
        match k with
        | 0 => simpa using hi
        | k + 1 =>
          have := h2 k (by omega)
          push_cast
          linarith
      · push_cast
        intro hlt
        apply h3
        linarith
    · exact ⟨0, by simp [rangeUp, hi], by simp, by simpa using hi⟩

theorem rangeDown_eq (stop step : Int) (hstep : step < 0) (hstop : -(2 : Int) ^ 53 ≤ stop)
    (hs : -(2 : Int) ^ 53 ≤ step) :
    ∀ (fuel : Nat) (i : Int), (i - stop).toNat ≤ fuel → i ≤ 2 ^ 53 →
      ∃ len : Nat,
        rangeDown stop step fuel i
          = some ((List.range len).map (fun (k : Nat) => intValue (i + (k : Int) * step)))
        ∧ (∀ k : Nat, k < len → stop < i + (k : Int) * step)
        ∧ ¬ (stop < i + (len : Int) * step) := by
  intro fuel
  induction fuel with
  | zero =>
    intro i h _
    exact ⟨0, by simp [rangeDown], by simp, by simp; omega⟩
  | succ fuel ih =>
    intro i h hhi
    by_cases hi : stop < i
    · obtain ⟨len, h1, h2, h3⟩ := ih (i + step) (by omega) (by omega)
      have hll : isLongLong (i + step) = true := by
        simp only [isLongLong, decide_eq_true_eq]
        constructor <;> omega
      have hex : Double.ofLongLong i = Double.ofInt i := ofLongLong_small i (by omega)
      refine ⟨len + 1, ?_, ?_, ?_⟩
      · rw [← range_map_succ]
        simp only [rangeDown, hi, if_true, h1, intValue, hll, hex, Option.map_some']
        simp only [Nat.cast_zero, zero_mul, add_zero, Nat.cast_add, Nat.cast_one, List.cons.injEq,
          true_and, Option.some.injEq]
        apply List.map_congr_left
        intro k _
        congr 2
        ring
      · intro k hk
        match k with
        | 0 => simpa using hi
        | k + 1 =>
          have := h2 k (by omega)
          push_cast
          linarith
      · push_cast
        intro hlt
        apply h3
        linarith
    · exact ⟨0, by simp [rangeDown, hi], by simp, by simpa using hi⟩

theorem isLongLong_small (i : Int) (h : i.natAbs ≤ 2 ^ 53) : isLongLong i = true := by
  simp only [isLongLong, decide_eq_true_eq]
  constructor <;> omega

theorem toLongLong_intValue (i : Int) (h : isLongLong i = true) :
    (Double.ofInt i).toLongLong = some i := by
  simp only [isLongLong, decide_eq_true_eq] at h
  exact toLongLong_ofInt i h.1 h.2

theorem rangeInts_three (start stop step : Int) (h1 : isLongLong start = true)
    (h2 : isLongLong stop = true) (h3 : isLongLong step = true) :
    rangeInts [intValue start, intValue stop, intValue step] = some (some [start, stop, step]) := by
  simp only [rangeInts, intValue, toLongLong_intValue start h1, toLongLong_intValue stop h2,
    toLongLong_intValue step h3]

theorem rangeInts_two (start stop : Int) (h1 : isLongLong start = true)
    (h2 : isLongLong stop = true) :
    rangeInts [intValue start, intValue stop] = some (some [start, stop]) := by
  simp only [rangeInts, intValue, toLongLong_intValue start h1, toLongLong_intValue stop h2]

theorem rangeInts_one (stop : Int) (h2 : isLongLong stop = true) :
    rangeInts [intValue stop] = some (some [stop]) := by
  simp only [rangeInts, intValue, toLongLong_intValue stop h2]

theorem builtin_range_three (start stop step : Int) (ip : Interpreter) (l : List Value)
    (hstep : step ≠ 0) (h1 : isLongLong start = true) (h2 : isLongLong stop = true)
    (h3 : isLongLong step = true)
    (hl : (if 0 < step then rangeUp stop step (stop - start).toNat start
           else rangeDown stop step (start - stop).toNat start) = some l) :
    builtin_range [intValue start, intValue stop, intValue step] ip = .ok (.list l) ip := by
  simp only [builtin_range, rangeInts_three start stop step h1 h2 h3, hstep, hl]
  simp

theorem builtin_range_two (start stop : Int) (ip : Interpreter)
    (h1 : isLongLong start = true) (h2 : isLongLong stop = true) :
    builtin_range [intValue start, intValue stop] ip
      = builtin_range [intValue start, intValue stop, intValue 1] ip := by
  simp only [builtin_range, rangeInts_two start stop h1 h2,
    rangeInts_three start stop 1 h1 h2 (by decide)]
  simp

theorem builtin_range_one (stop : Int) (ip : Interpreter) (h2 : isLongLong stop = true) :
    builtin_range [intValue stop] ip
      = builtin_range [intValue 0, intValue stop, intValue 1] ip := by
  simp only [builtin_range, rangeInts_one stop h2,
    rangeInts_three 0 stop 1 (by decide) h2 (by decide)]
  simp

theorem rangeUp_count (n : Nat) (hn : n ≤ 2 ^ 53) :
    ∀ (fuel : Nat) (i : Nat), i ≤ n → n - i ≤ fuel →
      rangeUp (n : Int) 1 fuel (i : Int)
        = some ((List.range (n - i)).map (fun k => Value.number (Double.ofNat (i + k)))) := by
  intro fuel
  induction fuel with
  | zero =>
    intro i h1 h2
    have : n - i = 0 := by omega
    simp [rangeUp, this]
  | succ fuel ih =>
    intro i h1 h2
    by_cases hi : i < n
    · have hlt : (i : Int) < (n : Int) := by exact_mod_cast hi
      have hsucc : n - i = (n - (i + 1)) + 1 := by omega
      have hnext := ih (i + 1) (by omega) (by omega)
      have hll : isLongLong ((i : Int) + 1) = true := by
        simp only [isLongLong, decide_eq_true_eq]
        constructor <;> omega
      have hex : Double.ofLongLong (i : Int) = Double.ofNat i :=
        ofLongLong_small i (by omega)
      simp only [rangeUp, hlt, if_true, hll, hex]
      rw [hsucc, ← range_map_succ]
      have hcast : ((i : Int) + 1) = ((i + 1 : Nat) : Int) := by push_cast; rfl
      rw [hcast, hnext]
      simp only [add_zero, Option.map_some', Option.some.injEq, List.cons.injEq]
      refine ⟨trivial, ?_⟩
      apply List.map_congr_left
      intro k _
      have e : i + 1 + k = i + (k + 1) := by omega
      rw [e]
    · have : n - i = 0 := by omega
      have hlt : ¬ (i : Int) < (n : Int) := by exact_mod_cast hi
      rw [this, rangeUp]
      simp only [hlt, if_false, List.range_zero, List.map_nil]

/-- C22: with integer arguments of magnitude at most `2 ^ 53` and a non-zero step,
`range(start, stop, step)` is the list of the numbers `start + i*step` for
`i = 0, 1, ...` below some length, all of them on the near side of `stop` and the next
one not; two arguments mean step 1 and one argument means start 0 and step 1, so
`range(n)` is `0, ..., n-1` for `n` up to `2 ^ 53`, `range(0)` is empty and
`range(5, 0, -1)` is `[5, 4, 3, 2, 1]`; a zero step and a call with no argument or with
more than three fail.  Up to `2 ^ 53` every integer is a double, so no element is
rounded when the counter is cast back to a number. -/
theorem C22_range_is_arithmetic_sequence (start stop step : Int) (ip : Interpreter)
    (hstep : step ≠ 0) (hstart : start.natAbs ≤ 2 ^ 53) (hstop : stop.natAbs ≤ 2 ^ 53)
    (hmag : step.natAbs ≤ 2 ^ 53) :
    (∃ len : Nat,
      builtin_range [intValue start, intValue stop, intValue step] ip
        = .ok (.list ((List.range len).map fun (i : Nat) => intValue (start + (i : Int) * step))) ip
      ∧ (∀ i : Nat, i < len → inRange stop step (start + (i : Int) * step))
      ∧ ¬ inRange stop step (start + (len : Int) * step))
    ∧ builtin_range [intValue start, intValue stop] ip
        = builtin_range [intValue start, intValue stop, intValue 1] ip
    ∧ builtin_range [intValue stop] ip
        = builtin_range [intValue 0, intValue stop, intValue 1] ip
    ∧ (∀ n : Nat, n ≤ 2 ^ 53 → builtin_range [intValue n] ip
        = .ok (.list ((List.range n).map fun i => .number (Double.ofNat i))) ip)
    ∧ builtin_range [intValue 0] ip = .ok (.list []) ip
    ∧ builtin_range [intValue 5, intValue 0, intValue (-1)] ip
        = .ok (.list [intValue 5, intValue 4, intValue 3, intValue 2, intValue 1]) ip
    ∧ builtin_range [intValue start, intValue stop, intValue 0] ip
        = throwRT "range step cannot be 0" ip
    ∧ (∀ a b : Value, (∀ x, a = .number x → x.toLongLong.isSome) →
        (∀ x, b = .number x → x.toLongLong.isSome) →
        ∃ msg, builtin_range [a, b, intValue 0] ip = throwRT msg ip)
    ∧ (∀ args : List Value, args.length = 0 ∨ 3 < args.length →
        builtin_range args ip = throwRT "range expects 1..3 args" ip) := by
  have l0 : isLongLong 0 = true := by decide
  have l1 : isLongLong 1 = true := by decide
  have lstart := isLongLong_small start hstart
  have lstop := isLongLong_small stop hstop
  have lstep := isLongLong_small step hmag
  have ex : ∀ i : Int, i.natAbs ≤ 2 ^ 53 → Double.ofLongLong i = Double.ofInt i :=
    ofLongLong_small
  refine ⟨?_, ?_, ?_, ?_, ?_, ?_, ?_, ?_, ?_⟩
  · by_cases hpos : 0 < step
    · obtain ⟨len, h1, h2, h3⟩ := rangeUp_eq stop step hpos (by omega) (by omega)
        (stop - start).toNat start le_rfl (by omega)
      exact ⟨len, builtin_range_three start stop step ip _ hstep lstart lstop lstep
        (by simp only [hpos, if_true, h1]), by simpa [inRange, hpos] using h2,
        by simpa [inRange, hpos] using h3⟩
    · have hneg : step < 0 := by omega
      obtain ⟨len, h1, h2, h3⟩ := rangeDown_eq stop step hneg (by omega) (by omega)
        (start - stop).toNat start le_rfl (by omega)
      exact ⟨len, builtin_range_three start stop step ip _ hstep lstart lstop lstep
        (by simp only [hpos, if_false, h1]), by simpa [inRange, hpos] using h2,
        by simpa [inRange, hpos] using h3⟩
  · exact builtin_range_two start stop ip lstart lstop
  · exact builtin_range_one stop ip lstop
  · intro n hn
    have h := rangeUp_count n hn n 0 (Nat.zero_le n) (by omega)
    simp only [Nat.cast_zero, Nat.sub_zero, Nat.zero_add] at h
    rw [builtin_range_one (n : Int) ip (isLongLong_small _ (by omega))]
    exact builtin_range_three 0 (n : Int) 1 ip _ (by decide) l0 (isLongLong_small _ (by omega)) l1
      (by simpa using h)
  · rw [builtin_range_one 0 ip l0]
    exact builtin_range_three 0 0 1 ip _ (by decide) l0 l0 l1 (by simp [rangeUp])
  · exact builtin_range_three 5 0 (-1) ip _ (by decide) (by decide) l0 (by decide)
      (by simp [rangeDown, isLongLong, intValue, ex])
  · simp only [builtin_range, rangeInts_three start stop 0 lstart lstop l0]
    simp
  · intro a b ha hb
    have hz : (Double.ofInt 0).toLongLong = some 0 := by decide!
    cases a with
    | number x =>
      cases b with
      | number y =>
        obtain ⟨i, hi⟩ := Option.isSome_iff_exists.mp (ha x rfl)
        obtain ⟨j, hj⟩ := Option.isSome_iff_exists.mp (hb y rfl)
        exact ⟨"range step cannot be 0", by simp [builtin_range, rangeInts, intValue, hi, hj, hz]⟩
      | _ =>
        obtain ⟨i, hi⟩ := Option.isSome_iff_exists.mp (ha x rfl)
        exact ⟨"range expects numbers", by simp [builtin_range, rangeInts, intValue, hi]⟩
    | _ => exact ⟨"range expects numbers", by simp [builtin_range, rangeInts]⟩
  · intro args hlen
    simp only [builtin_range]
    rcases hlen with h | h
    · simp [h]
    · simp [h]

theorem C22_range_is_arithmetic_sequence_witness :
    (∃ len : Nat,
      builtin_range [intValue 1, intValue 10, intValue 3] freshIp
        = .ok (.list ((List.range len).map fun (i : Nat) => intValue (1 + (i : Int) * 3))) freshIp
      ∧ (∀ i : Nat, i < len → inRange 10 3 (1 + (i : Int) * 3))
      ∧ ¬ inRange 10 3 (1 + (len : Int) * 3))
    ∧ builtin_range [intValue 5, intValue 0, intValue (-1)] freshIp
      = .ok (.list [intValue 5, intValue 4, intValue 3, intValue 2, intValue 1]) freshIp
    ∧ builtin_range [intValue 1, intValue 10, intValue 0] freshIp
      = throwRT "range step cannot be 0" freshIp :=
  have h := C22_range_is_arithmetic_sequence 1 10 3 freshIp (by decide) (by decide) (by decide)
    (by decide)
  ⟨h.1, h.2.2.2.2.2.1, h.2.2.2.2.2.2.1⟩

/-- C22, the limit of the claim: `range(2^53, 2^53 + 4)` is the list
`[2^53, 2^53, 2^53 + 2, 2^53 + 4]` and not `[2^53, 2^53 + 1, 2^53 + 2, 2^53 + 3]`: the
counter is a `long long` and takes the four values of the sequence, but each element is
the counter cast to a double, and `2^53 + 1` and `2^53 + 3` are not doubles.  The second
element equals the first and the last element is the stop itself, which is not below the
stop; a program observes both. -/
theorem C22_counterexample :
    builtin_range [intValue 9007199254740992, intValue 9007199254740996] freshIp
      = .ok (.list [intValue 9007199254740992, intValue 9007199254740992,
          intValue 9007199254740994, intValue 9007199254740996]) freshIp
    ∧ [intValue 9007199254740992, intValue 9007199254740992,
          intValue 9007199254740994, intValue 9007199254740996]
        ≠ (List.range 4).map (fun (i : Nat) => intValue (9007199254740992 + (i : Int) * 1))
    ∧ ¬ inRange 9007199254740996 1 9007199254740996
    ∧ vmStdout (runFresh rangeProgram).vm? = "4\ntrue\nfalse\n" := by
  have e0 : Double.ofLongLong 9007199254740992 = Double.ofInt 9007199254740992 := by decide!
  have e1 : Double.ofLongLong 9007199254740993 = Double.ofInt 9007199254740992 := by decide!
  have e2 : Double.ofLongLong 9007199254740994 = Double.ofInt 9007199254740994 := by decide!
  have e3 : Double.ofLongLong 9007199254740995 = Double.ofInt 9007199254740996 := by decide!
  refine ⟨?_, ?_, ?_, by decide!⟩
  · rw [builtin_range_two _ _ freshIp (by decide) (by decide)]
    exact builtin_range_three _ _ 1 freshIp _ (by decide) (by decide) (by decide) (by decide)
      (by simp [rangeUp, isLongLong, intValue, e0, e1, e2, e3])
  · simp [intValue, Double.ofInt, List.range, List.range.loop]
  · simp [inRange]

/-! ## C29: recursion and early return -/

/-- The call `f(n - j)` evaluates its argument and calls the function bound to `f`. -/
theorem fibCall_eq (k n j col S : Nat) (s : Interpreter) (hj : j ≤ n) (hle : n ≤ 2 ^ 53)
    (hn : s.getPtr s.env "n" = some (natValue n))
    (hf : s.getPtr s.env "f" = some (.function (fibFunction S))) :
    evaluate (k + 5) (fibCall (j : Int) col) s
      = callFunction (k + 3) (fibFunction S) [natValue (n - j)] s := by
  have harg : evaluate (k + 2) (.BinaryExpr (.VarExpr "n") ⟨.MINUS, "-", 1, col⟩
      (.LiteralExpr (.number ⟨(j : Int), 1⟩))) s = .ok (natValue (n - j)) s := by
    rw [evaluate_BinaryExpr_plain _ _ _ _ _ (by simp) (by simp) (by simp) (by simp),
      evaluate_VarExpr, hn]
    simp only [Option.getD, Res.bind, evaluate, Literal.toValue, natValue, evalBinary, numOp, num,
      liftE, ofNat_sub n j hj hle]
  have hargs : evalArgs (k + 3) [.BinaryExpr (.VarExpr "n") ⟨.MINUS, "-", 1, col⟩
      (.LiteralExpr (.number ⟨(j : Int), 1⟩))] s = .ok [natValue (n - j)] s := by
    rw [evalArgs, harg]
    simp only [Res.bind, evalArgs]
  have hcallee : evaluate (k + 3) (.VarExpr "f") s = .ok (.function (fibFunction S)) s := by
    rw [evaluate_VarExpr, hf]
    rfl
  rw [fibCall, evaluate]
  rw [evalCall]
  simp only [isMarker, hcallee, hargs, Res.bind]
  simp

/-- The recursive branch of the body, given the outcomes of the two calls. -/
theorem fibBody_big (k n S : Nat) (s s1 s2 : Interpreter) (a b : Double) (hge : 2 ≤ n)
    (hle : n ≤ 2 ^ 53)
    (hn : s.getPtr s.env "n" = some (natValue n))
    (hf : s.getPtr s.env "f" = some (.function (fibFunction S)))
    (h1 : callFunction (k + 3) (fibFunction S) [natValue (n - 1)] s = .ok (.number a) s1)
    (hn1 : s1.getPtr s1.env "n" = some (natValue n))
    (hf1 : s1.getPtr s1.env "f" = some (.function (fibFunction S)))
    (h2 : callFunction (k + 3) (fibFunction S) [natValue (n - 2)] s1 = .ok (.number b) s2) :
    execStmts (k + 9) fibBody s = .throw (.ReturnSignal (.number (a.add b))) s2 := by
  have hlt : ¬ n < 2 := by omega
  have c1 := fibCall_eq k n 1 41 S s (by omega) hle hn hf
  have c2 := fibCall_eq k n 2 48 S s1 (by omega) hle hn1 hf1
  simp only [Nat.cast_one] at c1
  simp only [Nat.cast_ofNat] at c2
  have hret : evaluate (k + 6) (.BinaryExpr (fibCall 1 41) ⟨.PLUS, "+", 1, 44⟩ (fibCall 2 48)) s
      = .ok (.number (a.add b)) s2 := by
    rw [evaluate_BinaryExpr_plain _ _ _ _ _ (by decide) (by decide) (by decide) (by decide),
      c1, h1]
    simp only [Res.bind]
    rw [c2, h2]
    simp only [Res.bind, evalBinary, liftE]
  rw [fibBody, execStmts_cons, execute_IfStmt_none, fib_test (k + 5) n s hn]
  simp only [Res.bind, isTruthy, hlt, decide_False, Bool.false_eq_true, if_false]
  rw [execStmts_cons, execute_ReturnStmt, hret]
  rfl

/-- With `f` bound in scope `S` to the function of `fibSource`, the call `f(n)` on a
well-formed heap returns, for every `n` up to `2 ^ 53` and every fuel from `8 n + 11` on,
the number `fibDouble n`, in a state that extends the caller's by the environments of the
calls. -/
theorem fib_call (n : Nat) :
    ∀ (ip : Interpreter) (S fuel : Nat), n ≤ 2 ^ 53 → ip.WellFormed → S < ip.envs.length →
      ip.getPtr S "f" = some (.function (fibFunction S)) → 8 * n + 11 ≤ fuel →
      ∃ ip1, callFunction fuel (fibFunction S) [natValue n] ip = .ok (.number (fibDouble n)) ip1
        ∧ ip.Extends ip1 ∧ ip1.WellFormed := by
  induction n using Nat.strong_induction_on with
  | _ n ih =>
    intro ip S fuel hle hwf hS hf hfuel
    obtain ⟨k, rfl⟩ : ∃ k, fuel = (k + 10) + 1 := ⟨fuel - 11, by omega⟩
    rw [callFunction_matching (k + 10) (fibFunction S) [natValue n] ip rfl]
    -- the state in which the body runs
    have hfS : (fibFunction S).closure = S := rfl
    have hbody : (fibFunction S).body = fibBody := rfl
    rw [hbody]
    have hbp := bindParams_fib ip S (natValue n)
    generalize hs : ({ (ip.bindParams (fibFunction S) [natValue n]) with env := ip.envs.length }
      : Interpreter) = s
    have hsenvs : s.envs = ip.envs ++ [⟨some S, [("n", natValue n)]⟩] := by
      rw [← hs, hbp]
    have hsenv : s.env = ip.envs.length := by rw [← hs]
    have hswf : s.WellFormed := wellFormed_append ip hwf S _ hS s hsenvs
    have hslen : s.envs.length = ip.envs.length + 1 := by rw [hsenvs]; simp
    have hsn : s.getPtr s.env "n" = some (natValue n) := by
      rw [hsenv]
      apply getPtr_of_defined_here
      simp [Interpreter.envAt, hsenvs, List.getD_eq_getElem?_getD, mapFind]
    have hsf : s.getPtr s.env "f" = some (.function (fibFunction S)) := by
      rw [hsenv, ← hs]
      rw [getPtr_bindParams ip hwf (fibFunction S) [natValue n] "f" (by simp [fibFunction]) rfl hS
        ip.envs.length]
      exact hf
    have hblock : ∀ r : Res Unit, execStmts (k + 9) fibBody s = r →
        execBlock (k + 10) fibBody ip.envs.length (ip.bindParams (fibFunction S) [natValue n])
          = match r with
            | .ok _ ip1 => .ok () { ip1 with env := ip.env }
            | .throw e ip1 => .throw e { ip1 with env := ip.env }
            | .timeout => .timeout
            | .unsupported w => .unsupported w := by
      intro r hr
      have henv0 : (ip.bindParams (fibFunction S) [natValue n]).env = ip.env := by rw [hbp]
      simp only [execBlock, hs, hr, henv0]
      try (cases r <;> rfl)
    by_cases hlt : n < 2
    · have hb := fibBody_small (k + 4) n s hlt hsn
      rw [hblock _ hb]
      have hfib : fibDouble n = Double.ofNat n := by
        interval_cases n <;> rfl
      refine ⟨{ s with env := ip.env }, ?_, ⟨[⟨some S, [("n", natValue n)]⟩], ?_⟩, ?_⟩
      · simp [finishCall, fibFunction, hfib, natValue]
      · rw [← hs, hbp]
      · exact wellFormed_append ip hwf S _ hS _ hsenvs
    · have hge : 2 ≤ n := by omega
      have hSs : S < s.envs.length := by omega
      have hfS' : s.getPtr S "f" = some (.function (fibFunction S)) := by
        rw [← hf]
        apply getPtr_of_agree ip s hwf (by omega) _ S hS
        intro e he
        simp [Interpreter.envAt, hsenvs, List.getD_eq_getElem?_getD, List.getElem?_append_left he]
      obtain ⟨s1, h1, hx1, hwf1⟩ := ih (n - 1) (by omega) s S (k + 3) (by omega) hswf hSs hfS' (by omega)
      have hL : s.env < s.envs.length := by omega
      have hn1 : s1.getPtr s1.env "n" = some (natValue n) := by
        rw [extends_env hx1, extends_getPtr hx1 hswf s.env hL]; exact hsn
      have hf1 : s1.getPtr s1.env "f" = some (.function (fibFunction S)) := by
        rw [extends_env hx1, extends_getPtr hx1 hswf s.env hL]; exact hsf
      have hS1 : S < s1.envs.length := Nat.lt_of_lt_of_le hSs (extends_length hx1)
      have hfS1 : s1.getPtr S "f" = some (.function (fibFunction S)) := by
        rw [extends_getPtr hx1 hswf S hSs]; exact hfS'
      obtain ⟨s2, h2, hx2, hwf2⟩ := ih (n - 2) (by omega) s1 S (k + 3) (by omega) hwf1 hS1 hfS1 (by omega)
      have hb := fibBody_big k n S s s1 s2 (fibDouble (n - 1)) (fibDouble (n - 2)) hge hle hsn
        hsf h1 hn1 hf1 h2
      rw [hblock _ hb]
      have hfib : (fibDouble (n - 1)).add (fibDouble (n - 2)) = fibDouble n := by
        obtain ⟨m, rfl⟩ : ∃ m, n = m + 2 := ⟨n - 2, by omega⟩
        simp only [Nat.add_sub_cancel]
        have : m + 2 - 1 = m + 1 := by omega
        rw [this, fibDouble]
      obtain ⟨e1, he1⟩ := hx1
      obtain ⟨e2, he2⟩ := hx2
      refine ⟨{ s2 with env := ip.env }, ?_, ⟨[⟨some S, [("n", natValue n)]⟩] ++ e1 ++ e2, ?_⟩, ?_⟩
      · simp [finishCall, fibFunction, hfib]
      · rw [he2, he1, ← hs, hbp]
        simp
      · intro e he p hp
        exact hwf2 e he p hp


/-- Up to the 78th the Fibonacci numbers are below `2 ^ 53`, and the double recurrence
computes them exactly. -/
theorem fibDouble_eq_fib (n : Nat) (h : n ≤ 78) : fibDouble n = Double.ofNat (Nat.fib n) := by
  induction n using Nat.strong_induction_on with
  | _ n ih =>
    match n, ih, h with
    | 0, _, _ => rfl
    | 1, _, _ => rfl
    | m + 2, ih, h =>
      rw [fibDouble, ih (m + 1) (by omega) (by omega), ih m (by omega) (by omega),
        Nat.fib_add_two, Nat.add_comm (Nat.fib m)]
      apply ofNat_add
      have h1 : Nat.fib (m + 2) ≤ Nat.fib 78 := Nat.fib_mono h
      have h2 : Nat.fib 78 = 8944394323791464 := by norm_num [Nat.fib_add_two]
      rw [Nat.fib_add_two, h2, Nat.add_comm] at h1
      exact le_trans h1 (by norm_num)

/-- The 79th value of the double recurrence: the sum of the 77th and 78th Fibonacci
numbers rounded to the nearest double, which is one less than the 79th Fibonacci number. -/
theorem fibDouble_79 : fibDouble 79 = Double.ofNat 14472334024676220 := by
  have h78 : Nat.fib 78 = 8944394323791464 := by norm_num [Nat.fib_add_two]
  have h77 : Nat.fib 77 = 5527939700884757 := by norm_num [Nat.fib_add_two]
  have e : fibDouble 79 = (fibDouble 78).add (fibDouble 77) := by rw [fibDouble]
  rw [e, fibDouble_eq_fib 78 (by omega), fibDouble_eq_fib 77 (by omega), h78, h77]
  decide!

/-- C29: `func f(n){ if(n<2) return n; return f(n-1)+f(n-2);}` parses to a function
statement whose execution binds `f`, in the current scope, to a function closed over
that scope.  While `f` is so bound in scope `S` of a well-formed heap, the call `f(n)`
returns, for every natural number `n` up to 78 and every fuel from `8 n + 11` on, the
`n`-th Fibonacci number; the state afterwards has the same environment pointer and
differs from the state before only by the environments the calls allocated.  The program
that prints `f(10)` prints 55.  Numbers are doubles: every sum is rounded to the nearest
double, and up to the 78th Fibonacci number no sum needs rounding. -/
theorem C29_recursive_fibonacci (n : Nat) (ip : Interpreter) (S fuel : Nat) (hn : n ≤ 78)
    (hwf : ip.WellFormed) (hS : S < ip.envs.length)
    (hf : ip.getPtr S "f" = some (.function (fibFunction S))) (hfuel : 8 * n + 11 ≤ fuel) :
    (∃ ip1, callFunction fuel (fibFunction S) [natValue n] ip = .ok (natValue (Nat.fib n)) ip1
      ∧ ip1.env = ip.env ∧ ip.Extends ip1)
    ∧ (frontEnd 200 fibSource).yields [.FunctionStmt "f" ["n"] fibBody] = true
    ∧ (∀ (k : Nat) (s : Interpreter), execute (k + 1) (.FunctionStmt "f" ["n"] fibBody) s
        = .ok () (s.define s.env "f" (.function (fibFunction s.env))))
    ∧ vmStdout (runFresh fibProgram).vm? = "55\n" := by
  obtain ⟨ip1, h1, h2, _⟩ := fib_call n ip S fuel (le_trans hn (by norm_num)) hwf hS hf hfuel
  rw [fibDouble_eq_fib n hn] at h1
  refine ⟨⟨ip1, h1, extends_env h2, h2⟩, by decide!, ?_, by decide!⟩
  intro k s
  simp only [execute, fibFunction]

theorem C29_recursive_fibonacci_witness :
    ∃ ip1, callFunction 51 (fibFunction globals) [natValue 5] fibIp
        = .ok (natValue (Nat.fib 5)) ip1
      ∧ ip1.env = fibIp.env ∧ fibIp.Extends ip1 :=
  (C29_recursive_fibonacci 5 fibIp globals 51 (by decide)
    (wellFormed_define freshIp (by decide) globals "f" _) (by decide)
    (getPtr_define_self freshIp globals "f" _ (by decide)) (by decide)).1

/-- C29, the limit of the claim: with `f` bound in the globals of a fresh interpreter as
`fibSource` binds it, the call `f(79)` returns, for every fuel from 643 on, the number
14472334024676220, while the 79th Fibonacci number is 14472334024676221: the sum of the
77th and the 78th Fibonacci numbers is odd and above `2 ^ 53`, so it is not a double, and
the addition rounds it to the even neighbour. -/
theorem C29_counterexample :
    Nat.fib 79 = 14472334024676221
    ∧ (∀ fuel, 643 ≤ fuel →
        ∃ ip1, callFunction fuel (fibFunction globals) [natValue 79] fibIp
          = .ok (natValue 14472334024676220) ip1)
    ∧ natValue 14472334024676220 ≠ natValue (Nat.fib 79)
    ∧ ¬ ∃ ip1, callFunction 643 (fibFunction globals) [natValue 79] fibIp
          = .ok (natValue (Nat.fib 79)) ip1 := by
  have hfib : Nat.fib 79 = 14472334024676221 := by norm_num [Nat.fib_add_two]
  have hcall : ∀ fuel, 643 ≤ fuel →
      ∃ ip1, callFunction fuel (fibFunction globals) [natValue 79] fibIp
        = .ok (natValue 14472334024676220) ip1 := by
    intro fuel hfuel
    obtain ⟨ip1, h1, _, _⟩ := fib_call 79 fibIp globals fuel (by norm_num)
      (wellFormed_define freshIp (by decide) globals "f" _) (by decide)
      (getPtr_define_self freshIp globals "f" _ (by decide)) (by omega)
    rw [fibDouble_79] at h1
    exact ⟨ip1, h1⟩
  have hne : natValue 14472334024676220 ≠ natValue (Nat.fib 79) := by
    rw [hfib]
    simp [natValue, Double.ofNat]
  refine ⟨hfib, hcall, hne, ?_⟩
  rintro ⟨ip1, h1⟩
  obtain ⟨ip2, h2⟩ := hcall 643 (le_refl _)
  rw [h2] at h1
  injection h1 with hv _
  exact hne hv

/-! ## The error of rounding -/

theorem norm_eq_normalize (a : Int) (b : Nat) (hb : b ≠ 0) :
    Double.norm a b = ⟨(Rat.normalize a b hb).num, (Rat.normalize a b hb).den⟩ := by
  have hg : Nat.gcd a.natAbs b ≠ 0 := fun h0 => hb (Nat.eq_zero_of_gcd_eq_zero_right h0)
  simp only [Double.norm, hg, if_false, Rat.normalize_eq]

theorem toRat_norm (a : Int) (b : Nat) (hb : b ≠ 0) :
    (Double.norm a b).toRat = (a : ℚ) / (b : ℚ) := by
  rw [norm_eq_normalize a b hb, Double.toRat]
  simp only
  rw [Rat.num_div_den, Rat.normalize_eq_mkRat, Rat.mkRat_eq_div]

theorem norm_den_pos (a : Int) (b : Nat) (hb : b ≠ 0) : 0 < (Double.norm a b).den := by
  rw [norm_eq_normalize a b hb]
  exact Rat.den_pos _

theorem norm_num_pos (a : Int) (b : Nat) (ha : 0 < a) (hb : b ≠ 0) :
    0 < (Double.norm a b).num := by
  rw [norm_eq_normalize a b hb]
  simp only
  rw [Rat.num_pos, Rat.normalize_eq_mkRat, Rat.mkRat_eq_div]
  have h1 : (0 : ℚ) < (a : ℚ) := by exact_mod_cast ha
  have h2 : (0 : ℚ) < (b : ℚ) := by exact_mod_cast Nat.pos_of_ne_zero hb
  exact div_pos h1 h2

/-- Rounding to nearest moves a quotient by at most one half. -/
theorem roundHalfEven_err (N D : Nat) (hD : 0 < D) :
    |((roundHalfEven N D : Nat) : ℚ) - (N : ℚ) / (D : ℚ)| ≤ 1 / 2 := by
  have hDq : (0 : ℚ) < (D : ℚ) := by exact_mod_cast hD
  have hdm : (N : ℚ) = (D : ℚ) * ((N / D : Nat) : ℚ) + ((N % D : Nat) : ℚ) := by
    exact_mod_cast (Nat.div_add_mod N D).symm
  have hr : ((N % D : Nat) : ℚ) < (D : ℚ) := by exact_mod_cast Nat.mod_lt N hD
  have hr0 : (0 : ℚ) ≤ ((N % D : Nat) : ℚ) := by positivity
  have key : ∀ m : ℚ, m - (N : ℚ) / (D : ℚ) = (m * (D : ℚ) - (N : ℚ)) / (D : ℚ) := by
    intro m
    field_simp
  rw [key, abs_le, le_div_iff₀ hDq, div_le_iff₀ hDq]
  simp only [roundHalfEven]
  split_ifs with h1 h2 h3
  · have c1 : (2 : ℚ) * ((N % D : Nat) : ℚ) < (D : ℚ) := by exact_mod_cast h1
    constructor <;> nlinarith
  · have c2 : (D : ℚ) < (2 : ℚ) * ((N % D : Nat) : ℚ) := by exact_mod_cast h2
    push_cast
    constructor <;> nlinarith
  · have c1 : (D : ℚ) ≤ (2 : ℚ) * ((N % D : Nat) : ℚ) := by exact_mod_cast Nat.le_of_not_lt h1
    have c2 : (2 : ℚ) * ((N % D : Nat) : ℚ) ≤ (D : ℚ) := by exact_mod_cast Nat.le_of_not_lt h2
    constructor <;> nlinarith
  · have c1 : (D : ℚ) ≤ (2 : ℚ) * ((N % D : Nat) : ℚ) := by exact_mod_cast Nat.le_of_not_lt h1
    have c2 : (2 : ℚ) * ((N % D : Nat) : ℚ) ≤ (D : ℚ) := by exact_mod_cast Nat.le_of_not_lt h2
    push_cast
    constructor <;> nlinarith

/-- A natural number less than one half away from a quotient is what the quotient rounds
to. -/
theorem roundHalfEven_near (N D M : Nat) (hD : 0 < D)
    (h : |(N : ℚ) / (D : ℚ) - (M : ℚ)| < 1 / 2) : roundHalfEven N D = M := by
  have h1 := roundHalfEven_err N D hD
  have h2 : |((roundHalfEven N D : Nat) : ℚ) - (M : ℚ)| < 1 := by
    have e : ((roundHalfEven N D : Nat) : ℚ) - (M : ℚ)
        = (((roundHalfEven N D : Nat) : ℚ) - (N : ℚ) / (D : ℚ)) + ((N : ℚ) / (D : ℚ) - (M : ℚ)) := by
      ring
    rw [e]
    calc _ ≤ _ := abs_add _ _
      _ < 1 / 2 + 1 / 2 := add_lt_add_of_le_of_lt h1 h
      _ = 1 := by norm_num
  have h3 : |((roundHalfEven N D : Nat) : Int) - (M : Int)| < 1 := by
    have : ((|((roundHalfEven N D : Nat) : Int) - (M : Int)| : Int) : ℚ) < ((1 : Int) : ℚ) := by
      push_cast
      exact h2
    exact_mod_cast this
  have h4 := Int.abs_lt_one_iff.mp h3
  omega

/-- The binary exponent brackets the fraction between two powers of two. -/
theorem exponent_cases (n d : Nat) (hn : 0 < n) (hd : 0 < d) :
    (∃ t : Nat, Double.exponent n d = (t : Int) ∧ d * 2 ^ t ≤ n ∧ n < d * 2 ^ (t + 1))
    ∨ (∃ j : Nat, 1 ≤ j ∧ Double.exponent n d = -(j : Int) ∧ d ≤ n * 2 ^ j
        ∧ n * 2 ^ (j - 1) < d) := by
  by_cases hdn : d ≤ n
  · left
    have hq : n / d ≠ 0 := by
      have := Nat.div_pos hdn hd
      omega
    have h1 : 2 ^ Nat.log 2 (n / d) ≤ n / d := Nat.pow_log_le_self 2 hq
    have h2 : n / d < 2 ^ (Nat.log 2 (n / d) + 1) := Nat.lt_pow_succ_log_self (by decide) _
    have hge : d * 2 ^ Nat.log 2 (n / d) ≤ n :=
      le_trans (Nat.mul_le_mul_left d h1) (Nat.mul_div_le n d)
    have hlt : n < d * 2 ^ (Nat.log 2 (n / d) + 1) := by
      rw [Nat.mul_comm]
      exact (Nat.div_lt_iff_lt_mul hd).mp h2
    exact ⟨Nat.log 2 (n / d), exponent_up n d _ hd hge hlt, hge, hlt⟩
  · right
    have hnd : n < d := by omega
    have hex : ∃ j, d ≤ n * 2 ^ j := by
      refine ⟨d, ?_⟩
      have h1 : d < 2 ^ d := Nat.lt_two_pow d
      have h2 : 1 * 2 ^ d ≤ n * 2 ^ d := Nat.mul_le_mul_right _ hn
      omega
    have hmin : ∀ m, m < Nat.find hex → ¬ d ≤ n * 2 ^ m := fun m hm => Nat.find_min hex hm
    have hspec := Nat.find_spec hex
    generalize Nat.find hex = j at hmin hspec
    have hj : 1 ≤ j := by
      rcases Nat.eq_zero_or_pos j with h0 | h0
      · rw [h0] at hspec
        simp at hspec
        omega
      · exact h0
    have hlt : n * 2 ^ (j - 1) < d := by
      have := hmin (j - 1) (show j - 1 < j by omega)
      omega
    exact ⟨j, hj, exponent_down n d j hn hj hspec hlt, hspec, hlt⟩

/-- Rounding a positive fraction between `2 ^ -1022` and `2 ^ 53`: the numerator scaled
into `[2 ^ 52, 2 ^ 53)` is rounded to a natural number. -/
theorem rnd_pos_spec (n d : Nat) (hn : 0 < n) (hd : 0 < d) (hlo : d ≤ n * 2 ^ 1022)
    (hhi : n < d * 2 ^ 53) :
    ∃ p m : Nat, Double.rnd ⟨(n : Int), d⟩ = Double.norm (m : Int) (2 ^ p)
      ∧ Double.rndAt (Double.exponent n d - 52) n d = Double.norm (m : Int) (2 ^ p)
      ∧ m = roundHalfEven (n * 2 ^ p) d
      ∧ d * 2 ^ 52 ≤ n * 2 ^ p ∧ n * 2 ^ p < d * 2 ^ 53 := by
  have hn0 : ¬ ((n : Int) = 0) := by omega
  have hnpos : (0 : Int) < (n : Int) := by omega
  rcases exponent_cases n d hn hd with ⟨t, he, hge, hlt⟩ | ⟨j, hj, he, hge, hlt⟩
  · have ht : t ≤ 52 := by
      by_contra hcon
      have h53 : 53 ≤ t := by omega
      have : d * 2 ^ 53 ≤ d * 2 ^ t :=
        Nat.mul_le_mul_left d (Nat.pow_le_pow_right (by decide) h53)
      omega
    have hmax : max (t : Int) (-1022) - 52 = -((52 - t : Nat) : Int) := by omega
    have he2 : (t : Int) - 52 = -((52 - t : Nat) : Int) := by omega
    have hp : 2 ^ t * 2 ^ (52 - t) = 2 ^ 52 := by
      rw [← pow_add]
      congr 1
      omega
    have hp1 : 2 ^ (t + 1) * 2 ^ (52 - t) = 2 ^ 53 := by
      rw [← pow_add]
      congr 1
      omega
    refine ⟨52 - t, roundHalfEven (n * 2 ^ (52 - t)) d, ?_, ?_, rfl, ?_, ?_⟩
    · simp only [Double.rnd, hn0, if_false, Int.natAbs_ofNat, he, hmax, hnpos, if_true,
        Double.rndAt, neg_neg, Int.toNat_ofNat, Int.toNat_neg_nat, pow_zero, Nat.mul_one]
    · simp only [he, he2, Double.rndAt, neg_neg, Int.toNat_ofNat, Int.toNat_neg_nat, pow_zero,
        Nat.mul_one]
    · calc d * 2 ^ 52 = d * 2 ^ t * 2 ^ (52 - t) := by rw [Nat.mul_assoc, hp]
        _ ≤ n * 2 ^ (52 - t) := Nat.mul_le_mul_right _ hge
    · calc n * 2 ^ (52 - t) < d * 2 ^ (t + 1) * 2 ^ (52 - t) :=
            Nat.mul_lt_mul_of_pos_right hlt (Nat.pow_pos (by decide))
        _ = d * 2 ^ 53 := by rw [Nat.mul_assoc, hp1]
  · have hj2 : j ≤ 1022 := by
      by_contra hcon
      have h1 : 1022 ≤ j - 1 := by omega
      have : n * 2 ^ 1022 ≤ n * 2 ^ (j - 1) :=
        Nat.mul_le_mul_left n (Nat.pow_le_pow_right (by decide) h1)
      exact lt_irrefl _ (lt_of_lt_of_le hlt (le_trans hlo this))
    have hmax : max (-(j : Int)) (-1022) - 52 = -((52 + j : Nat) : Int) := by omega
    have he2 : -(j : Int) - 52 = -((52 + j : Nat) : Int) := by omega
    have hp : 2 ^ j * 2 ^ 52 = 2 ^ (52 + j) := by
      rw [← pow_add]
      congr 1
      omega
    have hp1 : 2 ^ (j - 1) * 2 ^ 53 = 2 ^ (52 + j) := by
      rw [← pow_add]
      congr 1
      omega
    refine ⟨52 + j, roundHalfEven (n * 2 ^ (52 + j)) d, ?_, ?_, rfl, ?_, ?_⟩
    · simp only [Double.rnd, hn0, if_false, Int.natAbs_ofNat, he, hmax, hnpos, if_true,
        Double.rndAt, neg_neg, Int.toNat_ofNat, Int.toNat_neg_nat, pow_zero, Nat.mul_one]
    · simp only [he, he2, Double.rndAt, neg_neg, Int.toNat_ofNat, Int.toNat_neg_nat, pow_zero,
        Nat.mul_one]
    · calc d * 2 ^ 52 ≤ n * 2 ^ j * 2 ^ 52 := Nat.mul_le_mul_right _ hge
        _ = n * 2 ^ (52 + j) := by rw [Nat.mul_assoc, hp]
    · calc n * 2 ^ (52 + j) = n * 2 ^ (j - 1) * 2 ^ 53 := by rw [Nat.mul_assoc, hp1]
        _ < d * 2 ^ 53 := Nat.mul_lt_mul_of_pos_right hlt (Nat.pow_pos (by decide))

/-- Rounding a positive fraction between `2 ^ -1022` and `2 ^ 53` yields a positive
number within the fraction's `2 ^ -53`-th part of it. -/
theorem rnd_err (n d : Nat) (hn : 0 < n) (hd : 0 < d) (hlo : d ≤ n * 2 ^ 1022)
    (hhi : n < d * 2 ^ 53) :
    0 < (Double.rnd ⟨(n : Int), d⟩).num ∧ 0 < (Double.rnd ⟨(n : Int), d⟩).den
    ∧ |(Double.rnd ⟨(n : Int), d⟩).toRat - (n : ℚ) / (d : ℚ)| ≤ (n : ℚ) / (d : ℚ) / 2 ^ 53
    ∧ Double.rndAt (Double.exponent n d - 52) n d = Double.rnd ⟨(n : Int), d⟩ := by
  obtain ⟨p, m, hr, hat, hm, hb1, hb2⟩ := rnd_pos_spec n d hn hd hlo hhi
  have hpne : (2 : Nat) ^ p ≠ 0 := by positivity
  have hdq : (0 : ℚ) < (d : ℚ) := by exact_mod_cast hd
  have hpq : (0 : ℚ) < (2 : ℚ) ^ p := by positivity
  have herr := roundHalfEven_err (n * 2 ^ p) d hd
  rw [← hm] at herr
  push_cast at herr
  have hb1q : (d : ℚ) * 2 ^ 52 ≤ (n : ℚ) * 2 ^ p := by exact_mod_cast hb1
  have hlow : (2 : ℚ) ^ 52 ≤ (n : ℚ) * 2 ^ p / (d : ℚ) := by
    rw [le_div_iff₀ hdq]
    linarith
  obtain ⟨herr1, herr2⟩ := abs_le.mp herr
  have hmpos : (0 : ℚ) < (m : ℚ) := by
    have : (1 : ℚ) ≤ 2 ^ 52 := by norm_num
    linarith
  have hmpos' : (0 : Int) < (m : Int) := by exact_mod_cast hmpos
  refine ⟨?_, ?_, ?_, ?_⟩
  · rw [hr]
    exact norm_num_pos _ _ hmpos' hpne
  · rw [hr]
    exact norm_den_pos _ _ hpne
  · rw [hr, toRat_norm _ _ hpne]
    push_cast
    have e : (m : ℚ) / 2 ^ p - (n : ℚ) / (d : ℚ)
        = ((m : ℚ) - (n : ℚ) * 2 ^ p / (d : ℚ)) / 2 ^ p := by
      field_simp
      ring
    have e2 : (n : ℚ) / (d : ℚ) / 2 ^ 53 = ((n : ℚ) * 2 ^ p / (d : ℚ) / 2 ^ 53) / 2 ^ p := by
      field_simp
      ring
    rw [e, e2, abs_div, abs_of_pos hpq]
    apply div_le_div_of_nonneg_right _ (le_of_lt hpq)
    have h53 : (n : ℚ) * 2 ^ p / (d : ℚ) / 2 ^ 53 ≥ 1 / 2 := by
      rw [ge_iff_le, le_div_iff₀ (by positivity)]
      have : (2 : ℚ) ^ 53 = 2 * 2 ^ 52 := by norm_num
      rw [this]
      linarith
    exact le_trans herr h53
  · rw [hat, hr]

/-! ## C30: the display form of a literal read back -/

/-- A numeral lexes to a single NUMBER token and is read back by `std::stod`. -/
theorem reparseNumber_numeral (I F : List Char) (hne : I ≠ []) (hI : allDigits I = true)
    (hF : allDigits F = true) :
    reparseNumber (String.mk (I ++ (if F.isEmpty then [] else '.' :: F)))
      = stod (String.mk (I ++ (if F.isEmpty then [] else '.' :: F))) := by
  cases I with
  | nil => exact absurd rfl hne
  | cons c0 I =>
    have hc0 : isDigit c0 = true := by
      simp only [allDigits, List.all_cons, Bool.and_eq_true] at hI
      exact hI.1
    have hI' : allDigits I = true := by
      simp only [allDigits, List.all_cons, Bool.and_eq_true] at hI
      exact hI.2
    generalize hcs : (c0 :: I ++ (if F.isEmpty then [] else '.' :: F)) = cs
    have hlen : cs.length = (I ++ (if F.isEmpty then [] else '.' :: F)).length + 1 := by
      rw [← hcs]; rfl
    have hget : cs[0]?.getD NUL = c0 := by rw [← hcs]; simp
    have hstep : (Lexer.new (String.mk cs)).scanStep
        = .ok (({ (Lexer.new (String.mk cs)) with start := (Lexer.new (String.mk cs)).current }
            : Lexer).advance.2).number := by
      apply scanStep_digit
      simp only [Lexer.new, Lexer.advance]
      split <;> simpa [hget] using hc0
    obtain ⟨b1, b2, b3, b4⟩ := advance_fields
      ({ (Lexer.new (String.mk cs)) with start := (Lexer.new (String.mk cs)).current } : Lexer)
    generalize (({ (Lexer.new (String.mk cs)) with start := (Lexer.new (String.mk cs)).current }
      : Lexer).advance.2) = lxA at hstep b1 b2 b3 b4
    have hsrcA : lxA.src = cs := b1
    obtain ⟨line, col, n1, n2, n3⟩ := number_numeral c0 I F hI' hF lxA (by rw [hsrcA, hcs]) b2 b3
    have hendN : lxA.number.isAtEnd = true := by
      simp [Lexer.isAtEnd, n1, n2]
    have hnotend : (Lexer.new (String.mk cs)).isAtEnd = false := by
      simp [Lexer.isAtEnd, Lexer.new, hlen]
    have hscan : (Lexer.new (String.mk cs)).scan
        = .ok [⟨.NUMBER, String.mk cs, line, col⟩,
            ⟨.END_OF_FILE, "", lxA.number.line, lxA.number.col⟩] := by
      have hsl : (Lexer.new (String.mk cs)).src.length = (cs.length - 1) + 1 := by
        simp only [Lexer.new]; omega
      simp only [Lexer.scan]
      rw [hsl]
      simp only [Lexer.scanLoop, hnotend, Bool.false_eq_true, if_false, hstep,
        scanLoop_atEnd _ _ hendN, n3, b4, hsrcA]
      rfl
    simp only [reparseNumber, lex, hscan, if_true]


theorem stod_congr (a b : String) (h : stodLexeme a = stodLexeme b) : stod a = stod b := by
  simp only [stod, h]

/-- The double nearest to `M / 10 ^ t`, for a six-digit `M` and `t ≤ 9`, is in range and
has the six significant digits of `M` with decimal exponent `5 - t`. -/
theorem rnd_six (M t : Nat) (hM1 : 100000 ≤ M) (hM2 : M < 1000000) (ht : t ≤ 9) :
    (Double.norm (M : Int) (10 ^ t)).isZero = false
    ∧ (Double.norm (M : Int) (10 ^ t)).outOfRange = false
    ∧ 0 < (Double.norm (M : Int) (10 ^ t)).rnd.num
    ∧ Double.sig6 (Double.norm (M : Int) (10 ^ t)).rnd.num.natAbs
        (Double.norm (M : Int) (10 ^ t)).rnd.den = (M, (5 : Int) - (t : Int)) := by
  rcases Nat.eq_or_lt_of_le hM1 with hM | hM
  · subst hM
    interval_cases t <;> exact ⟨by decide!, by decide!, by decide!, by decide!⟩
  have hM3 : 100001 ≤ M := hM
  have hpow : 0 < 10 ^ t := Nat.pow_pos (by decide)
  have hpne : (10 : Nat) ^ t ≠ 0 := by omega
  have hg : Nat.gcd M (10 ^ t) ≠ 0 := fun h0 => by
    have := Nat.eq_zero_of_gcd_eq_zero_right h0
    omega
  have hgM : Nat.gcd M (10 ^ t) ∣ M := Nat.gcd_dvd_left _ _
  have hgP : Nat.gcd M (10 ^ t) ∣ 10 ^ t := Nat.gcd_dvd_right _ _
  obtain ⟨n, hn⟩ := hgM
  obtain ⟨d, hd⟩ := hgP
  generalize hgdef : Nat.gcd M (10 ^ t) = g at hg hn hd
  have hgpos : 0 < g := Nat.pos_of_ne_zero hg
  have hnum : (Double.norm (M : Int) (10 ^ t)).num = (n : Int) := by
    simp only [Double.norm, Int.natAbs_ofNat, hgdef, hg, if_false]
    rw [hn]
    push_cast
    exact Int.mul_ediv_cancel_left _ (by exact_mod_cast hg)
  have hden : (Double.norm (M : Int) (10 ^ t)).den = d := by
    simp only [Double.norm, Int.natAbs_ofNat, hgdef, hg, if_false]
    rw [hd]
    exact Nat.mul_div_cancel_left _ hgpos
  have hX : Double.norm (M : Int) (10 ^ t) = ⟨(n : Int), d⟩ := by
    rw [← hnum, ← hden]
  have hdpos : 0 < d := by
    rcases Nat.eq_zero_or_pos d with h | h
    · rw [h, Nat.mul_zero] at hd; omega
    · exact h
  have hnpos : 0 < n := by
    rcases Nat.eq_zero_or_pos n with h | h
    · rw [h, Nat.mul_zero] at hn; omega
    · exact h
  have hcross : n * 10 ^ t = M * d := by
    rw [hd, hn]; ring
  have h10t : 10 ^ t ≤ 10 ^ 9 := Nat.pow_le_pow_right (by decide) ht
  have h109 : 10 ^ 9 ≤ 2 ^ 1022 :=
    le_trans (show 10 ^ 9 ≤ 2 ^ 30 by norm_num) (Nat.pow_le_pow_right (by decide) (by decide))
  have h106 : 1000000 ≤ 2 ^ 1024 :=
    le_trans (show 1000000 ≤ 2 ^ 20 by norm_num) (Nat.pow_le_pow_right (by decide) (by decide))
  have hlo : d ≤ n * 2 ^ 1022 := by
    calc d = 1 * d := (Nat.one_mul d).symm
      _ ≤ M * d := Nat.mul_le_mul_right d (by omega)
      _ = n * 10 ^ t := hcross.symm
      _ ≤ n * 2 ^ 1022 := Nat.mul_le_mul_left n (le_trans h10t h109)
  have hhi : n < d * 2 ^ 53 := by
    calc n = n * 1 := (Nat.mul_one n).symm
      _ ≤ n * 10 ^ t := Nat.mul_le_mul_left n hpow
      _ = M * d := hcross
      _ < 2 ^ 53 * d := Nat.mul_lt_mul_of_pos_right (by norm_num; omega) hdpos
      _ = d * 2 ^ 53 := Nat.mul_comm _ _
  obtain ⟨hrnum, hrden, herr, hat⟩ := rnd_err n d hnpos hdpos hlo hhi
  rw [hX]
  generalize hr : Double.rnd ⟨(n : Int), d⟩ = r at hrnum hrden herr hat ⊢
  -- the rounded number as a fraction of naturals
  have hrn : ((r.num.natAbs : Nat) : Int) = r.num := by omega
  have hrq : r.toRat = (r.num.natAbs : ℚ) / (r.den : ℚ) := by
    have e : ((r.num.natAbs : Nat) : ℚ) = ((r.num : Int) : ℚ) := by
      rw [Nat.cast_natAbs, abs_of_pos hrnum]
    rw [Double.toRat, e]
  generalize hn1 : r.num.natAbs = n1 at hrn hrq
  generalize hd1 : r.den = d1 at hrden hrq
  have hd1q : (0 : ℚ) < (d1 : ℚ) := by exact_mod_cast hrden
  have hdq : (0 : ℚ) < (d : ℚ) := by exact_mod_cast hdpos
  have htq : (0 : ℚ) < (10 : ℚ) ^ t := by positivity
  have hx : (n : ℚ) / (d : ℚ) = (M : ℚ) / (10 : ℚ) ^ t := by
    rw [div_eq_div_iff (ne_of_gt hdq) (ne_of_gt htq)]
    exact_mod_cast hcross
  rw [hrq, hx] at herr
  -- the rounded number scaled by `10 ^ t`
  have hy : |(n1 : ℚ) * (10 : ℚ) ^ t / (d1 : ℚ) - (M : ℚ)| ≤ (M : ℚ) / 2 ^ 53 := by
    have e : (n1 : ℚ) * (10 : ℚ) ^ t / (d1 : ℚ) - (M : ℚ)
        = ((n1 : ℚ) / (d1 : ℚ) - (M : ℚ) / (10 : ℚ) ^ t) * (10 : ℚ) ^ t := by
      field_simp
      ring
    have e2 : (M : ℚ) / 2 ^ 53 = (M : ℚ) / (10 : ℚ) ^ t / 2 ^ 53 * (10 : ℚ) ^ t := by
      field_simp
      ring
    rw [e, e2, abs_mul, abs_of_pos htq]
    exact mul_le_mul_of_nonneg_right herr (le_of_lt htq)
  have hMq1 : (100001 : ℚ) ≤ (M : ℚ) := by exact_mod_cast hM3
  have hMq2 : (M : ℚ) ≤ 999999 := by
    have : M ≤ 999999 := by omega
    exact_mod_cast this
  have hsmall : (M : ℚ) / 2 ^ 53 < 1 / 2 := by
    rw [div_lt_iff₀ (by positivity)]
    norm_num
    linarith
  obtain ⟨hy1, hy2⟩ := abs_le.mp hy
  have hround : roundHalfEven (n1 * 10 ^ t) d1 = M := by
    apply roundHalfEven_near _ _ _ hrden
    push_cast
    exact lt_of_le_of_lt hy hsmall
  have hb1 : d1 * 100000 ≤ n1 * 10 ^ t := by
    have : (d1 : ℚ) * 100000 ≤ (n1 : ℚ) * (10 : ℚ) ^ t := by
      have h5 : (100000 : ℚ) ≤ (n1 : ℚ) * (10 : ℚ) ^ t / (d1 : ℚ) := by linarith
      rw [le_div_iff₀ hd1q] at h5
      linarith
    exact_mod_cast this
  have hb2 : n1 * 10 ^ t < d1 * 1000000 := by
    have : (n1 : ℚ) * (10 : ℚ) ^ t < (d1 : ℚ) * 1000000 := by
      have h6 : (n1 : ℚ) * (10 : ℚ) ^ t / (d1 : ℚ) < 1000000 := by linarith
      rw [div_lt_iff₀ hd1q] at h6
      linarith
    exact_mod_cast this
  have hn1pos : 0 < n1 := by omega
  refine ⟨?_, ?_, ?_, ?_⟩
  · simp only [Double.isZero, decide_eq_false_iff_not]
    omega
  · have hA : ¬ ((2 ^ 1024 : Nat) : Int) * (d1 : Int) ≤ (n1 : Int) * ((1 : Nat) : Int) := by
      have h1 : n1 * 1 ≤ n1 * 10 ^ t := Nat.mul_le_mul_left n1 hpow
      have h2 : d1 * 1000000 ≤ d1 * 2 ^ 1024 := Nat.mul_le_mul_left d1 h106
      have h3 : n1 * 1 < 2 ^ 1024 * d1 := by
        rw [Nat.mul_comm (2 ^ 1024) d1]
        exact lt_of_le_of_lt h1 (lt_of_lt_of_le hb2 h2)
      intro hcon
      have : (2 ^ 1024 : Nat) * d1 ≤ n1 * 1 := by exact_mod_cast hcon
      exact absurd h3 (Nat.not_lt.mpr this)
    have hB : ¬ (n1 : Int) * ((2 ^ 1022 : Nat) : Int) < 1 * (d1 : Int) := by
      have h1 : d1 * 1 ≤ d1 * 100000 := Nat.mul_le_mul_left d1 (by decide)
      have h2 : n1 * 10 ^ t ≤ n1 * 2 ^ 1022 := Nat.mul_le_mul_left n1 (le_trans h10t h109)
      have h3 : 1 * d1 ≤ n1 * 2 ^ 1022 := by
        rw [Nat.one_mul, ← Nat.mul_one d1]
        exact le_trans h1 (le_trans hb1 h2)
      intro hcon
      have : n1 * (2 ^ 1022 : Nat) < 1 * d1 := by exact_mod_cast hcon
      exact absurd h3 (Nat.not_le.mpr this)
    simp only [Double.outOfRange, hr, Int.natAbs_ofNat, hat, Double.le, Double.lt, Double.ofNat,
      Double.minNormal, hd1, ← hrn, hA, hB, decide_False, Bool.false_and, Bool.or_self]
  · omega
  · exact sig6_of_bounds n1 d1 M t hrden hM2 ht hb1 hb2 hround

/-- C30, amended: the value of a number literal is the double `std::stod` reads from its
lexeme.  When the decimal the lexeme denotes is zero or `M / 10 ^ t` for a six-digit `M`
and `t ≤ 9` (at most six significant digits, from 0.0001 up to but not including
1000000), `std::stod` yields a double `d`, and `str(d)` is a text that lexes to a single
NUMBER token and reads back as `d`; `str` of a string is the string itself, and a text
without a double quote, as every string literal has, put between double quotes lexes to
a single STRING token with that text; `str` of a bool is `true` or `false` and of null
is `null`. -/
theorem C30_str_round_trip (lexeme text : String) (M t : Nat) (ip : Interpreter)
    (hM1 : 100000 ≤ M) (hM2 : M < 1000000) (ht : t ≤ 9)
    (hv : stodLexeme lexeme = Double.zero ∨ stodLexeme lexeme = Double.norm (M : Int) (10 ^ t))
    (htext : DQUOTE ∉ text.data) :
    (∃ d, stod lexeme = some d ∧ reparseNumber (value_to_string (.number d)) = some d)
    ∧ value_to_string (.string text) = text
    ∧ reparseString (value_to_string (.string text)) = some text
    ∧ value_to_string (.bool true) = "true" ∧ value_to_string (.bool false) = "false"
    ∧ value_to_string .null = "null"
    ∧ (∀ v : Value, callBuiltin .str [v] ip = .ok (.string (value_to_string v)) ip) := by
  refine ⟨?_, rfl, reparseString_text text htext, rfl, rfl, rfl, ?_⟩
  · rcases hv with h0 | h6
    · refine ⟨Double.zero, ?_, by decide!⟩
      simp only [stod, h0]
      rfl
    · obtain ⟨hz, hrange, hpos, hsig⟩ := rnd_six M t hM1 hM2 ht
      obtain ⟨I, F, hne, hI, hF, hfmt, hval⟩ :=
        fmtNum_of_sig6 (Double.norm (M : Int) (10 ^ t)).rnd M t hM1 hM2 ht hpos hsig
      have hs : stod lexeme = some (Double.norm (M : Int) (10 ^ t)).rnd := by
        simp only [stod, h6, hz, hrange, Bool.false_eq_true, if_false]
      refine ⟨_, hs, ?_⟩
      simp only [value_to_string]
      rw [hfmt, reparseNumber_numeral I F hne hI hF, ← hs]
      apply stod_congr
      rw [stodLexeme_digits I F hI hF, hval, h6]
  · intro v
    cases v <;> rfl

theorem C30_str_round_trip_witness :
    (∃ d, stod "3.14" = some d ∧ reparseNumber (value_to_string (.number d)) = some d)
    ∧ reparseString (value_to_string (.string "a b")) = some "a b" :=
  have h := C30_str_round_trip "3.14" "a b" 314000 5 freshIp (by decide) (by decide)
    (by decide) (Or.inr (by decide!)) (by decide)
  ⟨h.1, h.2.2.1⟩

/-- C30 fails for number literals with more than six significant digits: `str` prints
the double read from `0.1234567` as `0.123457`, which reads back as another double, and
the double read from `1234567` as `1.23457e+06`, which is not a number literal at all. -/
theorem C30_counterexample :
    (stod "0.1234567").map (fun d => value_to_string (.number d)) = some "0.123457"
    ∧ reparseNumber "0.123457" ≠ stod "0.1234567"
    ∧ (stod "1234567").map (fun d => value_to_string (.number d)) = some "1.23457e+06"
    ∧ reparseNumber "1.23457e+06" = none
    ∧ vmStdout (runFresh strProgram).vm? = "0.123457\n1.23457e+06\n0.5\n" := by
  decide!

/-! ## C21: for-in -/

/-- The enumeration of a map visits every entry once. -/
theorem enumerate_perm (ip : Interpreter) (d : List (String × Value)) :
    (ip.enumerate d).Perm d :=
  List.perm_insertionSort _ d

theorem dictKeys_perm (ip : Interpreter) (d : List (String × Value)) :
    (dictKeys (ip.enumerate d)).Perm (dictKeys d) :=
  (enumerate_perm ip d).map _

theorem enumerate_define_write (s : Interpreter) (e : Nat) (x : String) (v : Value)
    (text : String) : ((s.define e x v).write text).enumerate = s.enumerate := by
  funext d
  simp only [Interpreter.enumerate, Interpreter.write, Interpreter.define]
  all_goals (split <;> rfl)

/-- One round of a loop whose body is `print(x);`. -/
theorem printVar_round (x : String) (hx : x ≠ "print") (nf : NativeFunction)
    (hnf : nf.fn = .print) (k : Nat) (item : Value) (s : Interpreter)
    (henv : s.env < s.envs.length) (hp : s.getPtr s.env "print" = some (.native nf)) :
    execute (k + 5) (printVar x) (s.setVar x item)
      = .ok () ((s.define s.env x item).write (printArg s.enumerate item ++ "\n")) := by
  have hx' : ¬ "print" = x := fun h => hx h.symm
  rw [setVar_eq_define s x item henv]
  have h1 : (s.define s.env x item).getPtr (s.define s.env x item).env "print"
      = some (.native nf) := by
    show (s.define s.env x item).getPtr s.env "print" = _
    rw [getPtr_define_ne s s.env s.env x "print" item hx', hp]
  have h2 : (s.define s.env x item).getPtr (s.define s.env x item).env x = some item :=
    getPtr_define_self s s.env x item henv
  have h3 : (s.define s.env x item).enumerate = s.enumerate := by
    have := enumerate_define_write s s.env x item ""
    exact this
  simp only [printVar, execute, evaluate, evalCall, isMarker, evalArgs, h1, h2, Res.bind,
    callNative, hnf, callBuiltin, List.map, String.intercalate, String.intercalate.go, h3]
  simp

theorem forLoop_printVar (x : String) (hx : x ≠ "print") (nf : NativeFunction)
    (hnf : nf.fn = .print) :
    ∀ (items : List Value) (fuel : Nat) (s : Interpreter), items.length + 6 ≤ fuel →
      s.env < s.envs.length → s.getPtr s.env "print" = some (.native nf) →
      ∃ s1, forLoop fuel x items (printVar x) s = .ok () s1
        ∧ s1.stdout
          = items.foldl (fun out item => out ++ (printArg s.enumerate item ++ "\n")) s.stdout := by
  intro items
  induction items with
  | nil =>
    intro fuel s hf _ _
    obtain ⟨k, rfl⟩ : ∃ k, fuel = k + 1 := ⟨fuel - 1, by simp at hf; omega⟩
    exact ⟨s, by simp [forLoop], rfl⟩
  | cons item rest ih =>
    intro fuel s hf henv hp
    obtain ⟨k, rfl⟩ : ∃ k, fuel = (k + 5) + 1 := ⟨fuel - 6, by simp at hf; omega⟩
    have hx' : ¬ "print" = x := fun h => hx h.symm
    obtain ⟨s1, h1, h2⟩ := ih (k + 5)
      ((s.define s.env x item).write (printArg s.enumerate item ++ "\n"))
      (by simp at hf; omega)
      (by show s.env < (s.define s.env x item).envs.length; rw [define_envs_length]; exact henv)
      (by
        rw [write_getPtr]
        show (s.define s.env x item).getPtr s.env "print" = _
        rw [getPtr_define_ne s s.env s.env x "print" item hx', hp])
    refine ⟨s1, ?_, ?_⟩
    · simp only [forLoop, printVar_round x hx nf hnf k item s henv hp, Res.bind, h1]
    · rw [h2, enumerate_define_write]
      rfl

/-- C21: `for (x in e) body` evaluates `e` once and then runs `body` for each item of its
value in turn, after writing the item to `x` in the current scope: the elements of a
list in order; the keys of a dict as strings, in the order in which the interpreter
enumerates the map, which visits every entry once (so every key of the dict is among the
items, none twice when the keys of the dict are distinct, which writing a key preserves,
and there are as many items as entries), whatever that order is; the bytes of a string
in order as one-character strings.  On an empty container the statement completes in the
state the iterable left; on a value of another kind it fails there.  With the body
`print(x);` the output grows by one line per item, in order. -/
theorem C21_for_in_iterates (fuel : Nat) (x : String) (e : Expr) (body : Stmt)
    (ip ip1 : Interpreter) (v : Value) (nf : NativeFunction)
    (he : evaluate fuel e ip = .ok v ip1) :
    (∀ l, v = .list l → execFor (fuel + 1) x e body ip = forLoop fuel x l body ip1)
    ∧ (∀ d, v = .dict d →
        execFor (fuel + 1) x e body ip
          = forLoop fuel x (dictKeys (ip1.enumerate d)) body ip1
        ∧ (ip1.enumerate d).Perm d
        ∧ (∀ k, Value.string k ∈ dictKeys (ip1.enumerate d) ↔ mapHas d k = true)
        ∧ ((d.map Prod.fst).Nodup → (dictKeys (ip1.enumerate d)).Nodup)
        ∧ (dictKeys (ip1.enumerate d)).length = d.length
        ∧ (∀ k val, (d.map Prod.fst).Nodup → ((mapSet d k val).map Prod.fst).Nodup))
    ∧ (∀ s, v = .string s →
        execFor (fuel + 1) x e body ip = forLoop fuel x (stringItems s) body ip1)
    ∧ (v = .list [] ∨ v = .dict [] ∨ v = .string "" →
        execFor (fuel + 1) x e body ip = .ok () ip1)
    ∧ (v.typeName ≠ "list" → v.typeName ≠ "dict" → v.typeName ≠ "string" →
        execFor (fuel + 1) x e body ip = throwRT "for 'in' expects list, dict, or string" ip1)
    ∧ (∀ (k : Nat) (item : Value) (rest : List Value) (s : Interpreter),
        forLoop (k + 1) x (item :: rest) body s
          = (execute k body (s.setVar x item)).bind fun _ s1 => forLoop k x rest body s1)
    ∧ (∀ (k : Nat) (s : Interpreter), forLoop (k + 1) x [] body s = .ok () s)
    ∧ (∀ (s : Interpreter) (item : Value), s.env < s.envs.length →
        (s.setVar x item).env = s.env ∧ (s.setVar x item).getPtr s.env x = some item)
    ∧ (∀ (items : List Value) (s : Interpreter), x ≠ "print" → nf.fn = .print →
        s.env < s.envs.length →
        s.getPtr s.env "print" = some (.native nf) →
        ∃ s1, forLoop (items.length + 6) x items (printVar x) s = .ok () s1
          ∧ s1.stdout
            = items.foldl (fun out item => out ++ (printArg s.enumerate item ++ "\n")) s.stdout)
    ∧ vmStdout (runFresh forLoopsProgram).vm? = "1\n2\na\nh\ni\n3\n" := by
  obtain ⟨n, rfl⟩ : ∃ n, fuel = n + 1 := by
    cases fuel with
    | zero => simp [evaluate] at he
    | succ n => exact ⟨n, rfl⟩
  refine ⟨?_, ?_, ?_, ?_, ?_, ?_, ?_, ?_, ?_, by decide!⟩
  · intro l hv
    subst hv
    simp only [execFor, he, Res.bind]
  · intro d hv
    subst hv
    refine ⟨by simp only [execFor, he, Res.bind, dictKeys], enumerate_perm ip1 d, ?_, ?_, ?_,
      fun k val h => mapSet_keys_nodup d k val h⟩
    · intro k
      rw [(dictKeys_perm ip1 d).mem_iff]
      exact mem_dictKeys d k
    · intro h
      exact (dictKeys_perm ip1 d).nodup_iff.mpr (dictKeys_nodup d h)
    · rw [(dictKeys_perm ip1 d).length_eq]
      simp [dictKeys]
  · intro s hv
    subst hv
    simp only [execFor, he, Res.bind, stringItems]
  · intro hv
    rcases hv with hv | hv | hv <;> subst hv <;>
      simp [execFor, he, Res.bind, forLoop, Interpreter.enumerate]
  · intro h1 h2 h3
    cases v <;> simp_all [execFor, Res.bind, Value.typeName]
  · intro k item rest s
    simp only [forLoop]
  · intro k s
    simp only [forLoop]
  · intro s item henv
    rw [setVar_eq_define s x item henv]
    exact ⟨rfl, getPtr_define_self s s.env x item henv⟩
  · intro items s hx hnf henv hp
    exact forLoop_printVar x hx nf hnf items (items.length + 6) s le_rfl henv hp

theorem C21_for_in_iterates_witness :
    execFor 9 "x" (.VarExpr "a") (printVar "x") listA
      = forLoop 8 "x" [.number ⟨1, 1⟩, .number ⟨2, 1⟩] (printVar "x") listA
    ∧ (∃ s1, forLoop 8 "x" [.number ⟨1, 1⟩, .number ⟨2, 1⟩] (printVar "x") listA = .ok () s1
        ∧ s1.stdout = "1\n2\n")
    ∧ execFor 9 "x" (.LiteralExpr (.string "")) (printVar "x") listA = .ok () listA
    ∧ execFor 9 "x" (.LiteralExpr (.number ⟨5, 1⟩)) (printVar "x") listA
        = throwRT "for 'in' expects list, dict, or string" listA :=
  have h := C21_for_in_iterates 8 "x" (.VarExpr "a") (printVar "x") listA listA
    (.list [.number ⟨1, 1⟩, .number ⟨2, 1⟩]) ⟨"print", -1, .print⟩ rfl
  have h1 := C21_for_in_iterates 8 "x" (.LiteralExpr (.string "")) (printVar "x") listA listA
    (.string "") ⟨"print", -1, .print⟩ rfl
  have h2 := C21_for_in_iterates 8 "x" (.LiteralExpr (.number ⟨5, 1⟩)) (printVar "x") listA
    listA (.number ⟨5, 1⟩) ⟨"print", -1, .print⟩ rfl
  ⟨h.1 _ rfl,
   (h.2.2.2.2.2.2.2.2.1 [.number ⟨1, 1⟩, .number ⟨2, 1⟩] listA (by decide) rfl (by decide)
      rfl).imp fun _ hs => ⟨hs.1, hs.2.trans (by decide!)⟩,
   h1.2.2.2.1 (Or.inr (Or.inr rfl)),
   h2.2.2.2.2.1 (by decide) (by decide) (by decide)⟩

/-! ## C23: import -/

end AdaScript
